import Mathlib

/-!
Verification of the planit interactive planner.

This development shallowly embeds the core of the Rust sources:

* `src/core/models.rs` — `Task`, `SubTask`, `Event`, `Card`, `FreeTimeBlock`;
* `src/core/repository.rs` — the staged repository;
* `src/core/transaction.rs` — the three-repository two-phase transaction;
* `src/scheduler/…` — calendar view, comparators, first-fit packer,
  overflow policies and `ScheduleManager::compute_schedule`;
* `src/command/entity_spec/core.rs` — the slot/pattern matcher;
* `src/core/persist.rs` and `src/arg/…` — the save/load codec and the
  typed argument parser.

Numeric conventions: Rust `f32` values (hours) are modelled as exact
rationals `ℚ`; `i32` ids as `Int`; `chrono::NaiveTime` as the number of
seconds since midnight (`Nat`); `chrono::NaiveDate` as a civil
year–month–day record ordered lexicographically.  `Result<T, Error>`
becomes `Except Error T` with `Error` carrying the message string.
-/

namespace Planit

/-- Civil date, mirroring `chrono::NaiveDate` (which orders by the actual
day; for valid dates that order is the lexicographic one used here). -/
structure Date where
  year : Int
  month : Nat
  day : Nat
deriving DecidableEq, Repr

/-- Mirror of Rust `Ord::cmp` on integers. -/
def intCmp (a b : Int) : Ordering :=
  if a < b then .lt else if a = b then .eq else .gt

/-- Mirror of Rust `Ord::cmp` on naturals. -/
def natCmp (a b : Nat) : Ordering :=
  if a < b then .lt else if a = b then .eq else .gt

/-- Mirror of Rust `f32::partial_cmp(..).unwrap_or(Equal)`, exact on ℚ. -/
def ratCmp (a b : ℚ) : Ordering :=
  if a < b then .lt else if a = b then .eq else .gt

/-- Lexicographic comparison of civil dates (the `Ord` of `NaiveDate`). -/
def dateCmp (a b : Date) : Ordering :=
  match intCmp a.year b.year with
  | .eq =>
    match natCmp a.month b.month with
    | .eq => natCmp a.day b.day
    | o => o
  | o => o

/-- Strict order on dates induced by `dateCmp`. -/
def dateLt (a b : Date) : Prop := dateCmp a b = .lt

/-- Non-strict order on dates induced by `dateCmp`. -/
def dateLe (a b : Date) : Prop := dateCmp a b ≠ .gt

instance : DecidableEq Ordering := fun a b => by
  cases a <;> cases b <;> first | exact isTrue rfl | exact isFalse (by simp)

instance (a b : Date) : Decidable (dateLt a b) := by unfold dateLt; infer_instance

instance (a b : Date) : Decidable (dateLe a b) := by unfold dateLe; infer_instance

/-- Time of day in seconds since midnight (`chrono::NaiveTime`). -/
abbrev TimeOfDay := Int

/-- Mirror of `core/types.rs` `TimeRange { start, end }`; seconds since
midnight, the Rust field `end` is spelled `endTime`. -/
structure TimeRange where
  start : TimeOfDay
  endTime : TimeOfDay
deriving DecidableEq, Repr

/-- Mirror of `core/models.rs` `SubTask`. -/
structure SubTask where
  task_id : Int
  date : Date
  time_range : TimeRange
  overflow : Bool
deriving DecidableEq, Repr

/-- Mirror of `SubTask::hours`: the duration of the time range in hours
(`(end_dt - start_dt).num_seconds() as f32 / 3600.0`, both datetimes on
`self.date`). -/
def SubTask.hours (s : SubTask) : ℚ :=
  ((s.time_range.endTime : ℚ) - (s.time_range.start : ℚ)) / 3600

/-- Mirror of `core/models.rs` `Task`. -/
structure Task where
  id : Int
  name : String
  hours : ℚ
  date : Date
  card_id : Option Int
  subtasks : List SubTask
  remaining_hours : ℚ
deriving DecidableEq, Repr

/-- Mirror of `Task::new` (fresh tasks get placeholder id 1; the
repository overwrites it on insert). -/
def Task.new (name : String) (hours : ℚ) (card_id : Option Int) (date : Date) : Task :=
  let h := max hours 0
  { id := 1, name := name, hours := h, date := date, card_id := card_id
    subtasks := [], remaining_hours := h }

/-- Mirror of `Task::modify`. -/
def Task.modify (t : Task) (name : String) (hours : ℚ) (card_id : Option Int)
    (date : Date) : Task :=
  let h := max hours 0
  { t with name := name, hours := h, date := date, card_id := card_id
           remaining_hours := h, subtasks := [] }

/-- Mirror of `Task::push_subtask_with_hours` with exact rational
arithmetic: clamp the requested hours to `[0, remaining_hours]`, append
the subtask and subtract the clamp.  The source subtracts in `f32`; that
rounding is modelled explicitly by `Task.pushSubtaskWithHoursF32`. -/
def Task.pushSubtaskWithHours (t : Task) (time_range : TimeRange) (date : Date)
    (hours : ℚ) : Task :=
  let apply := min (max hours 0) t.remaining_hours
  { t with
      subtasks := t.subtasks ++
        [{ task_id := t.id, date := date, time_range := time_range, overflow := false }]
      remaining_hours := t.remaining_hours - apply }

/-- Mirror of `core/types.rs` `DayOfWeek`. -/
inductive DayOfWeek where
  | mon | tue | wed | thu | fri | sat | sun
deriving DecidableEq, Repr

/-- Mirror of `core/types.rs` `CardColor` (11 values). -/
inductive CardColor where
  | red | orange | yellow | green | lightBlue | blue | indigo | violet
  | black | lightGreen | lightCoral
deriving DecidableEq, Repr

/-- Mirror of `core/models.rs` `Card`. -/
structure Card where
  id : Int
  name : String
  color : CardColor
deriving DecidableEq, Repr

/-- Mirror of `Card::new`. -/
def Card.new (name : String) (color : CardColor) : Card :=
  { id := 1, name := name, color := color }

/-- Mirror of `core/models.rs` `Event`. -/
structure Event where
  id : Int
  name : String
  days : List DayOfWeek
  time_range : TimeRange
  recurring : Bool
  card_id : Option Int
deriving DecidableEq, Repr

/-- Mirror of `Event::new`. -/
def Event.new (recurring : Bool) (name : String) (card_id : Option Int)
    (days : List DayOfWeek) (time_range : TimeRange) : Event :=
  { id := 1, recurring := recurring, name := name, days := days
    time_range := time_range, card_id := card_id }

/-- Mirror of `core/types.rs` `TaskSchedulingOrder`. -/
inductive TaskSchedulingOrder where
  | shortestTaskFirst | longestTaskFirst | dueOnly
deriving DecidableEq, Repr

/-- Mirror of `core/types.rs` `TaskOverflowPolicy`. -/
inductive TaskOverflowPolicy where
  | allow | block
deriving DecidableEq, Repr

/-! ### Scheduler comparators (`src/scheduler/comparator.rs`) -/

/-- Mirror of `ShortestTaskOrderComparator::cmp`: due date ascending;
within the same due date, longer remaining first; tie broken by id. -/
def shortestTaskOrderCmp (a b : Task) : Ordering :=
  let by_due := dateCmp a.date b.date
  if by_due ≠ .eq then by_due
  else
    let by_rem := ratCmp b.remaining_hours a.remaining_hours
    if by_rem ≠ .eq then by_rem
    else intCmp a.id b.id

/-- Mirror of `LongestTaskOrderComparator::cmp`: due date ascending;
within the same due date, shorter remaining first; tie broken by id. -/
def longestTaskOrderCmp (a b : Task) : Ordering :=
  let by_due := dateCmp a.date b.date
  if by_due ≠ .eq then by_due
  else
    let by_rem := ratCmp a.remaining_hours b.remaining_hours
    if by_rem ≠ .eq then by_rem
    else intCmp a.id b.id

/-- Mirror of `DueDateOnlyComparator::cmp`. -/
def dueDateOnlyCmp (a b : Task) : Ordering :=
  let by_due := dateCmp a.date b.date
  if by_due ≠ .eq then by_due
  else intCmp a.id b.id

/-- Mirror of `make_task_order_comparator`. -/
def makeTaskOrderComparator (kind : TaskSchedulingOrder) : Task → Task → Ordering :=
  match kind with
  | .shortestTaskFirst => shortestTaskOrderCmp
  | .longestTaskFirst => longestTaskOrderCmp
  | .dueOnly => dueDateOnlyCmp

/-- Mirror of `errors.rs` `Error`; only the variants reachable in the
verified paths are carried (every failure below is an `Error::Parse`). -/
inductive Error where
  | parse (msg : String)
deriving DecidableEq, Repr

instance {e a : Type} [DecidableEq e] [DecidableEq a] : DecidableEq (Except e a) :=
  fun x y =>
    match x, y with
    | .ok u, .ok v =>
      if h : u = v then isTrue (by rw [h]) else isFalse (fun hc => by cases hc; exact h rfl)
    | .error u, .error v =>
      if h : u = v then isTrue (by rw [h]) else isFalse (fun hc => by cases hc; exact h rfl)
    | .ok _, .error _ => isFalse (by intro hc; cases hc)
    | .error _, .ok _ => isFalse (by intro hc; cases hc)

/-! ### Repository (`src/core/repository.rs`)

The Rust `HashMap<i32, T>` is modelled as an association list kept in
insertion order (the hash map's iteration order is unspecified; the
stored order is one admissible order, and every ordered observation in
the source sorts explicitly). -/

/-- Mirror of the `BaseEntity` trait. -/
class BaseEntity (α : Type) where
  eid : α → Int
  set_id : α → Int → α

instance : BaseEntity Task := ⟨Task.id, fun t i => { t with id := i }⟩

instance : BaseEntity Event := ⟨Event.id, fun e i => { e with id := i }⟩

instance : BaseEntity Card := ⟨Card.id, fun c i => { c with id := i }⟩

/-- Mirror of the private `Staged<T>` record. -/
structure Staged (α : Type) where
  pending : List α
  next_id_start : Int
  cleared : Bool
deriving Repr

/-- Mirror of `PreparedRepo<T>`. -/
structure PreparedRepo (α : Type) where
  items : List (Int × α)
  next_id : Int
deriving Repr

/-- Mirror of `Repository<T>`. -/
structure Repository (α : Type) where
  items : List (Int × α)
  next_id : Int
  staged : Option (Staged α)
deriving Repr

/-- HashMap `insert`: overwrite an existing key or append a new binding. -/
def mapInsert {α : Type} (items : List (Int × α)) (id : Int) (e : α) :
    List (Int × α) :=
  if items.any (fun p => p.1 = id) then
    items.map fun p => if p.1 = id then (id, e) else p
  else items ++ [(id, e)]

/-- HashMap `get`. -/
def mapGet {α : Type} (items : List (Int × α)) (id : Int) : Option α :=
  (items.find? (fun p => p.1 = id)).map (·.2)

/-- HashMap `remove`. -/
def mapRemove {α : Type} (items : List (Int × α)) (id : Int) : List (Int × α) :=
  items.filter fun p => ¬ p.1 = id

/-- Mirror of `Repository::default` / `Repository::new`. -/
def Repository.new {α : Type} : Repository α := ⟨[], 1, none⟩

/-- Mirror of `Repository::len`. -/
def Repository.len {α : Type} (r : Repository α) : Nat := r.items.length

/-- Mirror of `Repository::values(Sort::Unordered)` (stored order). -/
def Repository.valuesUnordered {α : Type} (r : Repository α) : List α :=
  r.items.map (·.2)

/-- Mirror of `Repository::insert`: assign `next_id`, then store either in
the pending buffer (staged) or the live map.  Returns the stored entity. -/
def Repository.insert {α : Type} [BaseEntity α] (r : Repository α) (e : α) :
    Repository α × α :=
  match r.staged with
  | some st =>
    let id := r.next_id
    let e := BaseEntity.set_id e id
    ({ r with next_id := id + 1
              staged := some { st with pending := st.pending ++ [e] } }, e)
  | none =>
    let id := r.next_id
    let e := BaseEntity.set_id e id
    ({ r with next_id := id + 1, items := mapInsert r.items id e }, e)

/-- Mirror of `Repository::get`. -/
def Repository.get {α : Type} (r : Repository α) (id : Int) : Except Error α :=
  match mapGet r.items id with
  | some e => .ok e
  | none => .error (.parse s!"Entity with id {id} not found.")

/-- Mirror of `Repository::delete`. -/
def Repository.delete {α : Type} (r : Repository α) (id : Int) :
    Except Error (Repository α × α) :=
  match mapGet r.items id with
  | some e => .ok ({ r with items := mapRemove r.items id }, e)
  | none => .error (.parse s!"Entity with id {id} not found.")

/-- Mirror of `Repository::begin_stage`. -/
def Repository.beginStage {α : Type} (r : Repository α) (clear_existing : Bool) :
    Except Error (Repository α) :=
  if r.staged.isSome then .error (.parse "Transaction already in progress.")
  else
    let r := if clear_existing then { r with next_id := 1 } else r
    .ok { r with staged := some ⟨[], r.next_id, clear_existing⟩ }

/-- Mirror of `Repository::discard_stage`. -/
def Repository.discardStage {α : Type} (r : Repository α) : Repository α :=
  match r.staged with
  | some st => { r with next_id := st.next_id_start, staged := none }
  | none => r

/-- Mirror of `Repository::staged_pending`. -/
def Repository.stagedPending {α : Type} (r : Repository α) : Option (List α) :=
  r.staged.map (·.pending)

/-- Mirror of `Repository::exists_including_staged`. -/
def Repository.existsIncludingStaged {α : Type} [BaseEntity α]
    (r : Repository α) (id : Int) : Bool :=
  match r.staged with
  | some st =>
    if st.cleared then st.pending.any (fun e => BaseEntity.eid e = id)
    else r.items.any (fun p => p.1 = id) ∨ st.pending.any (fun e => BaseEntity.eid e = id)
  | none => r.items.any (fun p => p.1 = id)

/-- Mirror of `Repository::staged_effective_ids` (the hash set is
modelled as the list of ids with membership queries). -/
def Repository.stagedEffectiveIds {α : Type} [BaseEntity α] (r : Repository α) :
    Except Error (List Int) :=
  match r.staged with
  | none => .error (.parse "No active transaction to inspect.")
  | some st =>
    let base := if st.cleared then [] else r.items.map (·.1)
    .ok (base ++ st.pending.map (fun e => BaseEntity.eid e))

/-- Fold of `prepare_commit`'s pending-insert loop with collision check. -/
def prepareInsert {α : Type} [BaseEntity α] (items : List (Int × α)) :
    List α → Except Error (List (Int × α))
  | [] => .ok items
  | e :: rest =>
    let id := BaseEntity.eid e
    if items.any (fun p => p.1 = id) then
      .error (.parse s!"Entity with id {id} already exists.")
    else prepareInsert (mapInsert items id e) rest

/-- Maximum key of the map, `items.keys().max()`. -/
def maxKey {α : Type} (items : List (Int × α)) : Option Int :=
  items.foldl (fun acc p => some (match acc with | none => p.1 | some m => max m p.1)) none

/-- Mirror of `Repository::prepare_commit` (pure: does not touch live state). -/
def Repository.prepareCommit {α : Type} [BaseEntity α] (r : Repository α) :
    Except Error (PreparedRepo α) :=
  match r.staged with
  | none => .error (.parse "No active transaction to commit.")
  | some st =>
    let base := if st.cleared then [] else r.items
    match prepareInsert base st.pending with
    | .error e => .error e
    | .ok items =>
      let next_id := max (((maxKey items).map (· + 1)).getD 1) r.next_id
      .ok { items := items, next_id := next_id }

/-- Mirror of `Repository::apply_prepared`. -/
def Repository.applyPrepared {α : Type} (r : Repository α) (prep : PreparedRepo α) :
    Repository α :=
  { r with items := prep.items, next_id := prep.next_id, staged := none }

/-! ### Calendar view (`src/scheduler/calendar_view.rs`) -/

/-- Gregorian leap-year test (chrono). -/
def isLeapYear (y : Int) : Bool :=
  (y % 4 = 0 ∧ y % 100 ≠ 0) ∨ y % 400 = 0

/-- Days in a civil month (chrono). -/
def daysInMonth (y : Int) (m : Nat) : Nat :=
  match m with
  | 2 => if isLeapYear y then 29 else 28
  | 4 | 6 | 9 | 11 => 30
  | _ => 31

/-- Successor day, `date + Duration::days(1)` on civil dates. -/
def Date.nextDay (d : Date) : Date :=
  if d.day < daysInMonth d.year d.month then ⟨d.year, d.month, d.day + 1⟩
  else if d.month < 12 then ⟨d.year, d.month + 1, 1⟩
  else ⟨d.year + 1, 1, 1⟩

/-- Civil date shifted by a number of days, `date + Duration::days(n)`. -/
def Date.addDays (d : Date) : Nat → Date
  | 0 => d
  | n + 1 => (d.addDays n).nextDay

/-- Day number since 1970-01-01 (chrono's internal day count; Howard
Hinnant's `days_from_civil`, with C-style truncating division). -/
def daysFromCivil (date : Date) : Int :=
  let y : Int := if date.month ≤ 2 then date.year - 1 else date.year
  let era : Int := (if 0 ≤ y then y else y - 399) / 400
  let yoe : Int := y - era * 400
  let mp : Int := if 2 < date.month then (date.month : Int) - 3 else (date.month : Int) + 9
  let doy : Int := (153 * mp + 2) / 5 + (date.day : Int) - 1
  let doe : Int := yoe * 365 + yoe / 4 - yoe / 100 + doy
  era * 146097 + doe - 719468

/-- Weekday of a civil date (`NaiveDate::weekday` followed by
`to_day_of_week`; 1970-01-01 is a Thursday). -/
def weekdayOf (date : Date) : DayOfWeek :=
  match ((daysFromCivil date + 3) % 7).toNat with
  | 0 => .mon | 1 => .tue | 2 => .wed | 3 => .thu | 4 => .fri | 5 => .sat
  | _ => .sun

/-- Mirror of `Event::is_active_on_date`. -/
def Event.isActiveOnDate (e : Event) (target_date : Date) : Bool :=
  e.days.any fun d => d = weekdayOf target_date

/-- Mirror of `chrono::NaiveDateTime`: a civil date with seconds since
midnight. -/
structure DT where
  date : Date
  sec : Int
deriving DecidableEq, Repr

/-- Comparison of datetimes, lexicographic like `NaiveDateTime`'s `Ord`. -/
def dtCmp (a b : DT) : Ordering :=
  match dateCmp a.date b.date with
  | .eq => intCmp a.sec b.sec
  | o => o

/-- Boolean `a <= b` on datetimes. -/
def dtLe (a b : DT) : Bool := dtCmp a b ≠ .gt

/-- Boolean `a < b` on datetimes. -/
def dtLt (a b : DT) : Bool := dtCmp a b = .lt

/-- Signed seconds between two datetimes, `(a - b).num_seconds()`. -/
def dtDiffSecs (a b : DT) : Int :=
  (daysFromCivil a.date - daysFromCivil b.date) * 86400 + (a.sec - b.sec)

/-- Mirror of `duration_hours_dt` (both in `calendar_view.rs` and
`packer.rs`): seconds between the datetimes divided by 3600. -/
def durationHoursDt (start «finish» : DT) : ℚ :=
  (dtDiffSecs «finish» start : ℚ) / 3600

/-- Mirror of `core/models.rs` `FreeTimeBlock`. -/
structure FreeTimeBlock where
  start_time : DT
  end_time : DT
  remaining_free_time : ℚ
deriving DecidableEq, Repr

/-- Mirror of `FreeTimeBlock::new`. -/
def FreeTimeBlock.new (start_time end_time : DT) : FreeTimeBlock :=
  let hrs := durationHoursDt start_time end_time
  { start_time := start_time, end_time := end_time
    remaining_free_time := max hrs 0 }

/-- Mirror of `CalendarView::subtract_busy_from_free`. -/
def subtractBusyFromFree (date : Date) (free : List FreeTimeBlock)
    (busy : TimeRange) : List FreeTimeBlock :=
  let busy_start : DT := ⟨date, busy.start⟩
  let busy_end : DT := ⟨date, busy.endTime⟩
  free.flatMap fun fb =>
    if dtLe busy_end fb.start_time ∨ dtLe fb.end_time busy_start then [fb]
    else
      (if dtLt fb.start_time busy_start then [FreeTimeBlock.new fb.start_time busy_start]
       else []) ++
      (if dtLt busy_end fb.end_time then [FreeTimeBlock.new busy_end fb.end_time]
       else [])

/-- Comparison key of `coalesce_free_blocks`'s `sort_by_key`:
`(start_time, end_time)` lexicographically, as a boolean `≤`. -/
def blockKeyLe (a b : FreeTimeBlock) : Bool :=
  match dtCmp a.start_time b.start_time with
  | .lt => true
  | .gt => false
  | .eq => dtCmp a.end_time b.end_time ≠ .gt

/-- Stable insertion into a sorted list (the stability of Rust's
`sort_by_key`). -/
def insertLe {α : Type} (le : α → α → Bool) (x : α) : List α → List α
  | [] => [x]
  | y :: ys => if le x y then x :: y :: ys else y :: insertLe le x ys

/-- Stable insertion sort (models Rust's stable `sort_by_key`/`sort_by`). -/
def stableSortBy {α : Type} (le : α → α → Bool) : List α → List α
  | [] => []
  | x :: xs => insertLe le x (stableSortBy le xs)

/-- Merging loop of `coalesce_free_blocks` over the sorted tail. -/
def coalesceGo (cur : FreeTimeBlock) : List FreeTimeBlock → List FreeTimeBlock
  | [] => [cur]
  | b :: bs =>
    if dtLe b.start_time cur.end_time then
      if dtLt cur.end_time b.end_time then
        coalesceGo
          { cur with
            end_time := b.end_time,
            remaining_free_time := durationHoursDt cur.start_time b.end_time } bs
      else coalesceGo cur bs
    else cur :: coalesceGo b bs

/-- Mirror of `CalendarView::coalesce_free_blocks`: sort by
`(start, end)` and merge any pair whose gap is ≤ 0. -/
def coalesceFreeBlocks (v : List FreeTimeBlock) : List FreeTimeBlock :=
  match stableSortBy blockKeyLe v with
  | [] => []
  | b :: bs => coalesceGo b bs

/-- Mirror of `CalendarView::free_blocks_for_date`: start from the daily
window, subtract events active on the date, subtract already scheduled
subtasks, then coalesce.  `events` and `tasks` are the repository values
in stored order. -/
def freeBlocksForDate (events : List Event) (tasks : List Task) (date : Date)
    (day_range : TimeRange) : List FreeTimeBlock :=
  let free0 := [FreeTimeBlock.new ⟨date, day_range.start⟩ ⟨date, day_range.endTime⟩]
  let afterEvents := (events.filter (fun e => e.isActiveOnDate date)).foldl
    (fun free e => subtractBusyFromFree date free e.time_range) free0
  let afterSubs := tasks.foldl
    (fun free t => t.subtasks.foldl
      (fun free st =>
        if st.date = date then subtractBusyFromFree date free st.time_range else free)
      free)
    afterEvents
  coalesceFreeBlocks afterSubs

/-- Mirror of `CalendarView::days`: the `days` consecutive dates from the
start date. -/
def calendarDays (start : Date) (days : Nat) : List Date :=
  (List.range days).map start.addDays

/-! ### Packer (`src/scheduler/packer.rs`) -/

/-- Mirror of `PackOutcome`. -/
inductive PackOutcome where
  | nonePlaced | partialPlaced | fullPlaced
deriving DecidableEq, Repr

/-- Mirror of `PlaceStep`. -/
inductive PlaceStep where
  | finished (leftover : Option FreeTimeBlock)
  | usedWholeBlock
deriving Repr

/-- Rust `f32::round`: round half away from zero. -/
def ratRound (q : ℚ) : Int :=
  if 0 ≤ q then ⌊q + 1/2⌋ else ⌈q - 1/2⌉

/-- Mirror of `FirstFitPacker::time_after_hours_dt`:
`start + Duration::seconds((hours * 3600.0).round() as i64)`. -/
def timeAfterHoursDt (start : DT) (hours : ℚ) : DT :=
  ⟨start.date, start.sec + ratRound (hours * 3600)⟩

/-- Mirror of `FirstFitPacker::select_block_idx`: index of the first
block with positive remaining time. -/
def selectBlockIdx (free : List FreeTimeBlock) : Option Nat :=
  free.findIdx? fun b => 0 < b.remaining_free_time

/-- Insertion at an index (`Vec::insert`). -/
def insertAt {α : Type} : Nat → α → List α → List α
  | 0, x, xs => x :: xs
  | _ + 1, x, [] => [x]
  | n + 1, x, y :: ys => y :: insertAt n x ys

/-- Mirror of `FirstFitPacker::place_one_block`; the task mutation is
returned alongside the step. -/
def placeOneBlock (task : Task) (date : Date) (block : FreeTimeBlock) :
    Task × PlaceStep :=
  let need := task.remaining_hours
  let cap := block.remaining_free_time
  if need ≤ cap then
    let end_dt := timeAfterHoursDt block.start_time need
    let tr : TimeRange := ⟨block.start_time.sec, end_dt.sec⟩
    let task := task.pushSubtaskWithHours tr date need
    let block :=
      { block with
        start_time := end_dt,
        remaining_free_time := durationHoursDt end_dt block.end_time }
    let leftover := if 0 < block.remaining_free_time then some block else none
    (task, .finished leftover)
  else
    let tr : TimeRange := ⟨block.start_time.sec, block.end_time.sec⟩
    (task.pushSubtaskWithHours tr date cap, .usedWholeBlock)

/-- Rational value of `f32::EPSILON`. -/
def f32Epsilon : ℚ := 1 / 8388608

/-- The `while task.remaining_hours > 0` loop of `BlockPacker::pack`;
each iteration either stops or removes one block, so the list length
bounds the fuel. -/
def packGo (date : Date) : Task → List FreeTimeBlock → Nat → Task × List FreeTimeBlock
  | task, free, 0 => (task, free)
  | task, free, fuel + 1 =>
    if task.remaining_hours ≤ 0 then (task, free)
    else
      match selectBlockIdx free with
      | none => (task, free)
      | some idx =>
        match free.get? idx with
        | none => (task, free)
        | some block =>
          let free' := free.eraseIdx idx
          match placeOneBlock task date block with
          | (task, .finished leftover) =>
            (task, match leftover with
                   | some b => insertAt idx b free'
                   | none => free')
          | (task, .usedWholeBlock) => packGo date task free' fuel

/-- Mirror of `BlockPacker::pack` (template method) for the first-fit
packer; the observer call is effect-free on the state. -/
def pack (task : Task) (date : Date) (free : List FreeTimeBlock) :
    Task × List FreeTimeBlock × PackOutcome :=
  if task.remaining_hours ≤ 0 ∨ free.isEmpty then (task, free, .nonePlaced)
  else
    let start_remaining := task.remaining_hours
    let (task, free) := packGo date task free (free.length + 1)
    let outcome :=
      if |task.remaining_hours - start_remaining| < f32Epsilon then PackOutcome.nonePlaced
      else if 0 < task.remaining_hours then .partialPlaced
      else .fullPlaced
    (task, free, outcome)

/-! ### Overflow policies (`src/scheduler/overflow.rs`) -/

/-- Replace the last element of a list (the `last_mut` write). -/
def setLast {α : Type} (xs : List α) (x : α) : List α :=
  xs.dropLast ++ [x]

/-- Message of the `BlockOverflow` failure. -/
def blockOverflowMsg (t : Task) : String :=
  s!"Could not fully schedule task {t.id} ('{t.name}') on {t.date.year}-" ++
    (if t.date.month < 10 then "0" else "") ++ s!"{t.date.month}-" ++
    (if t.date.day < 10 then "0" else "") ++ s!"{t.date.day}"

/-- Mirror of `AllowOverflow::handle`: when hours remain and something
was placed, mark the last subtask (if it belongs to this task) as
overflow; always returns `Ok`. -/
def allowOverflowHandle (task : Task) (placed_any : Bool) :
    Task × Except Error Unit :=
  if 0 < task.remaining_hours ∧ placed_any then
    match task.subtasks.getLast? with
    | some last =>
      if last.task_id = task.id then
        ({ task with subtasks := setLast task.subtasks { last with overflow := true } },
         .ok ())
      else (task, .ok ())
    | none => (task, .ok ())
  else (task, .ok ())

/-- Mirror of `BlockOverflow::handle`: error (an `Error::Parse`) whenever
hours remain; no state change. -/
def blockOverflowHandle (task : Task) (_placed_any : Bool) :
    Task × Except Error Unit :=
  if 0 < task.remaining_hours then (task, .error (.parse (blockOverflowMsg task)))
  else (task, .ok ())

/-- Mirror of `make_overflow_handler`. -/
def makeOverflowHandler (policy : TaskOverflowPolicy) :
    Task → Bool → Task × Except Error Unit :=
  match policy with
  | .allow => allowOverflowHandle
  | .block => blockOverflowHandle

/-! ### Schedule manager (`src/scheduler/mod.rs`) -/

/-- Mirror of the configuration values the core reads
(`config/mod.rs` accessors). -/
structure Config where
  range : TimeRange
  task_overflow_policy : TaskOverflowPolicy
  task_scheduling_order : TaskSchedulingOrder
  schedule_start_date : Option Date
deriving Repr

/-- Mirror of `AppContext`: the configuration and the three repositories
(logging and paths are effect-free collaborators). -/
structure AppState where
  config : Config
  tasks : Repository Task
  events : Repository Event
  cards : Repository Card
deriving Repr

/-- Mirror of `ScheduleManager::reset_tasks`: clear subtasks and restore
`remaining_hours := hours` for every task. -/
def resetTasks (st : AppState) : AppState :=
  { st with tasks :=
    { st.tasks with items := st.tasks.items.map fun p =>
        (p.1, { p.2 with subtasks := [], remaining_hours := p.2.hours }) } }

/-- Mirror of `FilterSorter::sorted_ids` for the scheduling query: filter
the stored entries, then stable-sort by the comparator. -/
def sortedTaskIds (items : List (Int × Task)) (pred : Task → Bool)
    (cmp : Task → Task → Ordering) : List Int :=
  (stableSortBy (fun a b => cmp a.2 b.2 ≠ Ordering.gt)
    (items.filter fun p => pred p.2)).map (·.1)

/-- Per-task body of the `for_each_mut` closure in `compute_schedule`:
pack the task into the day's free blocks, then run the overflow handler
on a `Partial`/`Full` outcome, discarding its result (`let _ =`). -/
def scheduleTaskOnDay (handler : Task → Bool → Task × Except Error Unit)
    (date : Date) (acc : Repository Task × List FreeTimeBlock) (id : Int) :
    Repository Task × List FreeTimeBlock :=
  match mapGet acc.1.items id with
  | none => acc
  | some task =>
    let (task, free, outcome) :=
      if task.remaining_hours ≤ 0 then (task, acc.2, PackOutcome.nonePlaced)
      else pack task date acc.2
    let task :=
      match outcome with
      | .nonePlaced => task
      | _ => (handler task true).1
    ({ acc.1 with items := mapInsert acc.1.items id task }, free)

/-- One planning day of `compute_schedule`: build the day's free blocks,
then pack each candidate task in comparator order. -/
def scheduleDay (cmp : Task → Task → Ordering)
    (handler : Task → Bool → Task × Except Error Unit) (daywin : TimeRange)
    (st : AppState) (date : Date) : AppState :=
  let free := freeBlocksForDate st.events.valuesUnordered st.tasks.valuesUnordered
    date daywin
  let ids := sortedTaskIds st.tasks.items
    (fun t => dateLe date t.date ∧ 0 < t.remaining_hours) cmp
  let (tasks, _) := ids.foldl (scheduleTaskOnDay handler date) (st.tasks, free)
  { st with tasks := tasks }

/-- The planning window of `compute_schedule`: seven days starting at
`schedule_start_date` when configured, else today. -/
def planningDays (st : AppState) (today : Date) : List Date :=
  calendarDays (st.config.schedule_start_date.getD today) 7

/-- Mirror of `ScheduleManager::compute_schedule` (with `Local::now()`
passed in as `today`): reset, then pack each day; overflow-handler
failures are discarded, so the function always returns `Ok(())`. -/
def computeSchedule (st : AppState) (today : Date) :
    AppState × Except Error Unit :=
  let daywin := st.config.range
  let cmp := makeTaskOrderComparator st.config.task_scheduling_order
  let handler := makeOverflowHandler st.config.task_overflow_policy
  let st := resetTasks st
  let days := planningDays st today
  let st := days.foldl (scheduleDay cmp handler daywin) st
  (st, .ok ())

/-! ### Pattern matcher (`src/command/entity_spec/core.rs`)

The slot machinery is generic over the argument type `A` and the
validation context `C`.  A matcher `fn(&Arg) -> Result<()>` becomes
`A → Option String` (`none` = the kind matches, `some msg` = the
mismatch error message, already normalised to its `Error::Parse`
payload), and likewise for the optional context validator. -/

/-- Mirror of `ArgSlot`. -/
structure ArgSlot (A C : Type) where
  matcher : A → Option String
  validator : Option (A → C → Option String)
  optional : Bool

/-- Mirror of `SlotMatch`. -/
inductive SlotMatch where
  | matched
  | kindMismatch (e : String)
  | validatorFail (e : String)
deriving DecidableEq, Repr

/-- Mirror of `ArgSlot::classify`. -/
def ArgSlot.classify {A C : Type} (slot : ArgSlot A C) (actual : A) (ctx : C) :
    SlotMatch :=
  match slot.matcher actual with
  | some e => .kindMismatch e
  | none =>
    match slot.validator with
    | some v =>
      match v actual ctx with
      | none => .matched
      | some e => .validatorFail e
    | none => .matched

/-- Mirror of `ArgMatchFailure`. -/
structure ArgMatchFailure where
  position : Nat
  error : String
deriving DecidableEq, Repr

/-- The slot/argument walk of `EntitySpec::match_pattern`: `slot_idx` is
the current slot index and `last` the `last_slot_idx` variable; on
success it returns the unconsumed arguments together with the final
`last_slot_idx`. -/
def matchSlots {A C : Type} (ctx : C) (action pid : String) :
    List (ArgSlot A C) → List A → Nat → Nat →
    Except ArgMatchFailure (List A × Nat)
  | [], args, _, last => .ok (args, last)
  | slot :: rest, args, slot_idx, _ =>
    match args with
    | [] =>
      if slot.optional then matchSlots ctx action pid rest [] (slot_idx + 1) slot_idx
      else .error ⟨slot_idx, s!"Missing argument(s).\nUsage: {action} {pid}"⟩
    | arg :: argrest =>
      match slot.classify arg ctx with
      | .matched => matchSlots ctx action pid rest argrest (slot_idx + 1) slot_idx
      | .kindMismatch e =>
        if slot.optional then
          matchSlots ctx action pid rest (arg :: argrest) (slot_idx + 1) slot_idx
        else .error ⟨slot_idx, s!"{e}.\nUsage: {action} {pid}"⟩
      | .validatorFail e => .error ⟨slot_idx, s!"{e}.\nUsage: {action} {pid}"⟩

/-- Mirror of `EntitySpec::match_pattern`: walk the slots, then fail with
"Too many arguments" when arguments remain. -/
def matchPattern {A C : Type} (ctx : C) (action pid : String)
    (pattern : List (ArgSlot A C)) (args : List A) :
    Except ArgMatchFailure Unit :=
  match matchSlots ctx action pid pattern args 0 0 with
  | .error f => .error f
  | .ok (remaining, last) =>
    if remaining.isEmpty then .ok ()
    else .error ⟨last, s!"Too many arguments provided.\nUsage: {action} {pid}"⟩

/-- A pattern together with its display (`PatternId` with `pattern()`
and `Display`). -/
structure PatternChoice (A C : Type) where
  pid : String
  pattern : List (ArgSlot A C)

/-- The pattern loop of `EntitySpec::assert_matches_pattern`, carrying
the deepest failure so far. -/
def assertGo {A C : Type} (ctx : C) (action : String) (args : List A) :
    List (PatternChoice A C) → Option ArgMatchFailure → Except Error String
  | [], deepest =>
    match deepest with
    | some f => .error (.parse f.error)
    | none => .error (.parse "No matching pattern of arguments found.")
  | p :: rest, deepest =>
    match matchPattern ctx action p.pid p.pattern args with
    | .ok () => .ok p.pid
    | .error fail =>
      let deepest :=
        if ((deepest.map (·.position)).getD 0) ≤ fail.position then some fail
        else deepest
      assertGo ctx action args rest deepest

/-- Mirror of `EntitySpec::assert_matches_pattern`: try each pattern and
surface the failure that advanced furthest (ties to the later attempt). -/
def assertMatchesPattern {A C : Type} (ctx : C) (action : String)
    (pids : List (PatternChoice A C)) (args : List A) : Except Error String :=
  assertGo ctx action args pids none

/-- The fold that `assert_matches_pattern` performs over the failures of
the attempted patterns (`deepest` update with `<=`). -/
def deepestFailure (init : Option ArgMatchFailure) (fs : List ArgMatchFailure) :
    Option ArgMatchFailure :=
  fs.foldl
    (fun d f => if ((d.map (·.position)).getD 0) ≤ f.position then some f else d)
    init

/-- Well-formedness of a free block produced for a given date and daily
window: both endpoints on the date, inside the window, nonempty, with
`remaining_free_time` equal to the block's duration. -/
def BlockWF (date : Date) (day_range : TimeRange) (b : FreeTimeBlock) : Prop :=
  b.start_time.date = date ∧ b.end_time.date = date ∧
  day_range.start ≤ b.start_time.sec ∧ b.end_time.sec ≤ day_range.endTime ∧
  b.start_time.sec < b.end_time.sec ∧
  b.remaining_free_time = durationHoursDt b.start_time b.end_time

/-! ### Transaction (`src/core/transaction.rs`)

The three participants are fixed: cards (id provider, no reference
extractor), events and tasks (referrers via `card_id`).  A participant
with an extractor contributes an empty id pool, and the id pool of the
cards participant is its staged effective ids. -/

/-- Mirror of `RepoParticipant::references`: the `card_id`s of the
pending staged entities. -/
def pendingRefs {α : Type} (r : Repository α) (ext : α → Option Int) : List Int :=
  match r.stagedPending with
  | some pending => pending.filterMap ext
  | none => []

/-- The reference check loop of `Transaction::validate_associations`. -/
def checkRefs (pool : List Int) : List Int → Except Error Unit
  | [] => .ok ()
  | cid :: rest =>
    if pool.contains cid then checkRefs pool rest
    else .error (.parse s!"Referenced id {cid} not present in transaction.")

/-- Mirror of `Transaction::validate_associations`: pool the cards
participant's staged effective ids, then check every pending `card_id`
of events and tasks against it. -/
def validateAssociations (ctx : AppState) : Except Error Unit :=
  match ctx.cards.stagedEffectiveIds with
  | .error e => .error e
  | .ok pool =>
    match checkRefs pool (pendingRefs ctx.events fun e => e.card_id) with
    | .error e => .error e
    | .ok () => checkRefs pool (pendingRefs ctx.tasks fun t => t.card_id)

/-- Mirror of `Transaction::discard_all`. -/
def discardAll (ctx : AppState) : AppState :=
  { ctx with cards := ctx.cards.discardStage, events := ctx.events.discardStage
             tasks := ctx.tasks.discardStage }

/-- Mirror of `Transaction::run`: begin staging on each participant,
run `f`; on success validate, prepare and apply — each with `?`
propagation and no rollback — and only on a failure of `f` itself
discard the stages. -/
def Transaction.run (ctx : AppState) (clear_existing : Bool)
    (f : AppState → AppState × Except Error Unit) : AppState × Except Error Unit :=
  match ctx.cards.beginStage clear_existing with
  | .error e => (ctx, .error e)
  | .ok cards =>
    let ctx := { ctx with cards := cards }
    match ctx.events.beginStage clear_existing with
    | .error e => (ctx, .error e)
    | .ok events =>
      let ctx := { ctx with events := events }
      match ctx.tasks.beginStage clear_existing with
      | .error e => (ctx, .error e)
      | .ok tasks =>
        let ctx := { ctx with tasks := tasks }
        match f ctx with
        | (ctx, .error e) => (discardAll ctx, .error e)
        | (ctx, .ok ()) =>
          match validateAssociations ctx with
          | .error e => (ctx, .error e)
          | .ok () =>
            match ctx.cards.prepareCommit with
            | .error e => (ctx, .error e)
            | .ok pc =>
              match ctx.events.prepareCommit with
              | .error e => (ctx, .error e)
              | .ok pe =>
                match ctx.tasks.prepareCommit with
                | .error e => (ctx, .error e)
                | .ok pt =>
                  ({ ctx with
                      cards := ctx.cards.applyPrepared pc,
                      events := ctx.events.applyPrepared pe,
                      tasks := ctx.tasks.applyPrepared pt }, .ok ())

/-! ### Concrete scenarios used by the scheduler claims -/

/-- Seed scenario for the block policy: a one-hour daily window
(8:00AM–9:00AM) and a single task `"Big"` of 4 hours due on the first
planning day. -/
def blockScenarioState : AppState :=
  { config := { range := ⟨28800, 32400⟩, task_overflow_policy := .block
                task_scheduling_order := .longestTaskFirst
                schedule_start_date := some ⟨2099, 1, 1⟩ }
    tasks := (Repository.new.insert (Task.new "Big" 4 none ⟨2099, 1, 1⟩)).1
    events := Repository.new, cards := Repository.new }

/-- The state of task `"Big"` after the block-policy schedule run: one
hour placed, three hours remaining. -/
def blockScenarioBigTask : Task :=
  { id := 1, name := "Big", hours := 4, date := ⟨2099, 1, 1⟩, card_id := none
    subtasks := [{ task_id := 1, date := ⟨2099, 1, 1⟩
                   time_range := ⟨28800, 32400⟩, overflow := false }]
    remaining_hours := 3 }

/-- Scenario for the allow policy: a one-hour daily window and a single
20-hour task whose due date is past the 7-day planning window, so an
hour is placed on each of the seven days and 13 hours overflow. -/
def allowScenarioState : AppState :=
  { config := { range := ⟨28800, 32400⟩, task_overflow_policy := .allow
                task_scheduling_order := .longestTaskFirst
                schedule_start_date := some ⟨2099, 1, 1⟩ }
    tasks := (Repository.new.insert (Task.new "Big" 20 none ⟨2099, 12, 31⟩)).1
    events := Repository.new, cards := Repository.new }

/-- Fresh context for the transaction claim (all repositories empty,
`next_id = 1`). -/
def txScenarioState : AppState :=
  { config := { range := ⟨28800, 64800⟩, task_overflow_policy := .allow
                task_scheduling_order := .longestTaskFirst
                schedule_start_date := none }
    tasks := Repository.new, events := Repository.new, cards := Repository.new }

/-- The transaction body of spec seed scenario 6: add one event that
references card id 1 while no card is staged (what loading such a save
file does through the dispatcher). -/
def txScenarioF (ctx : AppState) : AppState × Except Error Unit :=
  ({ ctx with events :=
      (ctx.events.insert
        (Event.new true "Event" (some 1) [DayOfWeek.mon] ⟨28800, 32400⟩)).1 },
   .ok ())

/-- Scenario for the planning-window claim: `schedule_start_date` set to
2020-01-01, months before the (passed-in) current date 2020-06-01. -/
def pastStartState : AppState :=
  { config := { range := ⟨28800, 64800⟩, task_overflow_policy := .allow
                task_scheduling_order := .longestTaskFirst
                schedule_start_date := some ⟨2020, 1, 1⟩ }
    tasks := Repository.new, events := Repository.new, cards := Repository.new }

/-! ### Tokens and typed arguments (`src/arg/args.rs`, `src/core/types.rs`)

Rust `String` tokens are modelled as lists of characters.  Rendering
mirrors the `Display` implementations, parsing the
`try_from`/`try_from_str`/`accepts` functions.  The ambient current date
(`Local::now()`) enters `Date::try_from_str` (month–day formats borrow
the current year) and `default_days_for` (non-recurring events default
to today's weekday); both are passed in explicitly. -/

/-- A Rust `String` token. -/
abbrev Token := List Char

/-- Mirror of `core/types.rs` `EntityType`. -/
inductive EntityType where
  | task | event | card
deriving DecidableEq, Repr

/-- Mirror of `core/types.rs` `EntityActionType` (`""` / `"mod"` / `"del"`). -/
inductive EntityActionType where
  | add | modify | delete
deriving DecidableEq, Repr

/-- Rust `char::is_ascii_digit`. -/
def isAsciiDigit (c : Char) : Bool := 48 ≤ c.toNat ∧ c.toNat ≤ 57

/-- Rust `char::to_ascii_lowercase`. -/
def asciiLower (c : Char) : Char :=
  if 65 ≤ c.toNat ∧ c.toNat ≤ 90 then Char.ofNat (c.toNat + 32) else c

/-- Rust `char::to_ascii_uppercase`. -/
def asciiUpper (c : Char) : Char :=
  if 97 ≤ c.toNat ∧ c.toNat ≤ 122 then Char.ofNat (c.toNat - 32) else c

/-- Case-normalised token, for strum's `ascii_case_insensitive` matches. -/
def lowerTok (t : Token) : Token := t.map asciiLower

/-- Rust `str::trim` (leading whitespace). -/
def trimLeft : Token → Token
  | [] => []
  | c :: cs => if c.isWhitespace then trimLeft cs else c :: cs

/-- Rust `str::trim`. -/
def trim (t : Token) : Token := (trimLeft (trimLeft t.reverse).reverse)

/-- Rust `str::trim_end_matches(',')`: drop every trailing comma. -/
def trimEndCommas (t : Token) : Token :=
  ((t.reverse.dropWhile fun c => c = ',')).reverse

/-- Little-endian decimal digits, with the number itself as fuel
(structural, so that the kernel can evaluate it). -/
def natDigitsGo : Nat → Nat → List Nat
  | 0, _ => []
  | _ + 1, 0 => []
  | fuel + 1, n => (n % 10) :: natDigitsGo fuel (n / 10)

/-- Little-endian decimal digits of a positive number. -/
def natDigits (n : Nat) : List Nat := natDigitsGo n n

/-- Decimal rendering of a natural number (Rust unsigned `Display`). -/
def renderNat (n : Nat) : Token :=
  if n = 0 then ['0']
  else ((natDigits n).reverse).map fun d => Char.ofNat (48 + d)

/-- Decimal rendering of a signed integer (Rust `i32` `Display`). -/
def renderInt (i : Int) : Token :=
  if i < 0 then '-' :: renderNat (-i).toNat else renderNat i.toNat

/-- Zero-pad a rendered natural to two characters (chrono `%m`/`%d`/`%M`). -/
def pad2 (n : Nat) : Token :=
  if n < 10 then '0' :: renderNat n else renderNat n

/-- Zero-pad a rendered natural to four characters. -/
def pad4n (n : Nat) : Token :=
  List.replicate (4 - (renderNat n).length) '0' ++ renderNat n

/-- chrono's `%Y` formatting: zero-pad to four digits; years outside
`0..=9999` carry an explicit sign. -/
def renderYear (y : Int) : Token :=
  if y < 0 then '-' :: pad4n (-y).toNat
  else if y ≤ 9999 then pad4n y.toNat
  else '+' :: renderNat y.toNat

/-- `Display for Date` (`%Y-%m-%d`). -/
def renderDate (d : Date) : Token :=
  renderYear d.year ++ '-' :: pad2 d.month ++ '-' :: pad2 d.day

/-- chrono `%-I:%M%p` formatting of a time of day given in seconds. -/
def renderTime (sec : Int) : Token :=
  let s := sec.toNat
  let h24 := s / 3600
  let m := (s % 3600) / 60
  let h12 := if h24 % 12 = 0 then 12 else h24 % 12
  renderNat h12 ++ ':' :: pad2 m ++ (if h24 < 12 then ['A', 'M'] else ['P', 'M'])

/-- `Display for TimeRange` (`"{start}-{end}"` in `%-I:%M%p`). -/
def renderTimeRange (tr : TimeRange) : Token :=
  renderTime tr.start ++ '-' :: renderTime tr.endTime

/-- `Display for DayOfWeek` (the strum `to_string` values). -/
def dayStr : DayOfWeek → Token
  | .mon => "MON".data | .tue => "TUE".data | .wed => "WED".data
  | .thu => "THU".data | .fri => "FRI".data | .sat => "SAT".data
  | .sun => "SUN".data

/-- Mirror of `DayOfWeek::try_from` (strum `from_str`, ascii case
insensitive over the `serialize`/`to_string` values). -/
def dayTryFrom (t : Token) : Option DayOfWeek :=
  let s := lowerTok t
  if s = "mon".data ∨ s = "monday".data ∨ s = "mon.".data ∨ s = "m".data then
    some .mon
  else if s = "tue".data ∨ s = "tuesday".data ∨ s = "tue.".data ∨ s = "t".data then
    some .tue
  else if s = "wed".data ∨ s = "wednesday".data ∨ s = "wed.".data ∨ s = "w".data then
    some .wed
  else if s = "thu".data ∨ s = "thursday".data ∨ s = "thu.".data ∨ s = "th".data then
    some .thu
  else if s = "fri".data ∨ s = "friday".data ∨ s = "fri.".data ∨ s = "f".data then
    some .fri
  else if s = "sat".data ∨ s = "saturday".data ∨ s = "sat.".data ∨ s = "sa".data then
    some .sat
  else if s = "sun".data ∨ s = "sunday".data ∨ s = "sun.".data ∨ s = "su".data then
    some .sun
  else none

/-- `Display for CardColor` (the strum `to_string` values). -/
def colorStr : CardColor → Token
  | .red => "RED".data | .orange => "ORANGE".data | .yellow => "YELLOW".data
  | .green => "GREEN".data | .lightBlue => "LIGHT_BLUE".data
  | .blue => "BLUE".data | .indigo => "INDIGO".data | .violet => "VIOLET".data
  | .black => "BLACK".data | .lightGreen => "LIGHT_GREEN".data
  | .lightCoral => "LIGHT_CORAL".data

/-- Mirror of `CardColor::try_from` (case-insensitive `from_str`). -/
def colorTryFrom (t : Token) : Option CardColor :=
  let s := lowerTok t
  if s = "red".data then some .red
  else if s = "orange".data then some .orange
  else if s = "yellow".data then some .yellow
  else if s = "green".data then some .green
  else if s = "light_blue".data then some .lightBlue
  else if s = "blue".data then some .blue
  else if s = "indigo".data then some .indigo
  else if s = "violet".data then some .violet
  else if s = "black".data then some .black
  else if s = "light_green".data then some .lightGreen
  else if s = "light_coral".data then some .lightCoral
  else none

/-- `Display for EntityType`. -/
def entityTypeStr : EntityType → Token
  | .task => "task".data | .event => "event".data | .card => "card".data

/-- Mirror of `EntityType::try_from`. -/
def entityTypeTryFrom (t : Token) : Option EntityType :=
  let s := lowerTok t
  if s = "task".data then some .task
  else if s = "event".data then some .event
  else if s = "card".data then some .card
  else none

/-- Mirror of `EntityActionType::try_from` (`""` is `Add`). -/
def entityActionTryFrom (t : Token) : Option EntityActionType :=
  let s := lowerTok t
  if s = "".data then some .add
  else if s = "mod".data then some .modify
  else if s = "del".data then some .delete
  else none

/-- `Display for EntityActionType` (`strum` first serialization). -/
def entityActionStr : EntityActionType → Token
  | .add => "".data | .modify => "mod".data | .delete => "del".data

/-- Mirror of `Bool::try_from_str` (`BoolFormat::from_str`,
case-insensitive over `true`/`True`/`false`/`False`). -/
def boolTryFromStr (t : Token) : Except Error Bool :=
  let s := lowerTok t
  if s = "true".data then .ok true
  else if s = "false".data then .ok false
  else .error (.parse ("Invalid string value for boolean: '" ++ String.mk t ++
    "'. Valid values: True, False"))

/-- Mirror of `Flag::try_from` (`-h` / `-help`, the only flag). -/
def flagTryFrom (t : Token) : Option Unit :=
  let s := lowerTok t
  if s = "-h".data ∨ s = "-help".data then some () else none

/-- Big-endian decimal value of a digit list (chrono's number scanner). -/
def digitsVal (ds : List Nat) : Nat := ds.foldl (fun a d => 10 * a + d) 0

/-- Take greedily up to `max` ascii digits (as values) from the front. -/
def takeDigits : Nat → Token → List Nat × Token
  | 0, t => ([], t)
  | _ + 1, [] => ([], [])
  | max + 1, c :: t =>
    if isAsciiDigit c then
      let (ds, rest) := takeDigits max t
      ((c.toNat - 48) :: ds, rest)
    else ([], c :: t)

/-- Rust `str::parse::<i32>`: optional sign, digits, 32-bit range check. -/
def parseI32 (t : Token) : Option Int :=
  let (neg, ds) :=
    match t with
    | '+' :: r => (false, r)
    | '-' :: r => (true, r)
    | r => (false, r)
  if ds.isEmpty ∨ ¬ ds.all isAsciiDigit then none
  else
    let v : Int := (digitsVal (ds.map fun c => c.toNat - 48) : Int)
    let v := if neg then -v else v
    if -2147483648 ≤ v ∧ v ≤ 2147483647 then some v else none

/-- Split at the first occurrence of a separator (Rust `split_once`). -/
def splitOnce (sep : Char) : Token → Option (Token × Token)
  | [] => none
  | c :: cs =>
    if c = sep then some ([], cs)
    else (splitOnce sep cs).map fun p => (c :: p.1, p.2)

/-- Split on every occurrence of a separator, keeping empty segments
(Rust `str::split`). -/
def splitChar (sep : Char) : Token → List Token
  | [] => [[]]
  | c :: cs =>
    if c = sep then [] :: splitChar sep cs
    else
      match splitChar sep cs with
      | [] => [[c]]
      | s :: ss => (c :: s) :: ss

/-- Does `t` start with `pat`? (Rust `str::starts_with`). -/
def startsWithSeq : Token → Token → Bool
  | [], _ => true
  | _ :: _, [] => false
  | p :: ps, c :: cs => p = c ∧ startsWithSeq ps cs

/-- Index of the first occurrence of `pat` (Rust `str::find`). -/
def findSeqIdx (pat : Token) : Token → Option Nat
  | [] => if startsWithSeq pat [] then some 0 else none
  | c :: cs =>
    if startsWithSeq pat (c :: cs) then some 0
    else (findSeqIdx pat cs).map (· + 1)

/-- Does `t` contain `pat`? (Rust `str::contains`). -/
def containsSeq (pat t : Token) : Bool := (findSeqIdx pat t).isSome

/-- Insert a sequence at a character index (Rust `String::insert_str`). -/
def insertSeqAt (i : Nat) (pat t : Token) : Token :=
  t.take i ++ pat ++ t.drop i

/-! ### Time parsing (`core/types.rs` `TimeFormat`, `TimeRange`) -/

/-- Mirror of `TimeFormat`. -/
inductive TimeFormat where
  | hmMeridian   -- "%-I:%M%p"
  | hMeridian    -- "%-I%p"
  | hm           -- "%-I:%M"
  | h            -- "%-I"
deriving DecidableEq, Repr

/-- Mirror of `TimeFormat::token_has_meridian`. -/
def tokenHasMeridian (t : Token) : Bool :=
  containsSeq "AM".data t ∨ containsSeq "PM".data t

/-- Mirror of `TimeFormat::ensure_minutes`. -/
def ensureMinutes (fmt : TimeFormat) (token : Token) : Token × TimeFormat :=
  if token.contains ':' then (token, fmt)
  else
    let token :=
      match findSeqIdx "AM".data token with
      | some i => insertSeqAt i ":00".data token
      | none =>
        match findSeqIdx "PM".data token with
        | some i => insertSeqAt i ":00".data token
        | none => token ++ ":00".data
    let fmt :=
      match fmt with
      | .hMeridian | .h => TimeFormat.hmMeridian
      | other => other
    (token, fmt)

/-- Mirror of `TimeFormat::build_parse_spec`. -/
def buildTimeParseSpec (fmt : TimeFormat) (raw : Token) (is_start : Bool) :
    Token × TimeFormat :=
  let token := (trim raw).map asciiUpper
  let token :=
    if tokenHasMeridian token then token
    else token ++ (if is_start then "AM".data else "PM".data)
  ensureMinutes fmt token

/-- chrono `%p`: `AM`/`PM`, per-character case-insensitive. -/
def parseMeridian : Token → Option (Bool × Token)
  | c1 :: c2 :: rest =>
    if asciiLower c2 = 'm' then
      if asciiLower c1 = 'a' then some (false, rest)
      else if asciiLower c1 = 'p' then some (true, rest)
      else none
    else none
  | _ => none

/-- chrono `NaiveTime::parse_from_str` for the four `TimeFormat`s; the
result is the time of day in seconds.  `%-I` scans one or two digits and
requires `1..=12`; `%M` scans one or two digits `<= 59`; formats without
`%p` cannot resolve a 12-hour clock value and always fail
(`ParseError(NotEnough)`). -/
def chronoParseTime (fmt : TimeFormat) (t : Token) : Option Int :=
  match fmt with
  | .hm | .h => none
  | .hMeridian =>
    let (hds, t) := takeDigits 2 t
    if hds.isEmpty then none
    else
      let h := digitsVal hds
      if 1 ≤ h ∧ h ≤ 12 then
        match parseMeridian t with
        | some (pm, []) =>
          some ((((h % 12) + (if pm then 12 else 0)) * 3600 : Nat) : Int)
        | _ => none
      else none
  | .hmMeridian =>
    let (hds, t) := takeDigits 2 t
    if hds.isEmpty then none
    else
      let h := digitsVal hds
      if 1 ≤ h ∧ h ≤ 12 then
        match t with
        | ':' :: t =>
          let (mds, t) := takeDigits 2 t
          if mds.isEmpty then none
          else
            let m := digitsVal mds
            if m ≤ 59 then
              match parseMeridian t with
              | some (pm, []) =>
                some (((((h % 12) + (if pm then 12 else 0)) * 3600 + m * 60 : Nat)) : Int)
              | _ => none
            else none
        | _ => none
      else none

/-- Mirror of `TimeRange::parse_token_as_time`: try the four formats in
declaration order on the built parse specs. -/
def parseTokenAsTime (raw : Token) (is_start : Bool) : Except Error Int :=
  let try1 := buildTimeParseSpec .hmMeridian raw is_start
  match chronoParseTime try1.2 try1.1 with
  | some v => .ok v
  | none =>
    let try2 := buildTimeParseSpec .hMeridian raw is_start
    match chronoParseTime try2.2 try2.1 with
    | some v => .ok v
    | none =>
      let try3 := buildTimeParseSpec .hm raw is_start
      match chronoParseTime try3.2 try3.1 with
      | some v => .ok v
      | none =>
        let try4 := buildTimeParseSpec .h raw is_start
        match chronoParseTime try4.2 try4.1 with
        | some v => .ok v
        | none => .error (.parse ("Invalid time format: '" ++ String.mk raw ++ "'."))

/-- Mirror of `TimeRange::validate`. -/
def timeRangeValidate (start «finish» : Int) : Except Error TimeRange :=
  if start = «finish» then
    .error (.parse ("Start time '" ++ String.mk (renderTime start) ++
      "' cannot be the same as end time '" ++ String.mk (renderTime «finish») ++ "'."))
  else if «finish» ≤ start then
    .error (.parse ("Start time '" ++ String.mk (renderTime start) ++
      "' must be earlier than end time '" ++ String.mk (renderTime «finish») ++ "'."))
  else .ok ⟨start, «finish»⟩

/-- Mirror of `TimeRange::try_from_str`. -/
def timeRangeTryFromStr (t : Token) : Except Error TimeRange :=
  let s := trim t
  match splitOnce '-' s with
  | none =>
    .error (.parse ("Invalid time range format: '" ++ String.mk s ++
      "'. Expected format: '<start>-<end>'."))
  | some (a, b) =>
    match parseTokenAsTime (trim a) true with
    | .error e => .error e
    | .ok start =>
      match parseTokenAsTime (trim b) false with
      | .error e => .error e
      | .ok «finish» => timeRangeValidate start «finish»

/-! ### Date parsing (`core/types.rs` `DateFormat`, `Date`) -/

/-- Rust `to_dash_separators` (`extensions/string.rs`): `'/'` → `'-'`. -/
def toDashSeparators (t : Token) : Token :=
  t.map fun c => if c = '/' then '-' else c

/-- Calendar validity and chrono year-range check for a parsed date. -/
def mkValidDate (y : Int) (m d : Nat) : Option Date :=
  if -262144 ≤ y ∧ y ≤ 262143 ∧ 1 ≤ m ∧ m ≤ 12 ∧ 1 ≤ d ∧ d ≤ daysInMonth y m
  then some ⟨y, m, d⟩ else none

/-- chrono `%Y` scan: an optional sign, then greedily up to four digits
(six with an explicit sign). -/
def scanYear (t : Token) : Option (Int × Token) :=
  match t with
  | '+' :: r =>
    let (ds, rest) := takeDigits 6 r
    if ds.isEmpty then none else some ((digitsVal ds : Int), rest)
  | '-' :: r =>
    let (ds, rest) := takeDigits 6 r
    if ds.isEmpty then none else some (-(digitsVal ds : Int), rest)
  | r =>
    let (ds, rest) := takeDigits 4 r
    if ds.isEmpty then none else some ((digitsVal ds : Int), rest)

/-- chrono `NaiveDate::parse_from_str` with format `%Y-%m-%d`. -/
def chronoParseYmd (t : Token) : Option Date :=
  match scanYear t with
  | none => none
  | some (y, t) =>
    match t with
    | '-' :: t =>
      let (mds, t) := takeDigits 2 t
      if mds.isEmpty then none
      else
        match t with
        | '-' :: t =>
          let (dds, t) := takeDigits 2 t
          if dds.isEmpty ∨ ¬ t.isEmpty then none
          else mkValidDate y (digitsVal mds) (digitsVal dds)
        | _ => none
    | _ => none

/-- chrono `NaiveDate::parse_from_str` with format `%m-%d-%Y`. -/
def chronoParseMdy (t : Token) : Option Date :=
  let (mds, t) := takeDigits 2 t
  if mds.isEmpty then none
  else
    match t with
    | '-' :: t =>
      let (dds, t) := takeDigits 2 t
      if dds.isEmpty then none
      else
        match t with
        | '-' :: t =>
          match scanYear t with
          | some (y, []) => mkValidDate y (digitsVal mds) (digitsVal dds)
          | _ => none
        | _ => none
    | _ => none

/-- Mirror of `Date::try_from_str` with the six `DateFormat`s in
declaration order (after dash normalisation the slash variants repeat
the dash ones, and the month–day variants prepend the current year). -/
def dateTryFromStr (currentYear : Int) (input : Token) : Except Error Date :=
  let input := toDashSeparators input
  match chronoParseYmd input with          -- YmdDash
  | some d => .ok d
  | none =>
  match chronoParseMdy input with          -- MdYDash
  | some d => .ok d
  | none =>
  match chronoParseYmd input with          -- YmdSlash (same spec)
  | some d => .ok d
  | none =>
  match chronoParseMdy input with          -- MdYSlash (same spec)
  | some d => .ok d
  | none =>
  match chronoParseYmd (renderInt currentYear ++ '-' :: input) with  -- MdDash
  | some d => .ok d
  | none =>
  match chronoParseYmd (renderInt currentYear ++ '-' :: input) with  -- MdSlash
  | some d => .ok d
  | none => .error (.parse ("Invalid date format: '" ++ String.mk input ++ "'."))

/-! ### `Arg` and its factories (`src/arg/args.rs`, `src/arg/arg_parser.rs`) -/

/-- Mirror of `arg/args.rs` `Arg` (the only `Flag` is `Help`). -/
inductive Arg where
  | flag
  | cardColor (c : CardColor)
  | cardColorId (n : Int)
  | int (n : Int)
  | atSymbol
  | bool (b : Bool)
  | daysOfWeek (ds : List DayOfWeek)
  | timeRange (tr : TimeRange)
  | date (d : Date)
  | name (s : String)
  | entityType (t : EntityType)
deriving DecidableEq, Repr

/-- `fmt_seq`: comma-space separated day list. -/
def renderDaysSeq : List DayOfWeek → Token
  | [] => []
  | [d] => dayStr d
  | d :: rest => dayStr d ++ ',' :: ' ' :: renderDaysSeq rest

/-- Mirror of `Display for Arg`. -/
def renderArg : Arg → Token
  | .flag => "-h".data
  | .cardColorId n => "+C".data ++ renderInt n
  | .cardColor c => colorStr c
  | .int n => renderInt n
  | .atSymbol => "@".data
  | .bool b => if b then "True".data else "False".data
  | .daysOfWeek ds => renderDaysSeq ds
  | .timeRange tr => renderTimeRange tr
  | .date d => renderDate d
  | .name s => '"' :: s.data ++ ['"']
  | .entityType t => entityTypeStr t

/-- Rust `str::split_whitespace` (accumulator holds the current word
reversed). -/
def splitWsGo (cur : Token) : Token → List Token
  | [] => if cur.isEmpty then [] else [cur.reverse]
  | c :: cs =>
    if c.isWhitespace then
      (if cur.isEmpty then [] else [cur.reverse]) ++ splitWsGo [] cs
    else splitWsGo (c :: cur) cs

/-- Rust `str::split_whitespace`. -/
def splitWs (t : Token) : List Token := splitWsGo [] t

/-- Mirror of `Arg::to_tokens`: split the rendering on whitespace unless
it is a quoted name. -/
def Arg.toTokens (a : Arg) : List Token :=
  let rendered := renderArg a
  if rendered.any Char.isWhitespace ∧ rendered.head? ≠ some '"' ∧
      rendered.head? ≠ some '\'' then
    splitWs rendered
  else [rendered]

/-- `NameArg::starts_sequence`. -/
def nameStartsSequence (t : Token) : Bool :=
  match t with
  | c :: _ => c = '\'' ∨ c = '"'
  | [] => false

/-- `NameArg::accepts`. -/
def nameAccepts (t : Token) : Bool :=
  if t.length < 2 then false
  else
    match t with
    | [] => false
    | c :: _ =>
      if ¬ (c = '\'' ∨ c = '"') then false
      else if t.getLast? ≠ some c then false
      else 2 < t.length

/-- `NameArg::new`. -/
def nameNew (t : Token) : Except Error Arg :=
  if nameAccepts t then .ok (.name (String.mk (t.drop 1).dropLast))
  else .error (.parse "Name must contain text wrapped in single or double quotes.")

/-- `DaysOfWeekArg::starts_sequence`. -/
def daysStartsSequence (t : Token) : Bool :=
  (dayTryFrom (trimEndCommas (trim t))).isSome

/-- `DaysOfWeekArg::accepts`. -/
def daysAccepts (t : Token) : Bool :=
  let segs := splitChar ',' t
  ¬ segs.isEmpty ∧
    segs.all fun seg => ¬ (trim seg).isEmpty ∧ (dayTryFrom (trim seg)).isSome

/-- `DaysOfWeekArg::new`. -/
def daysNew (t : Token) : Except Error Arg :=
  if daysAccepts t then
    match (splitChar ',' t).mapM (fun seg => dayTryFrom (trim seg)) with
    | some ds => .ok (.daysOfWeek ds)
    | none => .error (.parse ("Invalid list of days: '" ++ String.mk t ++ "'."))
  else .error (.parse ("Invalid list of days: '" ++ String.mk t ++ "'."))

/-- `EntityTypeArg::accepts`. -/
def entityTypeAccepts (t : Token) : Bool := (entityTypeTryFrom t).isSome

/-- `EntityTypeArg::new`. -/
def entityTypeNew (t : Token) : Except Error Arg :=
  match entityTypeTryFrom t with
  | some et => .ok (.entityType et)
  | none =>
    .error (.parse ("Unsupported entity type: '" ++ String.mk (trim t) ++
      "'. Valid entity types: task, event, card"))

/-- `AtSymbolArg::accepts`. -/
def atAccepts (t : Token) : Bool := t = "@".data

/-- `AtSymbolArg::new` (never fails). -/
def atNew (_ : Token) : Except Error Arg := .ok .atSymbol

/-- `CardColorArg::accepts`. -/
def cardColorAccepts (t : Token) : Bool := (colorTryFrom t).isSome

/-- `CardColorArg::new`. -/
def cardColorNew (t : Token) : Except Error Arg :=
  match colorTryFrom t with
  | some c => .ok (.cardColor c)
  | none => .error (.parse ("Invalid value for color: '" ++ String.mk (trim t) ++ "'."))

/-- `FlagArg::accepts`. -/
def flagAccepts (t : Token) : Bool := (flagTryFrom t).isSome

/-- `FlagArg::new`. -/
def flagNew (t : Token) : Except Error Arg :=
  match flagTryFrom t with
  | some _ => .ok .flag
  | none =>
    .error (.parse ("Invalid flag: " ++ String.mk t ++ ". Valid flags: -h"))

/-- `BoolArg::accepts`. -/
def boolAccepts (t : Token) : Bool :=
  match boolTryFromStr t with
  | .ok _ => true
  | .error _ => false

/-- `BoolArg::new`. -/
def boolNew (t : Token) : Except Error Arg :=
  match boolTryFromStr t with
  | .ok b => .ok (.bool b)
  | .error e => .error e

/-- `IntArg::accepts` (`all` is vacuously true on the empty token). -/
def intAccepts (t : Token) : Bool := t.all isAsciiDigit

/-- `IntArg::new`. -/
def intNew (t : Token) : Except Error Arg :=
  match parseI32 t with
  | some v => .ok (.int v)
  | none => .error (.parse ("Expected an integer, got '" ++ String.mk t ++ "'"))

/-- `TimeRangeArg::accepts`. -/
def timeRangeAccepts (t : Token) : Bool :=
  match timeRangeTryFromStr t with
  | .ok _ => true
  | .error _ => false

/-- `TimeRangeArg::new`. -/
def timeRangeNew (t : Token) : Except Error Arg :=
  match timeRangeTryFromStr t with
  | .ok tr => .ok (.timeRange tr)
  | .error e => .error e

/-- `DateArg::accepts`. -/
def dateAccepts (cy : Int) (t : Token) : Bool :=
  match dateTryFromStr cy t with
  | .ok _ => true
  | .error _ => false

/-- `DateArg::new`. -/
def dateNew (cy : Int) (t : Token) : Except Error Arg :=
  match dateTryFromStr cy t with
  | .ok d => .ok (.date d)
  | .error e => .error e

/-- `CardColorIdArg::accepts` (`+C` prefix then nonempty digits). -/
def cardColorIdAccepts (t : Token) : Bool :=
  match t with
  | '+' :: 'C' :: rest => ¬ rest.isEmpty ∧ rest.all isAsciiDigit
  | _ => false

/-- `CardColorIdArg::new`. -/
def cardColorIdNew (t : Token) : Except Error Arg :=
  if cardColorIdAccepts t then
    match parseI32 (t.drop 2) with
    | some n => .ok (.cardColorId n)
    | none =>
      .error (.parse ("Invalid number in '" ++ String.mk t ++
        "'. Expected an integer after +C."))
  else
    .error (.parse ("Invalid card color id: '" ++ String.mk t ++
      "'. Expected format '+C<number>' (e.g., +C3)."))

/-- `MultiTokenFactory::parse`: join tokens with single spaces until the
joined string is accepted or the stream is exhausted. -/
def multiTokenParse (accepts : Token → Bool) (mk : Token → Except Error Arg) :
    Token → List Token → Except Error (Arg × List Token)
  | joined, [] => (mk joined).map fun a => (a, [])
  | joined, t :: ts =>
    if accepts joined then (mk joined).map fun a => (a, t :: ts)
    else multiTokenParse accepts mk (joined ++ ' ' :: t) ts

/-- One iteration of `ArgParser::parse`: the factory registry in
construction order; the chosen factory consumes the peeked token (and,
for multi-token factories, possibly more). -/
def parseOneArg (cy : Int) (tok : Token) (rest : List Token) :
    Except Error (Arg × List Token) :=
  if nameStartsSequence tok then multiTokenParse nameAccepts nameNew tok rest
  else if entityTypeAccepts tok then (entityTypeNew tok).map fun a => (a, rest)
  else if atAccepts tok then (atNew tok).map fun a => (a, rest)
  else if cardColorAccepts tok then (cardColorNew tok).map fun a => (a, rest)
  else if flagAccepts tok then (flagNew tok).map fun a => (a, rest)
  else if boolAccepts tok then (boolNew tok).map fun a => (a, rest)
  else if intAccepts tok then (intNew tok).map fun a => (a, rest)
  else if daysStartsSequence tok then multiTokenParse daysAccepts daysNew tok rest
  else if timeRangeAccepts tok then (timeRangeNew tok).map fun a => (a, rest)
  else if dateAccepts cy tok then (dateNew cy tok).map fun a => (a, rest)
  else if cardColorIdAccepts tok then (cardColorIdNew tok).map fun a => (a, rest)
  else
    .error (.parse ("Unrecognized argument: '" ++ String.mk tok ++
      "'. If this is a name/title, wrap it in quotes."))

/-- The token loop of `ArgParser::parse`; every step consumes at least
one token, so the stream length bounds the fuel. -/
def argParserGo (cy : Int) : Nat → List Token → Except Error (List Arg)
  | _, [] => .ok []
  | 0, _ :: _ => .ok []
  | fuel + 1, tok :: rest =>
    match parseOneArg cy tok rest with
    | .error e => .error e
    | .ok (a, remaining) =>
      match argParserGo cy fuel remaining with
      | .error e => .error e
      | .ok args => .ok (a :: args)

/-- Mirror of `ArgParser::parse`. -/
def argParserParse (cy : Int) (raw : List Token) : Except Error (List Arg) :=
  argParserGo cy raw.length raw

/-! ### Concrete slots and patterns (`src/arg/arg_matcher.rs`,
`src/command/entity_spec/{common,task,event,card}.rs`) -/

/-- chrono `NaiveTime` `Debug` rendering (`HH:MM:SS`). -/
def debugTime (sec : Int) : Token :=
  let s := sec.toNat
  pad2 (s / 3600) ++ ':' :: pad2 ((s % 3600) / 60) ++ ':' :: pad2 (s % 60)

/-- Derived `Debug` variant names of `CardColor`. -/
def colorDebug : CardColor → Token
  | .red => "Red".data | .orange => "Orange".data | .yellow => "Yellow".data
  | .green => "Green".data | .lightBlue => "LightBlue".data
  | .blue => "Blue".data | .indigo => "Indigo".data | .violet => "Violet".data
  | .black => "Black".data | .lightGreen => "LightGreen".data
  | .lightCoral => "LightCoral".data

/-- Derived `Debug` variant names of `DayOfWeek`. -/
def dayDebug : DayOfWeek → Token
  | .mon => "Mon".data | .tue => "Tue".data | .wed => "Wed".data
  | .thu => "Thu".data | .fri => "Fri".data | .sat => "Sat".data
  | .sun => "Sun".data

/-- `Debug` list rendering `[a, b, c]`. -/
def debugDaysList : List DayOfWeek → Token
  | [] => []
  | [d] => dayDebug d
  | d :: rest => dayDebug d ++ ',' :: ' ' :: debugDaysList rest

/-- Rust `{:?}` (derived `Debug`) rendering of an `Arg`, used only inside
mismatch messages; the string content of a `Name` is rendered without
escape processing. -/
def argDebug : Arg → String
  | .flag => "Flag(Help)"
  | .cardColor c => "CardColor(" ++ String.mk (colorDebug c) ++ ")"
  | .cardColorId n => "CardColorId(" ++ String.mk (renderInt n) ++ ")"
  | .int n => "Int(" ++ String.mk (renderInt n) ++ ")"
  | .atSymbol => "AtSymbol"
  | .bool b => if b then "Bool(Bool(true))" else "Bool(Bool(false))"
  | .daysOfWeek ds => "DaysOfWeek([" ++ String.mk (debugDaysList ds) ++ "])"
  | .timeRange tr =>
    "TimeRange(TimeRange \x7b start: " ++ String.mk (debugTime tr.start) ++
      ", end: " ++ String.mk (debugTime tr.endTime) ++ " \x7d)"
  | .date d => "Date(Date(" ++ String.mk (renderDate d) ++ "))"
  | .name s => "Name(\"" ++ s ++ "\")"
  | .entityType .task => "EntityType(Task)"
  | .entityType .event => "EntityType(Event)"
  | .entityType .card => "EntityType(Card)"

/-- `ArgMatcher for NameArg` (`expected_error` uses `Display`). -/
def nameMatcher : Arg → Option String
  | .name _ => none
  | a => some ("Expected a quoted name, got " ++ String.mk (renderArg a))

/-- `ArgMatcher for IntArg`. -/
def intMatcher : Arg → Option String
  | .int _ => none
  | a => some ("Expected an integer, got " ++ argDebug a)

/-- `ArgMatcher for BoolArg`. -/
def boolMatcher : Arg → Option String
  | .bool _ => none
  | a => some ("Expected a boolean, got " ++ argDebug a ++
      ". Valid booleans: True, False")

/-- `ArgMatcher for FlagArg`. -/
def flagMatcher : Arg → Option String
  | .flag => none
  | a => some ("Expected a flag, got " ++ argDebug a ++ ". Valid flags: -h")

/-- `ArgMatcher for CardColorArg`. -/
def cardColorMatcher : Arg → Option String
  | .cardColor _ => none
  | a => some ("Expected a card color, got " ++ argDebug a ++
      ". Valid colors: RED, ORANGE, YELLOW, GREEN, LIGHT_BLUE, BLUE, INDIGO, VIOLET, BLACK, LIGHT_GREEN, LIGHT_CORAL")

/-- `ArgMatcher for CardColorIdArg`. -/
def cardColorIdMatcher : Arg → Option String
  | .cardColorId _ => none
  | a => some ("Expected a card color id in the format '+C<integer>', got " ++
      argDebug a ++ ".")

/-- `ArgMatcher for AtSymbolArg`. -/
def atMatcher : Arg → Option String
  | .atSymbol => none
  | a => some ("Expected an @ symbol, got " ++ argDebug a ++ ".")

/-- `ArgMatcher for DaysOfWeekArg`. -/
def daysMatcher : Arg → Option String
  | .daysOfWeek _ => none
  | a => some ("Expected a comma separated list of days in the week, got " ++
      argDebug a ++ ". Valid days: MON, TUE, WED, THU, FRI, SAT, SUN")

/-- `ArgMatcher for TimeRangeArg`. -/
def timeRangeMatcher : Arg → Option String
  | .timeRange _ => none
  | a => some ("Expected a time range in the format <start>-<end>, got " ++
      argDebug a ++ ". Supported time formats: %-I:%M%p, %-I%p, %-I:%M, %-I")

/-- `ArgMatcher for DateArg`. -/
def dateMatcher : Arg → Option String
  | .date _ => none
  | a => some ("Expected a valid date, got " ++ argDebug a ++
      ". Valid date formats: %Y-%m-%d, %m-%d-%Y, %Y/%m/%d, %m/%d/%Y, %m-%d, %m/%d")

/-- `ArgMatcher for EntityTypeArg`. -/
def entityTypeMatcher : Arg → Option String
  | .entityType _ => none
  | a => some ("Expected an entity type, got " ++ argDebug a ++
      ". Valid entity types task, event, card")

/-- `common.rs` `card_id_validator`. -/
def cardIdValidator (a : Arg) (st : AppState) : Option String :=
  match a with
  | .cardColorId id =>
    if st.cards.existsIncludingStaged id then none
    else some ("Card id " ++ String.mk (renderInt id) ++ " does not exist.")
  | _ => none

/-- `common.rs` `daily_hour_range_validator`. -/
def dailyHourRangeValidator (a : Arg) (st : AppState) : Option String :=
  match a with
  | .timeRange r =>
    if r.start < st.config.range.start ∨ st.config.range.endTime < r.endTime then
      some ("Event falls outside of daily hours range " ++
        String.mk (renderTimeRange st.config.range) ++ " from config")
    else none
  | _ => none

/-- `common.rs` `task_start_date_validator`. -/
def taskStartDateValidator (a : Arg) (st : AppState) : Option String :=
  match a with
  | .date d =>
    match st.config.schedule_start_date with
    | some start =>
      if dateLt d start then
        some ("Task due date " ++ String.mk (renderDate d) ++
          " cannot be before schedule start date " ++ String.mk (renderDate start) ++ ".")
      else none
    | none => none
  | _ => none

/-- `TaskArgSchema::hours_slot`'s validator. -/
def hoursValidator (a : Arg) (_ : AppState) : Option String :=
  match a with
  | .int h => if 0 < h then none else some "Hours must be greater than 0."
  | _ => some "Hours must be greater than 0."

/-- `common.rs` `id_slot`'s validator. -/
def idValidator (a : Arg) (_ : AppState) : Option String :=
  match a with
  | .int id => if 0 < id then none else some "ID must be greater than 0."
  | _ => some "ID must be greater than 0."

/-- `common.rs` `entity_slot`'s validator (the non-`EntityType` arm is
`unreachable!` in Rust: the kind was already checked). -/
def entityTypeValidator (expected : EntityType) (a : Arg) (_ : AppState) :
    Option String :=
  match a with
  | .entityType t =>
    if t = expected then none
    else some ("Wrong entity type: expected " ++ String.mk (entityTypeStr expected) ++
      ", got " ++ String.mk (entityTypeStr t))
  | _ => some "kind already checked by ArgMatcher"

/-- `ArgSlot::is_of_arg_type` without decoration. -/
def plainSlot (m : Arg → Option String) : ArgSlot Arg AppState := ⟨m, none, false⟩

/-- `common.rs` `id_slot`. -/
def idSlot : ArgSlot Arg AppState := ⟨intMatcher, some idValidator, false⟩

/-- `common.rs` `entity_slot`. -/
def entitySlot (expected : EntityType) : ArgSlot Arg AppState :=
  ⟨entityTypeMatcher, some (entityTypeValidator expected), false⟩

/-- `TaskArgSchema::hours_slot`. -/
def hoursSlot : ArgSlot Arg AppState := ⟨intMatcher, some hoursValidator, false⟩

/-- `TaskArgSchema::pattern_base`. -/
def taskPatternBase : List (ArgSlot Arg AppState) :=
  [plainSlot nameMatcher, hoursSlot,
   ⟨cardColorIdMatcher, some cardIdValidator, true⟩,
   plainSlot atMatcher,
   ⟨dateMatcher, some taskStartDateValidator, false⟩]

/-- `TaskArgSchema::pattern_entity_id`. -/
def taskPatternEntityId : List (ArgSlot Arg AppState) :=
  [entitySlot .task, idSlot]

/-- `TaskArgSchema::pattern_entity_first`. -/
def taskPatternEntityFirst : List (ArgSlot Arg AppState) :=
  taskPatternEntityId ++ taskPatternBase

/-- `EventArgSchema::pattern_base`. -/
def eventPatternBase : List (ArgSlot Arg AppState) :=
  [plainSlot boolMatcher, plainSlot nameMatcher,
   ⟨cardColorIdMatcher, some cardIdValidator, true⟩,
   plainSlot atMatcher,
   ⟨daysMatcher, none, true⟩,
   ⟨timeRangeMatcher, some dailyHourRangeValidator, false⟩]

/-- `EventArgSchema::pattern_entity_id`. -/
def eventPatternEntityId : List (ArgSlot Arg AppState) :=
  [entitySlot .event, idSlot]

/-- `EventArgSchema::pattern_entity_first`. -/
def eventPatternEntityFirst : List (ArgSlot Arg AppState) :=
  eventPatternEntityId ++ eventPatternBase

/-- `CardArgSchema::pattern_base`. -/
def cardPatternBase : List (ArgSlot Arg AppState) :=
  [plainSlot nameMatcher, plainSlot cardColorMatcher]

/-- `CardArgSchema::pattern_entity_id`. -/
def cardPatternEntityId : List (ArgSlot Arg AppState) :=
  [entitySlot .card, idSlot]

/-- `CardArgSchema::pattern_entity_first`. -/
def cardPatternEntityFirst : List (ArgSlot Arg AppState) :=
  cardPatternEntityId ++ cardPatternBase

/-- `TaskPat::Base` usage text (`Display for TaskPat`). -/
def taskBaseUsage : String :=
  "task \"<name>\" <hours> [cardId] @ <date>\nRequired:\n  name  - (string) Name of task, wrapped in single or double quotes\n  hours - (int)    Number of hours to complete the task\n  date  - (Date)   Due date to complete the task by. Run 'date -h' to see valid formats for date\nOptional:\n  cardId - (integer) Id referencing a Card for its tag and color. Must prefix with '+C'"

/-- `TaskPat::EntityFirst` usage text. -/
def taskEntityFirstUsage : String :=
  "task <id> \"<name>\" <hours> [cardId] @ <date>\nRequired:\n  id    - (int)    id of task\n  name  - (string) Name of task, wrapped in single or double quotes\n  hours - (int)    Number of hours to complete the task\n  date  - (Date)   Due date to complete the task by. Run 'date -h' to see valid formats for date\nOptional:\n  cardId - (integer) Id referencing a Card for its tag and color. Must prefix with '+C'"

/-- `TaskPat::EntityId` usage text. -/
def taskEntityIdUsage : String :=
  "task <id>\nRequired:\n  id    - (int)    id of task"

/-- `EventPat::Base` usage text. -/
def eventBaseUsage : String :=
  "event <bool> \"<name>\" [cardId] @ [days of week] <time range>\nRequired:\n  bool         - (bool)      Whether the event is recurring (true/false)\n  name         - (string)    Name of event, wrapped in single or double quotes\n  time range   - (TimeRange) Start & end time of the event. Run 'time -h' to see valid time formats for start/end.\nOptional:\n  cardId       - (integer)   Id referencing a Card for its tag and color. Must prefix with '+C'\n  days of week - (DayOfWeek) Comma separated list of one or more days of the week"

/-- `EventPat::EntityFirst` usage text. -/
def eventEntityFirstUsage : String :=
  "event <id> <bool> \"<name>\" [cardId] @ <days of week> <time range>\nRequired:\n  id           - (int)       id of event\n  bool         - (bool)      Whether the event is recurring (true/false)\n  name         - (string)    Name of event, wrapped in single or double quotes\n  time range   - (TimeRange) Start & end time of the event. Run 'time -h' to see valid time formats for start/end\nOptional:\n  cardId       - (integer) Id referencing a Card for its tag and color. Must prefix with '+C'\n  days of week - (DayOfWeek) Comma separated list of one or more days of the week"

/-- `EventPat::EntityId` usage text. -/
def eventEntityIdUsage : String :=
  "event <id>\nRequired:\n  id    - (int)    id of event"

/-- `CardPat::Base` usage text. -/
def cardBaseUsage : String :=
  "card \"<name>\" <color>\nRequired:\n  name  - (string)    Name of card, wrapped in single or double quotes\n  color - (CardColor) Valid card color. Run 'colors -h' to see valid card colors."

/-- `CardPat::EntityFirst` usage text. -/
def cardEntityFirstUsage : String :=
  "card <id> \"<name>\" <color>\nRequired:\n  id    - (int)       id of card\n  name  - (string)    Name of card, wrapped in single or double quotes\n  color - (CardColor) Valid card color. Run 'colors -h' to see valid card colors"

/-- `CardPat::EntityId` usage text. -/
def cardEntityIdUsage : String :=
  "card <id>\nRequired:\n  id    - (int)       id of card"

/-- `TaskArgSchema::patterns_for(Add)`. -/
def taskAddChoices : List (PatternChoice Arg AppState) :=
  [⟨taskBaseUsage, taskPatternBase⟩]

/-- `TaskArgSchema::patterns_for(Modify)`. -/
def taskModifyChoices : List (PatternChoice Arg AppState) :=
  [⟨taskEntityFirstUsage, taskPatternEntityFirst⟩]

/-- `TaskArgSchema::patterns_for(Delete)`. -/
def taskDeleteChoices : List (PatternChoice Arg AppState) :=
  [⟨taskEntityIdUsage, taskPatternEntityId⟩]

/-- `EventArgSchema::patterns_for(Add)`. -/
def eventAddChoices : List (PatternChoice Arg AppState) :=
  [⟨eventBaseUsage, eventPatternBase⟩]

/-- `EventArgSchema::patterns_for(Modify)`. -/
def eventModifyChoices : List (PatternChoice Arg AppState) :=
  [⟨eventEntityFirstUsage, eventPatternEntityFirst⟩]

/-- `EventArgSchema::patterns_for(Delete)`. -/
def eventDeleteChoices : List (PatternChoice Arg AppState) :=
  [⟨eventEntityIdUsage, eventPatternEntityId⟩]

/-- `CardArgSchema::patterns_for(Add)`. -/
def cardAddChoices : List (PatternChoice Arg AppState) :=
  [⟨cardBaseUsage, cardPatternBase⟩]

/-- `CardArgSchema::patterns_for(Modify)`. -/
def cardModifyChoices : List (PatternChoice Arg AppState) :=
  [⟨cardEntityFirstUsage, cardPatternEntityFirst⟩]

/-- `CardArgSchema::patterns_for(Delete)`. -/
def cardDeleteChoices : List (PatternChoice Arg AppState) :=
  [⟨cardEntityIdUsage, cardPatternEntityId⟩]

/-! ### Column indexer (`src/command/entity_spec/core.rs`) -/

/-- Mirror of `ColumnIndexer` over the generic slot type. -/
structure ColumnIndexer (A C : Type) where
  args : List A
  slots : List (ArgSlot A C)
  arg_idx : Nat
  slot_idx : Nat

/-- The loop of `ColumnIndexer::advance_once`; every iteration advances
`slot_idx`, so the slot count bounds the fuel. -/
def ColumnIndexer.advanceGo {A C : Type} : Nat → ColumnIndexer A C → ColumnIndexer A C
  | 0, ix => ix
  | fuel + 1, ix =>
    match ix.slots.get? ix.slot_idx with
    | none => ix
    | some slot =>
      match ix.args.get? ix.arg_idx with
      | none => { ix with slot_idx := ix.slot_idx + 1 }
      | some a =>
        if (slot.matcher a).isNone then
          { ix with slot_idx := ix.slot_idx + 1, arg_idx := ix.arg_idx + 1 }
        else if slot.optional then
          ColumnIndexer.advanceGo fuel { ix with slot_idx := ix.slot_idx + 1 }
        else { ix with slot_idx := ix.slot_idx + 1 }

/-- Mirror of `ColumnIndexer::advance`. -/
def ColumnIndexer.advance {A C : Type} (ix : ColumnIndexer A C) : ColumnIndexer A C :=
  ColumnIndexer.advanceGo (ix.slots.length + 1) ix

/-- Mirror of `ColumnIndexer::advance_times`. -/
def ColumnIndexer.advanceTimes {A C : Type} (ix : ColumnIndexer A C) :
    Nat → ColumnIndexer A C
  | 0 => ix
  | n + 1 => (ix.advance).advanceTimes n

/-- The loop of `ColumnIndexer::next_opt`: the extracted value together
with the updated indexer (`None` leaves the cursor where the loop broke). -/
def ColumnIndexer.nextOptGo {A C β : Type} (ext : A → Option β) :
    Nat → ColumnIndexer A C → Option β × ColumnIndexer A C
  | 0, ix => (none, ix)
  | fuel + 1, ix =>
    match ix.slots.get? ix.slot_idx with
    | none => (none, ix)
    | some slot =>
      match ix.args.get? ix.arg_idx with
      | none =>
        if slot.optional then
          ColumnIndexer.nextOptGo ext fuel { ix with slot_idx := ix.slot_idx + 1 }
        else (none, ix)
      | some a =>
        match ext a with
        | some v =>
          (some v, { ix with slot_idx := ix.slot_idx + 1, arg_idx := ix.arg_idx + 1 })
        | none =>
          if slot.optional then
            ColumnIndexer.nextOptGo ext fuel { ix with slot_idx := ix.slot_idx + 1 }
          else (none, ix)

/-- Mirror of `ColumnIndexer::next_opt`. -/
def ColumnIndexer.nextOpt {A C β : Type} (ix : ColumnIndexer A C)
    (ext : A → Option β) : Option β × ColumnIndexer A C :=
  ColumnIndexer.nextOptGo ext (ix.slots.length + 1) ix

/-- The loop of `ColumnIndexer::advance_until_arg` (may also advance the
argument cursor past non-matching required columns). -/
def ColumnIndexer.advanceUntilArgGo {A C β : Type} (ext : A → Option β) :
    Nat → ColumnIndexer A C → Option β × ColumnIndexer A C
  | 0, ix => (none, ix)
  | fuel + 1, ix =>
    match ix.slots.get? ix.slot_idx with
    | none => (none, ix)
    | some slot =>
      match ix.args.get? ix.arg_idx with
      | none =>
        if slot.optional then
          ColumnIndexer.advanceUntilArgGo ext fuel { ix with slot_idx := ix.slot_idx + 1 }
        else (none, ix)
      | some a =>
        match ext a with
        | some v =>
          (some v, { ix with slot_idx := ix.slot_idx + 1, arg_idx := ix.arg_idx + 1 })
        | none =>
          if slot.optional then
            ColumnIndexer.advanceUntilArgGo ext fuel { ix with slot_idx := ix.slot_idx + 1 }
          else
            ColumnIndexer.advanceUntilArgGo ext fuel
              { ix with slot_idx := ix.slot_idx + 1, arg_idx := ix.arg_idx + 1 }

/-- Mirror of `ColumnIndexer::advance_until_arg`. -/
def ColumnIndexer.advanceUntilArg {A C β : Type} (ix : ColumnIndexer A C)
    (ext : A → Option β) : Option β × ColumnIndexer A C :=
  ColumnIndexer.advanceUntilArgGo ext (ix.slots.length + 1) ix

/-- `ArgExtractor for NameArg`. -/
def nameExtract : Arg → Option String
  | .name s => some s
  | _ => none

/-- `ArgExtractor for IntArg`. -/
def intExtract : Arg → Option Int
  | .int v => some v
  | _ => none

/-- `ArgExtractor for CardColorIdArg`. -/
def ccidExtract : Arg → Option Int
  | .cardColorId v => some v
  | _ => none

/-- `ArgExtractor for DateArg`. -/
def dateExtract : Arg → Option Date
  | .date d => some d
  | _ => none

/-- `ArgExtractor for TimeRangeArg`. -/
def trExtract : Arg → Option TimeRange
  | .timeRange tr => some tr
  | _ => none

/-- `ArgExtractor for DaysOfWeekArg`. -/
def daysExtract : Arg → Option (List DayOfWeek)
  | .daysOfWeek ds => some ds
  | _ => none

/-- `ArgExtractor for BoolArg`. -/
def boolExtract : Arg → Option Bool
  | .bool b => some b
  | _ => none

/-- `ArgExtractor for CardColorArg`. -/
def colorExtract : Arg → Option CardColor
  | .cardColor c => some c
  | _ => none

/-! ### Entity builders and specs
(`src/command/entity_spec/{task,event,card}.rs`) -/

/-- Mirror of `Card::modify`. -/
def Card.modify (c : Card) (name : String) (color : CardColor) : Card :=
  { c with name := name, color := color }

/-- Mirror of `Event::modify`. -/
def Event.modify (e : Event) (recurring : Bool) (name : String)
    (card_id : Option Int) (days : List DayOfWeek) (time_range : TimeRange) :
    Event :=
  { e with recurring := recurring, name := name, days := days
           time_range := time_range, card_id := card_id }

/-- Mirror of `common.rs` `default_days_for` (`wd` is today's weekday). -/
def defaultDaysFor (recurring : Bool) (wd : DayOfWeek) : List DayOfWeek :=
  if recurring then [.mon, .tue, .wed, .thu, .fri, .sat, .sun] else [wd]

/-- Mirror of `TaskBuilder::create` for `TaskPat::Base`.  The
`ColumnIndexer::next` panic on a missing required column is modelled as
a parse error (the pattern walk makes it unreachable). -/
def taskBuildBase (args : List Arg) : Except Error Task :=
  let ix : ColumnIndexer Arg AppState := ⟨args, taskPatternBase, 0, 0⟩
  match ix.nextOpt nameExtract with
  | (none, _) => .error (.parse "pattern matched; required slot must be present")
  | (some name, ix) =>
    match ix.nextOpt intExtract with
    | (none, _) => .error (.parse "pattern matched; required slot must be present")
    | (some hours, ix) =>
      let (card_id, ix) := ix.nextOpt ccidExtract
      match (ix.advance).nextOpt dateExtract with
      | (none, _) => .error (.parse "pattern matched; required slot must be present")
      | (some date, _) => .ok (Task.new name (hours : ℚ) card_id date)

/-- Mirror of `TaskBuilder::modify` for `TaskPat::EntityFirst`. -/
def taskBuildModify (existing : Task) (args : List Arg) : Except Error Task :=
  let ix : ColumnIndexer Arg AppState := ⟨args, taskPatternEntityFirst, 0, 0⟩
  let ix := (ix.advance).advance
  match ix.nextOpt nameExtract with
  | (none, _) => .error (.parse "pattern matched; required slot must be present")
  | (some name, ix) =>
    match ix.nextOpt intExtract with
    | (none, _) => .error (.parse "pattern matched; required slot must be present")
    | (some hours, ix) =>
      let (card_id, ix) := ix.nextOpt ccidExtract
      match (ix.advance).nextOpt dateExtract with
      | (none, _) => .error (.parse "pattern matched; required slot must be present")
      | (some date, _) => .ok (existing.modify name (hours : ℚ) card_id date)

/-- Mirror of `EventBuilder::create` for `EventPat::Base`. -/
def eventBuildBase (wd : DayOfWeek) (args : List Arg) : Except Error Event :=
  let ix : ColumnIndexer Arg AppState := ⟨args, eventPatternBase, 0, 0⟩
  match ix.nextOpt boolExtract with
  | (none, _) => .error (.parse "pattern matched; required slot must be present")
  | (some recurring, ix) =>
    match ix.nextOpt nameExtract with
    | (none, _) => .error (.parse "pattern matched; required slot must be present")
    | (some name, ix) =>
      let (card_id, ix) := ix.nextOpt ccidExtract
      let ix := ix.advance
      let (days, ix) := ix.nextOpt daysExtract
      let days := days.getD (defaultDaysFor recurring wd)
      match ix.nextOpt trExtract with
      | (none, _) => .error (.parse "pattern matched; required slot must be present")
      | (some tr, _) => .ok (Event.new recurring name card_id days tr)

/-- Mirror of `EventBuilder::modify` for `EventPat::EntityFirst`. -/
def eventBuildModify (wd : DayOfWeek) (existing : Event) (args : List Arg) :
    Except Error Event :=
  let ix : ColumnIndexer Arg AppState := ⟨args, eventPatternEntityFirst, 0, 0⟩
  match (ix.advanceTimes 2).nextOpt boolExtract with
  | (none, _) => .error (.parse "pattern matched; required slot must be present")
  | (some recurring, ix) =>
    match ix.nextOpt nameExtract with
    | (none, _) => .error (.parse "pattern matched; required slot must be present")
    | (some name, ix) =>
      let (card_id, ix) := ix.nextOpt ccidExtract
      let ix := ix.advance
      let (days, ix) := ix.nextOpt daysExtract
      let days := days.getD (defaultDaysFor recurring wd)
      match ix.nextOpt trExtract with
      | (none, _) => .error (.parse "pattern matched; required slot must be present")
      | (some tr, _) => .ok (existing.modify recurring name card_id days tr)

/-- Mirror of `CardBuilder::create` for `CardPat::Base`. -/
def cardBuildBase (args : List Arg) : Except Error Card :=
  let ix : ColumnIndexer Arg AppState := ⟨args, cardPatternBase, 0, 0⟩
  match ix.nextOpt nameExtract with
  | (none, _) => .error (.parse "pattern matched; required slot must be present")
  | (some name, ix) =>
    match ix.nextOpt colorExtract with
    | (none, _) => .error (.parse "pattern matched; required slot must be present")
    | (some color, _) => .ok (Card.new name color)

/-- Mirror of `CardBuilder::modify` for `CardPat::EntityFirst`. -/
def cardBuildModify (existing : Card) (args : List Arg) : Except Error Card :=
  let ix : ColumnIndexer Arg AppState := ⟨args, cardPatternEntityFirst, 0, 0⟩
  match (ix.advanceTimes 2).nextOpt nameExtract with
  | (none, _) => .error (.parse "pattern matched; required slot must be present")
  | (some name, ix) =>
    match ix.nextOpt colorExtract with
    | (none, _) => .error (.parse "pattern matched; required slot must be present")
    | (some color, _) => .ok (existing.modify name color)

/-- Mirror of `common.rs` `validate_event_recurring_days` for
`EventPat::Base`. -/
def validateEventRecurringDaysBase (args : List Arg) : Except Error Unit :=
  let ix : ColumnIndexer Arg AppState := ⟨args, eventPatternBase, 0, 0⟩
  match ix.nextOpt boolExtract with
  | (none, _) => .error (.parse "pattern matched; required slot must be present")
  | (some recurring, ix) =>
    match ix.advanceUntilArg daysExtract with
    | (none, _) => .ok ()
    | (some days, _) =>
      if ¬ recurring ∧ days.length ≠ 1 then
        .error (.parse "Non-recurring events must have exactly one day.")
      else .ok ()

/-- Mirror of `validate_event_recurring_days` for `EventPat::EntityFirst`. -/
def validateEventRecurringDaysEntityFirst (args : List Arg) : Except Error Unit :=
  let ix : ColumnIndexer Arg AppState := ⟨args, eventPatternEntityFirst, 0, 0⟩
  match (ix.advanceTimes 2).nextOpt boolExtract with
  | (none, _) => .error (.parse "pattern matched; required slot must be present")
  | (some recurring, ix) =>
    match ix.advanceUntilArg daysExtract with
    | (none, _) => .ok ()
    | (some days, _) =>
      if ¬ recurring ∧ days.length ≠ 1 then
        .error (.parse "Non-recurring events must have exactly one day.")
      else .ok ()

/-- Mirror of `EntitySpec::create` for `TaskSpec` (`Add` has the single
pattern `Base` and `TaskArgValidator::validate` is `Ok`; the `Add`
action displays as the empty string). -/
def taskSpecCreate (st : AppState) (args : List Arg) : Except Error Task :=
  match assertMatchesPattern st "" taskAddChoices args with
  | .error e => .error e
  | .ok _ => taskBuildBase args

/-- Mirror of `EntitySpec::create` for `EventSpec`. -/
def eventSpecCreate (wd : DayOfWeek) (st : AppState) (args : List Arg) :
    Except Error Event :=
  match assertMatchesPattern st "" eventAddChoices args with
  | .error e => .error e
  | .ok _ =>
    match validateEventRecurringDaysBase args with
    | .error e => .error e
    | .ok () => eventBuildBase wd args

/-- Mirror of `EntitySpec::create` for `CardSpec`. -/
def cardSpecCreate (st : AppState) (args : List Arg) : Except Error Card :=
  match assertMatchesPattern st "" cardAddChoices args with
  | .error e => .error e
  | .ok _ => cardBuildBase args

/-- Mirror of `EntitySpec::modify` for `TaskSpec` (`get_mut` then the
in-place builder mutation). -/
def taskSpecModify (st : AppState) (args : List Arg) (id : Int) :
    AppState × Except Error Unit :=
  match assertMatchesPattern st "mod" taskModifyChoices args with
  | .error e => (st, .error e)
  | .ok _ =>
    match mapGet st.tasks.items id with
    | none => (st, .error (.parse s!"Entity with id {id} not found."))
    | some existing =>
      match taskBuildModify existing args with
      | .error e => (st, .error e)
      | .ok t =>
        ({ st with tasks := { st.tasks with items := mapInsert st.tasks.items id t } },
         .ok ())

/-- Mirror of `EntitySpec::modify` for `EventSpec`. -/
def eventSpecModify (wd : DayOfWeek) (st : AppState) (args : List Arg) (id : Int) :
    AppState × Except Error Unit :=
  match assertMatchesPattern st "mod" eventModifyChoices args with
  | .error e => (st, .error e)
  | .ok _ =>
    match validateEventRecurringDaysEntityFirst args with
    | .error e => (st, .error e)
    | .ok () =>
      match mapGet st.events.items id with
      | none => (st, .error (.parse s!"Entity with id {id} not found."))
      | some existing =>
        match eventBuildModify wd existing args with
        | .error e => (st, .error e)
        | .ok ev =>
          ({ st with events := { st.events with items := mapInsert st.events.items id ev } },
           .ok ())

/-- Mirror of `EntitySpec::modify` for `CardSpec`. -/
def cardSpecModify (st : AppState) (args : List Arg) (id : Int) :
    AppState × Except Error Unit :=
  match assertMatchesPattern st "mod" cardModifyChoices args with
  | .error e => (st, .error e)
  | .ok _ =>
    match mapGet st.cards.items id with
    | none => (st, .error (.parse s!"Entity with id {id} not found."))
    | some existing =>
      match cardBuildModify existing args with
      | .error e => (st, .error e)
      | .ok c =>
        ({ st with cards := { st.cards with items := mapInsert st.cards.items id c } },
         .ok ())

/-- Mirror of `EntitySpec::can_delete` for `TaskSpec` (the per-entity
`validate` is `Ok` on the `EntityId` pattern for all three specs). -/
def taskCanDelete (st : AppState) (args : List Arg) : Except Error Unit :=
  match assertMatchesPattern st "del" taskDeleteChoices args with
  | .error e => .error e
  | .ok _ => .ok ()

/-- Mirror of `EntitySpec::can_delete` for `EventSpec`. -/
def eventCanDelete (st : AppState) (args : List Arg) : Except Error Unit :=
  match assertMatchesPattern st "del" eventDeleteChoices args with
  | .error e => .error e
  | .ok _ => .ok ()

/-- Mirror of `EntitySpec::can_delete` for `CardSpec`. -/
def cardCanDelete (st : AppState) (args : List Arg) : Except Error Unit :=
  match assertMatchesPattern st "del" cardDeleteChoices args with
  | .error e => .error e
  | .ok _ => .ok ()

/-! ### Entity commands (`src/command/commands.rs`,
`src/command/policies/flag_policy.rs`) -/

/-- Mirror of `HelpAtIdx(i)` under `FlagPolicy::evaluate`: short-circuit
exactly when the argument at index `i` is the help flag. -/
def helpAtIdx (i : Nat) (args : List Arg) : Bool :=
  args.get? i = some Arg.flag

/-- Mirror of `EntityCommand::handle_add`; the empty-argument branch
only displays the entities. -/
def handleAdd (et : EntityType) (args : List Arg) (wd : DayOfWeek)
    (st : AppState) : AppState × Except Error Unit :=
  if args.isEmpty then (st, .ok ())
  else
    match et with
    | .task =>
      match taskSpecCreate st args with
      | .error e => (st, .error e)
      | .ok t => ({ st with tasks := (st.tasks.insert t).1 }, .ok ())
    | .event =>
      match eventSpecCreate wd st args with
      | .error e => (st, .error e)
      | .ok ev => ({ st with events := (st.events.insert ev).1 }, .ok ())
    | .card =>
      match cardSpecCreate st args with
      | .error e => (st, .error e)
      | .ok c => ({ st with cards := (st.cards.insert c).1 }, .ok ())

/-- Mirror of `EntityCommand::handle_modify`; `extract_at::<IntArg>` on a
non-integer argument is an `unreachable!` panic in Rust, modelled as an
error. -/
def handleModify (et : EntityType) (args : List Arg) (wd : DayOfWeek)
    (st : AppState) : AppState × Except Error Unit :=
  match args.get? 1 with
  | some (.int id) =>
    (match et with
     | .task => taskSpecModify st args id
     | .event => eventSpecModify wd st args id
     | .card => cardSpecModify st args id)
  | _ => (st, .error (.parse "unreachable: expected an integer argument at index 1"))

/-- Mirror of `EntityCommand::handle_delete`. -/
def handleDelete (et : EntityType) (args : List Arg) (st : AppState) :
    AppState × Except Error Unit :=
  match et with
  | .task =>
    match taskCanDelete st args with
    | .error e => (st, .error e)
    | .ok () =>
      match args.get? 1 with
      | some (.int id) =>
        (match st.tasks.delete id with
         | .error e => (st, .error e)
         | .ok (r, _) => ({ st with tasks := r }, .ok ()))
      | _ => (st, .error (.parse "unreachable: expected an integer argument at index 1"))
  | .event =>
    match eventCanDelete st args with
    | .error e => (st, .error e)
    | .ok () =>
      match args.get? 1 with
      | some (.int id) =>
        (match st.events.delete id with
         | .error e => (st, .error e)
         | .ok (r, _) => ({ st with events := r }, .ok ()))
      | _ => (st, .error (.parse "unreachable: expected an integer argument at index 1"))
  | .card =>
    match cardCanDelete st args with
    | .error e => (st, .error e)
    | .ok () =>
      match args.get? 1 with
      | some (.int id) =>
        (match st.cards.delete id with
         | .error e => (st, .error e)
         | .ok (r, _) => ({ st with cards := r }, .ok ()))
      | _ => (st, .error (.parse "unreachable: expected an integer argument at index 1"))

/-- Mirror of `EntityCommand::new` + `Command::execute`: the help flag at
the action's index short-circuits (printing only), otherwise `perform`
dispatches on the action. -/
def execEntityCommand (action : EntityActionType) (et : EntityType)
    (args : List Arg) (wd : DayOfWeek) (st : AppState) :
    AppState × Except Error Unit :=
  let help_idx : Nat := match action with | .add => 0 | .modify => 1 | .delete => 1
  if helpAtIdx help_idx args then (st, .ok ())
  else
    match action with
    | .add => handleAdd et args wd st
    | .modify => handleModify et args wd st
    | .delete => handleDelete et args st

/-- Mirror of `EntityActionResolver::resolve` for a `mod`/`del` line: the
entity type is taken from the first argument, and fewer than two
arguments fail before execution. -/
def execEntityActionLine (action : EntityActionType) (args : List Arg)
    (wd : DayOfWeek) (st : AppState) : AppState × Except Error Unit :=
  match args.head? with
  | some (.entityType et) =>
    if args.length < 2 then (st, .error (.parse "Missing argument(s)."))
    else execEntityCommand action et args wd st
  | _ =>
    (st, .error (.parse
      "Expected entity type as first argument. Valid entity types: task, event, card"))

/-! ### Save codec (`src/core/persist.rs`, `src/arg/arg_emitter.rs`) -/

/-- Mirror of `persist.rs` `SaveFile` (each entity is a token row). -/
structure SaveFile where
  cards : List (List Token)
  events : List (List Token)
  tasks : List (List Token)
deriving DecidableEq, Repr

/-- `Repository::values(Sort::IdAsc)`: the stored values stably sorted
by id. -/
def Repository.valuesIdAsc {α : Type} [BaseEntity α] (r : Repository α) :
    List α :=
  stableSortBy (fun a b => decide (BaseEntity.eid a ≤ BaseEntity.eid b))
    r.valuesUnordered

/-- Saturating `as i32` cast of the rounded hours
(`task.hours.round() as i32`). -/
def i32SatOfRat (q : ℚ) : Int :=
  max (-2147483648) (min 2147483647 (ratRound q))

/-- Mirror of `CardArgEmitter::fill_args`. -/
def cardEmitArgs (c : Card) : List Arg := [.name c.name, .cardColor c.color]

/-- Mirror of `TaskArgEmitter::fill_args` under `SaveEmitContext`
(`lookup` is the saved-id map built from the cards). -/
def taskEmitArgs (lookup : List (Int × Int)) (t : Task) :
    Except Error (List Arg) :=
  match t.card_id with
  | some cid =>
    (match mapGet lookup cid with
     | some mapped =>
       .ok [.name t.name, .int (i32SatOfRat t.hours), .cardColorId mapped,
            .atSymbol, .date t.date]
     | none =>
       .error (.parse ("Reference to missing card id " ++
         String.mk (renderInt cid) ++ " when building save file.")))
  | none =>
    .ok [.name t.name, .int (i32SatOfRat t.hours), .atSymbol, .date t.date]

/-- Mirror of `EventArgEmitter::fill_args` under `SaveEmitContext`. -/
def eventEmitArgs (lookup : List (Int × Int)) (e : Event) :
    Except Error (List Arg) :=
  let tail := (if e.days.isEmpty then [] else [Arg.daysOfWeek e.days]) ++
    [Arg.timeRange e.time_range]
  match e.card_id with
  | some cid =>
    (match mapGet lookup cid with
     | some mapped =>
       .ok ([.bool e.recurring, .name e.name, .cardColorId mapped, .atSymbol] ++ tail)
     | none =>
       .error (.parse ("Reference to missing card id " ++
         String.mk (renderInt cid) ++ " when building save file.")))
  | none => .ok ([.bool e.recurring, .name e.name, .atSymbol] ++ tail)

/-- Mirror of `persist.rs` `args_to_tokens`. -/
def argsToTokens (args : List Arg) : List Token := args.flatMap Arg.toTokens

/-- Mirror of `serialize_cards_for_save`: one token row per card in
id-ascending order, and the id lookup `card.id ↦ position + 1`. -/
def serializeCardsForSave (cards : List Card) :
    List (List Token) × List (Int × Int) :=
  (cards.map fun c => argsToTokens (cardEmitArgs c),
   cards.enum.map fun p => (p.2.id, (p.1 : Int) + 1))

/-- Mirror of `build_save_file`. -/
def buildSaveFile (st : AppState) : Except Error SaveFile :=
  let cardsSorted := st.cards.valuesIdAsc
  let (cardTokens, lookup) := serializeCardsForSave cardsSorted
  match (st.events.valuesIdAsc).mapM
      (fun e => (eventEmitArgs lookup e).map argsToTokens) with
  | .error e => .error e
  | .ok eventTokens =>
    match (st.tasks.valuesIdAsc).mapM
        (fun t => (taskEmitArgs lookup t).map argsToTokens) with
    | .error e => .error e
    | .ok taskTokens => .ok ⟨cardTokens, eventTokens, taskTokens⟩

/-- The closure body of `CommandQueue::execute`: run each queued add
command in order, stopping at the first error. -/
def execQueueOps (ops : List (EntityType × List Arg)) (wd : DayOfWeek)
    (st : AppState) : AppState × Except Error Unit :=
  match ops with
  | [] => (st, .ok ())
  | (et, args) :: rest =>
    match execEntityCommand .add et args wd st with
    | (st, .ok ()) => execQueueOps rest wd st
    | (st, .error e) => (st, .error e)

/-- Mirror of `persist.rs` `load_state`: parse each token row into typed
arguments, queue `card`/`event`/`task` add commands (which the
`CommandParser` resolves through `AddEntityResolver`), then execute the
queue inside one clearing transaction.  `cy`/`wd` stand for
`Local::now()`'s year and weekday. -/
def loadState (st : AppState) (sf : SaveFile) (cy : Int) (wd : DayOfWeek) :
    AppState × Except Error Unit :=
  match sf.cards.mapM (argParserParse cy) with
  | .error e => (st, .error e)
  | .ok cardArgs =>
    match sf.events.mapM (argParserParse cy) with
    | .error e => (st, .error e)
    | .ok eventArgs =>
      match sf.tasks.mapM (argParserParse cy) with
      | .error e => (st, .error e)
      | .ok taskArgs =>
        let ops := cardArgs.map (fun a => (EntityType.card, a)) ++
          eventArgs.map (fun a => (EntityType.event, a)) ++
          taskArgs.map (fun a => (EntityType.task, a))
        Transaction.run st true (execQueueOps ops wd)

/-- One dispatched command line that can touch the repositories.  The
global commands `log`, `man`, `save`, `config` and the type-help
commands leave the three repositories unchanged and are omitted;
`today`, `wd` and `cy` stand for `Local::now()`. -/
inductive Cmd where
  | addEntity (et : EntityType) (args : List Arg) (wd : DayOfWeek)
  | modEntity (args : List Arg) (wd : DayOfWeek)
  | delEntity (args : List Arg) (wd : DayOfWeek)
  | schedule (today : Date)
  | load (sf : SaveFile) (cy : Int) (wd : DayOfWeek)

/-- The dispatcher: `AddEntityResolver` for `task`/`event`/`card` lines,
`EntityActionResolver` for `mod`/`del` lines, `ScheduleCommand` and
`ReadCommand` (via `load_state`) for the global commands that modify
state. -/
def execCommand (st : AppState) : Cmd → AppState × Except Error Unit
  | .addEntity et args wd => execEntityCommand .add et args wd st
  | .modEntity args wd => execEntityActionLine .modify args wd st
  | .delEntity args wd => execEntityActionLine .delete args wd st
  | .schedule today => computeSchedule st today
  | .load sf cy wd => loadState st sf cy wd

/-! ### Task bookkeeping invariant (exact-arithmetic idealization) -/

/-- Sum of the durations of a task's subtasks, in hours. -/
def subtasksHours (l : List SubTask) : ℚ := (l.map SubTask.hours).sum

/-- The task bookkeeping invariant: `remaining_hours` lies in
`[0, hours]`, the hours ledger is exact, `hours` is a whole number (it
is always built from an integer argument), `remaining_hours` is a whole
number of seconds (the packer only moves whole seconds), and every
subtask has a non-negative duration. -/
def TaskInv (t : Task) : Prop :=
  0 ≤ t.remaining_hours ∧ t.remaining_hours ≤ t.hours ∧
  t.hours = subtasksHours t.subtasks + t.remaining_hours ∧
  t.hours.den = 1 ∧ (t.remaining_hours * 3600).den = 1 ∧
  ∀ s ∈ t.subtasks, s.time_range.start ≤ s.time_range.endTime

/-- What the packer relies on for a free block of the planning day:
endpoints on one date and, when the block is still selectable
(positive remaining time), an exact duration bookkeeping. -/
def BlockInv (b : FreeTimeBlock) : Prop :=
  b.start_time.date = b.end_time.date ∧
  (0 < b.remaining_free_time →
    b.remaining_free_time = ((b.end_time.sec - b.start_time.sec : Int) : ℚ) / 3600)

/-- Both endpoints of a block on a given date, with the selectable
duration bookkeeping (the shape `free_blocks_for_date` produces). -/
def DBlockInv (date : Date) (b : FreeTimeBlock) : Prop :=
  b.start_time.date = date ∧ b.end_time.date = date ∧
  (0 < b.remaining_free_time →
    b.remaining_free_time = ((b.end_time.sec - b.start_time.sec : Int) : ℚ) / 3600)

/-- The staged pending tasks of a repository (empty when unstaged). -/
def pendingTasks (r : Repository Task) : List Task :=
  match r.staged with
  | some s => s.pending
  | none => []

/-- State-level invariant: every stored and every staged task satisfies
`TaskInv`. -/
def TasksWF (st : AppState) : Prop :=
  (∀ p ∈ st.tasks.items, TaskInv p.2) ∧ (∀ t ∈ pendingTasks st.tasks, TaskInv t)

/-! ### Concrete scenario and well-formedness for the save/load claim -/

/-- A context with a wide daily-hours window (8:00AM-9:00PM), in which
the counterexample event is a valid add. -/
def c6BaseState : AppState :=
  { config := { range := ⟨28800, 75600⟩, task_overflow_policy := .allow
                task_scheduling_order := .longestTaskFirst
                schedule_start_date := none }
    tasks := Repository.new, events := Repository.new, cards := Repository.new }

/-- The add command `event True "E" @ MON 8:00PM-9:00PM`, valid under
`c6BaseState`'s configured window. -/
def c6AddCmd : Cmd :=
  .addEntity .event
    [.bool true, .name "E", .atSymbol, .daysOfWeek [.mon], .timeRange ⟨72000, 75600⟩]
    .mon

/-- The state after the valid add. -/
def c6OrigState : AppState := (execCommand c6BaseState c6AddCmd).1

/-- A fresh context whose configured daily window (8:00AM-6:00PM) is
narrower than the one the event was created under. -/
def c6FreshState : AppState :=
  { config := { range := ⟨28800, 64800⟩, task_overflow_policy := .allow
                task_scheduling_order := .longestTaskFirst
                schedule_start_date := none }
    tasks := Repository.new, events := Repository.new, cards := Repository.new }

/-- Calendar validity of a stored date, restricted to four-digit years
(what `%Y` parses back without an explicit sign). -/
def DateWF (d : Date) : Prop :=
  1 ≤ d.year ∧ d.year ≤ 9999 ∧ 1 ≤ d.month ∧ d.month ≤ 12 ∧
  1 ≤ d.day ∧ d.day ≤ daysInMonth d.year d.month

/-- A storable time of day: inside the day and on a whole minute (the
time parser only produces such values). -/
def TimeWF (s : Int) : Prop := 0 ≤ s ∧ s < 86400 ∧ s % 60 = 0

/-- What a valid `card` add leaves behind. -/
def CardSaveWF (c : Card) : Prop := c.name ≠ ""

/-- What a valid `task` add leaves behind, relative to the cards map it
may reference, plus the loading context's schedule-start-date check. -/
def TaskSaveWF (cards : List (Int × Card)) (cfg : Config) (t : Task) : Prop :=
  t.name ≠ "" ∧ t.hours.den = 1 ∧ 1 ≤ t.hours ∧ t.hours ≤ 2147483647 ∧
  DateWF t.date ∧
  (∀ cid, t.card_id = some cid → (mapGet cards cid).isSome = true) ∧
  (∀ start, cfg.schedule_start_date = some start → ¬ dateLt t.date start)

/-- What a valid `event` add leaves behind, relative to the cards map it
may reference, plus the loading context's daily-window check. -/
def EventSaveWF (cards : List (Int × Card)) (cfg : Config) (e : Event) : Prop :=
  e.name ≠ "" ∧ e.days ≠ [] ∧
  (e.recurring = false → e.days.length = 1) ∧
  TimeWF e.time_range.start ∧ TimeWF e.time_range.endTime ∧
  e.time_range.start < e.time_range.endTime ∧
  cfg.range.start ≤ e.time_range.start ∧ e.time_range.endTime ≤ cfg.range.endTime ∧
  (∀ cid, e.card_id = some cid → (mapGet cards cid).isSome = true)

/-- Saved-state well-formedness relative to the loading context's
config: entity fields as valid adds produce them, distinct card ids,
and fewer than `i32::MAX` cards (so emitted `+C` indices parse back). -/
def StateSaveWF (cfg : Config) (st : AppState) : Prop :=
  (∀ p ∈ st.cards.items, CardSaveWF p.2) ∧
  (∀ p ∈ st.tasks.items, TaskSaveWF st.cards.items cfg p.2) ∧
  (∀ p ∈ st.events.items, EventSaveWF st.cards.items cfg p.2) ∧
  (∀ p ∈ st.cards.items, p.2.id = p.1) ∧
  (st.cards.items.map Prod.fst).Nodup ∧
  st.cards.items.length ≤ 2147483646

/-- A context one can load into: no transaction in progress on any
repository (what a fresh context satisfies). -/
def FreshOK (fr : AppState) : Prop :=
  fr.cards.staged = none ∧ fr.events.staged = none ∧ fr.tasks.staged = none

/-- Bookkeeping for `load_state`: the cards staged by the replayed add
commands, with the ids the staged repository assigns from `nid` on. -/
def stagedCardsFrom (nid : Int) : List Card → List Card
  | [] => []
  | c :: cs => { id := nid, name := c.name, color := c.color } ::
      stagedCardsFrom (nid + 1) cs

/-- Bookkeeping for `load_state`: the events staged by the replayed add
commands (`card_id` remapped through the save-file lookup). -/
def stagedEventsFrom (lookup : List (Int × Int)) (nid : Int) : List Event → List Event
  | [] => []
  | e :: es =>
    { id := nid, name := e.name, days := e.days, time_range := e.time_range,
      recurring := e.recurring,
      card_id := e.card_id.bind (fun cid => mapGet lookup cid) } ::
      stagedEventsFrom lookup (nid + 1) es

/-- Bookkeeping for `load_state`: the tasks staged by the replayed add
commands (hours re-read from the emitted integer, `card_id` remapped). -/
def stagedTasksFrom (lookup : List (Int × Int)) (nid : Int) : List Task → List Task
  | [] => []
  | t :: ts =>
    { Task.new t.name ((i32SatOfRat t.hours : Int) : ℚ)
        (t.card_id.bind (fun cid => mapGet lookup cid)) t.date with id := nid } ::
      stagedTasksFrom lookup (nid + 1) ts

/-- The argument row `TaskArgEmitter::fill_args` produces when its card
reference (if any) is found in the lookup. -/
def taskRowArgs (lookup : List (Int × Int)) (t : Task) : List Arg :=
  [Arg.name t.name, Arg.int (i32SatOfRat t.hours)] ++
  (match t.card_id with
   | some cid =>
     (match mapGet lookup cid with
      | some m => [Arg.cardColorId m]
      | none => [])
   | none => []) ++ [Arg.atSymbol, Arg.date t.date]

/-- The argument row `EventArgEmitter::fill_args` produces when its card
reference (if any) is found in the lookup. -/
def eventRowArgs (lookup : List (Int × Int)) (e : Event) : List Arg :=
  [Arg.bool e.recurring, Arg.name e.name] ++
  (match e.card_id with
   | some cid =>
     (match mapGet lookup cid with
      | some m => [Arg.cardColorId m]
      | none => [])
   | none => []) ++ [Arg.atSymbol] ++
  (if e.days.isEmpty then [] else [Arg.daysOfWeek e.days]) ++
  [Arg.timeRange e.time_range]

/-! ### `f32` rounding on the scheduling path

`Task.hours`, `Task.remaining_hours` and `FreeTimeBlock.remaining_free_time`
are `f32` in the source.  The definitions above idealize those stored values
as exact rationals; the following definitions model the round-to-nearest
performed by each `f32` arithmetic operation on the scheduling path
(additions of representable integers, `max`, `min` and comparisons are
exact and need no rounding), for magnitudes in the normal `f32` range. -/

/-- The rational `2 ^ k` for an integer exponent. -/
def ratPow2 (k : Int) : ℚ :=
  if 0 ≤ k then ((2 ^ k.toNat : Nat) : ℚ) else 1 / ((2 ^ (-k).toNat : Nat) : ℚ)

/-- Fuel-driven floor base-2 logarithm (the fuel only bounds the
halvings, so `n` itself is always enough). -/
def natLog2Go : Nat → Nat → Nat
  | 0, _ => 0
  | fuel + 1, n => if n ≤ 1 then 0 else natLog2Go fuel (n / 2) + 1

/-- Floor base-2 logarithm. -/
def natLog2 (n : Nat) : Nat := natLog2Go n n

/-- The exponent `e` with `2 ^ e ≤ q < 2 ^ (e + 1)` of a positive
rational: first guess from the numerator's and denominator's floor
logarithms, then correct by direct comparison. -/
def floorLog2 (q : ℚ) : Int :=
  let e0 : Int := (natLog2 q.num.natAbs : Int) - (natLog2 q.den : Int)
  if ratPow2 (e0 + 1) ≤ q then e0 + 1
  else if q < ratPow2 e0 then e0 - 1
  else e0

/-- Round a nonnegative rational to an integer, half to even (the IEEE
default rounding used by every `f32` arithmetic operation). -/
def roundHalfEven (q : ℚ) : Int :=
  let f := ⌊q⌋
  let frac := q - (f : ℚ)
  if frac < 1 / 2 then f
  else if 1 / 2 < frac then f + 1
  else if f % 2 = 0 then f else f + 1

/-- Round a rational to the nearest `f32` value (round to nearest, ties
to even, 24-bit significand); exact for the normal range
`2 ^ (-126) ≤ |q| < 2 ^ 128` that the scheduler's magnitudes stay in. -/
def roundF32 (q : ℚ) : ℚ :=
  if q = 0 then 0
  else
    let s : ℚ := if 0 < q then 1 else -1
    let a := |q|
    let e := floorLog2 a
    let ulp := ratPow2 (e - 23)
    s * ((roundHalfEven (a / ulp) : ℚ) * ulp)

/-- Mirror of `SubTask::hours` with the `f32` operations made explicit:
`(end_dt - start_dt).num_seconds() as f32 / 3600.0` rounds at the
integer-to-`f32` cast and at the division. -/
def SubTask.hoursF32 (s : SubTask) : ℚ :=
  roundF32 (roundF32 ((s.time_range.endTime - s.time_range.start : Int) : ℚ) / 3600)

/-- Sum of the `f32`-derived subtask durations. -/
def subtasksHoursF32 (l : List SubTask) : ℚ := (l.map SubTask.hoursF32).sum

/-- Mirror of `Task::push_subtask_with_hours` with the `f32` subtraction
made explicit: `max`/`min` return an operand unchanged, but
`remaining_hours -= apply` rounds to the nearest `f32`. -/
def Task.pushSubtaskWithHoursF32 (t : Task) (time_range : TimeRange) (date : Date)
    (hours : ℚ) : Task :=
  let apply := min (max hours 0) t.remaining_hours
  { t with
      subtasks := t.subtasks ++
        [{ task_id := t.id, date := date, time_range := time_range, overflow := false }]
      remaining_hours := roundF32 (t.remaining_hours - apply) }

/-- Mirror of `duration_hours_dt` with the `f32` cast and division
rounded. -/
def durationHoursDtF32 (start «finish» : DT) : ℚ :=
  roundF32 (roundF32 ((dtDiffSecs «finish» start : Int) : ℚ) / 3600)

/-- Mirror of `FreeTimeBlock::new` with the `f32` duration rounded. -/
def FreeTimeBlock.newF32 (start_time end_time : DT) : FreeTimeBlock :=
  let hrs := durationHoursDtF32 start_time end_time
  { start_time := start_time, end_time := end_time
    remaining_free_time := max hrs 0 }

/-- Mirror of `CalendarView::subtract_busy_from_free` over `f32`
blocks. -/
def subtractBusyFromFreeF32 (date : Date) (free : List FreeTimeBlock)
    (busy : TimeRange) : List FreeTimeBlock :=
  let busy_start : DT := ⟨date, busy.start⟩
  let busy_end : DT := ⟨date, busy.endTime⟩
  free.flatMap fun fb =>
    if dtLe busy_end fb.start_time ∨ dtLe fb.end_time busy_start then [fb]
    else
      (if dtLt fb.start_time busy_start then [FreeTimeBlock.newF32 fb.start_time busy_start]
       else []) ++
      (if dtLt busy_end fb.end_time then [FreeTimeBlock.newF32 busy_end fb.end_time]
       else [])

/-- Merging loop of `coalesce_free_blocks` with the `f32` duration
rounded. -/
def coalesceGoF32 (cur : FreeTimeBlock) : List FreeTimeBlock → List FreeTimeBlock
  | [] => [cur]
  | b :: bs =>
    if dtLe b.start_time cur.end_time then
      if dtLt cur.end_time b.end_time then
        coalesceGoF32
          { cur with
            end_time := b.end_time,
            remaining_free_time := durationHoursDtF32 cur.start_time b.end_time } bs
      else coalesceGoF32 cur bs
    else cur :: coalesceGoF32 b bs

/-- Mirror of `CalendarView::coalesce_free_blocks` over `f32` blocks. -/
def coalesceFreeBlocksF32 (v : List FreeTimeBlock) : List FreeTimeBlock :=
  match stableSortBy blockKeyLe v with
  | [] => []
  | b :: bs => coalesceGoF32 b bs

/-- Mirror of `CalendarView::free_blocks_for_date` over `f32` blocks. -/
def freeBlocksForDateF32 (events : List Event) (tasks : List Task) (date : Date)
    (day_range : TimeRange) : List FreeTimeBlock :=
  let free0 := [FreeTimeBlock.newF32 ⟨date, day_range.start⟩ ⟨date, day_range.endTime⟩]
  let afterEvents := (events.filter (fun e => e.isActiveOnDate date)).foldl
    (fun free e => subtractBusyFromFreeF32 date free e.time_range) free0
  let afterSubs := tasks.foldl
    (fun free t => t.subtasks.foldl
      (fun free st =>
        if st.date = date then subtractBusyFromFreeF32 date free st.time_range else free)
      free)
    afterEvents
  coalesceFreeBlocksF32 afterSubs

/-- Mirror of `FirstFitPacker::time_after_hours_dt` with the `f32`
multiplication rounded before `f32::round`. -/
def timeAfterHoursDtF32 (start : DT) (hours : ℚ) : DT :=
  ⟨start.date, start.sec + ratRound (roundF32 (hours * 3600))⟩

/-- Mirror of `FirstFitPacker::place_one_block` over `f32` values. -/
def placeOneBlockF32 (task : Task) (date : Date) (block : FreeTimeBlock) :
    Task × PlaceStep :=
  let need := task.remaining_hours
  let cap := block.remaining_free_time
  if need ≤ cap then
    let end_dt := timeAfterHoursDtF32 block.start_time need
    let tr : TimeRange := ⟨block.start_time.sec, end_dt.sec⟩
    let task := task.pushSubtaskWithHoursF32 tr date need
    let block :=
      { block with
        start_time := end_dt,
        remaining_free_time := durationHoursDtF32 end_dt block.end_time }
    let leftover := if 0 < block.remaining_free_time then some block else none
    (task, .finished leftover)
  else
    let tr : TimeRange := ⟨block.start_time.sec, block.end_time.sec⟩
    (task.pushSubtaskWithHoursF32 tr date cap, .usedWholeBlock)

/-- The `while task.remaining_hours > 0` loop of `BlockPacker::pack`
over `f32` values. -/
def packGoF32 (date : Date) : Task → List FreeTimeBlock → Nat → Task × List FreeTimeBlock
  | task, free, 0 => (task, free)
  | task, free, fuel + 1 =>
    if task.remaining_hours ≤ 0 then (task, free)
    else
      match selectBlockIdx free with
      | none => (task, free)
      | some idx =>
        match free.get? idx with
        | none => (task, free)
        | some block =>
          let free' := free.eraseIdx idx
          match placeOneBlockF32 task date block with
          | (task, .finished leftover) =>
            (task, match leftover with
                   | some b => insertAt idx b free'
                   | none => free')
          | (task, .usedWholeBlock) => packGoF32 date task free' fuel

/-- Mirror of `BlockPacker::pack` over `f32` values; the outcome test
`(task.remaining_hours - start_remaining).abs() < f32::EPSILON` also
subtracts in `f32`. -/
def packF32 (task : Task) (date : Date) (free : List FreeTimeBlock) :
    Task × List FreeTimeBlock × PackOutcome :=
  if task.remaining_hours ≤ 0 ∨ free.isEmpty then (task, free, .nonePlaced)
  else
    let start_remaining := task.remaining_hours
    let (task, free) := packGoF32 date task free (free.length + 1)
    let outcome :=
      if |roundF32 (task.remaining_hours - start_remaining)| < f32Epsilon then
        PackOutcome.nonePlaced
      else if 0 < task.remaining_hours then .partialPlaced
      else .fullPlaced
    (task, free, outcome)

/-- Per-task body of `compute_schedule`'s `for_each_mut` closure over
`f32` values. -/
def scheduleTaskOnDayF32 (handler : Task → Bool → Task × Except Error Unit)
    (date : Date) (acc : Repository Task × List FreeTimeBlock) (id : Int) :
    Repository Task × List FreeTimeBlock :=
  match mapGet acc.1.items id with
  | none => acc
  | some task =>
    let (task, free, outcome) :=
      if task.remaining_hours ≤ 0 then (task, acc.2, PackOutcome.nonePlaced)
      else packF32 task date acc.2
    let task :=
      match outcome with
      | .nonePlaced => task
      | _ => (handler task true).1
    ({ acc.1 with items := mapInsert acc.1.items id task }, free)

/-- One planning day of `compute_schedule` over `f32` values. -/
def scheduleDayF32 (cmp : Task → Task → Ordering)
    (handler : Task → Bool → Task × Except Error Unit) (daywin : TimeRange)
    (st : AppState) (date : Date) : AppState :=
  let free := freeBlocksForDateF32 st.events.valuesUnordered st.tasks.valuesUnordered
    date daywin
  let ids := sortedTaskIds st.tasks.items
    (fun t => dateLe date t.date ∧ 0 < t.remaining_hours) cmp
  let (tasks, _) := ids.foldl (scheduleTaskOnDayF32 handler date) (st.tasks, free)
  { st with tasks := tasks }

/-- Mirror of `ScheduleManager::compute_schedule` (the `schedule`
command's entire state effect) with every `f32` arithmetic operation on
the path rounded. -/
def computeScheduleF32 (st : AppState) (today : Date) :
    AppState × Except Error Unit :=
  let daywin := st.config.range
  let cmp := makeTaskOrderComparator st.config.task_scheduling_order
  let handler := makeOverflowHandler st.config.task_overflow_policy
  let st := resetTasks st
  let days := planningDays st today
  let st := days.foldl (scheduleDayF32 cmp handler daywin) st
  (st, .ok ())

/-- A state on which the `f32` ledger drift is visible: a 10000-hour
task due far in the future, and a recurring daily event 8:07AM-6:00PM
that narrows the 8:00AM-6:00PM window to a seven-minute free block, so
each planning day carves `f32(7/60)` hours out of `remaining_hours` near
magnitude 10000 (where the `f32` ulp is `2 ^ (-10)`). -/
def c7FloatTask : Task :=
  { id := 1, name := "Big", hours := 10000, date := ⟨2099, 12, 31⟩,
    card_id := none, subtasks := [], remaining_hours := 10000 }

/-- The recurring daily event that narrows the window to seven minutes. -/
def c7FloatEvent : Event :=
  { id := 1, name := "Busy"
    days := [DayOfWeek.mon, DayOfWeek.tue, DayOfWeek.wed, DayOfWeek.thu,
             DayOfWeek.fri, DayOfWeek.sat, DayOfWeek.sun]
    time_range := ⟨29220, 64800⟩, recurring := true, card_id := none }

/-- The context for the drift scenario. -/
def c7FloatState : AppState :=
  { config := { range := ⟨28800, 64800⟩, task_overflow_policy := .allow
                task_scheduling_order := .longestTaskFirst
                schedule_start_date := some ⟨2099, 1, 1⟩ }
    tasks := ⟨[(1, c7FloatTask)], 2, none⟩
    events := ⟨[(1, c7FloatEvent)], 2, none⟩
    cards := Repository.new }

/-- The task the drift scenario ends with: seven seven-minute subtasks
(each marked overflow by the allow policy) and an `f32` remaining-hours
value that has drifted from the exact ledger. -/
def c7FloatFinalTask : Task :=
  { id := 1, name := "Big", hours := 10000, date := ⟨2099, 12, 31⟩, card_id := none
    subtasks :=
      [⟨1, ⟨2099, 1, 1⟩, ⟨28800, 29220⟩, true⟩, ⟨1, ⟨2099, 1, 2⟩, ⟨28800, 29220⟩, true⟩,
       ⟨1, ⟨2099, 1, 3⟩, ⟨28800, 29220⟩, true⟩, ⟨1, ⟨2099, 1, 4⟩, ⟨28800, 29220⟩, true⟩,
       ⟨1, ⟨2099, 1, 5⟩, ⟨28800, 29220⟩, true⟩, ⟨1, ⟨2099, 1, 6⟩, ⟨28800, 29220⟩, true⟩,
       ⟨1, ⟨2099, 1, 7⟩, ⟨28800, 29220⟩, true⟩]
    remaining_hours := mkRat 10239167 1024 }

/-! ### Comparison helper lemmas -/

theorem intCmp_lt_iff {a b : Int} : intCmp a b = .lt ↔ a < b := by
  unfold intCmp; split_ifs <;> simp_all

theorem ratCmp_lt_iff {a b : ℚ} : ratCmp a b = .lt ↔ a < b := by
  unfold ratCmp; split_ifs <;> simp_all

theorem ratCmp_eq_iff {a b : ℚ} : ratCmp a b = .eq ↔ a = b := by
  unfold ratCmp
  split_ifs with h1 h2
  · simp only [reduceCtorEq, false_iff]; exact ne_of_lt h1
  · simp [h2]
  · simp only [reduceCtorEq, false_iff]; exact h2

theorem dateCmp_refl (d : Date) : dateCmp d d = .eq := by
  simp [dateCmp, intCmp, natCmp]

/-! ### C3 — comparator tie-breaking -/

/-- Claim C3, as stated, is false: two tasks due on the same date with
remaining hours 4 and 2 are ordered greater-first under
`shortest-task-first` and smaller-first under `longest-task-first` — the
opposite of the claim.  Here the longest-task-first comparator places the
4-hour task after the 2-hour one, and the shortest-task-first comparator
places it before. -/
theorem longest_task_first_claim_counterexample :
    makeTaskOrderComparator .longestTaskFirst
        { id := 1, name := "a", hours := 4, date := ⟨2099, 1, 1⟩, card_id := none
          subtasks := [], remaining_hours := 4 }
        { id := 2, name := "b", hours := 2, date := ⟨2099, 1, 1⟩, card_id := none
          subtasks := [], remaining_hours := 2 } = .gt ∧
    makeTaskOrderComparator .shortestTaskFirst
        { id := 1, name := "a", hours := 4, date := ⟨2099, 1, 1⟩, card_id := none
          subtasks := [], remaining_hours := 4 }
        { id := 2, name := "b", hours := 2, date := ⟨2099, 1, 1⟩, card_id := none
          subtasks := [], remaining_hours := 2 } = .lt := by
  constructor <;> decide

/-- Claim C3 (amended): both orders sort by due date ascending; among
tasks with equal due dates, `longest-task-first` puts the task with the
*shorter* `remaining_hours` first and `shortest-task-first` puts the task
with the *longer* `remaining_hours` first; equal remaining hours are
broken by smaller id first. -/
theorem task_order_comparator_characterisation (a b : Task) :
    (dateCmp a.date b.date = .lt →
      makeTaskOrderComparator .longestTaskFirst a b = .lt ∧
      makeTaskOrderComparator .shortestTaskFirst a b = .lt) ∧
    (a.date = b.date →
      ((makeTaskOrderComparator .longestTaskFirst a b = .lt ↔
        a.remaining_hours < b.remaining_hours ∨
          (a.remaining_hours = b.remaining_hours ∧ a.id < b.id)) ∧
       (makeTaskOrderComparator .shortestTaskFirst a b = .lt ↔
        b.remaining_hours < a.remaining_hours ∨
          (a.remaining_hours = b.remaining_hours ∧ a.id < b.id)))) := by
  constructor
  · intro hlt
    constructor <;>
      simp [makeTaskOrderComparator, longestTaskOrderCmp, shortestTaskOrderCmp, hlt]
  · intro hd
    have heq : dateCmp a.date b.date = .eq := hd ▸ dateCmp_refl a.date
    constructor
    · simp only [makeTaskOrderComparator, longestTaskOrderCmp, heq, ne_eq,
        not_true_eq_false, if_false]
      rcases lt_trichotomy a.remaining_hours b.remaining_hours with h | h | h
      · have : ratCmp a.remaining_hours b.remaining_hours = .lt := ratCmp_lt_iff.mpr h
        simp [this, h]
      · have h1 : ratCmp a.remaining_hours b.remaining_hours = .eq := ratCmp_eq_iff.mpr h
        simp only [h1, ne_eq, not_true_eq_false, if_false, intCmp_lt_iff]
        constructor
        · intro hid; exact Or.inr ⟨h, hid⟩
        · rintro (hc | ⟨_, hid⟩)
          · exact absurd (h ▸ hc) (lt_irrefl _)
          · exact hid
      · have h1 : ratCmp a.remaining_hours b.remaining_hours = .gt := by
          unfold ratCmp; split_ifs with h2 h3
          · exact absurd h2 (not_lt_of_gt h)
          · exact absurd h3 (ne_of_gt h)
          · rfl
        simp only [h1, ne_eq, reduceCtorEq, not_false_eq_true, if_true]
        constructor
        · intro hc; exact absurd hc (by simp)
        · rintro (hc | ⟨hc, _⟩)
          · exact absurd hc (not_lt_of_gt h)
          · exact absurd hc (ne_of_gt h)
    · simp only [makeTaskOrderComparator, shortestTaskOrderCmp, heq, ne_eq,
        not_true_eq_false, if_false]
      rcases lt_trichotomy b.remaining_hours a.remaining_hours with h | h | h
      · have : ratCmp b.remaining_hours a.remaining_hours = .lt := ratCmp_lt_iff.mpr h
        simp [this, h]
      · have h1 : ratCmp b.remaining_hours a.remaining_hours = .eq := ratCmp_eq_iff.mpr h
        simp only [h1, ne_eq, not_true_eq_false, if_false, intCmp_lt_iff]
        constructor
        · intro hid; exact Or.inr ⟨h.symm, hid⟩
        · rintro (hc | ⟨_, hid⟩)
          · exact absurd (h ▸ hc) (lt_irrefl _)
          · exact hid
      · have h1 : ratCmp b.remaining_hours a.remaining_hours = .gt := by
          unfold ratCmp; split_ifs with h2 h3
          · exact absurd h2 (not_lt_of_gt h)
          · exact absurd h3 (ne_of_gt h)
          · rfl
        simp only [h1, ne_eq, reduceCtorEq, not_false_eq_true, if_true]
        constructor
        · intro hc; exact absurd hc (by simp)
        · rintro (hc | ⟨hc, _⟩)
          · exact absurd hc (not_lt_of_gt h)
          · exact absurd hc (ne_of_lt h)

/-- Witness for the amended C3 theorem at concrete tasks. -/
theorem task_order_comparator_characterisation_witness :
    (dateCmp (⟨2099, 1, 1⟩ : Date) ⟨2099, 1, 1⟩ = .lt →
      makeTaskOrderComparator .longestTaskFirst
          { id := 1, name := "a", hours := 4, date := ⟨2099, 1, 1⟩, card_id := none
            subtasks := [], remaining_hours := 4 }
          { id := 2, name := "b", hours := 2, date := ⟨2099, 1, 1⟩, card_id := none
            subtasks := [], remaining_hours := 2 } = .lt ∧
      makeTaskOrderComparator .shortestTaskFirst
          { id := 1, name := "a", hours := 4, date := ⟨2099, 1, 1⟩, card_id := none
            subtasks := [], remaining_hours := 4 }
          { id := 2, name := "b", hours := 2, date := ⟨2099, 1, 1⟩, card_id := none
            subtasks := [], remaining_hours := 2 } = .lt) ∧
    ((⟨2099, 1, 1⟩ : Date) = ⟨2099, 1, 1⟩ →
      ((makeTaskOrderComparator .longestTaskFirst
          { id := 1, name := "a", hours := 4, date := ⟨2099, 1, 1⟩, card_id := none
            subtasks := [], remaining_hours := 4 }
          { id := 2, name := "b", hours := 2, date := ⟨2099, 1, 1⟩, card_id := none
            subtasks := [], remaining_hours := 2 } = .lt ↔
        (4 : ℚ) < 2 ∨ ((4 : ℚ) = 2 ∧ (1 : Int) < 2)) ∧
       (makeTaskOrderComparator .shortestTaskFirst
          { id := 1, name := "a", hours := 4, date := ⟨2099, 1, 1⟩, card_id := none
            subtasks := [], remaining_hours := 4 }
          { id := 2, name := "b", hours := 2, date := ⟨2099, 1, 1⟩, card_id := none
            subtasks := [], remaining_hours := 2 } = .lt ↔
        (2 : ℚ) < 4 ∨ ((4 : ℚ) = 2 ∧ (1 : Int) < 2)))) :=
  task_order_comparator_characterisation
    { id := 1, name := "a", hours := 4, date := ⟨2099, 1, 1⟩, card_id := none
      subtasks := [], remaining_hours := 4 }
    { id := 2, name := "b", hours := 2, date := ⟨2099, 1, 1⟩, card_id := none
      subtasks := [], remaining_hours := 2 }

/-! ### C9 — subtask clamping -/

/-- Claim C9: `push_subtask_with_hours` clamps the subtracted amount to
`[0, remaining_hours]`, so (for a task whose remaining hours are
non-negative) the remaining hours never become negative and never
increase, whatever hours are requested; the appended subtask carries the
task's id and `overflow = false`. -/
theorem pushSubtaskWithHours_clamps (t : Task) (tr : TimeRange) (d : Date) (h : ℚ)
    (h0 : 0 ≤ t.remaining_hours) :
    (t.pushSubtaskWithHours tr d h).remaining_hours =
      t.remaining_hours - min (max h 0) t.remaining_hours ∧
    0 ≤ min (max h 0) t.remaining_hours ∧
    min (max h 0) t.remaining_hours ≤ t.remaining_hours ∧
    0 ≤ (t.pushSubtaskWithHours tr d h).remaining_hours ∧
    (t.pushSubtaskWithHours tr d h).remaining_hours ≤ t.remaining_hours ∧
    (t.pushSubtaskWithHours tr d h).subtasks =
      t.subtasks ++
        [{ task_id := t.id, date := d, time_range := tr, overflow := false }] := by
  have hA0 : 0 ≤ min (max h 0) t.remaining_hours :=
    le_min (le_max_right h 0) h0
  have hAr : min (max h 0) t.remaining_hours ≤ t.remaining_hours := min_le_right _ _
  refine ⟨rfl, hA0, hAr, ?_, ?_, rfl⟩
  · simp only [Task.pushSubtaskWithHours]; linarith
  · simp only [Task.pushSubtaskWithHours]; linarith

/-- Witness for C9 at a task with remaining hours 2 and requested hours −5. -/
theorem pushSubtaskWithHours_clamps_witness :
    (Task.pushSubtaskWithHours
        { id := 7, name := "w", hours := 2, date := ⟨2099, 1, 1⟩, card_id := none
          subtasks := [], remaining_hours := 2 }
        ⟨28800, 32400⟩ ⟨2099, 1, 2⟩ (-5)).remaining_hours =
      2 - min (max (-5 : ℚ) 0) 2 ∧
    0 ≤ min (max (-5 : ℚ) 0) 2 ∧
    min (max (-5 : ℚ) 0) 2 ≤ 2 ∧
    0 ≤ (Task.pushSubtaskWithHours
        { id := 7, name := "w", hours := 2, date := ⟨2099, 1, 1⟩, card_id := none
          subtasks := [], remaining_hours := 2 }
        ⟨28800, 32400⟩ ⟨2099, 1, 2⟩ (-5)).remaining_hours ∧
    (Task.pushSubtaskWithHours
        { id := 7, name := "w", hours := 2, date := ⟨2099, 1, 1⟩, card_id := none
          subtasks := [], remaining_hours := 2 }
        ⟨28800, 32400⟩ ⟨2099, 1, 2⟩ (-5)).remaining_hours ≤ 2 ∧
    (Task.pushSubtaskWithHours
        { id := 7, name := "w", hours := 2, date := ⟨2099, 1, 1⟩, card_id := none
          subtasks := [], remaining_hours := 2 }
        ⟨28800, 32400⟩ ⟨2099, 1, 2⟩ (-5)).subtasks =
      [{ task_id := 7, date := ⟨2099, 1, 2⟩, time_range := ⟨28800, 32400⟩
         overflow := false }] :=
  pushSubtaskWithHours_clamps
    { id := 7, name := "w", hours := 2, date := ⟨2099, 1, 1⟩, card_id := none
      subtasks := [], remaining_hours := 2 }
    ⟨28800, 32400⟩ ⟨2099, 1, 2⟩ (-5) (by norm_num)

/-! ### C1 — block overflow policy never fails the schedule -/

set_option maxRecDepth 100000

unseal Rat.add Rat.sub Rat.mul Rat.inv in
/-- Claim C1 fails on the code: `compute_schedule` invokes the overflow
handler as `let _ = overflow.handle(task, true)` and so discards the
`TaskOverflow` failure the block policy produces.  The first conjunct
shows `compute_schedule` returns success for every state and date; the
rest evaluates the seed scenario (one-hour window, 4-hour task, `block`
policy): the run succeeds, the task keeps 3 remaining hours, and the
handler's discarded result is exactly the claimed error. -/
theorem compute_schedule_discards_block_overflow_error :
    (∀ (st : AppState) (today : Date), (computeSchedule st today).2 = .ok ()) ∧
    blockScenarioState.config.task_overflow_policy = .block ∧
    mapGet (computeSchedule blockScenarioState ⟨2099, 1, 1⟩).1.tasks.items 1 =
      some blockScenarioBigTask ∧
    0 < blockScenarioBigTask.remaining_hours ∧
    blockOverflowHandle blockScenarioBigTask true =
      (blockScenarioBigTask,
       .error (.parse "Could not fully schedule task 1 ('Big') on 2099-01-01")) := by
  refine ⟨fun st today => rfl, rfl, by decide, by decide, by decide⟩

/-! ### C4 — allow policy marks the last subtask of every overflowing day -/

unseal Rat.add Rat.sub Rat.mul Rat.inv in
/-- Claim C4, as stated, is false: in the allow-policy scenario the
20-hour task is packed for one hour on each of the seven planning days,
and the overflow handler marks the last subtask on *every* such day, so
after the run all seven subtasks carry `overflow = true` — not exactly
one. -/
theorem allow_overflow_single_mark_counterexample :
    allowScenarioState.config.task_overflow_policy = .allow ∧
    ((mapGet (computeSchedule allowScenarioState ⟨2099, 1, 1⟩).1.tasks.items 1).map
      fun t => (t.subtasks.length, t.subtasks.countP (·.overflow))) = some (7, 7) ∧
    ¬ ((mapGet (computeSchedule allowScenarioState ⟨2099, 1, 1⟩).1.tasks.items 1).map
      fun t => t.subtasks.countP (·.overflow)) = some 1 := by
  refine ⟨rfl, by decide, by decide⟩

/-- Claim C4 (amended): under the allow policy the overflow handler runs
after each day on which some of the task's hours were placed; when hours
remain it marks the subtask that is then last in the task's list (its
own placement of that day) as `overflow = true` and leaves the earlier
subtasks unchanged.  Marks persist across days, so a task packed on
several days can end the run with several overflow-marked subtasks. -/
theorem allow_overflow_marks_last_subtask_of_day (t : Task)
    (h1 : 0 < t.remaining_hours) (h2 : t.subtasks ≠ [])
    (h3 : (t.subtasks.getLast h2).task_id = t.id) :
    (allowOverflowHandle t true).1.subtasks =
      t.subtasks.dropLast ++ [{ t.subtasks.getLast h2 with overflow := true }] ∧
    (allowOverflowHandle t true).2 = .ok () := by
  have hlast : t.subtasks.getLast? = some (t.subtasks.getLast h2) :=
    List.getLast?_eq_getLast _ h2
  unfold allowOverflowHandle
  rw [if_pos ⟨h1, rfl⟩]
  simp [hlast, h3, setLast]

/-- Witness for the amended C4 theorem: a task with one subtask of its
own and an hour remaining gets that subtask marked. -/
theorem allow_overflow_marks_last_subtask_of_day_witness :
    (allowOverflowHandle
        { id := 1, name := "w", hours := 2, date := ⟨2099, 1, 1⟩, card_id := none
          subtasks := [{ task_id := 1, date := ⟨2099, 1, 1⟩
                         time_range := ⟨28800, 32400⟩, overflow := false }]
          remaining_hours := 1 } true).1.subtasks =
      ([{ task_id := 1, date := ⟨2099, 1, 1⟩
          time_range := ⟨28800, 32400⟩, overflow := false }] : List SubTask).dropLast ++
        [{ ([{ task_id := 1, date := ⟨2099, 1, 1⟩
               time_range := ⟨28800, 32400⟩, overflow := false }] : List SubTask).getLast
             (by decide) with overflow := true }] ∧
    (allowOverflowHandle
        { id := 1, name := "w", hours := 2, date := ⟨2099, 1, 1⟩, card_id := none
          subtasks := [{ task_id := 1, date := ⟨2099, 1, 1⟩
                         time_range := ⟨28800, 32400⟩, overflow := false }]
          remaining_hours := 1 } true).2 = .ok () :=
  allow_overflow_marks_last_subtask_of_day
    { id := 1, name := "w", hours := 2, date := ⟨2099, 1, 1⟩, card_id := none
      subtasks := [{ task_id := 1, date := ⟨2099, 1, 1⟩
                     time_range := ⟨28800, 32400⟩, overflow := false }]
      remaining_hours := 1 }
    (by decide) (by decide) (by decide)

/-! ### C5 — the planning window start is not clamped to today -/

/-- Claim C5, as stated, is false: with `schedule_start_date` set to
2020-01-01 and today 2020-06-01, planning starts at 2020-01-01 — the
configured date even though it lies before today, not
`max(schedule_start_date, today)`. -/
theorem planning_start_not_clamped_counterexample :
    (planningDays pastStartState ⟨2020, 6, 1⟩).head? = some ⟨2020, 1, 1⟩ ∧
    dateLt ⟨2020, 1, 1⟩ ⟨2020, 6, 1⟩ ∧
    (⟨2020, 1, 1⟩ : Date) ≠ ⟨2020, 6, 1⟩ := by
  refine ⟨by decide, by decide, by decide⟩

/-- Claim C5 (amended): the scheduler plans exactly 7 consecutive days
and the first planning date is `schedule_start_date` whenever that
option is set — even when it is earlier than today — and today
otherwise. -/
theorem planning_days_seven_consecutive (st : AppState) (today : Date) :
    (planningDays st today).length = 7 ∧
    (planningDays st today).head? = some (st.config.schedule_start_date.getD today) ∧
    (planningDays st today).Chain' (fun a b => b = a.nextDay) := by
  unfold planningDays calendarDays
  rw [show List.range 7 = [0, 1, 2, 3, 4, 5, 6] from rfl]
  refine ⟨rfl, rfl, ?_⟩
  simp only [List.map, List.chain'_cons, List.chain'_singleton, and_true]
  exact ⟨rfl, rfl, rfl, rfl, rfl, rfl⟩

/-! ### Ordering lemmas for datetimes and block keys -/

theorem intCmp_gt_iff {a b : Int} : intCmp a b = .gt ↔ b < a := by
  unfold intCmp; split_ifs <;> simp_all <;> omega

theorem intCmp_eq_iff' {a b : Int} : intCmp a b = .eq ↔ a = b := by
  unfold intCmp; split_ifs <;> simp_all; omega

theorem natCmp_lt_iff {a b : Nat} : natCmp a b = .lt ↔ a < b := by
  unfold natCmp; split_ifs <;> simp_all

theorem natCmp_gt_iff {a b : Nat} : natCmp a b = .gt ↔ b < a := by
  unfold natCmp; split_ifs <;> simp_all <;> omega

theorem natCmp_eq_iff {a b : Nat} : natCmp a b = .eq ↔ a = b := by
  unfold natCmp; split_ifs <;> simp_all; omega

theorem dateCmp_lt_iff {a b : Date} : dateCmp a b = .lt ↔
    (a.year < b.year ∨ (a.year = b.year ∧
      (a.month < b.month ∨ (a.month = b.month ∧ a.day < b.day)))) := by
  unfold dateCmp intCmp natCmp
  split_ifs <;> simp_all <;> omega

theorem dateCmp_gt_iff {a b : Date} : dateCmp a b = .gt ↔
    (b.year < a.year ∨ (a.year = b.year ∧
      (b.month < a.month ∨ (a.month = b.month ∧ b.day < a.day)))) := by
  unfold dateCmp intCmp natCmp
  split_ifs <;> simp_all <;> omega

theorem dateCmp_eq_iff {a b : Date} : dateCmp a b = .eq ↔
    (a.year = b.year ∧ a.month = b.month ∧ a.day = b.day) := by
  unfold dateCmp intCmp natCmp
  split_ifs <;> simp_all <;> omega

theorem dtCmp_lt_iff {a b : DT} : dtCmp a b = .lt ↔
    (dateCmp a.date b.date = .lt ∨ (dateCmp a.date b.date = .eq ∧ a.sec < b.sec)) := by
  unfold dtCmp intCmp
  rcases h : dateCmp a.date b.date <;> split_ifs <;> simp_all <;> omega

theorem dtCmp_gt_iff {a b : DT} : dtCmp a b = .gt ↔
    (dateCmp a.date b.date = .gt ∨ (dateCmp a.date b.date = .eq ∧ b.sec < a.sec)) := by
  unfold dtCmp intCmp
  rcases h : dateCmp a.date b.date <;> split_ifs <;> simp_all <;> omega

theorem dtCmp_eq_iff {a b : DT} : dtCmp a b = .eq ↔
    (dateCmp a.date b.date = .eq ∧ a.sec = b.sec) := by
  unfold dtCmp intCmp
  rcases h : dateCmp a.date b.date <;> split_ifs <;> simp_all <;> omega

theorem dtLe_eq_true_iff {a b : DT} : dtLe a b = true ↔ dtCmp a b ≠ .gt := by
  simp [dtLe]

theorem dtLe_eq_false_iff {a b : DT} : dtLe a b = false ↔ dtCmp a b = .gt := by
  simp [dtLe]

theorem dtLt_eq_true_iff {a b : DT} : dtLt a b = true ↔ dtCmp a b = .lt := by
  simp [dtLt]

theorem DT.ext_date {x : DT} {d : Date} (h : x.date = d) : x = ⟨d, x.sec⟩ := by
  cases x; simp_all

theorem dtCmp_same_date {d : Date} {a b : Int} :
    dtCmp ⟨d, a⟩ ⟨d, b⟩ = intCmp a b := by
  unfold dtCmp
  rw [dateCmp_refl]

theorem dtCmp_eq_iff_eq {a b : DT} : dtCmp a b = .eq ↔ a = b := by
  rw [dtCmp_eq_iff, dateCmp_eq_iff]
  cases a with
  | mk ad as =>
    cases b with
    | mk bd bs =>
      cases ad; cases bd
      simp_all

theorem dtCmp_refl (a : DT) : dtCmp a a = .eq := dtCmp_eq_iff_eq.mpr rfl

theorem dtCmp_gt_iff_lt {a b : DT} : dtCmp a b = .gt ↔ dtCmp b a = .lt := by
  rw [dtCmp_gt_iff, dtCmp_lt_iff, dateCmp_gt_iff, dateCmp_lt_iff, dateCmp_eq_iff,
    dateCmp_eq_iff]
  omega

theorem dtCmp_lt_trans {a b c : DT} (h1 : dtCmp a b = .lt) (h2 : dtCmp b c = .lt) :
    dtCmp a c = .lt := by
  rw [dtCmp_lt_iff, dateCmp_lt_iff, dateCmp_eq_iff] at h1 h2 ⊢
  omega

theorem dtCmp_not_gt_trans {a b c : DT} (h1 : dtCmp a b ≠ .gt) (h2 : dtCmp b c ≠ .gt) :
    dtCmp a c ≠ .gt := by
  rw [ne_eq, dtCmp_gt_iff, dateCmp_gt_iff, dateCmp_eq_iff] at h1 h2 ⊢
  omega

theorem blockKeyLe_eq_true_iff {a b : FreeTimeBlock} : blockKeyLe a b = true ↔
    (dtCmp a.start_time b.start_time = .lt ∨
     (a.start_time = b.start_time ∧ dtCmp a.end_time b.end_time ≠ .gt)) := by
  unfold blockKeyLe
  rcases h : dtCmp a.start_time b.start_time with _ | _ | _
  · simp [h]
  · have := dtCmp_eq_iff_eq.mp h
    simp [h, this]
  · have h1 : ¬ a.start_time = b.start_time := by
      intro he; rw [he, dtCmp_refl] at h; cases h
    simp [h, h1]

theorem blockKeyLe_total (a b : FreeTimeBlock) :
    blockKeyLe a b = true ∨ blockKeyLe b a = true := by
  rw [blockKeyLe_eq_true_iff, blockKeyLe_eq_true_iff]
  rcases h : dtCmp a.start_time b.start_time with _ | _ | _
  · exact Or.inl (Or.inl rfl)
  · have he := dtCmp_eq_iff_eq.mp h
    rcases h2 : dtCmp a.end_time b.end_time with _ | _ | _
    · exact Or.inl (Or.inr ⟨he, by simp [h2]⟩)
    · exact Or.inl (Or.inr ⟨he, by simp [h2]⟩)
    · refine Or.inr (Or.inr ⟨he.symm, ?_⟩)
      rw [dtCmp_gt_iff_lt] at h2
      simp [h2]
  · exact Or.inr (Or.inl (dtCmp_gt_iff_lt.mp h))

theorem blockKeyLe_trans {a b c : FreeTimeBlock} (h1 : blockKeyLe a b = true)
    (h2 : blockKeyLe b c = true) : blockKeyLe a c = true := by
  rw [blockKeyLe_eq_true_iff] at h1 h2 ⊢
  rcases h1 with h1 | ⟨he1, hf1⟩
  · rcases h2 with h2 | ⟨he2, _⟩
    · exact Or.inl (dtCmp_lt_trans h1 h2)
    · exact Or.inl (he2 ▸ h1)
  · rcases h2 with h2 | ⟨he2, hf2⟩
    · exact Or.inl (he1 ▸ h2)
    · exact Or.inr ⟨he1.trans he2, dtCmp_not_gt_trans hf1 hf2⟩

theorem mem_insertLe {α : Type} {le : α → α → Bool} {x y : α} {l : List α} :
    y ∈ insertLe le x l ↔ y = x ∨ y ∈ l := by
  induction l with
  | nil => simp [insertLe]
  | cons z zs ih =>
    unfold insertLe
    split_ifs <;> simp_all <;> tauto

theorem mem_stableSortBy {α : Type} {le : α → α → Bool} {y : α} {l : List α} :
    y ∈ stableSortBy le l ↔ y ∈ l := by
  induction l with
  | nil => simp [stableSortBy]
  | cons z zs ih => simp [stableSortBy, mem_insertLe, ih]

theorem pairwise_insertLe {α : Type} {le : α → α → Bool}
    (htot : ∀ a b, le a b = true ∨ le b a = true)
    (htrans : ∀ a b c, le a b = true → le b c = true → le a c = true)
    {x : α} {l : List α} (h : l.Pairwise (fun a b => le a b = true)) :
    (insertLe le x l).Pairwise (fun a b => le a b = true) := by
  induction l with
  | nil => simp [insertLe]
  | cons y ys ih =>
    rw [List.pairwise_cons] at h
    unfold insertLe
    split_ifs with hxy
    · refine List.Pairwise.cons ?_ (List.pairwise_cons.mpr h)
      intro z hz
      rcases List.mem_cons.mp hz with hz | hz
      · exact hz ▸ hxy
      · exact htrans x y z hxy (h.1 z hz)
    · have hyx : le y x = true := (htot x y).resolve_left (by simp [hxy])
      refine List.Pairwise.cons ?_ (ih h.2)
      intro z hz
      rcases mem_insertLe.mp hz with hz | hz
      · exact hz ▸ hyx
      · exact h.1 z hz

theorem pairwise_stableSortBy {α : Type} {le : α → α → Bool}
    (htot : ∀ a b, le a b = true ∨ le b a = true)
    (htrans : ∀ a b c, le a b = true → le b c = true → le a c = true)
    (l : List α) :
    (stableSortBy le l).Pairwise (fun a b => le a b = true) := by
  induction l with
  | nil => simp [stableSortBy]
  | cons x xs ih => exact pairwise_insertLe htot htrans ih

/-! ### C10 helper lemmas: subtraction and coalescing preserve block
well-formedness -/

theorem durationHoursDt_same_date {d : Date} {s e : Int} :
    durationHoursDt ⟨d, s⟩ ⟨d, e⟩ = ((e - s : Int) : ℚ) / 3600 := by
  unfold durationHoursDt dtDiffSecs
  push_cast
  ring_nf

theorem freeTimeBlock_new_wf {date : Date} {day_range : TimeRange} {s e : Int}
    (hs : day_range.start ≤ s) (he : e ≤ day_range.endTime) (hlt : s < e) :
    BlockWF date day_range (FreeTimeBlock.new ⟨date, s⟩ ⟨date, e⟩) := by
  have hpos : (0 : ℚ) ≤ durationHoursDt ⟨date, s⟩ ⟨date, e⟩ := by
    rw [durationHoursDt_same_date]
    apply div_nonneg _ (by norm_num)
    exact_mod_cast (by omega : (0 : Int) ≤ e - s)
  refine ⟨rfl, rfl, hs, he, hlt, ?_⟩
  show max (durationHoursDt ⟨date, s⟩ ⟨date, e⟩) 0 = durationHoursDt ⟨date, s⟩ ⟨date, e⟩
  exact max_eq_left hpos

theorem subtractBusyFromFree_wf {date : Date} {day_range : TimeRange}
    {free : List FreeTimeBlock} {busy : TimeRange}
    (h : ∀ b ∈ free, BlockWF date day_range b) :
    ∀ b ∈ subtractBusyFromFree date free busy, BlockWF date day_range b := by
  intro b hb
  unfold subtractBusyFromFree at hb
  rw [List.mem_flatMap] at hb
  obtain ⟨fb, hfb, hmem⟩ := hb
  obtain ⟨hd1, hd2, hws, hwe, hlt, hrem⟩ := h fb hfb
  rw [DT.ext_date hd1, DT.ext_date hd2] at hmem
  by_cases hdisj :
      (dtLe ⟨date, busy.endTime⟩ ⟨date, fb.start_time.sec⟩ : Prop) ∨
      (dtLe ⟨date, fb.end_time.sec⟩ ⟨date, busy.start⟩ : Prop)
  · rw [if_pos hdisj, List.mem_singleton] at hmem
    exact hmem ▸ h fb hfb
  · rw [if_neg hdisj] at hmem
    rw [List.mem_append] at hmem
    rcases hmem with hmem | hmem
    · by_cases hl : (dtLt ⟨date, fb.start_time.sec⟩ ⟨date, busy.start⟩ : Prop)
      · rw [if_pos hl, List.mem_singleton] at hmem
        have hl' : fb.start_time.sec < busy.start := by
          have := dtLt_eq_true_iff.mp hl
          rw [dtCmp_same_date, intCmp_lt_iff] at this
          exact this
        have hend : busy.start ≤ day_range.endTime := by
          push_neg at hdisj
          have h2 := dtLe_eq_false_iff.mp (Bool.eq_false_iff.mpr hdisj.2)
          rw [dtCmp_same_date, intCmp_gt_iff] at h2
          exact le_of_lt (lt_of_lt_of_le h2 hwe)
        rw [hmem]
        exact freeTimeBlock_new_wf hws hend hl'
      · rw [if_neg hl] at hmem
        exact absurd hmem (List.not_mem_nil _)
    · by_cases hr : (dtLt ⟨date, busy.endTime⟩ ⟨date, fb.end_time.sec⟩ : Prop)
      · rw [if_pos hr, List.mem_singleton] at hmem
        have hr' : busy.endTime < fb.end_time.sec := by
          have := dtLt_eq_true_iff.mp hr
          rw [dtCmp_same_date, intCmp_lt_iff] at this
          exact this
        have hstart : day_range.start ≤ busy.endTime := by
          push_neg at hdisj
          have h2 := dtLe_eq_false_iff.mp (Bool.eq_false_iff.mpr hdisj.1)
          rw [dtCmp_same_date, intCmp_gt_iff] at h2
          exact le_trans hws (le_of_lt h2)
        rw [hmem]
        exact freeTimeBlock_new_wf hstart hwe hr'
      · rw [if_neg hr] at hmem
        exact absurd hmem (List.not_mem_nil _)

theorem coalesceGo_wf {date : Date} {day_range : TimeRange}
    (bs : List FreeTimeBlock) (cur : FreeTimeBlock)
    (hcur : BlockWF date day_range cur)
    (hbs : ∀ b ∈ bs, BlockWF date day_range b)
    (hsort : bs.Pairwise (fun a b => blockKeyLe a b = true)) :
    (∀ b ∈ coalesceGo cur bs, BlockWF date day_range b) ∧
    (coalesceGo cur bs).Chain' (fun a b => a.end_time.sec < b.start_time.sec) ∧
    (coalesceGo cur bs).head?.map (·.start_time) = some cur.start_time := by
  induction bs generalizing cur with
  | nil =>
    refine ⟨?_, by simp [coalesceGo], by simp [coalesceGo]⟩
    intro b hb
    rw [coalesceGo, List.mem_singleton] at hb
    exact hb ▸ hcur
  | cons b bs ih =>
    rw [List.pairwise_cons] at hsort
    obtain ⟨hd1, hd2, hws, hwe, hlt, hrem⟩ := hcur
    obtain ⟨gd1, gd2, gws, gwe, glt, grem⟩ := hbs b (List.mem_cons_self b bs)
    rw [coalesceGo]
    split_ifs with hmerge hext
    · have hext' : cur.end_time.sec < b.end_time.sec := by
        have hx := dtLt_eq_true_iff.mp hext
        rw [DT.ext_date hd2, DT.ext_date gd2, dtCmp_same_date, intCmp_lt_iff] at hx
        exact hx
      have hcur' : BlockWF date day_range
          { cur with
            end_time := b.end_time,
            remaining_free_time := durationHoursDt cur.start_time b.end_time } :=
        ⟨hd1, gd2, hws, gwe, (show cur.start_time.sec < b.end_time.sec by omega), rfl⟩
      exact ih _ hcur' (fun x hx => hbs x (List.mem_cons_of_mem b hx)) hsort.2
    · exact ih _ ⟨hd1, hd2, hws, hwe, hlt, hrem⟩
        (fun x hx => hbs x (List.mem_cons_of_mem b hx)) hsort.2
    · have hgap : cur.end_time.sec < b.start_time.sec := by
        have hgt : dtCmp b.start_time cur.end_time = .gt := by
          rw [← dtLe_eq_false_iff]
          simpa using hmerge
        rw [DT.ext_date gd1, DT.ext_date hd2, dtCmp_same_date, intCmp_gt_iff] at hgt
        exact hgt
      obtain ⟨ihwf, ihchain, ihhead⟩ := ih b ⟨gd1, gd2, gws, gwe, glt, grem⟩
        (fun x hx => hbs x (List.mem_cons_of_mem b hx)) hsort.2
      refine ⟨?_, ?_, by simp⟩
      · intro x hx
        rcases List.mem_cons.mp hx with rfl | hx
        · exact ⟨hd1, hd2, hws, hwe, hlt, hrem⟩
        · exact ihwf x hx
      · rcases hrec : coalesceGo b bs with _ | ⟨rb, rbs⟩
        · simp
        · rw [hrec] at ihchain ihhead
          simp only [List.head?, Option.map_some'] at ihhead
          refine List.chain'_cons.mpr ⟨?_, ihchain⟩
          have hrb : rb.start_time = b.start_time := by
            injection ihhead
          rw [hrb]
          exact hgap

theorem chain_gap_strengthen {l : List FreeTimeBlock}
    (hwf : ∀ b ∈ l, b.start_time.sec < b.end_time.sec)
    (hc : l.Chain' (fun a b => a.end_time.sec < b.start_time.sec)) :
    l.Chain' (fun a b =>
      a.start_time.sec < b.start_time.sec ∧ a.end_time.sec < b.start_time.sec) := by
  induction l with
  | nil => simp
  | cons x xs ih =>
    cases xs with
    | nil => simp
    | cons y ys =>
      rw [List.chain'_cons] at hc ⊢
      refine ⟨⟨?_, hc.1⟩, ih (fun b hb => hwf b (List.mem_cons_of_mem _ hb)) hc.2⟩
      have := hwf x (List.mem_cons_self _ _)
      omega

/-- Full well-formedness of the output of `free_blocks_for_date`: every
block satisfies `BlockWF` with exact same-date duration, and the list is
sorted by start time with strictly positive gaps. -/
theorem freeBlocksForDate_wf_aux (events : List Event) (tasks : List Task)
    (date : Date) (day_range : TimeRange)
    (hwin : day_range.start < day_range.endTime) :
    (∀ b ∈ freeBlocksForDate events tasks date day_range,
      BlockWF date day_range b ∧
      b.remaining_free_time =
        ((b.end_time.sec - b.start_time.sec : Int) : ℚ) / 3600) ∧
    (freeBlocksForDate events tasks date day_range).Chain'
      (fun a b =>
        a.start_time.sec < b.start_time.sec ∧ a.end_time.sec < b.start_time.sec) := by
  have h0 : ∀ b ∈
      [FreeTimeBlock.new ⟨date, day_range.start⟩ ⟨date, day_range.endTime⟩],
      BlockWF date day_range b := by
    intro b hb
    rw [List.mem_singleton] at hb
    exact hb ▸ freeTimeBlock_new_wf le_rfl le_rfl hwin
  have hev : ∀ (l : List Event) (free : List FreeTimeBlock),
      (∀ b ∈ free, BlockWF date day_range b) →
      ∀ b ∈ l.foldl (fun free e => subtractBusyFromFree date free e.time_range) free,
        BlockWF date day_range b := by
    intro l
    induction l with
    | nil => intro free hf; simpa using hf
    | cons e es ih =>
      intro free hf
      exact ih _ (subtractBusyFromFree_wf hf)
  have hst : ∀ (l : List SubTask) (free : List FreeTimeBlock),
      (∀ b ∈ free, BlockWF date day_range b) →
      ∀ b ∈ l.foldl
        (fun free st =>
          if st.date = date then subtractBusyFromFree date free st.time_range else free)
        free, BlockWF date day_range b := by
    intro l
    induction l with
    | nil => intro free hf; simpa using hf
    | cons st sts ih =>
      intro free hf
      rw [List.foldl_cons]
      apply ih
      by_cases hd : st.date = date
      · simpa [hd] using subtractBusyFromFree_wf hf
      · simpa [hd] using hf
  have htk : ∀ (l : List Task) (free : List FreeTimeBlock),
      (∀ b ∈ free, BlockWF date day_range b) →
      ∀ b ∈ l.foldl
        (fun free t => t.subtasks.foldl
          (fun free st =>
            if st.date = date then subtractBusyFromFree date free st.time_range else free)
          free)
        free, BlockWF date day_range b := by
    intro l
    induction l with
    | nil => intro free hf; simpa using hf
    | cons t ts ih =>
      intro free hf
      exact ih _ (hst t.subtasks free hf)
  have hV : ∀ b ∈ (tasks.foldl
      (fun free t => t.subtasks.foldl
        (fun free st =>
          if st.date = date then subtractBusyFromFree date free st.time_range else free)
        free)
      ((events.filter (fun e => e.isActiveOnDate date)).foldl
        (fun free e => subtractBusyFromFree date free e.time_range)
        [FreeTimeBlock.new ⟨date, day_range.start⟩ ⟨date, day_range.endTime⟩])),
      BlockWF date day_range b :=
    htk tasks _ (hev _ _ h0)
  have hfb : freeBlocksForDate events tasks date day_range =
      coalesceFreeBlocks (tasks.foldl
        (fun free t => t.subtasks.foldl
          (fun free st =>
            if st.date = date then subtractBusyFromFree date free st.time_range else free)
          free)
        ((events.filter (fun e => e.isActiveOnDate date)).foldl
          (fun free e => subtractBusyFromFree date free e.time_range)
          [FreeTimeBlock.new ⟨date, day_range.start⟩ ⟨date, day_range.endTime⟩])) := rfl
  rw [hfb]
  unfold coalesceFreeBlocks
  rcases hs : stableSortBy blockKeyLe (tasks.foldl
      (fun free t => t.subtasks.foldl
        (fun free st =>
          if st.date = date then subtractBusyFromFree date free st.time_range else free)
        free)
      ((events.filter (fun e => e.isActiveOnDate date)).foldl
        (fun free e => subtractBusyFromFree date free e.time_range)
        [FreeTimeBlock.new ⟨date, day_range.start⟩ ⟨date, day_range.endTime⟩]))
    with _ | ⟨b, bs⟩
  · rw [hs]
    exact ⟨by simp, by simp⟩
  · rw [hs]
    have hmem : ∀ x ∈ b :: bs, BlockWF date day_range x := by
      intro x hx
      rw [← hs] at hx
      exact hV x (mem_stableSortBy.mp hx)
    have hpw := pairwise_stableSortBy blockKeyLe_total
      (fun a b c => blockKeyLe_trans) (tasks.foldl
        (fun free t => t.subtasks.foldl
          (fun free st =>
            if st.date = date then subtractBusyFromFree date free st.time_range else free)
          free)
        ((events.filter (fun e => e.isActiveOnDate date)).foldl
          (fun free e => subtractBusyFromFree date free e.time_range)
          [FreeTimeBlock.new ⟨date, day_range.start⟩ ⟨date, day_range.endTime⟩]))
    rw [hs, List.pairwise_cons] at hpw
    obtain ⟨hwf, hchain, _⟩ := coalesceGo_wf bs b
      (hmem b (List.mem_cons_self b bs))
      (fun x hx => hmem x (List.mem_cons_of_mem b hx)) hpw.2
    refine ⟨?_, ?_⟩
    · intro x hx
      have hw := hwf x hx
      refine ⟨hw, ?_⟩
      obtain ⟨xd1, xd2, _, _, _, xrem⟩ := hw
      rw [xrem, DT.ext_date xd1, DT.ext_date xd2, durationHoursDt_same_date]
    · exact chain_gap_strengthen (fun x hx => (hwf x hx).2.2.2.2.1) hchain

/-- Claim C10: for every context, date and daily window with
`start < end`, the blocks returned by `CalendarView::free_blocks_for_date`
all lie on that date within the window, have `start_time` strictly before
`end_time` and `remaining_free_time` equal to the duration
`(end − start)` in hours, and are sorted by start time, pairwise disjoint
with a strictly positive gap between consecutive blocks. -/
theorem freeBlocksForDate_invariant (events : List Event) (tasks : List Task)
    (date : Date) (day_range : TimeRange)
    (hwin : day_range.start < day_range.endTime) :
    (∀ b ∈ freeBlocksForDate events tasks date day_range,
      BlockWF date day_range b ∧
      b.remaining_free_time =
        ((b.end_time.sec - b.start_time.sec : Int) : ℚ) / 3600) ∧
    (freeBlocksForDate events tasks date day_range).Chain'
      (fun a b =>
        a.start_time.sec < b.start_time.sec ∧ a.end_time.sec < b.start_time.sec) :=
  freeBlocksForDate_wf_aux events tasks date day_range hwin

unseal Rat.add Rat.sub Rat.mul Rat.inv in
/-- Witness for C10 on an empty context with window 8:00AM–6:00PM: one
block spanning the whole window, with ten remaining hours. -/
theorem freeBlocksForDate_invariant_witness :
    ((28800 : Int) < 64800) ∧
    (BlockWF ⟨2099, 1, 1⟩ ⟨28800, 64800⟩
      { start_time := ⟨⟨2099, 1, 1⟩, 28800⟩, end_time := ⟨⟨2099, 1, 1⟩, 64800⟩
        remaining_free_time := 10 } ∧
     ({ start_time := ⟨⟨2099, 1, 1⟩, 28800⟩, end_time := ⟨⟨2099, 1, 1⟩, 64800⟩
        remaining_free_time := 10 } : FreeTimeBlock).remaining_free_time =
       ((64800 - 28800 : Int) : ℚ) / 3600) ∧
    (freeBlocksForDate [] [] ⟨2099, 1, 1⟩ ⟨28800, 64800⟩).Chain'
      (fun a b =>
        a.start_time.sec < b.start_time.sec ∧ a.end_time.sec < b.start_time.sec) :=
  ⟨by decide,
   (freeBlocksForDate_invariant [] [] ⟨2099, 1, 1⟩ ⟨28800, 64800⟩ (by decide)).1
     _ (by decide),
   (freeBlocksForDate_invariant [] [] ⟨2099, 1, 1⟩ ⟨28800, 64800⟩ (by decide)).2⟩

/-! ### C8 helper lemmas: the deepest-failure fold -/

theorem deepestFailure_some {w : ArgMatchFailure} {fs : List ArgMatchFailure} :
    ∃ f, deepestFailure (some w) fs = some f ∧
      ((f = w ∧ ∀ g ∈ fs, g.position < w.position) ∨
       (∃ pre post, fs = pre ++ f :: post ∧ w.position ≤ f.position ∧
         (∀ g ∈ pre, g.position ≤ f.position) ∧
         (∀ g ∈ post, g.position < f.position))) := by
  induction fs generalizing w with
  | nil => exact ⟨w, rfl, Or.inl ⟨rfl, by simp⟩⟩
  | cons g rest ih =>
    by_cases hwg : w.position ≤ g.position
    · obtain ⟨f, hf, hcase⟩ := ih (w := g)
      refine ⟨f, ?_, ?_⟩
      · simpa [deepestFailure, hwg] using hf
      · rcases hcase with ⟨rfl, hall⟩ | ⟨pre, post, hsplit, hle, hpre, hpost⟩
        · exact Or.inr ⟨[], rest, by simp, hwg, by simp, hall⟩
        · exact Or.inr ⟨g :: pre, post, by simp [hsplit], le_trans hwg hle,
            by
              intro x hx
              rcases List.mem_cons.mp hx with rfl | hx
              · exact hle
              · exact hpre x hx,
            hpost⟩
    · obtain ⟨f, hf, hcase⟩ := ih (w := w)
      refine ⟨f, ?_, ?_⟩
      · simpa [deepestFailure, hwg] using hf
      · rcases hcase with ⟨rfl, hall⟩ | ⟨pre, post, hsplit, hle, hpre, hpost⟩
        · refine Or.inl ⟨rfl, ?_⟩
          intro x hx
          rcases List.mem_cons.mp hx with rfl | hx
          · omega
          · exact hall x hx
        · exact Or.inr ⟨g :: pre, post, by simp [hsplit],
            hle,
            by
              intro x hx
              rcases List.mem_cons.mp hx with rfl | hx
              · omega
              · exact hpre x hx,
            hpost⟩

theorem assertGo_all_fail {A C : Type} {ctx : C} {action : String} {args : List A}
    {ps : List (PatternChoice A C)} {fs : List ArgMatchFailure}
    {init : Option ArgMatchFailure}
    (hmap : ps.map (fun p => matchPattern ctx action p.pid p.pattern args) =
      fs.map Except.error) :
    assertGo ctx action args ps init =
      (match deepestFailure init fs with
       | some f => .error (.parse f.error)
       | none => .error (.parse "No matching pattern of arguments found.")) := by
  induction ps generalizing fs init with
  | nil =>
    have : fs = [] := by
      cases fs with
      | nil => rfl
      | cons f fs => simp at hmap
    subst this
    rfl
  | cons p ps ih =>
    cases fs with
    | nil => simp at hmap
    | cons f fs =>
      simp only [List.map_cons, List.cons.injEq] at hmap
      simp only [assertGo, hmap.1]
      rw [ih hmap.2]
      rfl

/-- Claim C8: the pattern matcher walks slots and typed arguments in
parallel: a required slot with no argument left fails with "Missing
argument(s)"; a kind mismatch on an optional slot skips the slot while
keeping the argument; a kind mismatch on a required slot fails with the
matcher's expected-kind message; a validator failure fails with the
validator's message; arguments remaining after all slots are exhausted
fail with "Too many arguments"; and when every pattern for an action
fails, the surfaced error is the failure that advanced to the highest
slot index, ties resolved in favour of the later-tried pattern — every
message carrying a "\nUsage:" suffix. -/
theorem pattern_matcher_walk_and_deepest_failure {A C : Type} :
    (∀ (ctx : C) (action pid : String) (slot : ArgSlot A C)
       (rest : List (ArgSlot A C)) (i l : Nat),
      slot.optional = false →
      matchSlots ctx action pid (slot :: rest) [] i l =
        .error ⟨i, s!"Missing argument(s).\nUsage: {action} {pid}"⟩) ∧
    (∀ (ctx : C) (action pid : String) (slot : ArgSlot A C)
       (rest : List (ArgSlot A C)) (arg : A) (args : List A) (i l : Nat) (e : String),
      slot.matcher arg = some e → slot.optional = true →
      matchSlots ctx action pid (slot :: rest) (arg :: args) i l =
        matchSlots ctx action pid rest (arg :: args) (i + 1) i) ∧
    (∀ (ctx : C) (action pid : String) (slot : ArgSlot A C)
       (rest : List (ArgSlot A C)) (arg : A) (args : List A) (i l : Nat) (e : String),
      slot.matcher arg = some e → slot.optional = false →
      matchSlots ctx action pid (slot :: rest) (arg :: args) i l =
        .error ⟨i, s!"{e}.\nUsage: {action} {pid}"⟩) ∧
    (∀ (ctx : C) (action pid : String) (slot : ArgSlot A C)
       (rest : List (ArgSlot A C)) (arg : A) (args : List A) (i l : Nat)
       (v : A → C → Option String) (e : String),
      slot.matcher arg = none → slot.validator = some v → v arg ctx = some e →
      matchSlots ctx action pid (slot :: rest) (arg :: args) i l =
        .error ⟨i, s!"{e}.\nUsage: {action} {pid}"⟩) ∧
    (∀ (ctx : C) (action pid : String) (pattern : List (ArgSlot A C))
       (args : List A) (a : A) (rem : List A) (last : Nat),
      matchSlots ctx action pid pattern args 0 0 = .ok (a :: rem, last) →
      matchPattern ctx action pid pattern args =
        .error ⟨last, s!"Too many arguments provided.\nUsage: {action} {pid}"⟩) ∧
    (∀ (ctx : C) (action : String) (args : List A)
       (ps : List (PatternChoice A C)) (fs : List ArgMatchFailure),
      ps ≠ [] →
      ps.map (fun p => matchPattern ctx action p.pid p.pattern args) =
        fs.map Except.error →
      ∃ f pre post, fs = pre ++ f :: post ∧
        assertMatchesPattern ctx action ps args = .error (.parse f.error) ∧
        (∀ g ∈ pre, g.position ≤ f.position) ∧
        (∀ g ∈ post, g.position < f.position)) := by
  refine ⟨?_, ?_, ?_, ?_, ?_, ?_⟩
  · intro ctx action pid slot rest i l hopt
    rw [matchSlots, if_neg (by simp [hopt])]
  · intro ctx action pid slot rest arg args i l e hm hopt
    rw [matchSlots]
    have hc : slot.classify arg ctx = .kindMismatch e := by
      unfold ArgSlot.classify
      rw [hm]
    rw [hc]
    simp [hopt]
  · intro ctx action pid slot rest arg args i l e hm hopt
    rw [matchSlots]
    have hc : slot.classify arg ctx = .kindMismatch e := by
      unfold ArgSlot.classify
      rw [hm]
    rw [hc]
    simp [hopt]
  · intro ctx action pid slot rest arg args i l v e hm hv hve
    rw [matchSlots]
    have hc : slot.classify arg ctx = .validatorFail e := by
      unfold ArgSlot.classify
      simp only [hm, hv, hve]
    rw [hc]
  · intro ctx action pid pattern args a rem last h
    rw [matchPattern, h]
    simp
  · intro ctx action args ps fs hne hmap
    cases ps with
    | nil => exact absurd rfl hne
    | cons p ps =>
      cases fs with
      | nil => simp at hmap
      | cons f0 fs =>
        simp only [List.map_cons, List.cons.injEq] at hmap
        have hrun : assertMatchesPattern ctx action (p :: ps) args =
            assertGo ctx action args ps (some f0) := by
          unfold assertMatchesPattern
          rw [assertGo, hmap.1]
          simp [deepestFailure]
        obtain ⟨f, hdf, hcase⟩ := @deepestFailure_some f0 fs
        have hres : assertGo ctx action args ps (some f0) = .error (.parse f.error) := by
          rw [assertGo_all_fail hmap.2, hdf]
        rcases hcase with ⟨rfl, hall⟩ | ⟨pre, post, hsplit, hle, hpre, hpost⟩
        · exact ⟨f, [], fs, by simp, hrun.trans hres, by simp, hall⟩
        · refine ⟨f, f0 :: pre, post, by simp [hsplit], hrun.trans hres, ?_, hpost⟩
          intro g hg
          rcases List.mem_cons.mp hg with rfl | hg
          · exact hle
          · exact hpre g hg

/-- Witness for C8 at concrete slots over `Nat` arguments: a required
slot fails on exhaustion, an optional slot skips on mismatch, a required
slot surfaces the matcher's message, a validator failure surfaces its
message, leftover arguments fail, and of two failing patterns the later
one's failure is surfaced. -/
theorem pattern_matcher_walk_and_deepest_failure_witness :
    (matchSlots () "act" "pid"
        [(⟨fun a => if a = 0 then none else some "expected zero", none, false⟩ :
          ArgSlot Nat Unit)] [] 2 0 =
      .error ⟨2, "Missing argument(s).\nUsage: act pid"⟩) ∧
    (matchSlots () "act" "pid"
        [(⟨fun a => if a = 0 then none else some "expected zero", none, true⟩ :
          ArgSlot Nat Unit)] [1] 0 0 =
      matchSlots () "act" "pid" [] [1] 1 0) ∧
    (matchSlots () "act" "pid"
        [(⟨fun a => if a = 0 then none else some "expected zero", none, false⟩ :
          ArgSlot Nat Unit)] [1] 0 0 =
      .error ⟨0, "expected zero.\nUsage: act pid"⟩) ∧
    (matchSlots () "act" "pid"
        [(⟨fun _ => none,
           some (fun a _ => if a = 5 then some "bad five" else none), false⟩ :
          ArgSlot Nat Unit)] [5] 0 0 =
      .error ⟨0, "bad five.\nUsage: act pid"⟩) ∧
    (matchPattern () "act" "pid" ([] : List (ArgSlot Nat Unit)) [7] =
      .error ⟨0, "Too many arguments provided.\nUsage: act pid"⟩) ∧
    (∃ f pre post,
      ([⟨0, "expected zero.\nUsage: act p1"⟩,
        ⟨0, "expected zero.\nUsage: act p2"⟩] : List ArgMatchFailure) =
        pre ++ f :: post ∧
      assertMatchesPattern () "act"
        [(⟨"p1", [⟨fun a => if a = 0 then none else some "expected zero", none,
            false⟩]⟩ : PatternChoice Nat Unit),
         ⟨"p2", [⟨fun a => if a = 0 then none else some "expected zero", none,
            false⟩]⟩] [1] = .error (.parse f.error) ∧
      (∀ g ∈ pre, g.position ≤ f.position) ∧
      (∀ g ∈ post, g.position < f.position)) :=
  ⟨pattern_matcher_walk_and_deepest_failure.1 () "act" "pid" _ [] 2 0 rfl,
   pattern_matcher_walk_and_deepest_failure.2.1 () "act" "pid" _ [] 1 [] 0 0
     "expected zero" rfl rfl,
   pattern_matcher_walk_and_deepest_failure.2.2.1 () "act" "pid" _ [] 1 [] 0 0
     "expected zero" rfl rfl,
   pattern_matcher_walk_and_deepest_failure.2.2.2.1 () "act" "pid" _ [] 5 [] 0 0
     (fun a _ => if a = 5 then some "bad five" else none) "bad five" rfl rfl rfl,
   pattern_matcher_walk_and_deepest_failure.2.2.2.2.1 () "act" "pid" [] [7] 7 [] 0
     rfl,
   pattern_matcher_walk_and_deepest_failure.2.2.2.2.2 () "act" [1] _ _
     (List.cons_ne_nil _ _) rfl⟩

/-- Claim C2 fails on the code: `Transaction::run` only discards the
stages when the closure `f` itself fails; a failure of cross-entity
validation (here: a staged event referencing card id 1 with no card in
the batch, spec seed scenario 6) propagates through `?` without touching
`discard_all`, leaving all three repositories staged and the events
repository's `next_id` at 2 instead of its pre-run value 1. -/
theorem transaction_validation_failure_skips_rollback :
    (Transaction.run txScenarioState true txScenarioF).2 =
      .error (.parse "Referenced id 1 not present in transaction.") ∧
    (Transaction.run txScenarioState true txScenarioF).1.events.next_id = 2 ∧
    (Transaction.run txScenarioState true txScenarioF).1.events.staged.isSome = true ∧
    (Transaction.run txScenarioState true txScenarioF).1.cards.staged.isSome = true ∧
    (Transaction.run txScenarioState true txScenarioF).1.tasks.staged.isSome = true ∧
    txScenarioState.events.next_id = 1 ∧
    txScenarioState.events.staged.isSome = false ∧
    txScenarioState.events.items = [] ∧
    (Transaction.run txScenarioState true txScenarioF).1.events.items = [] := by
  refine ⟨by decide, by decide, by decide, by decide, by decide, rfl, rfl, rfl,
    by decide⟩

/-! ### Bookkeeping helper lemmas: integral rationals and the packer ledger -/

theorem den_one_iff {q : ℚ} : q.den = 1 ↔ ∃ k : ℤ, q = (k : ℚ) := by
  constructor
  · intro h
    refine ⟨q.num, ?_⟩
    conv_lhs => rw [← Rat.num_div_den q]
    rw [h]
    norm_num
  · rintro ⟨k, rfl⟩
    exact Rat.den_intCast k

theorem ratRound_intCast (k : ℤ) : ratRound (k : ℚ) = k := by
  unfold ratRound
  split_ifs with h
  · rw [show ((k:ℚ) + 1/2) = (1/2 : ℚ) + k by ring, Int.floor_add_int]
    norm_num
  · rw [show ((k:ℚ) - 1/2) = (-(1/2) : ℚ) + k by ring, Int.ceil_add_int]
    norm_num

theorem subtasksHours_nonneg {l : List SubTask}
    (h : ∀ s ∈ l, s.time_range.start ≤ s.time_range.endTime) :
    0 ≤ subtasksHours l := by
  unfold subtasksHours
  apply List.sum_nonneg
  intro x hx
  rw [List.mem_map] at hx
  obtain ⟨s, hs, rfl⟩ := hx
  unfold SubTask.hours
  have := h s hs
  have h2 : (0:ℚ) ≤ (s.time_range.endTime : ℚ) - (s.time_range.start : ℚ) := by
    rw [sub_nonneg]
    exact_mod_cast this
  positivity

theorem subtasksHours_append (l : List SubTask) (s : SubTask) :
    subtasksHours (l ++ [s]) = subtasksHours l + s.hours := by
  unfold subtasksHours
  simp

theorem taskInv_hours_nonneg {t : Task} (h : TaskInv t) : 0 ≤ t.hours := by
  obtain ⟨h0, _, hled, _, _, hsub⟩ := h
  rw [hled]
  have := subtasksHours_nonneg hsub
  linarith

theorem taskInv_new {n : String} {q : ℚ} {c : Option Int} {d : Date}
    (hq : q.den = 1) : TaskInv (Task.new n q c d) := by
  obtain ⟨k, rfl⟩ := den_one_iff.mp hq
  unfold Task.new TaskInv
  refine ⟨le_max_right _ _, le_refl _, ?_, ?_, ?_, by simp⟩
  · simp [subtasksHours]
  · rcases le_total ((k:ℚ)) 0 with h | h
    · simp [max_eq_right h]
    · rw [max_eq_left h]
      exact Rat.den_intCast k
  · rcases le_total ((k:ℚ)) 0 with h | h
    · simp [max_eq_right h]
    · rw [max_eq_left h]
      apply den_one_iff.mpr
      exact ⟨k * 3600, by push_cast; ring⟩

theorem taskInv_modify {t : Task} {n : String} {q : ℚ} {c : Option Int} {d : Date}
    (hq : q.den = 1) : TaskInv (t.modify n q c d) := by
  obtain ⟨k, rfl⟩ := den_one_iff.mp hq
  unfold Task.modify TaskInv
  refine ⟨le_max_right _ _, le_refl _, ?_, ?_, ?_, by simp⟩
  · simp [subtasksHours]
  · rcases le_total ((k:ℚ)) 0 with h | h
    · simp [max_eq_right h]
    · rw [max_eq_left h]
      exact Rat.den_intCast k
  · rcases le_total ((k:ℚ)) 0 with h | h
    · simp [max_eq_right h]
    · rw [max_eq_left h]
      apply den_one_iff.mpr
      exact ⟨k * 3600, by push_cast; ring⟩

theorem selectBlockIdx_spec {free : List FreeTimeBlock} {idx : Nat}
    (h : selectBlockIdx free = some idx) :
    ∃ b, free.get? idx = some b ∧ 0 < b.remaining_free_time := by
  unfold selectBlockIdx at h
  rw [List.findIdx?_eq_some_iff_findIdx_eq] at h
  obtain ⟨hlt, hfi⟩ := h
  refine ⟨free.get ⟨idx, hlt⟩, ?_, ?_⟩
  · rw [List.get?_eq_getElem?, List.getElem?_eq_getElem hlt]
    rfl
  · have := (List.findIdx_eq hlt).mp hfi
    simpa using this.1

theorem mem_insertAt {α : Type} {x y : α} {l : List α} :
    ∀ {n : Nat}, y ∈ insertAt n x l → y = x ∨ y ∈ l := by
  induction l with
  | nil =>
    intro n hy
    cases n <;> simp [insertAt] at hy <;> simp [hy]
  | cons a as ih =>
    intro n hy
    cases n with
    | zero =>
      simp [insertAt] at hy
      rcases hy with h | h | h
      · exact Or.inl h
      · exact Or.inr (by simp [h])
      · exact Or.inr (by simp [h])
    | succ m =>
      simp only [insertAt, List.mem_cons] at hy
      rcases hy with h | h
      · exact Or.inr (by simp [h])
      · rcases ih h with h2 | h2
        · exact Or.inl h2
        · exact Or.inr (by simp [h2])

theorem mem_of_mem_eraseIdx {α : Type} {y : α} {l : List α} {n : Nat}
    (h : y ∈ l.eraseIdx n) : y ∈ l :=
  (List.eraseIdx_sublist l n).mem h

theorem den_one_sub {a b : ℚ} (ha : a.den = 1) (hb : b.den = 1) :
    (a - b).den = 1 := by
  obtain ⟨i, rfl⟩ := den_one_iff.mp ha
  obtain ⟨j, rfl⟩ := den_one_iff.mp hb
  apply den_one_iff.mpr
  exact ⟨i - j, by push_cast; ring⟩

theorem taskInv_push_exact {t : Task} {tr : TimeRange} {d : Date} {q : ℚ}
    (ht : TaskInv t)
    (happly : min (max q 0) t.remaining_hours = q)
    (hsub : ((tr.endTime : ℚ) - (tr.start : ℚ)) / 3600 = q)
    (hq3600 : (q * 3600).den = 1)
    (htr : tr.start ≤ tr.endTime) :
    TaskInv (t.pushSubtaskWithHours tr d q) := by
  obtain ⟨h0, hle, hled, hdh, hdr, hsubs⟩ := ht
  have hqle : q ≤ t.remaining_hours := by
    conv_lhs => rw [← happly]
    exact min_le_right _ _
  have hq0 : 0 ≤ q := by
    rw [← happly]
    exact le_min (le_max_right q 0) h0
  simp only [Task.pushSubtaskWithHours]
  rw [happly]
  unfold TaskInv
  refine ⟨by simp; linarith, by simp; linarith, ?_, hdh, ?_, ?_⟩
  · show t.hours = subtasksHours (t.subtasks ++
      [{ task_id := t.id, date := d, time_range := tr, overflow := false }]) +
      (t.remaining_hours - q)
    rw [subtasksHours_append]
    have hnew : SubTask.hours
        { task_id := t.id, date := d, time_range := tr, overflow := false } = q := by
      unfold SubTask.hours
      exact hsub
    rw [hnew]
    linarith [hled]
  · show ((t.remaining_hours - q) * 3600).den = 1
    rw [show (t.remaining_hours - q) * 3600 =
        t.remaining_hours * 3600 - q * 3600 by ring]
    exact den_one_sub hdr hq3600
  · intro s hs
    simp only [List.mem_append, List.mem_singleton] at hs
    rcases hs with hs | hs
    · exact hsubs s hs
    · subst hs
      exact htr

theorem placeOneBlock_inv {t : Task} {date : Date} {b : FreeTimeBlock}
    (ht : TaskInv t) (hb : BlockInv b) (hpos : 0 < t.remaining_hours)
    (hcap : 0 < b.remaining_free_time) :
    TaskInv (placeOneBlock t date b).1 ∧
    ∀ b', (placeOneBlock t date b).2 = PlaceStep.finished (some b') → BlockInv b' := by
  obtain ⟨hbdate, hbrem⟩ := hb
  have hbrem' := hbrem hcap
  obtain ⟨k, hk⟩ := den_one_iff.mp ht.2.2.2.2.1
  have hkpos : 0 < k := by
    have h1 : (0:ℚ) < (k:ℚ) := by rw [← hk]; positivity
    exact_mod_cast h1
  have hdiffpos : 0 < b.end_time.sec - b.start_time.sec := by
    have h1 : (0:ℚ) < ((b.end_time.sec - b.start_time.sec : Int) : ℚ) / 3600 := by
      rw [← hbrem']; exact hcap
    have h2 : (0:ℚ) < ((b.end_time.sec - b.start_time.sec : Int) : ℚ) := by
      by_contra hcon
      push_neg at hcon
      have : ((b.end_time.sec - b.start_time.sec : Int) : ℚ) / 3600 ≤ 0 := by
        apply div_nonpos_of_nonpos_of_nonneg hcon
        norm_num
      linarith
    exact_mod_cast h2
  simp only [placeOneBlock]
  by_cases hc : t.remaining_hours ≤ b.remaining_free_time
  · rw [if_pos hc]
    have hround : ratRound (t.remaining_hours * 3600) = k := by
      rw [hk, ratRound_intCast]
    simp only [timeAfterHoursDt, hround]
    constructor
    · apply taskInv_push_exact ht
      · rw [max_eq_left (le_of_lt hpos), min_self]
      · push_cast
        rw [← hk]
        field_simp
      · exact ht.2.2.2.2.1
      · show b.start_time.sec ≤ b.start_time.sec + k
        omega
    · intro b' hb'
      by_cases hl : 0 < durationHoursDt ⟨b.start_time.date, b.start_time.sec + k⟩ b.end_time
      · rw [if_pos hl] at hb'
        injection hb' with h1
        injection h1 with h2
        subst h2
        refine ⟨hbdate, fun _ => ?_⟩
        show durationHoursDt ⟨b.start_time.date, b.start_time.sec + k⟩ b.end_time =
          ((b.end_time.sec - (b.start_time.sec + k) : Int) : ℚ) / 3600
        rw [DT.ext_date (show b.end_time.date = b.start_time.date from hbdate.symm)]
        rw [durationHoursDt_same_date]
      · rw [if_neg hl] at hb'
        injection hb' with h1
        cases h1
  · rw [if_neg hc]
    push_neg at hc
    constructor
    · apply taskInv_push_exact ht
      · rw [max_eq_left (le_of_lt hcap), min_eq_left (le_of_lt hc)]
      · show ((b.end_time.sec : ℚ) - (b.start_time.sec : ℚ)) / 3600 =
          b.remaining_free_time
        rw [hbrem']
        push_cast
        ring
      · rw [hbrem']
        apply den_one_iff.mpr
        refine ⟨b.end_time.sec - b.start_time.sec, ?_⟩
        push_cast
        field_simp
      · show b.start_time.sec ≤ b.end_time.sec
        omega
    · intro b' hb'
      cases hb'

theorem packGo_inv (date : Date) :
    ∀ (fuel : Nat) (t : Task) (free : List FreeTimeBlock),
      TaskInv t → (∀ b ∈ free, BlockInv b) →
      TaskInv (packGo date t free fuel).1 ∧
      ∀ b ∈ (packGo date t free fuel).2, BlockInv b := by
  intro fuel
  induction fuel with
  | zero =>
    intro t free ht hf
    exact ⟨ht, hf⟩
  | succ n ih =>
    intro t free ht hf
    simp only [packGo]
    by_cases hr : t.remaining_hours ≤ 0
    · rw [if_pos hr]
      exact ⟨ht, hf⟩
    · rw [if_neg hr]
      push_neg at hr
      rcases hsel : selectBlockIdx free with _ | idx
      · simp only [hsel]
        exact ⟨ht, hf⟩
      · obtain ⟨blk, hget, hblkpos⟩ := selectBlockIdx_spec hsel
        simp only [hsel, hget]
        have hblkmem : blk ∈ free := List.get?_mem hget
        have hpl := @placeOneBlock_inv t date blk ht (hf blk hblkmem) hr hblkpos
        have herase : ∀ b ∈ free.eraseIdx idx, BlockInv b :=
          fun b hb => hf b (mem_of_mem_eraseIdx hb)
        rcases hres : placeOneBlock t date blk with ⟨t', step⟩
        rw [hres] at hpl
        match step, hpl with
        | PlaceStep.finished none, hpl => exact ⟨hpl.1, herase⟩
        | PlaceStep.finished (some c), hpl =>
          refine ⟨hpl.1, ?_⟩
          intro x hx
          rcases mem_insertAt hx with hxe | hxm
          · rw [hxe]
            exact hpl.2 c rfl
          · exact herase x hxm
        | PlaceStep.usedWholeBlock, hpl =>
          exact ih t' (free.eraseIdx idx) hpl.1 herase

theorem pack_inv {t : Task} {date : Date} {free : List FreeTimeBlock}
    (ht : TaskInv t) (hf : ∀ b ∈ free, BlockInv b) :
    TaskInv (pack t date free).1 ∧ ∀ b ∈ (pack t date free).2.1, BlockInv b := by
  unfold pack
  by_cases hc : t.remaining_hours ≤ 0 ∨ free.isEmpty
  · rw [if_pos hc]
    exact ⟨ht, hf⟩
  · rw [if_neg hc]
    rcases hgo : packGo date t free (free.length + 1) with ⟨t', free'⟩
    have := packGo_inv date (free.length + 1) t free ht hf
    rw [hgo] at this
    exact ⟨this.1, this.2⟩

theorem setLast_subtasksHours {l : List SubTask} {last : SubTask}
    (h : l.getLast? = some last) :
    subtasksHours (setLast l { last with overflow := true }) = subtasksHours l := by
  have hne : l ≠ [] := by
    intro he
    subst he
    simp at h
  have hl : l.dropLast ++ [l.getLast hne] = l := List.dropLast_append_getLast hne
  have hg : l.getLast hne = last := by
    rwa [List.getLast?_eq_getLast l hne, Option.some_inj] at h
  unfold setLast
  conv_rhs => rw [← hl]
  rw [hg, subtasksHours_append, subtasksHours_append]
  rfl

theorem mem_setLast {α : Type} {x y : α} {l : List α}
    (h : x ∈ setLast l y) : x ∈ l.dropLast ∨ x = y := by
  unfold setLast at h
  rw [List.mem_append, List.mem_singleton] at h
  exact h

theorem allowOverflowHandle_inv {t : Task} {p : Bool} (ht : TaskInv t) :
    TaskInv (allowOverflowHandle t p).1 := by
  unfold allowOverflowHandle
  split_ifs with h1
  · rcases hg : t.subtasks.getLast? with _ | last
    · exact ht
    · simp only [hg]
      split_ifs with h2
      · obtain ⟨i0, ile, iled, idh, idr, isub⟩ := ht
        refine ⟨i0, ile, ?_, idh, idr, ?_⟩
        · show t.hours = subtasksHours (setLast t.subtasks { last with overflow := true }) +
            t.remaining_hours
          rw [setLast_subtasksHours hg]
          exact iled
        · intro s hs
          rcases mem_setLast hs with hs | hs
          · exact isub s ((List.dropLast_sublist t.subtasks).mem hs)
          · subst hs
            exact isub last (List.mem_of_mem_getLast? hg)
      · exact ht
  · exact ht

theorem overflowHandler_inv {policy : TaskOverflowPolicy} {t : Task} {p : Bool}
    (ht : TaskInv t) : TaskInv ((makeOverflowHandler policy) t p).1 := by
  cases policy with
  | allow => exact allowOverflowHandle_inv ht
  | block =>
    show TaskInv (blockOverflowHandle t p).1
    unfold blockOverflowHandle
    split_ifs <;> exact ht

theorem mapInsert_forall {α : Type} {P : α → Prop} {items : List (Int × α)}
    {id : Int} {e : α} (hP : ∀ p ∈ items, P p.2) (he : P e) :
    ∀ p ∈ mapInsert items id e, P p.2 := by
  intro p hp
  unfold mapInsert at hp
  split_ifs at hp with hc
  · rw [List.mem_map] at hp
    obtain ⟨q, hq, rfl⟩ := hp
    split_ifs with h2
    · exact he
    · exact hP q hq
  · rw [List.mem_append, List.mem_singleton] at hp
    rcases hp with hp | hp
    · exact hP p hp
    · rw [hp]
      exact he

theorem mapGet_prop {α : Type} {P : α → Prop} {items : List (Int × α)}
    {id : Int} {v : α} (hP : ∀ p ∈ items, P p.2) (h : mapGet items id = some v) :
    P v := by
  unfold mapGet at h
  rw [Option.map_eq_some'] at h
  obtain ⟨q, hq, rfl⟩ := h
  exact hP q (List.mem_of_find?_eq_some hq)

theorem scheduleTaskOnDay_inv {handler : Task → Bool → Task × Except Error Unit}
    (hhandler : ∀ t p, TaskInv t → TaskInv (handler t p).1)
    {date : Date} {acc : Repository Task × List FreeTimeBlock} {id : Int}
    (hit : ∀ p ∈ acc.1.items, TaskInv p.2) (hfr : ∀ b ∈ acc.2, BlockInv b) :
    (∀ p ∈ (scheduleTaskOnDay handler date acc id).1.items, TaskInv p.2) ∧
    (∀ b ∈ (scheduleTaskOnDay handler date acc id).2, BlockInv b) ∧
    (scheduleTaskOnDay handler date acc id).1.staged = acc.1.staged := by
  unfold scheduleTaskOnDay
  rcases hg : mapGet acc.1.items id with _ | task
  · exact ⟨hit, hfr, rfl⟩
  · have htask : TaskInv task := mapGet_prop hit hg
    rcases hpk : (if task.remaining_hours ≤ 0 then (task, acc.2, PackOutcome.nonePlaced)
        else pack task date acc.2) with ⟨t1, f1, oc⟩
    have hstep : TaskInv t1 ∧ ∀ b ∈ f1, BlockInv b := by
      split_ifs at hpk with hrem
      · injection hpk with h1 h2
        injection h2 with h2 h3
        subst h1
        subst h2
        exact ⟨htask, hfr⟩
      · have hp := @pack_inv task date acc.2 htask hfr
        rw [hpk] at hp
        exact hp
    simp only [hpk]
    cases oc with
    | nonePlaced => exact ⟨mapInsert_forall hit hstep.1, hstep.2, by trivial⟩
    | partialPlaced =>
      exact ⟨mapInsert_forall hit (hhandler t1 true hstep.1), hstep.2, by trivial⟩
    | fullPlaced =>
      exact ⟨mapInsert_forall hit (hhandler t1 true hstep.1), hstep.2, by trivial⟩

theorem scheduleFold_inv {handler : Task → Bool → Task × Except Error Unit}
    (hhandler : ∀ t p, TaskInv t → TaskInv (handler t p).1) (date : Date) :
    ∀ (ids : List Int) (acc : Repository Task × List FreeTimeBlock),
      (∀ p ∈ acc.1.items, TaskInv p.2) → (∀ b ∈ acc.2, BlockInv b) →
      (∀ p ∈ (ids.foldl (scheduleTaskOnDay handler date) acc).1.items, TaskInv p.2) ∧
      (ids.foldl (scheduleTaskOnDay handler date) acc).1.staged = acc.1.staged := by
  intro ids
  induction ids with
  | nil =>
    intro acc h1 h2
    exact ⟨h1, rfl⟩
  | cons i is ih =>
    intro acc h1 h2
    rw [List.foldl_cons]
    have hstep := @scheduleTaskOnDay_inv handler hhandler date acc i h1 h2
    have := ih (scheduleTaskOnDay handler date acc i) hstep.1 hstep.2.1
    exact ⟨this.1, this.2.trans hstep.2.2⟩

/-! ### The free blocks of a planning day satisfy `DBlockInv` -/

theorem durationHoursDt_eq_of_date_eq {x y : DT} (h : x.date = y.date) :
    durationHoursDt x y = ((y.sec - x.sec : Int) : ℚ) / 3600 := by
  unfold durationHoursDt dtDiffSecs
  rw [h]
  push_cast
  ring

theorem dblockInv_new {date : Date} {x y : DT} (hx : x.date = date)
    (hy : y.date = date) : DBlockInv date (FreeTimeBlock.new x y) := by
  refine ⟨hx, hy, ?_⟩
  intro hpos
  show max (durationHoursDt x y) 0 = ((y.sec - x.sec : Int) : ℚ) / 3600
  have hmax : max (durationHoursDt x y) 0 = durationHoursDt x y := by
    rcases le_or_lt (durationHoursDt x y) 0 with h | h
    · exfalso
      have h0 : (FreeTimeBlock.new x y).remaining_free_time = 0 := by
        show max (durationHoursDt x y) 0 = 0
        exact max_eq_right h
      rw [h0] at hpos
      exact lt_irrefl 0 hpos
    · exact max_eq_left (le_of_lt h)
  rw [hmax, durationHoursDt_eq_of_date_eq (hx.trans hy.symm)]

theorem subtractBusy_dinv {date : Date} {free : List FreeTimeBlock}
    {busy : TimeRange} (hf : ∀ b ∈ free, DBlockInv date b) :
    ∀ b ∈ subtractBusyFromFree date free busy, DBlockInv date b := by
  intro b hb
  unfold subtractBusyFromFree at hb
  rw [List.mem_flatMap] at hb
  obtain ⟨fb, hfb, hb⟩ := hb
  have hfb' := hf fb hfb
  have hnew1 : DBlockInv date (FreeTimeBlock.new fb.start_time ⟨date, busy.start⟩) :=
    dblockInv_new hfb'.1 rfl
  have hnew2 : DBlockInv date (FreeTimeBlock.new ⟨date, busy.endTime⟩ fb.end_time) :=
    dblockInv_new rfl hfb'.2.1
  split_ifs at hb
  all_goals
    simp only [List.mem_append, List.mem_singleton, List.not_mem_nil, or_false,
      false_or] at hb
  all_goals
    first
      | (rw [hb]; exact hfb')
      | (rcases hb with hb | hb
         · rw [hb]; exact hnew1
         · rw [hb]; exact hnew2)
      | (rw [hb]; exact hnew1)
      | (rw [hb]; exact hnew2)
      | exact hb.elim

theorem coalesceGo_dinv {date : Date} :
    ∀ (bs : List FreeTimeBlock) (cur : FreeTimeBlock),
      DBlockInv date cur → (∀ b ∈ bs, DBlockInv date b) →
      ∀ x ∈ coalesceGo cur bs, DBlockInv date x := by
  intro bs
  induction bs with
  | nil =>
    intro cur hcur _ x hx
    rw [coalesceGo, List.mem_singleton] at hx
    subst hx
    exact hcur
  | cons b bs' ih =>
    intro cur hcur hbs x hx
    rw [coalesceGo] at hx
    split_ifs at hx with h1 h2
    · refine ih _ ?_ (fun c hc => hbs c (List.mem_cons_of_mem _ hc)) x hx
      have hb := hbs b (List.mem_cons_self _ _)
      refine ⟨hcur.1, hb.2.1, ?_⟩
      intro _
      show durationHoursDt cur.start_time b.end_time =
        ((b.end_time.sec - cur.start_time.sec : Int) : ℚ) / 3600
      exact durationHoursDt_eq_of_date_eq (hcur.1.trans hb.2.1.symm)
    · exact ih _ hcur (fun c hc => hbs c (List.mem_cons_of_mem _ hc)) x hx
    · rcases List.mem_cons.mp hx with hx | hx
      · subst hx
        exact hcur
      · exact ih _ (hbs b (List.mem_cons_self _ _))
          (fun c hc => hbs c (List.mem_cons_of_mem _ hc)) x hx

theorem freeBlocksForDate_dinv (events : List Event) (tasks : List Task)
    (date : Date) (day_range : TimeRange) :
    ∀ b ∈ freeBlocksForDate events tasks date day_range, DBlockInv date b := by
  have h0 : ∀ b ∈
      [FreeTimeBlock.new ⟨date, day_range.start⟩ ⟨date, day_range.endTime⟩],
      DBlockInv date b := by
    intro b hb
    rw [List.mem_singleton] at hb
    subst hb
    exact dblockInv_new rfl rfl
  have hev : ∀ (l : List Event) (free : List FreeTimeBlock),
      (∀ b ∈ free, DBlockInv date b) →
      ∀ b ∈ l.foldl (fun free e => subtractBusyFromFree date free e.time_range) free,
        DBlockInv date b := by
    intro l
    induction l with
    | nil =>
      intro free hfr
      simpa using hfr
    | cons e es ih =>
      intro free hfr
      exact ih _ (subtractBusy_dinv hfr)
  have hst : ∀ (l : List SubTask) (free : List FreeTimeBlock),
      (∀ b ∈ free, DBlockInv date b) →
      ∀ b ∈ l.foldl
        (fun free st =>
          if st.date = date then subtractBusyFromFree date free st.time_range else free)
        free, DBlockInv date b := by
    intro l
    induction l with
    | nil =>
      intro free hfr
      simpa using hfr
    | cons s ss ih =>
      intro free hfr
      rw [List.foldl_cons]
      apply ih
      by_cases hd : s.date = date
      · simpa [hd] using subtractBusy_dinv hfr
      · simpa [hd] using hfr
  have htk : ∀ (l : List Task) (free : List FreeTimeBlock),
      (∀ b ∈ free, DBlockInv date b) →
      ∀ b ∈ l.foldl
        (fun free t => t.subtasks.foldl
          (fun free st =>
            if st.date = date then subtractBusyFromFree date free st.time_range
            else free)
          free)
        free, DBlockInv date b := by
    intro l
    induction l with
    | nil =>
      intro free hfr
      simpa using hfr
    | cons t ts ih =>
      intro free hfr
      exact ih _ (hst t.subtasks free hfr)
  intro b hb
  have hfb : freeBlocksForDate events tasks date day_range =
      coalesceFreeBlocks (tasks.foldl
        (fun free t => t.subtasks.foldl
          (fun free st =>
            if st.date = date then subtractBusyFromFree date free st.time_range else free)
          free)
        ((events.filter (fun e => e.isActiveOnDate date)).foldl
          (fun free e => subtractBusyFromFree date free e.time_range)
          [FreeTimeBlock.new ⟨date, day_range.start⟩ ⟨date, day_range.endTime⟩])) := rfl
  rw [hfb] at hb
  unfold coalesceFreeBlocks at hb
  rcases hs : stableSortBy blockKeyLe (tasks.foldl
      (fun free t => t.subtasks.foldl
        (fun free st =>
          if st.date = date then subtractBusyFromFree date free st.time_range else free)
        free)
      ((events.filter (fun e => e.isActiveOnDate date)).foldl
        (fun free e => subtractBusyFromFree date free e.time_range)
        [FreeTimeBlock.new ⟨date, day_range.start⟩ ⟨date, day_range.endTime⟩]))
    with _ | ⟨c, cs⟩
  · rw [hs] at hb
    simp at hb
  · rw [hs] at hb
    have hmem : ∀ x ∈ c :: cs, DBlockInv date x := by
      intro x hx
      rw [← hs] at hx
      exact htk tasks _ (hev _ _ h0) x (mem_stableSortBy.mp hx)
    exact coalesceGo_dinv cs c (hmem c (List.mem_cons_self _ _))
      (fun y hy => hmem y (List.mem_cons_of_mem _ hy)) b hb

theorem dblockInv_blockInv {date : Date} {b : FreeTimeBlock}
    (h : DBlockInv date b) : BlockInv b :=
  ⟨h.1.trans h.2.1.symm, h.2.2⟩

theorem taskInv_reset {t : Task} (h : TaskInv t) :
    TaskInv { t with subtasks := [], remaining_hours := t.hours } := by
  have h0 := taskInv_hours_nonneg h
  obtain ⟨k, hk⟩ := den_one_iff.mp h.2.2.2.1
  refine ⟨h0, le_refl _, by simp [subtasksHours], h.2.2.2.1, ?_, by simp⟩
  show (t.hours * 3600).den = 1
  rw [hk]
  apply den_one_iff.mpr
  exact ⟨k * 3600, by push_cast; ring⟩

theorem scheduleDay_wf {cmp : Task → Task → Ordering}
    {handler : Task → Bool → Task × Except Error Unit}
    (hhandler : ∀ t p, TaskInv t → TaskInv (handler t p).1)
    {daywin : TimeRange} {s : AppState} {d : Date} (hs : TasksWF s) :
    TasksWF (scheduleDay cmp handler daywin s d) := by
  simp only [scheduleDay]
  have hfr : ∀ b ∈ freeBlocksForDate s.events.valuesUnordered
      s.tasks.valuesUnordered d daywin, BlockInv b :=
    fun b hb => dblockInv_blockInv (freeBlocksForDate_dinv _ _ _ _ b hb)
  rcases hfl : (sortedTaskIds s.tasks.items
      (fun t => dateLe d t.date ∧ 0 < t.remaining_hours) cmp).foldl
      (scheduleTaskOnDay handler d)
      (s.tasks, freeBlocksForDate s.events.valuesUnordered
        s.tasks.valuesUnordered d daywin) with ⟨t2, r2⟩
  simp only [hfl]
  have hfold := @scheduleFold_inv handler hhandler d
    (sortedTaskIds s.tasks.items
      (fun t => dateLe d t.date ∧ 0 < t.remaining_hours) cmp)
    (s.tasks, freeBlocksForDate s.events.valuesUnordered
      s.tasks.valuesUnordered d daywin) hs.1 hfr
  rw [hfl] at hfold
  refine ⟨hfold.1, ?_⟩
  intro t ht
  apply hs.2
  unfold pendingTasks at ht ⊢
  rwa [hfold.2] at ht

theorem computeSchedule_tasksWF {st : AppState} {today : Date}
    (hw : TasksWF st) : TasksWF (computeSchedule st today).1 := by
  have hreset : TasksWF (resetTasks st) := by
    constructor
    · intro p hp
      unfold resetTasks at hp
      simp only [List.mem_map] at hp
      obtain ⟨q, hq, rfl⟩ := hp
      exact taskInv_reset (hw.1 q hq)
    · intro t ht
      exact hw.2 t ht
  have hh : ∀ t p, TaskInv t →
      TaskInv ((makeOverflowHandler st.config.task_overflow_policy) t p).1 :=
    fun t p ht => overflowHandler_inv ht
  have hday : ∀ (dates : List Date) (s : AppState), TasksWF s →
      TasksWF (dates.foldl
        (scheduleDay (makeTaskOrderComparator st.config.task_scheduling_order)
          (makeOverflowHandler st.config.task_overflow_policy) st.config.range) s) := by
    intro dates
    induction dates with
    | nil =>
      intro s hs
      simpa using hs
    | cons d ds ih =>
      intro s hs
      rw [List.foldl_cons]
      exact ih _ (scheduleDay_wf hh hs)
  simp only [computeSchedule]
  exact hday _ _ hreset

theorem tasksWF_of_eq {st st' : AppState} (h : st'.tasks = st.tasks)
    (hw : TasksWF st) : TasksWF st' := by
  unfold TasksWF pendingTasks at *
  rw [h]
  exact hw

theorem taskBuildBase_inv {args : List Arg} {t : Task}
    (h : taskBuildBase args = .ok t) : TaskInv t := by
  simp only [taskBuildBase] at h
  split at h
  · cases h
  · split at h
    · cases h
    · split at h
      · cases h
      · injection h with h5
        subst h5
        exact taskInv_new (Rat.den_intCast _)

theorem taskBuildModify_inv {existing : Task} {args : List Arg} {t : Task}
    (h : taskBuildModify existing args = .ok t) : TaskInv t := by
  simp only [taskBuildModify] at h
  split at h
  · cases h
  · split at h
    · cases h
    · split at h
      · cases h
      · injection h with h5
        subst h5
        exact taskInv_modify (Rat.den_intCast _)

theorem taskSpecCreate_inv {st : AppState} {args : List Arg} {t : Task}
    (h : taskSpecCreate st args = .ok t) : TaskInv t := by
  unfold taskSpecCreate at h
  rcases h1 : assertMatchesPattern st "" taskAddChoices args with e | pid
  · rw [h1] at h
    cases h
  · rw [h1] at h
    exact taskBuildBase_inv h

theorem insert_tasksWF {r : Repository Task} {t : Task}
    (h1 : ∀ p ∈ r.items, TaskInv p.2) (h2 : ∀ x ∈ pendingTasks r, TaskInv x)
    (ht : TaskInv t) :
    (∀ p ∈ (r.insert t).1.items, TaskInv p.2) ∧
    (∀ x ∈ pendingTasks (r.insert t).1, TaskInv x) := by
  unfold Repository.insert
  rcases hs : r.staged with _ | stg
  · simp only [hs]
    constructor
    · exact mapInsert_forall h1 ht
    · intro x hx
      unfold pendingTasks at hx
      simp only [hs] at hx
      cases hx
  · simp only [hs]
    constructor
    · exact h1
    · intro x hx
      unfold pendingTasks at hx
      simp only [List.mem_append, List.mem_singleton] at hx
      rcases hx with hx | hx
      · apply h2
        unfold pendingTasks
        rw [hs]
        exact hx
      · subst hx
        exact ht

theorem handleAdd_tasksWF {et : EntityType} {args : List Arg} {wd : DayOfWeek}
    {st : AppState} (hw : TasksWF st) : TasksWF (handleAdd et args wd st).1 := by
  unfold handleAdd
  split_ifs with he
  · exact hw
  · cases et with
    | task =>
      rcases hc : taskSpecCreate st args with e | t
      · exact hw
      · have := insert_tasksWF hw.1 hw.2 (taskSpecCreate_inv hc)
        exact ⟨this.1, this.2⟩
    | event =>
      rcases hc : eventSpecCreate wd st args with e | ev
      · exact hw
      · exact tasksWF_of_eq rfl hw
    | card =>
      rcases hc : cardSpecCreate st args with e | cd
      · exact hw
      · exact tasksWF_of_eq rfl hw

theorem taskSpecModify_tasksWF {st : AppState} {args : List Arg} {id : Int}
    (hw : TasksWF st) : TasksWF (taskSpecModify st args id).1 := by
  unfold taskSpecModify
  split
  · exact hw
  · split
    · exact hw
    · split
      · exact hw
      · rename_i existing heq2 t heq3
        constructor
        · exact mapInsert_forall hw.1 (taskBuildModify_inv heq3)
        · intro x hx
          apply hw.2
          unfold pendingTasks at hx ⊢
          exact hx

theorem handleModify_tasksWF {et : EntityType} {args : List Arg} {wd : DayOfWeek}
    {st : AppState} (hw : TasksWF st) : TasksWF (handleModify et args wd st).1 := by
  unfold handleModify
  rcases ha : args.get? 1 with _ | a
  · exact hw
  · cases a with
    | int id =>
      cases et with
      | task =>
        show TasksWF (taskSpecModify st args id).1
        exact taskSpecModify_tasksWF hw
      | event =>
        show TasksWF (eventSpecModify wd st args id).1
        unfold eventSpecModify
        split
        · exact hw
        · split
          · exact hw
          · split
            · exact hw
            · split
              · exact hw
              · exact tasksWF_of_eq rfl hw
      | card =>
        show TasksWF (cardSpecModify st args id).1
        unfold cardSpecModify
        split
        · exact hw
        · split
          · exact hw
          · split
            · exact hw
            · exact tasksWF_of_eq rfl hw
    | flag => exact hw
    | cardColor c => exact hw
    | cardColorId n => exact hw
    | atSymbol => exact hw
    | bool b => exact hw
    | daysOfWeek ds => exact hw
    | timeRange tr => exact hw
    | date d => exact hw
    | name s => exact hw
    | entityType t => exact hw

theorem handleDelete_tasksWF {et : EntityType} {args : List Arg} {st : AppState}
    (hw : TasksWF st) : TasksWF (handleDelete et args st).1 := by
  unfold handleDelete
  cases et with
  | task =>
    rcases h1 : taskCanDelete st args with e | u
    · exact hw
    · rcases ha : args.get? 1 with _ | a
      · exact hw
      · cases a with
        | int id =>
          show TasksWF (match st.tasks.delete id with
            | Except.error e => (st, Except.error e)
            | Except.ok (r, _) => ({ st with tasks := r }, Except.ok ())).1
          rcases h2 : st.tasks.delete id with e | pr
          · simp only [h2]
            exact hw
          · rcases pr with ⟨r, removed⟩
            simp only [h2]
            have hr : ∀ p ∈ r.items, TaskInv p.2 ∧ r.staged = st.tasks.staged := by
              unfold Repository.delete at h2
              rcases h3 : mapGet st.tasks.items id with _ | v
              · rw [h3] at h2
                cases h2
              · rw [h3] at h2
                injection h2 with h4
                injection h4 with h5 h6
                subst h5
                intro p hp
                unfold mapRemove at hp
                exact ⟨hw.1 p (List.mem_of_mem_filter hp), rfl⟩
            constructor
            · intro p hp
              exact (hr p hp).1
            · intro x hx
              apply hw.2
              unfold pendingTasks at hx ⊢
              have hstg : r.staged = st.tasks.staged := by
                unfold Repository.delete at h2
                rcases h3 : mapGet st.tasks.items id with _ | v
                · rw [h3] at h2
                  cases h2
                · rw [h3] at h2
                  injection h2 with h4
                  injection h4 with h5 h6
                  subst h5
                  rfl
              rwa [hstg] at hx
        | flag => exact hw
        | cardColor c => exact hw
        | cardColorId n => exact hw
        | atSymbol => exact hw
        | bool b => exact hw
        | daysOfWeek ds => exact hw
        | timeRange tr => exact hw
        | date d => exact hw
        | name s => exact hw
        | entityType t => exact hw
  | event =>
    rcases h1 : eventCanDelete st args with e | u
    · exact hw
    · rcases ha : args.get? 1 with _ | a
      · exact hw
      · cases a <;>
          first
            | exact hw
            | (show TasksWF (match st.events.delete _ with
                 | Except.error e => (st, Except.error e)
                 | Except.ok (r, _) => ({ st with events := r }, Except.ok ())).1
               rcases h2 : st.events.delete _ with e | pr
               · simp only [h2]
                 exact hw
               · rcases pr with ⟨r, removed⟩
                 simp only [h2]
                 exact tasksWF_of_eq rfl hw)
  | card =>
    rcases h1 : cardCanDelete st args with e | u
    · exact hw
    · rcases ha : args.get? 1 with _ | a
      · exact hw
      · cases a <;>
          first
            | exact hw
            | (show TasksWF (match st.cards.delete _ with
                 | Except.error e => (st, Except.error e)
                 | Except.ok (r, _) => ({ st with cards := r }, Except.ok ())).1
               rcases h2 : st.cards.delete _ with e | pr
               · simp only [h2]
                 exact hw
               · rcases pr with ⟨r, removed⟩
                 simp only [h2]
                 exact tasksWF_of_eq rfl hw)

theorem execEntityCommand_tasksWF {action : EntityActionType} {et : EntityType}
    {args : List Arg} {wd : DayOfWeek} {st : AppState} (hw : TasksWF st) :
    TasksWF (execEntityCommand action et args wd st).1 := by
  simp only [execEntityCommand]
  split_ifs with h1
  · exact hw
  · cases action with
    | add => exact handleAdd_tasksWF hw
    | modify => exact handleModify_tasksWF hw
    | delete => exact handleDelete_tasksWF hw

theorem execEntityActionLine_tasksWF {action : EntityActionType}
    {args : List Arg} {wd : DayOfWeek} {st : AppState} (hw : TasksWF st) :
    TasksWF (execEntityActionLine action args wd st).1 := by
  unfold execEntityActionLine
  rcases ha : args.head? with _ | a
  · exact hw
  · cases a with
    | entityType et =>
      split_ifs with h1
      · exact hw
      · exact execEntityCommand_tasksWF hw
    | flag => exact hw
    | cardColor c => exact hw
    | cardColorId n => exact hw
    | int n => exact hw
    | atSymbol => exact hw
    | bool b => exact hw
    | daysOfWeek ds => exact hw
    | timeRange tr => exact hw
    | date d => exact hw
    | name s => exact hw

theorem prepareInsert_forall {α : Type} [inst : BaseEntity α] {P : α → Prop} :
    ∀ {pending : List α} {items out : List (Int × α)},
    (∀ p ∈ items, P p.2) → (∀ e ∈ pending, P e) →
    prepareInsert items pending = Except.ok out → ∀ p ∈ out, P p.2
  | [], items, out, hi, _, h => by
      unfold prepareInsert at h
      injection h with h1
      subst h1
      exact hi
  | e :: rest, items, out, hi, hp, h => by
      simp only [prepareInsert] at h
      by_cases hc : items.any (fun p => p.1 = BaseEntity.eid e) = true
      · rw [if_pos hc] at h
        cases h
      · rw [if_neg hc] at h
        exact prepareInsert_forall
          (mapInsert_forall hi (hp e (List.mem_cons_self e rest)))
          (fun x hx => hp x (List.mem_cons_of_mem e hx)) h

theorem prepareCommit_taskInv {r : Repository Task} {prep : PreparedRepo Task}
    (hi : ∀ p ∈ r.items, TaskInv p.2) (hp : ∀ t ∈ pendingTasks r, TaskInv t)
    (h : r.prepareCommit = Except.ok prep) : ∀ p ∈ prep.items, TaskInv p.2 := by
  rcases hs : r.staged with _ | stg
  · simp only [Repository.prepareCommit, hs] at h
    cases h
  · simp only [Repository.prepareCommit, hs] at h
    rcases hpi : prepareInsert (if stg.cleared then [] else r.items) stg.pending
        with e | items
    · rw [hpi] at h
      cases h
    · rw [hpi] at h
      injection h with h1
      have hbase : ∀ p ∈ (if stg.cleared then [] else r.items), TaskInv p.2 := by
        split_ifs
        · intro p hp2
          cases hp2
        · exact hi
      have hpend : ∀ t ∈ stg.pending, TaskInv t := by
        intro t ht
        apply hp
        unfold pendingTasks
        rw [hs]
        exact ht
      have hitems := prepareInsert_forall hbase hpend hpi
      rw [← h1]
      exact hitems

theorem beginStage_ok {α : Type} {r r' : Repository α} {ce : Bool}
    (h : r.beginStage ce = Except.ok r') :
    r'.items = r.items ∧ r'.staged.map Staged.pending = some [] := by
  simp only [Repository.beginStage] at h
  split_ifs at h
  · injection h with h1
    subst h1
    exact ⟨rfl, rfl⟩
  · injection h with h1
    subst h1
    exact ⟨rfl, rfl⟩

theorem pendingTasks_of_staged_empty {r : Repository Task}
    (h : r.staged.map Staged.pending = some []) : pendingTasks r = [] := by
  unfold pendingTasks
  rcases hs : r.staged with _ | s
  · rfl
  · rw [hs] at h
    simpa using h

theorem discardStage_items {α : Type} (r : Repository α) :
    r.discardStage.items = r.items := by
  unfold Repository.discardStage
  rcases r.staged <;> rfl

theorem discardStage_pendingTasks (r : Repository Task) :
    pendingTasks r.discardStage = [] := by
  unfold Repository.discardStage
  rcases hs : r.staged with _ | s
  · unfold pendingTasks
    rw [hs]
  · rfl

theorem discardAll_tasksWF {s : AppState} (hw : TasksWF s) :
    TasksWF (discardAll s) := by
  constructor
  · intro p hp
    apply hw.1
    have he : (discardAll s).tasks.items = s.tasks.items := discardStage_items s.tasks
    rwa [he] at hp
  · intro t ht
    have he : pendingTasks (discardAll s).tasks = [] := discardStage_pendingTasks s.tasks
    rw [he] at ht
    cases ht

theorem transactionRun_tasksWF {st : AppState} {ce : Bool}
    {f : AppState → AppState × Except Error Unit}
    (hf : ∀ s, TasksWF s → TasksWF (f s).1)
    (hw : TasksWF st) : TasksWF (Transaction.run st ce f).1 := by
  unfold Transaction.run
  rcases h1 : st.cards.beginStage ce with e | cards
  · exact hw
  · simp only [h1]
    rcases h2 : st.events.beginStage ce with e | events
    · simp only [h2]
      exact hw
    · simp only [h2]
      rcases h3 : st.tasks.beginStage ce with e | tasks
      · simp only [h3]
        exact hw
      · simp only [h3]
        obtain ⟨hbi, hbp⟩ := beginStage_ok h3
        have hctx : TasksWF { st with cards := cards, events := events, tasks := tasks } := by
          constructor
          · intro p hp
            exact hw.1 p (hbi ▸ hp)
          · intro t ht
            have he : pendingTasks tasks = [] := pendingTasks_of_staged_empty hbp
            rw [show pendingTasks (AppState.tasks { st with cards := cards, events := events, tasks := tasks }) = pendingTasks tasks from rfl, he] at ht
            cases ht
        rcases h4 : f { st with cards := cards, events := events, tasks := tasks }
            with ⟨ctx2, res⟩
        have h5 : TasksWF ctx2 := by
          have hx := hf _ hctx
          rw [h4] at hx
          exact hx
        rcases res with e | u
        · simp only [h4]
          exact discardAll_tasksWF h5
        · cases u
          simp only [h4]
          rcases h6 : validateAssociations ctx2 with e | v
          · simp only [h6]
            exact h5
          · cases v
            simp only [h6]
            rcases h7 : ctx2.cards.prepareCommit with e | pc
            · simp only [h7]
              exact h5
            · simp only [h7]
              rcases h8 : ctx2.events.prepareCommit with e | pe
              · simp only [h8]
                exact h5
              · simp only [h8]
                rcases h9 : ctx2.tasks.prepareCommit with e | pt
                · simp only [h9]
                  exact h5
                · simp only [h9]
                  constructor
                  · exact prepareCommit_taskInv h5.1 h5.2 h9
                  · intro t ht
                    cases ht

theorem execQueueOps_tasksWF :
    ∀ {ops : List (EntityType × List Arg)} {wd : DayOfWeek} {st : AppState},
    TasksWF st → TasksWF (execQueueOps ops wd st).1
  | [], _, _, hw => hw
  | (et, args) :: rest, wd, st, hw => by
      unfold execQueueOps
      rcases h1 : execEntityCommand .add et args wd st with ⟨st2, res⟩
      have h2 : TasksWF st2 := by
        have hx := @execEntityCommand_tasksWF EntityActionType.add et args wd st hw
        rw [h1] at hx
        exact hx
      rcases res with e | u
      · exact h2
      · cases u
        exact execQueueOps_tasksWF h2

theorem loadState_tasksWF {st : AppState} {sf : SaveFile} {cy : Int} {wd : DayOfWeek}
    (hw : TasksWF st) : TasksWF (loadState st sf cy wd).1 := by
  unfold loadState
  rcases h1 : sf.cards.mapM (argParserParse cy) with e | ca
  · exact hw
  · simp only [h1]
    rcases h2 : sf.events.mapM (argParserParse cy) with e | ea
    · exact hw
    · simp only [h2]
      rcases h3 : sf.tasks.mapM (argParserParse cy) with e | ta
      · exact hw
      · simp only [h3]
        exact transactionRun_tasksWF (fun s hs => execQueueOps_tasksWF hs) hw

/-- Exact-arithmetic idealization of the task bookkeeping: with the
stored `f32` values idealized as exact rationals, after every command
(add/mod/del entity lines, the schedule command, and loading a save
file) every stored task satisfies `0 ≤ remaining_hours ≤ hours` with an
exact hours ledger.  The rounding the source's `f32` subtraction
actually performs is modelled separately by `computeScheduleF32`, under
which the `1e-4` ledger tolerance fails on reachable states. -/
theorem task_invariants_after_every_command {st : AppState} (c : Cmd)
    (hw : TasksWF st) :
    TasksWF (execCommand st c).1 ∧
    ∀ p ∈ (execCommand st c).1.tasks.items,
      0 ≤ p.2.remaining_hours ∧ p.2.remaining_hours ≤ p.2.hours ∧
      |p.2.hours - (subtasksHours p.2.subtasks + p.2.remaining_hours)| < 1 / 10000 := by
  have hmain : TasksWF (execCommand st c).1 := by
    cases c with
    | addEntity et args wd => exact execEntityCommand_tasksWF hw
    | modEntity args wd => exact execEntityActionLine_tasksWF hw
    | delEntity args wd => exact execEntityActionLine_tasksWF hw
    | schedule today => exact computeSchedule_tasksWF hw
    | load sf cy wd => exact loadState_tasksWF hw
  refine ⟨hmain, ?_⟩
  intro p hp
  obtain ⟨h0, h1, hled, _⟩ := hmain.1 p hp
  refine ⟨h0, h1, ?_⟩
  rw [hled, sub_self, abs_zero]
  norm_num

theorem task_invariants_after_every_command_witness :
    TasksWF (execCommand txScenarioState
      (Cmd.addEntity EntityType.task
        [Arg.name "W", Arg.int 2, Arg.atSymbol, Arg.date ⟨2099, 1, 2⟩]
        DayOfWeek.mon)).1 ∧
    ∀ p ∈ (execCommand txScenarioState
      (Cmd.addEntity EntityType.task
        [Arg.name "W", Arg.int 2, Arg.atSymbol, Arg.date ⟨2099, 1, 2⟩]
        DayOfWeek.mon)).1.tasks.items,
      0 ≤ p.2.remaining_hours ∧ p.2.remaining_hours ≤ p.2.hours ∧
      |p.2.hours - (subtasksHours p.2.subtasks + p.2.remaining_hours)| < 1 / 10000 :=
  task_invariants_after_every_command
    (Cmd.addEntity EntityType.task
      [Arg.name "W", Arg.int 2, Arg.atSymbol, Arg.date ⟨2099, 1, 2⟩]
      DayOfWeek.mon)
    ⟨fun p hp => absurd hp (List.not_mem_nil p),
     fun t ht => absurd ht (List.not_mem_nil t)⟩

/-- Claim C6, as stated, is false: saving and loading re-runs every add
command's validators against the loading context's configuration, which
the save file does not record.  `c6OrigState` is produced by the valid
add `event True "E" @ MON 8:00PM-9:00PM` under a config whose daily
window is 8:00AM-9:00PM; its save file builds fine, but loading it into
a fresh context whose window is 8:00AM-6:00PM fails with "Event falls
outside of daily hours range" instead of succeeding. -/
theorem save_load_round_trip_counterexample :
    (execCommand c6BaseState c6AddCmd).2 = .ok () ∧
    ∃ sf, buildSaveFile c6OrigState = .ok sf ∧
      ∃ e, (loadState c6FreshState sf 2026 DayOfWeek.mon).2 = Except.error e :=
  ⟨rfl, ⟨_, rfl, ⟨_, rfl⟩⟩⟩

/-! ### C6 — decimal rendering round trips -/

theorem digitChar_isDigit {d : Nat} (h : d < 10) :
    isAsciiDigit (Char.ofNat (48 + d)) = true := by
  interval_cases d <;> decide

theorem digitChar_val {d : Nat} (h : d < 10) :
    (Char.ofNat (48 + d)).toNat - 48 = d := by
  interval_cases d <;> decide

theorem natDigitsGo_eq : ∀ (fuel n : Nat), n ≤ fuel → natDigitsGo fuel n = Nat.digits 10 n
  | 0, 0, _ => by simp [natDigitsGo]
  | 0, n + 1, h => absurd h (by omega)
  | fuel + 1, 0, _ => by simp [natDigitsGo]
  | fuel + 1, n + 1, h => by
      rw [show natDigitsGo (fuel + 1) (n + 1) =
        ((n + 1) % 10) :: natDigitsGo fuel ((n + 1) / 10) from rfl]
      rw [natDigitsGo_eq fuel ((n + 1) / 10)
        (by have := Nat.div_lt_self (Nat.succ_pos n) (by norm_num : 1 < 10); omega)]
      rw [Nat.digits_def' (by norm_num : 1 < 10) (Nat.succ_pos n)]

theorem digitsVal_append (xs : List Nat) (d : Nat) :
    digitsVal (xs ++ [d]) = 10 * digitsVal xs + d := by
  unfold digitsVal
  rw [List.foldl_append]
  rfl

theorem digitsVal_reverse_ofDigits : ∀ l : List Nat,
    digitsVal l.reverse = Nat.ofDigits 10 l
  | [] => rfl
  | d :: ds => by
      rw [List.reverse_cons, digitsVal_append, digitsVal_reverse_ofDigits ds,
        Nat.ofDigits_cons]
      push_cast
      ring

theorem renderNat_spec (n : Nat) :
    ∃ ds : List Nat, renderNat n = ds.map (fun d => Char.ofNat (48 + d)) ∧
      ds ≠ [] ∧ (∀ d ∈ ds, d < 10) ∧ digitsVal ds = n ∧
      (∀ k, 1 ≤ k → n < 10 ^ k → ds.length ≤ k) := by
  by_cases h : n = 0
  · subst h
    exact ⟨[0], by decide, by simp, by simp, rfl, fun k hk _ => by simpa using hk⟩
  · refine ⟨(Nat.digits 10 n).reverse, ?_, ?_, ?_, ?_, ?_⟩
    · unfold renderNat natDigits
      rw [if_neg h, natDigitsGo_eq n n le_rfl]
    · simpa using Nat.digits_ne_nil_iff_ne_zero.mpr h
    · intro d hd
      rw [List.mem_reverse] at hd
      exact Nat.digits_lt_base (by norm_num) hd
    · rw [digitsVal_reverse_ofDigits, Nat.ofDigits_digits]
    · intro k _ hnk
      rw [List.length_reverse]
      rw [Nat.digits_len 10 n (by norm_num) h]
      have hlog : Nat.log 10 n < k := Nat.log_lt_of_lt_pow h hnk
      omega

theorem takeDigits_exact : ∀ (ds : List Nat) (rest : Token), (∀ d ∈ ds, d < 10) →
    takeDigits ds.length (ds.map (fun d => Char.ofNat (48 + d)) ++ rest) = (ds, rest)
  | [], rest, _ => rfl
  | d :: ds, rest, h => by
      rw [show (d :: ds).length = ds.length + 1 from rfl]
      rw [show (d :: ds).map (fun d => Char.ofNat (48 + d)) ++ rest =
        Char.ofNat (48 + d) :: (ds.map (fun d => Char.ofNat (48 + d)) ++ rest) from rfl]
      unfold takeDigits
      rw [digitChar_isDigit (h d (List.mem_cons_self d ds))]
      simp only [if_true]
      rw [takeDigits_exact ds rest (fun x hx => h x (List.mem_cons_of_mem d hx))]
      rw [digitChar_val (h d (List.mem_cons_self d ds))]

theorem takeDigits_stop : ∀ (k : Nat) (ds : List Nat) (rest : Token),
    (∀ d ∈ ds, d < 10) → ds.length ≤ k →
    (∀ c, rest.head? = some c → isAsciiDigit c = false) →
    takeDigits k (ds.map (fun d => Char.ofNat (48 + d)) ++ rest) = (ds, rest)
  | k, [], rest, _, _, hrest => by
      cases k with
      | zero => rfl
      | succ k =>
        cases rest with
        | nil => rfl
        | cons c t =>
          show takeDigits (k + 1) (c :: t) = ([], c :: t)
          unfold takeDigits
          rw [hrest c rfl]
          simp
  | k, d :: ds, rest, h, hlen, hrest => by
      cases k with
      | zero => exact absurd hlen (by simp)
      | succ k =>
        rw [show (d :: ds).map (fun d => Char.ofNat (48 + d)) ++ rest =
          Char.ofNat (48 + d) :: (ds.map (fun d => Char.ofNat (48 + d)) ++ rest) from rfl]
        unfold takeDigits
        rw [digitChar_isDigit (h d (List.mem_cons_self d ds))]
        simp only [if_true]
        rw [takeDigits_stop k ds rest (fun x hx => h x (List.mem_cons_of_mem d hx))
          (by simpa using hlen) hrest]
        rw [digitChar_val (h d (List.mem_cons_self d ds))]

theorem digitsVal_zero_prefix : ∀ (j : Nat) (ds : List Nat),
    digitsVal (List.replicate j 0 ++ ds) = digitsVal ds
  | 0, ds => rfl
  | j + 1, ds => by
      rw [show List.replicate (j + 1) 0 ++ ds = 0 :: (List.replicate j 0 ++ ds) from rfl]
      rw [show digitsVal (0 :: (List.replicate j 0 ++ ds)) =
        (List.replicate j 0 ++ ds).foldl (fun a d => 10 * a + d) 0 from rfl]
      exact digitsVal_zero_prefix j ds

theorem digitsVal_foldl_lt : ∀ (ds : List Nat) (acc : Nat), (∀ d ∈ ds, d < 10) →
    List.foldl (fun a d => 10 * a + d) acc ds < (acc + 1) * 10 ^ ds.length
  | [], acc, _ => by simp
  | d :: ds, acc, h => by
      rw [show List.foldl (fun a d => 10 * a + d) acc (d :: ds) =
        List.foldl (fun a d => 10 * a + d) (10 * acc + d) ds from rfl]
      calc List.foldl (fun a d => 10 * a + d) (10 * acc + d) ds
          < (10 * acc + d + 1) * 10 ^ ds.length :=
            digitsVal_foldl_lt ds (10 * acc + d) (fun x hx => h x (List.mem_cons_of_mem d hx))
        _ ≤ ((acc + 1) * 10) * 10 ^ ds.length := by
            have hd : d < 10 := h d (List.mem_cons_self d ds)
            have : 10 * acc + d + 1 ≤ (acc + 1) * 10 := by omega
            exact Nat.mul_le_mul_right _ this
        _ = (acc + 1) * 10 ^ (d :: ds).length := by
            rw [List.length_cons, pow_succ]
            ring

theorem digitsVal_lt (ds : List Nat) (h : ∀ d ∈ ds, d < 10) :
    digitsVal ds < 10 ^ ds.length := by
  have := digitsVal_foldl_lt ds 0 h
  simpa [digitsVal] using this

theorem pad4n_spec (y : Nat) (h : y ≤ 9999) :
    ∃ ds : List Nat, pad4n y = ds.map (fun d => Char.ofNat (48 + d)) ∧
      ds.length = 4 ∧ (∀ d ∈ ds, d < 10) ∧ digitsVal ds = y := by
  obtain ⟨ds, hmap, hne, hlt, hval, hlen⟩ := renderNat_spec y
  have hle4 : ds.length ≤ 4 := hlen 4 (by norm_num) (by omega)
  refine ⟨List.replicate (4 - ds.length) 0 ++ ds, ?_,
    by simp only [List.length_append, List.length_replicate]; omega, ?_, ?_⟩
  · unfold pad4n
    rw [hmap, List.map_append, List.map_replicate, List.length_map]
  · intro d hd
    rcases List.mem_append.mp hd with hd | hd
    · rw [List.eq_of_mem_replicate hd]; norm_num
    · exact hlt d hd
  · rw [ digitsVal_zero_prefix, hval]

theorem pad2_spec (m : Nat) (h : m ≤ 99) :
    ∃ ds : List Nat, pad2 m = ds.map (fun d => Char.ofNat (48 + d)) ∧
      ds.length = 2 ∧ (∀ d ∈ ds, d < 10) ∧ digitsVal ds = m := by
  obtain ⟨ds, hmap, hne, hlt, hval, hlen⟩ := renderNat_spec m
  by_cases hm : m < 10
  · have h1 : ds.length ≤ 1 := hlen 1 le_rfl (by omega)
    refine ⟨0 :: ds, ?_,
      by have hp := List.length_pos.mpr hne
         have h1 : ds.length ≤ 1 := hlen 1 le_rfl (by omega)
         simp only [List.length_cons]
         omega, ?_, ?_⟩
    · unfold pad2
      rw [if_pos hm, hmap]
      rfl
    · intro d hd
      rcases List.mem_cons.mp hd with hd | hd
      · omega
      · exact hlt d hd
    · rw [show (0 : Nat) :: ds = List.replicate 1 0 ++ ds from rfl,
        digitsVal_zero_prefix, hval]
  · refine ⟨ds, ?_, ?_, hlt, hval⟩
    · unfold pad2
      rw [if_neg hm, hmap]
    · have h2 : ds.length ≤ 2 := hlen 2 (by norm_num) (by omega)
      have h1 : ¬ ds.length ≤ 1 := by
        intro hc
        have : m < 10 ^ 1 := by
          rw [← hval]
          calc digitsVal ds < 10 ^ ds.length := digitsVal_lt ds hlt
          _ ≤ 10 ^ 1 := Nat.pow_le_pow_right (by norm_num) hc
        omega
      omega

theorem head_digit_of_map (ds : List Nat) (hne : ds ≠ []) (hlt : ∀ d ∈ ds, d < 10)
    (rest : Token) :
    ∀ c, ((ds.map (fun d => Char.ofNat (48 + d)) ++ rest).head? = some c) →
      isAsciiDigit c = true := by
  cases ds with
  | nil => exact absurd rfl hne
  | cons d ds =>
    intro c hc
    simp only [List.map_cons, List.cons_append, List.head?_cons] at hc
    injection hc with hc
    rw [← hc]
    exact digitChar_isDigit (hlt d (List.mem_cons_self d ds))

theorem scanYear_digit (t : Token)
    (hd : ∀ c, t.head? = some c → isAsciiDigit c = true) :
    scanYear t = (if (takeDigits 4 t).1.isEmpty then none
      else some ((digitsVal (takeDigits 4 t).1 : Int), (takeDigits 4 t).2)) := by
  cases t with
  | nil => rfl
  | cons c r =>
    have hc := hd c rfl
    unfold scanYear
    split
    · rename_i r' heq
      injection heq with h1 h2
      rw [h1] at hc
      exact absurd hc (by decide)
    · rename_i r' heq
      injection heq with h1 h2
      rw [h1] at hc
      exact absurd hc (by decide)
    · rfl

theorem renderYear_in_range (y : Int) (h1 : 1 ≤ y) (h2 : y ≤ 9999) :
    renderYear y = pad4n y.toNat := by
  unfold renderYear
  rw [if_neg (by omega), if_pos h2]

theorem daysInMonth_le_31 (y : Int) (m : Nat) : daysInMonth y m ≤ 31 := by
  unfold daysInMonth
  split
  · split_ifs <;> norm_num
  all_goals norm_num

theorem toDashSeparators_eq_self (t : Token) (h : ∀ c ∈ t, c ≠ '/') :
    toDashSeparators t = t := by
  unfold toDashSeparators
  rw [List.map_congr_left fun c hc => if_neg (h c hc)]
  exact List.map_id t

theorem chronoParseYmd_render (d : Date) (h : DateWF d) :
    chronoParseYmd (renderDate d) = some d := by
  obtain ⟨hy1, hy2, hm1, hm2, hd1, hd2⟩ := h
  have hday99 : d.day ≤ 99 := le_trans hd2 (le_trans (daysInMonth_le_31 _ _) (by norm_num))
  obtain ⟨ys, hysmap, hyslen, hyslt, hysval⟩ := pad4n_spec d.year.toNat (by omega)
  obtain ⟨ms, hmsmap, hmslen, hmslt, hmsval⟩ := pad2_spec d.month (by omega)
  obtain ⟨dds, hddmap, hddlen, hddlt, hddval⟩ := pad2_spec d.day hday99
  have hrd : renderDate d =
      ys.map (fun d => Char.ofNat (48 + d)) ++
        '-' :: (ms.map (fun d => Char.ofNat (48 + d)) ++
          '-' :: dds.map (fun d => Char.ofNat (48 + d))) := by
    unfold renderDate
    rw [renderYear_in_range d.year hy1 hy2, hysmap, hmsmap, hddmap]
    simp only [List.cons_append, List.append_assoc]
  have hysne : ys ≠ [] := by intro hc; rw [hc] at hyslen; simp at hyslen
  have htake4 : takeDigits 4 (renderDate d) =
      (ys, '-' :: (ms.map (fun d => Char.ofNat (48 + d)) ++
        '-' :: dds.map (fun d => Char.ofNat (48 + d)))) := by
    rw [hrd, ← hyslen]
    exact takeDigits_exact ys _ hyslt
  unfold chronoParseYmd
  rw [scanYear_digit (renderDate d)
    (by rw [hrd]; exact head_digit_of_map ys hysne hyslt _)]
  rw [htake4]
  rw [if_neg (by intro hc; rw [List.isEmpty_iff] at hc; exact hysne hc)]
  have htake2m : takeDigits 2 (ms.map (fun d => Char.ofNat (48 + d)) ++
      '-' :: dds.map (fun d => Char.ofNat (48 + d))) =
      (ms, '-' :: dds.map (fun d => Char.ofNat (48 + d))) := by
    rw [← hmslen]
    exact takeDigits_exact ms _ hmslt
  have htake2d : takeDigits 2 (dds.map (fun d => Char.ofNat (48 + d))) = (dds, []) := by
    rw [← hddlen, ← List.append_nil (dds.map fun d => Char.ofNat (48 + d))]
    exact takeDigits_exact dds [] hddlt
  have hms_b : ms.isEmpty = false := by
    cases ms
    · simp at hmslen
    · rfl
  have hdds_b : dds.isEmpty = false := by
    cases dds
    · simp at hddlen
    · rfl
  simp only [htake2m, htake2d, hms_b, hdds_b, Bool.false_eq_true, List.isEmpty_nil,
    not_true, false_or, or_self, if_false]
  rw [hysval, hmsval, hddval]
  rw [show ((d.year.toNat : Int)) = d.year from Int.toNat_of_nonneg (by omega)]
  unfold mkValidDate
  rw [if_pos (⟨by omega, by omega, hm1, hm2, hd1, hd2⟩ :
    -262144 ≤ d.year ∧ d.year ≤ 262143 ∧ 1 ≤ d.month ∧ d.month ≤ 12 ∧
      1 ≤ d.day ∧ d.day ≤ daysInMonth d.year d.month)]

theorem digitChar_class {d : Nat} (h : d < 10) :
    (Char.ofNat (48 + d)).isWhitespace = false ∧ Char.ofNat (48 + d) ≠ '/' ∧
    Char.ofNat (48 + d) ≠ '-' ∧ asciiUpper (Char.ofNat (48 + d)) = Char.ofNat (48 + d) ∧
    asciiLower (Char.ofNat (48 + d)) = Char.ofNat (48 + d) := by
  interval_cases d <;> refine ⟨by decide, by decide, by decide, by decide, by decide⟩

theorem dateTryFromStr_render (cy : Int) (d : Date) (h : DateWF d) :
    dateTryFromStr cy (renderDate d) = .ok d := by
  have hslash : ∀ c ∈ renderDate d, c ≠ '/' := by
    obtain ⟨hy1, hy2, hm1, hm2, hd1, hd2⟩ := h
    have hday99 : d.day ≤ 99 :=
      le_trans hd2 (le_trans (daysInMonth_le_31 _ _) (by norm_num))
    obtain ⟨ys, hysmap, hyslen, hyslt, hysval⟩ := pad4n_spec d.year.toNat (by omega)
    obtain ⟨ms, hmsmap, hmslen, hmslt, hmsval⟩ := pad2_spec d.month (by omega)
    obtain ⟨dds, hddmap, hddlen, hddlt, hddval⟩ := pad2_spec d.day hday99
    intro c hc
    unfold renderDate at hc
    rw [renderYear_in_range d.year hy1 hy2, hysmap, hmsmap, hddmap] at hc
    simp only [List.cons_append, List.append_assoc] at hc
    rcases List.mem_append.mp hc with hc | hc
    · obtain ⟨x, hx, hxc⟩ := List.mem_map.mp hc
      rw [← hxc]
      exact (digitChar_class (hyslt x hx)).2.1
    · rcases List.mem_cons.mp hc with hc | hc
      · rw [hc]; decide
      · rcases List.mem_append.mp hc with hc | hc
        · obtain ⟨x, hx, hxc⟩ := List.mem_map.mp hc
          rw [← hxc]
          exact (digitChar_class (hmslt x hx)).2.1
        · rcases List.mem_cons.mp hc with hc | hc
          · rw [hc]; decide
          · obtain ⟨x, hx, hxc⟩ := List.mem_map.mp hc
            rw [← hxc]
            exact (digitChar_class (hddlt x hx)).2.1
  simp only [dateTryFromStr]
  rw [toDashSeparators_eq_self _ hslash, chronoParseYmd_render d h]

theorem trimLeft_eq_self (t : Token) (h : ∀ c ∈ t, c.isWhitespace = false) :
    trimLeft t = t := by
  cases t with
  | nil => rfl
  | cons c cs =>
    unfold trimLeft
    rw [h c (List.mem_cons_self c cs)]
    simp

theorem trim_eq_self (t : Token) (h : ∀ c ∈ t, c.isWhitespace = false) :
    trim t = t := by
  unfold trim
  rw [trimLeft_eq_self t.reverse (fun c hc => h c (List.mem_reverse.mp hc)),
    List.reverse_reverse, trimLeft_eq_self t h]

theorem splitOnce_before : ∀ (xs ys : Token), ('-' ∉ xs) →
    splitOnce '-' (xs ++ '-' :: ys) = some (xs, ys)
  | [], ys, _ => by
      show splitOnce '-' ('-' :: ys) = some ([], ys)
      unfold splitOnce
      rw [if_pos rfl]
  | x :: xs, ys, h => by
      show splitOnce '-' (x :: (xs ++ '-' :: ys)) = some (x :: xs, ys)
      unfold splitOnce
      rw [if_neg (fun hc => h (by rw [← hc]; exact List.mem_cons_self x xs))]
      rw [splitOnce_before xs ys (fun hc => h (List.mem_cons_of_mem x hc))]
      rfl

theorem startsWithSeq_self : ∀ (pat rest : Token), startsWithSeq pat (pat ++ rest) = true
  | [], _ => rfl
  | p :: ps, rest => by
      show startsWithSeq (p :: ps) (p :: (ps ++ rest)) = true
      unfold startsWithSeq
      rw [startsWithSeq_self ps rest]
      simp

theorem containsSeq_suffix : ∀ (xs pat : Token), containsSeq pat (xs ++ pat) = true := by
  intro xs pat
  induction xs with
  | nil =>
    unfold containsSeq
    rw [List.nil_append]
    cases pat with
    | nil => rfl
    | cons p ps =>
      unfold findSeqIdx
      have hs : startsWithSeq (p :: ps) (p :: ps) = true := by
        have hx := startsWithSeq_self (p :: ps) []
        rwa [List.append_nil] at hx
      rw [if_pos hs]
      rfl
  | cons x xs ih =>
    unfold containsSeq at ih ⊢
    show (findSeqIdx pat (x :: (xs ++ pat))).isSome = true
    unfold findSeqIdx
    split
    · rfl
    · cases hfd : findSeqIdx pat (xs ++ pat) with
      | none => rw [hfd] at ih; simp at ih
      | some v => rfl

theorem renderTime_shape (sec : Int) (h : TimeWF sec) :
    ∃ (hs msd : List Nat) (pm : Bool),
      renderTime sec = hs.map (fun d => Char.ofNat (48 + d)) ++ ':' ::
        (msd.map (fun d => Char.ofNat (48 + d)) ++
          (if pm then ['P', 'M'] else ['A', 'M'])) ∧
      (∀ d ∈ hs, d < 10) ∧ (∀ d ∈ msd, d < 10) ∧ hs ≠ [] ∧ hs.length ≤ 2 ∧
      msd.length = 2 ∧ 1 ≤ digitsVal hs ∧ digitsVal hs ≤ 12 ∧ digitsVal msd ≤ 59 ∧
      (((digitsVal hs % 12 + if pm then 12 else 0) * 3600 + digitsVal msd * 60 : Nat) : Int)
        = sec := by
  obtain ⟨h0, h1, h2⟩ := h
  have hsn : (sec.toNat : Int) = sec := Int.toNat_of_nonneg h0
  have hsb : sec.toNat < 86400 := by omega
  have hs60 : sec.toNat % 60 = 0 := by omega
  have hm59 : (sec.toNat % 3600) / 60 ≤ 59 := by omega
  have hrt : renderTime sec =
      renderNat (if sec.toNat / 3600 % 12 = 0 then 12 else sec.toNat / 3600 % 12) ++
        ':' :: pad2 ((sec.toNat % 3600) / 60) ++
        (if sec.toNat / 3600 < 12 then ['A', 'M'] else ['P', 'M']) := rfl
  obtain ⟨hds, hmap_h, hne_h, hlt_h, hval_h, hlen_h⟩ :=
    renderNat_spec (if sec.toNat / 3600 % 12 = 0 then 12 else sec.toNat / 3600 % 12)
  obtain ⟨mds, hmap_m, hlen_m, hlt_m, hval_m⟩ := pad2_spec ((sec.toNat % 3600) / 60) (by omega)
  have h12b : digitsVal hds ≤ 12 := by rw [hval_h]; split_ifs <;> omega
  have h12l : 1 ≤ digitsVal hds := by rw [hval_h]; split_ifs <;> omega
  have hlen2 : hds.length ≤ 2 := hlen_h 2 (by norm_num)
    (by split_ifs with hz
        · norm_num
        · exact lt_trans (Nat.mod_lt _ (by norm_num)) (by norm_num))
  by_cases hpm : sec.toNat / 3600 < 12
  · refine ⟨hds, mds, false, ?_, hlt_h, hlt_m, hne_h, hlen2, hlen_m, h12l, h12b,
      by omega, ?_⟩
    · rw [hrt, hmap_h, hmap_m, if_pos hpm, List.append_assoc, List.cons_append]
      rfl
    · have hX : ((digitsVal hds % 12 + if false then 12 else 0) * 3600 +
          digitsVal mds * 60 : Nat) = sec.toNat := by
        rw [show (if false then 12 else 0) = 0 from rfl, hval_h, hval_m]
        by_cases hz : sec.toNat / 3600 % 12 = 0
        · rw [if_pos hz]
          omega
        · rw [if_neg hz]
          omega
      rw [hX, hsn]
  · refine ⟨hds, mds, true, ?_, hlt_h, hlt_m, hne_h, hlen2, hlen_m, h12l, h12b,
      by omega, ?_⟩
    · rw [hrt, hmap_h, hmap_m, if_neg hpm, List.append_assoc, List.cons_append]
      rfl
    · have hX : ((digitsVal hds % 12 + if true then 12 else 0) * 3600 +
          digitsVal mds * 60 : Nat) = sec.toNat := by
        rw [show (if true then 12 else 0) = 12 from rfl, hval_h, hval_m]
        by_cases hz : sec.toNat / 3600 % 12 = 0
        · rw [if_pos hz]
          omega
        · rw [if_neg hz]
          omega
      rw [hX, hsn]

theorem chronoParseTime_render (sec : Int) (h : TimeWF sec) :
    chronoParseTime .hmMeridian (renderTime sec) = some sec := by
  obtain ⟨hs, msd, pm, hmap, hlt_h, hlt_m, hne, hlen2, hlenm, h1, h12le, hm59x, hval⟩ :=
    renderTime_shape sec h
  have hhs_b : hs.isEmpty = false := by
    cases hs
    · exact absurd rfl hne
    · rfl
  have hms_b : msd.isEmpty = false := by
    cases msd
    · simp at hlenm
    · rfl
  have htd1 := takeDigits_stop 2 hs
    (':' :: (msd.map (fun d => Char.ofNat (48 + d)) ++
      (if pm then ['P', 'M'] else ['A', 'M']))) hlt_h hlen2
    (by intro c hc
        rw [List.head?_cons] at hc
        injection hc with hc
        rw [← hc]
        decide)
  have hMhead : ∀ c, ((if pm then ['P', 'M'] else ['A', 'M']) : Token).head? = some c →
      isAsciiDigit c = false := by
    cases pm
    · intro c hc
      rw [show ((if false then ['P', 'M'] else ['A', 'M']) : Token) = ['A', 'M'] from rfl]
        at hc
      rw [List.head?_cons] at hc
      injection hc with hc
      rw [← hc]
      decide
    · intro c hc
      rw [show ((if true then ['P', 'M'] else ['A', 'M']) : Token) = ['P', 'M'] from rfl]
        at hc
      rw [List.head?_cons] at hc
      injection hc with hc
      rw [← hc]
      decide
  have htd2 := takeDigits_stop 2 msd (if pm then ['P', 'M'] else ['A', 'M'])
    hlt_m (le_of_eq hlenm) hMhead
  have hmer : parseMeridian (if pm then ['P', 'M'] else ['A', 'M']) = some (pm, []) := by
    cases pm
    · rfl
    · rfl
  have hc1 : (1 ≤ digitsVal hs ∧ digitsVal hs ≤ 12) = True := eq_true ⟨h1, h12le⟩
  have hc2 : (digitsVal msd ≤ 59) = True := eq_true hm59x
  rw [hmap]
  unfold chronoParseTime
  simp only [htd1, hhs_b, Bool.false_eq_true, if_false, hc1, if_true, htd2, hms_b,
    hc2, hmer]
  rw [hval]

theorem renderTime_chars (sec : Int) (h : TimeWF sec) :
    ∀ c ∈ renderTime sec, c.isWhitespace = false ∧ c ≠ '-' ∧ asciiUpper c = c := by
  obtain ⟨hs, msd, pm, hmap, hlt_h, hlt_m, _, _, _, _, _, _, _⟩ := renderTime_shape sec h
  intro c hc
  rw [hmap] at hc
  rcases List.mem_append.mp hc with hc | hc
  · obtain ⟨x, hx, hxc⟩ := List.mem_map.mp hc
    rw [← hxc]
    have hcls := digitChar_class (hlt_h x hx)
    exact ⟨hcls.1, hcls.2.2.1, hcls.2.2.2.1⟩
  · rcases List.mem_cons.mp hc with hc | hc
    · rw [hc]
      refine ⟨rfl, by decide, rfl⟩
    · rcases List.mem_append.mp hc with hc | hc
      · obtain ⟨x, hx, hxc⟩ := List.mem_map.mp hc
        rw [← hxc]
        have hcls := digitChar_class (hlt_m x hx)
        exact ⟨hcls.1, hcls.2.2.1, hcls.2.2.2.1⟩
      · have hM : c ∈ (['P', 'M'] : Token) ∨ c ∈ (['A', 'M'] : Token) := by
          cases pm
          · right; simpa using hc
          · left; simpa using hc
        rcases hM with hM | hM <;>
          rcases List.mem_cons.mp hM with hM | hM <;>
            first
              | (rw [hM]; exact ⟨rfl, by decide, rfl⟩)
              | (rcases List.mem_cons.mp hM with hM | hM
                 · rw [hM]; exact ⟨rfl, by decide, rfl⟩
                 · cases hM)

theorem renderTime_hasMeridian (sec : Int) (h : TimeWF sec) :
    tokenHasMeridian (renderTime sec) = true := by
  obtain ⟨hs, msd, pm, hmap, _, _, _, _, _, _, _, _, _⟩ := renderTime_shape sec h
  unfold tokenHasMeridian
  cases pm
  · have hAM : containsSeq "AM".data (renderTime sec) = true := by
      rw [show ("AM".data : Token) = ['A', 'M'] from rfl, hmap]
      rw [show (if (false : Bool) then ['P', 'M'] else ['A', 'M']) = ['A', 'M'] from rfl]
      rw [show hs.map (fun d => Char.ofNat (48 + d)) ++ ':' ::
          (msd.map (fun d => Char.ofNat (48 + d)) ++ ['A', 'M']) =
        (hs.map (fun d => Char.ofNat (48 + d)) ++ ':' ::
          msd.map (fun d => Char.ofNat (48 + d))) ++ ['A', 'M'] by
          rw [List.append_assoc, List.cons_append]]
      exact containsSeq_suffix _ _
    rw [hAM]
    simp
  · have hPM : containsSeq "PM".data (renderTime sec) = true := by
      rw [show ("PM".data : Token) = ['P', 'M'] from rfl, hmap]
      rw [show (if (true : Bool) then ['P', 'M'] else ['A', 'M']) = ['P', 'M'] from rfl]
      rw [show hs.map (fun d => Char.ofNat (48 + d)) ++ ':' ::
          (msd.map (fun d => Char.ofNat (48 + d)) ++ ['P', 'M']) =
        (hs.map (fun d => Char.ofNat (48 + d)) ++ ':' ::
          msd.map (fun d => Char.ofNat (48 + d))) ++ ['P', 'M'] by
          rw [List.append_assoc, List.cons_append]]
      exact containsSeq_suffix _ _
    rw [hPM]
    simp

theorem renderTime_contains_colon (sec : Int) (h : TimeWF sec) :
    (renderTime sec).contains ':' = true := by
  obtain ⟨hs, msd, pm, hmap, _, _, _, _, _, _, _, _, _⟩ := renderTime_shape sec h
  have hmem : ':' ∈ renderTime sec := by
    rw [hmap]
    exact List.mem_append_right _ (List.mem_cons_self _ _)
  exact List.elem_iff.mpr hmem

theorem buildTimeParseSpec_render (sec : Int) (h : TimeWF sec) (b : Bool) :
    buildTimeParseSpec .hmMeridian (renderTime sec) b = (renderTime sec, .hmMeridian) := by
  have hch := renderTime_chars sec h
  have htrim : trim (renderTime sec) = renderTime sec :=
    trim_eq_self _ (fun c hc => (hch c hc).1)
  have hup : (renderTime sec).map asciiUpper = renderTime sec := by
    rw [List.map_congr_left (fun c hc => (hch c hc).2.2)]
    exact List.map_id' (renderTime sec)
  simp only [buildTimeParseSpec]
  rw [htrim, hup, if_pos (renderTime_hasMeridian sec h)]
  simp only [ensureMinutes]
  rw [if_pos (renderTime_contains_colon sec h)]

theorem parseTokenAsTime_render (sec : Int) (h : TimeWF sec) (b : Bool) :
    parseTokenAsTime (renderTime sec) b = .ok sec := by
  simp only [parseTokenAsTime, buildTimeParseSpec_render sec h b]
  rw [chronoParseTime_render sec h]

theorem timeRangeTryFromStr_render (tr : TimeRange) (h1 : TimeWF tr.start)
    (h2 : TimeWF tr.endTime) (hlt : tr.start < tr.endTime) :
    timeRangeTryFromStr (renderTimeRange tr) = .ok tr := by
  have hch1 := renderTime_chars tr.start h1
  have hch2 := renderTime_chars tr.endTime h2
  have hrr : renderTimeRange tr = renderTime tr.start ++ '-' :: renderTime tr.endTime := rfl
  have hws : ∀ c ∈ renderTimeRange tr, c.isWhitespace = false := by
    intro c hc
    rw [hrr] at hc
    rcases List.mem_append.mp hc with hc | hc
    · exact (hch1 c hc).1
    · rcases List.mem_cons.mp hc with hc | hc
      · rw [hc]; rfl
      · exact (hch2 c hc).1
  have hsp := splitOnce_before (renderTime tr.start) (renderTime tr.endTime)
    (fun hc => ((hch1 '-' hc).2.1) rfl)
  have ht1 : trim (renderTime tr.start) = renderTime tr.start :=
    trim_eq_self _ (fun c hc => (hch1 c hc).1)
  have ht2 : trim (renderTime tr.endTime) = renderTime tr.endTime :=
    trim_eq_self _ (fun c hc => (hch2 c hc).1)
  have hp1 := parseTokenAsTime_render tr.start h1 true
  have hp2 := parseTokenAsTime_render tr.endTime h2 false
  simp only [timeRangeTryFromStr]
  rw [trim_eq_self _ hws, hrr]
  simp only [hsp, ht1, ht2, hp1, hp2]
  unfold timeRangeValidate
  rw [if_neg (ne_of_lt hlt), if_neg (not_le.mpr hlt)]

/-! ### C6 — factory acceptance and rejection -/

theorem digit_toNat {c : Char} (h : isAsciiDigit c = true) :
    48 ≤ c.toNat ∧ c.toNat ≤ 57 := by
  unfold isAsciiDigit at h
  exact of_decide_eq_true h

theorem digit_lower_eq {c : Char} (h : isAsciiDigit c = true) : asciiLower c = c := by
  have hb := digit_toNat h
  unfold asciiLower
  rw [if_neg (by omega)]

theorem lowerTok_cons (c : Char) (r : Token) :
    lowerTok (c :: r) = asciiLower c :: lowerTok r := rfl

theorem lowerTok_head_ne (c : Char) (r : Token) (w : Char) (ws : Token)
    (hne : asciiLower c ≠ w) : lowerTok (c :: r) ≠ w :: ws := by
  intro he
  rw [lowerTok_cons] at he
  injection he with h1 _
  exact hne h1

theorem ne_strData_of_head (c : Char) (r : Token) (w : String) (wc : Char) (wr : Token)
    (hw : w.data = wc :: wr) (hne : asciiLower c ≠ wc) : lowerTok (c :: r) ≠ w.data := by
  rw [hw]
  exact lowerTok_head_ne c r wc wr hne

theorem digit_ne_char {c : Char} (h : isAsciiDigit c = true) (w : Char)
    (hw : isAsciiDigit w = false) : c ≠ w := by
  intro he
  rw [he] at h
  rw [h] at hw
  cases hw

theorem digit_lower_ne {c : Char} (h : isAsciiDigit c = true) (w : Char)
    (hw : isAsciiDigit w = false) : asciiLower c ≠ w := by
  rw [digit_lower_eq h]
  exact digit_ne_char h w hw

theorem entityTypeTryFrom_none_head (c : Char) (r : Token)
    (h : asciiLower c ≠ 't' ∧ asciiLower c ≠ 'e' ∧ asciiLower c ≠ 'c') :
    entityTypeTryFrom (c :: r) = none := by
  simp only [entityTypeTryFrom]
  rw [if_neg (ne_strData_of_head c r "task" 't' _ rfl h.1),
    if_neg (ne_strData_of_head c r "event" 'e' _ rfl h.2.1),
    if_neg (ne_strData_of_head c r "card" 'c' _ rfl h.2.2)]

theorem colorTryFrom_none_head (c : Char) (r : Token)
    (h : asciiLower c ≠ 'r' ∧ asciiLower c ≠ 'o' ∧ asciiLower c ≠ 'y' ∧
      asciiLower c ≠ 'g' ∧ asciiLower c ≠ 'l' ∧ asciiLower c ≠ 'b' ∧
      asciiLower c ≠ 'i' ∧ asciiLower c ≠ 'v') :
    colorTryFrom (c :: r) = none := by
  simp only [colorTryFrom]
  rw [if_neg (ne_strData_of_head c r "red" 'r' _ rfl h.1),
    if_neg (ne_strData_of_head c r "orange" 'o' _ rfl h.2.1),
    if_neg (ne_strData_of_head c r "yellow" 'y' _ rfl h.2.2.1),
    if_neg (ne_strData_of_head c r "green" 'g' _ rfl h.2.2.2.1),
    if_neg (ne_strData_of_head c r "light_blue" 'l' _ rfl h.2.2.2.2.1),
    if_neg (ne_strData_of_head c r "blue" 'b' _ rfl h.2.2.2.2.2.1),
    if_neg (ne_strData_of_head c r "indigo" 'i' _ rfl h.2.2.2.2.2.2.1),
    if_neg (ne_strData_of_head c r "violet" 'v' _ rfl h.2.2.2.2.2.2.2),
    if_neg (ne_strData_of_head c r "black" 'b' _ rfl h.2.2.2.2.2.1),
    if_neg (ne_strData_of_head c r "light_green" 'l' _ rfl h.2.2.2.2.1),
    if_neg (ne_strData_of_head c r "light_coral" 'l' _ rfl h.2.2.2.2.1)]

theorem dayTryFrom_none_head (c : Char) (r : Token)
    (h : asciiLower c ≠ 'm' ∧ asciiLower c ≠ 't' ∧ asciiLower c ≠ 'w' ∧
      asciiLower c ≠ 'f' ∧ asciiLower c ≠ 's') :
    dayTryFrom (c :: r) = none := by
  simp only [dayTryFrom]
  rw [if_neg (by
      rintro (he | he | he | he)
      · exact ne_strData_of_head c r "mon" 'm' _ rfl h.1 he
      · exact ne_strData_of_head c r "monday" 'm' _ rfl h.1 he
      · exact ne_strData_of_head c r "mon." 'm' _ rfl h.1 he
      · exact ne_strData_of_head c r "m" 'm' _ rfl h.1 he)]
  rw [if_neg (by
      rintro (he | he | he | he)
      · exact ne_strData_of_head c r "tue" 't' _ rfl h.2.1 he
      · exact ne_strData_of_head c r "tuesday" 't' _ rfl h.2.1 he
      · exact ne_strData_of_head c r "tue." 't' _ rfl h.2.1 he
      · exact ne_strData_of_head c r "t" 't' _ rfl h.2.1 he)]
  rw [if_neg (by
      rintro (he | he | he | he)
      · exact ne_strData_of_head c r "wed" 'w' _ rfl h.2.2.1 he
      · exact ne_strData_of_head c r "wednesday" 'w' _ rfl h.2.2.1 he
      · exact ne_strData_of_head c r "wed." 'w' _ rfl h.2.2.1 he
      · exact ne_strData_of_head c r "w" 'w' _ rfl h.2.2.1 he)]
  rw [if_neg (by
      rintro (he | he | he | he)
      · exact ne_strData_of_head c r "thu" 't' _ rfl h.2.1 he
      · exact ne_strData_of_head c r "thursday" 't' _ rfl h.2.1 he
      · exact ne_strData_of_head c r "thu." 't' _ rfl h.2.1 he
      · exact ne_strData_of_head c r "th" 't' _ rfl h.2.1 he)]
  rw [if_neg (by
      rintro (he | he | he | he)
      · exact ne_strData_of_head c r "fri" 'f' _ rfl h.2.2.2.1 he
      · exact ne_strData_of_head c r "friday" 'f' _ rfl h.2.2.2.1 he
      · exact ne_strData_of_head c r "fri." 'f' _ rfl h.2.2.2.1 he
      · exact ne_strData_of_head c r "f" 'f' _ rfl h.2.2.2.1 he)]
  rw [if_neg (by
      rintro (he | he | he | he)
      · exact ne_strData_of_head c r "sat" 's' _ rfl h.2.2.2.2 he
      · exact ne_strData_of_head c r "saturday" 's' _ rfl h.2.2.2.2 he
      · exact ne_strData_of_head c r "sat." 's' _ rfl h.2.2.2.2 he
      · exact ne_strData_of_head c r "sa" 's' _ rfl h.2.2.2.2 he)]
  rw [if_neg (by
      rintro (he | he | he | he)
      · exact ne_strData_of_head c r "sun" 's' _ rfl h.2.2.2.2 he
      · exact ne_strData_of_head c r "sunday" 's' _ rfl h.2.2.2.2 he
      · exact ne_strData_of_head c r "sun." 's' _ rfl h.2.2.2.2 he
      · exact ne_strData_of_head c r "su" 's' _ rfl h.2.2.2.2 he)]

theorem boolTryFromStr_error_head (c : Char) (r : Token)
    (h : asciiLower c ≠ 't' ∧ asciiLower c ≠ 'f') :
    boolAccepts (c :: r) = false := by
  simp only [boolAccepts, boolTryFromStr]
  rw [if_neg (ne_strData_of_head c r "true" 't' _ rfl h.1),
    if_neg (ne_strData_of_head c r "false" 'f' _ rfl h.2)]

theorem flagTryFrom_none_head (c : Char) (r : Token) (h : asciiLower c ≠ '-') :
    flagAccepts (c :: r) = false := by
  simp only [flagAccepts, flagTryFrom]
  rw [if_neg (by
      rintro (he | he)
      · exact ne_strData_of_head c r "-h" '-' _ rfl h he
      · exact ne_strData_of_head c r "-help" '-' _ rfl h he)]
  rfl

theorem mem_of_head? {α : Type} {l : List α} {c : α} (h : l.head? = some c) : c ∈ l := by
  cases l with
  | nil => cases h
  | cons x xs =>
    rw [List.head?_cons] at h
    injection h with h
    rw [← h]
    exact List.mem_cons_self x xs

theorem sixRejects (c : Char) (r : Token)
    (hq : ¬ (c = '\'' ∨ c = '"'))
    (h : asciiLower c ≠ 't' ∧ asciiLower c ≠ 'e' ∧ asciiLower c ≠ 'c' ∧
      asciiLower c ≠ 'r' ∧ asciiLower c ≠ 'o' ∧ asciiLower c ≠ 'y' ∧
      asciiLower c ≠ 'g' ∧ asciiLower c ≠ 'l' ∧ asciiLower c ≠ 'b' ∧
      asciiLower c ≠ 'i' ∧ asciiLower c ≠ 'v' ∧ asciiLower c ≠ 'f' ∧
      asciiLower c ≠ '-')
    (hat : c ≠ '@') :
    nameStartsSequence (c :: r) = false ∧ entityTypeAccepts (c :: r) = false ∧
    atAccepts (c :: r) = false ∧ cardColorAccepts (c :: r) = false ∧
    flagAccepts (c :: r) = false ∧ boolAccepts (c :: r) = false := by
  refine ⟨?_, ?_, ?_, ?_, ?_, ?_⟩
  · unfold nameStartsSequence
    exact decide_eq_false hq
  · unfold entityTypeAccepts
    rw [entityTypeTryFrom_none_head c r ⟨h.1, h.2.1, h.2.2.1⟩]
    rfl
  · unfold atAccepts
    exact decide_eq_false (by
      intro hcon
      rw [show ("@".data : Token) = ['@'] from rfl] at hcon
      injection hcon with hh _
      exact hat hh)
  · unfold cardColorAccepts
    rw [colorTryFrom_none_head c r ⟨h.2.2.2.1, h.2.2.2.2.1, h.2.2.2.2.2.1,
      h.2.2.2.2.2.2.1, h.2.2.2.2.2.2.2.1, h.2.2.2.2.2.2.2.2.1,
      h.2.2.2.2.2.2.2.2.2.1, h.2.2.2.2.2.2.2.2.2.2.1⟩]
    rfl
  · exact flagTryFrom_none_head c r h.2.2.2.2.2.2.2.2.2.2.2.2
  · exact boolTryFromStr_error_head c r ⟨h.1, h.2.2.2.2.2.2.2.2.2.2.2.1⟩

theorem digitHead_sixRejects (c : Char) (r : Token) (hc : isAsciiDigit c = true) :
    nameStartsSequence (c :: r) = false ∧ entityTypeAccepts (c :: r) = false ∧
    atAccepts (c :: r) = false ∧ cardColorAccepts (c :: r) = false ∧
    flagAccepts (c :: r) = false ∧ boolAccepts (c :: r) = false :=
  sixRejects c r
    (by rintro (he | he) <;> exact digit_ne_char hc _ (by decide) he)
    ⟨digit_lower_ne hc 't' (by decide), digit_lower_ne hc 'e' (by decide),
     digit_lower_ne hc 'c' (by decide), digit_lower_ne hc 'r' (by decide),
     digit_lower_ne hc 'o' (by decide), digit_lower_ne hc 'y' (by decide),
     digit_lower_ne hc 'g' (by decide), digit_lower_ne hc 'l' (by decide),
     digit_lower_ne hc 'b' (by decide), digit_lower_ne hc 'i' (by decide),
     digit_lower_ne hc 'v' (by decide), digit_lower_ne hc 'f' (by decide),
     digit_lower_ne hc '-' (by decide)⟩
    (digit_ne_char hc '@' (by decide))

theorem plusHead_sixRejects (r : Token) :
    nameStartsSequence ('+' :: r) = false ∧ entityTypeAccepts ('+' :: r) = false ∧
    atAccepts ('+' :: r) = false ∧ cardColorAccepts ('+' :: r) = false ∧
    flagAccepts ('+' :: r) = false ∧ boolAccepts ('+' :: r) = false :=
  sixRejects '+' r (by decide)
    ⟨by decide, by decide, by decide, by decide, by decide, by decide, by decide,
     by decide, by decide, by decide, by decide, by decide, by decide⟩
    (by decide)

theorem intAccepts_digits (t : Token) (hd : ∀ c ∈ t, isAsciiDigit c = true) :
    intAccepts t = true := by
  unfold intAccepts
  exact List.all_eq_true.mpr hd

theorem parseI32_no_sign (t : Token)
    (hd : ∀ c, t.head? = some c → (c ≠ '+' ∧ c ≠ '-')) :
    parseI32 t = (if t.isEmpty ∨ ¬ t.all isAsciiDigit then none
      else if -2147483648 ≤ (digitsVal (t.map fun c => c.toNat - 48) : Int) ∧
          (digitsVal (t.map fun c => c.toNat - 48) : Int) ≤ 2147483647 then
        some (digitsVal (t.map fun c => c.toNat - 48) : Int) else none) := by
  cases t with
  | nil => rfl
  | cons c r =>
    obtain ⟨hp, hm⟩ := hd c rfl
    unfold parseI32
    split
    rename_i neg' r' heq
    split at heq
    · rename_i r'' heq2
      injection heq2 with h1 _
      exact absurd h1 hp
    · rename_i r'' heq2
      injection heq2 with h1 _
      exact absurd h1 hm
    · injection heq with he1 he2
      subst he1
      subst he2
      rfl

theorem parseI32_renderNat (n : Nat) (h2 : n ≤ 2147483647) :
    parseI32 (renderNat n) = some (n : Int) := by
  obtain ⟨ds, hmap, hne, hlt, hval, _⟩ := renderNat_spec n
  have hdig : ∀ c ∈ renderNat n, isAsciiDigit c = true := by
    rw [hmap]
    intro c hc
    obtain ⟨x, hx, hxc⟩ := List.mem_map.mp hc
    rw [← hxc]
    exact digitChar_isDigit (hlt x hx)
  have hne' : renderNat n ≠ [] := by
    rw [hmap]
    simpa using hne
  rw [parseI32_no_sign _ (fun c hc =>
    ⟨digit_ne_char (hdig c (mem_of_head? hc)) '+' (by decide),
     digit_ne_char (hdig c (mem_of_head? hc)) '-' (by decide)⟩)]
  rw [if_neg (by
    rintro (hc | hc)
    · exact hne' (List.isEmpty_iff.mp hc)
    · exact hc (List.all_eq_true.mpr hdig))]
  have hvv : (renderNat n).map (fun c => c.toNat - 48) = ds := by
    rw [hmap, List.map_map]
    rw [List.map_congr_left (fun d hd => by
      show (Char.ofNat (48 + d)).toNat - 48 = d
      exact digitChar_val (hlt d hd))]
    exact List.map_id' ds
  rw [hvv, hval]
  rw [if_pos ⟨by omega, by omega⟩]

theorem ne_true_of_false {b : Bool} (h : b = false) : ¬ b = true := by
  rw [h]
  simp

theorem parseOneArg_digits (cy : Int) (t : Token) (hne : t ≠ [])
    (hd : ∀ c ∈ t, isAsciiDigit c = true) (rest : List Token) :
    parseOneArg cy t rest = (intNew t).map (fun a => (a, rest)) := by
  obtain ⟨c, r, hcr⟩ := List.exists_cons_of_ne_nil hne
  subst hcr
  have hc := hd c (List.mem_cons_self c r)
  obtain ⟨hn1, hn2, hn3, hn4, hn5, hn6⟩ := digitHead_sixRejects c r hc
  unfold parseOneArg
  rw [if_neg (ne_true_of_false hn1), if_neg (ne_true_of_false hn2),
    if_neg (ne_true_of_false hn3), if_neg (ne_true_of_false hn4),
    if_neg (ne_true_of_false hn5), if_neg (ne_true_of_false hn6),
    if_pos (intAccepts_digits _ hd)]

theorem parseOneArg_renderInt (cy : Int) (k : Int) (h0 : 0 ≤ k)
    (h2 : k ≤ 2147483647) (rest : List Token) :
    parseOneArg cy (renderInt k) rest = .ok (.int k, rest) := by
  have hri : renderInt k = renderNat k.toNat := by
    unfold renderInt
    rw [if_neg (by omega)]
  obtain ⟨ds, hmap, hne, hlt, hval, _⟩ := renderNat_spec k.toNat
  have hd : ∀ c ∈ renderInt k, isAsciiDigit c = true := by
    rw [hri, hmap]
    intro c hc
    obtain ⟨x, hx, hxc⟩ := List.mem_map.mp hc
    rw [← hxc]
    exact digitChar_isDigit (hlt x hx)
  have hne' : renderInt k ≠ [] := by
    rw [hri, hmap]
    simpa using hne
  rw [parseOneArg_digits cy _ hne' hd rest]
  unfold intNew
  rw [hri, parseI32_renderNat k.toNat (by omega)]
  rw [show ((k.toNat : ℕ) : Int) = k from Int.toNat_of_nonneg h0]
  rfl

theorem multiTokenParse_accepts (accepts : Token → Bool) (mk : Token → Except Error Arg)
    (joined : Token) (rest : List Token) (ha : accepts joined = true) :
    multiTokenParse accepts mk joined rest = (mk joined).map (fun a => (a, rest)) := by
  cases rest with
  | nil => rfl
  | cons t ts =>
    unfold multiTokenParse
    rw [if_pos ha]

theorem nameAccepts_quoted (n : String) (hn : n.data ≠ []) :
    nameAccepts ('"' :: (n.data ++ ['"'])) = true := by
  have hpos : 0 < n.data.length := List.length_pos.mpr hn
  have hlen : ('"' :: (n.data ++ ['"'])).length = n.data.length + 2 := by
    simp [List.length_cons, List.length_append]
  have hg : ('"' :: (n.data ++ ['"'])).getLast? = some '"' := by
    rw [show '"' :: (n.data ++ ['"']) = ('"' :: n.data) ++ ['"'] from rfl]
    exact List.getLast?_concat _
  simp only [nameAccepts, hlen, hg]
  norm_num
  exact hpos

theorem nameNew_quoted (n : String) (hn : n.data ≠ []) :
    nameNew ('"' :: (n.data ++ ['"'])) = .ok (.name n) := by
  unfold nameNew
  rw [if_pos (nameAccepts_quoted n hn)]
  rw [show ('"' :: (n.data ++ ['"'])).drop 1 = n.data ++ ['"'] from rfl]
  rw [List.dropLast_concat]

theorem parseOneArg_name (cy : Int) (n : String) (hn : n.data ≠ [])
    (rest : List Token) :
    parseOneArg cy ('"' :: (n.data ++ ['"'])) rest = .ok (.name n, rest) := by
  unfold parseOneArg
  rw [if_pos (show nameStartsSequence ('"' :: (n.data ++ ['"'])) = true from rfl)]
  rw [multiTokenParse_accepts _ _ _ _ (nameAccepts_quoted n hn), nameNew_quoted n hn]
  rfl

theorem toTokens_name (n : String) :
    Arg.toTokens (.name n) = ['"' :: (n.data ++ ['"'])] := by
  unfold Arg.toTokens
  rw [if_neg (fun hcon => hcon.2.1 rfl)]
  rfl

theorem toTokens_single (a : Arg) (h : (renderArg a).any Char.isWhitespace = false) :
    Arg.toTokens a = [renderArg a] := by
  unfold Arg.toTokens
  rw [if_neg (fun hcon => absurd hcon.1 (ne_true_of_false h))]

theorem parseOneArg_at (cy : Int) (rest : List Token) :
    parseOneArg cy "@".data rest = .ok (.atSymbol, rest) := rfl

theorem parseOneArg_bool (cy : Int) (b : Bool) (rest : List Token) :
    parseOneArg cy (renderArg (.bool b)) rest = .ok (.bool b, rest) := by
  cases b <;> rfl

theorem parseOneArg_color (cy : Int) (col : CardColor) (rest : List Token) :
    parseOneArg cy (colorStr col) rest = .ok (.cardColor col, rest) := by
  cases col <;> rfl

theorem splitOnce_none (sep : Char) : ∀ (t : Token), sep ∉ t → splitOnce sep t = none
  | [], _ => rfl
  | c :: cs, h => by
      unfold splitOnce
      rw [if_neg (fun hc => h (by rw [hc]; exact List.mem_cons_self _ _))]
      rw [splitOnce_none sep cs (fun hc => h (List.mem_cons_of_mem c hc))]
      rfl

theorem trimEndCommas_eq_self (t : Token)
    (h : ∀ c, t.getLast? = some c → c ≠ ',') : trimEndCommas t = t := by
  unfold trimEndCommas
  cases ht : t.reverse with
  | nil =>
    have : t = [] := by
      have := congrArg List.reverse ht
      rwa [List.reverse_reverse] at this
    rw [this]
    rfl
  | cons c cs =>
    have hlast : t.getLast? = some c := by
      rw [← List.head?_reverse, ht, List.head?_cons]
    rw [List.dropWhile_cons]
    rw [if_neg (by
      intro hc
      exact h c hlast (of_decide_eq_true hc))]
    have h2 := congrArg List.reverse ht
    rw [List.reverse_reverse] at h2
    exact h2.symm

theorem all_isDigit_false_of_mem (t : Token) (c : Char) (hc : c ∈ t)
    (h : isAsciiDigit c = false) : t.all isAsciiDigit = false := by
  cases hall : t.all isAsciiDigit
  · rfl
  · exact absurd (List.all_eq_true.mp hall c hc) (ne_true_of_false h)

theorem findSeqIdx_none (pc : Char) (pr : Token) :
    ∀ (t : Token), pc ∉ t → findSeqIdx (pc :: pr) t = none
  | [], _ => rfl
  | c :: cs, h => by
      unfold findSeqIdx
      rw [if_neg (by
        intro hc
        unfold startsWithSeq at hc
        have h1 : pc = c := (of_decide_eq_true hc).1
        exact h (by rw [h1]; exact List.mem_cons_self _ _))]
      rw [findSeqIdx_none pc pr cs (fun hc => h (List.mem_cons_of_mem c hc))]
      rfl

theorem containsSeq_false (pc : Char) (pr : Token) (t : Token) (h : pc ∉ t) :
    containsSeq (pc :: pr) t = false := by
  unfold containsSeq
  rw [findSeqIdx_none pc pr t h]
  rfl

theorem contains_false_of_not_mem (t : Token) (c : Char) (h : c ∉ t) :
    t.contains c = false := by
  cases hc : t.contains c
  · rfl
  · exact absurd (List.elem_iff.mp hc) h

theorem contains_true_of_mem (t : Token) (c : Char) (h : c ∈ t) :
    t.contains c = true := List.elem_iff.mpr h

theorem findSeqIdx_boundary (pc : Char) (pr : Token) :
    ∀ (xs : Token), pc ∉ xs →
    findSeqIdx (pc :: pr) (xs ++ pc :: pr) = some xs.length
  | [], _ => by
      rw [List.nil_append]
      unfold findSeqIdx
      rw [if_pos (by
        have hx := startsWithSeq_self (pc :: pr) []
        rwa [List.append_nil] at hx)]
      rfl
  | x :: xs, h => by
      show findSeqIdx (pc :: pr) (x :: (xs ++ pc :: pr)) = some (xs.length + 1)
      unfold findSeqIdx
      rw [if_neg (by
        intro hc
        unfold startsWithSeq at hc
        have h1 : pc = x := (of_decide_eq_true hc).1
        exact h (by rw [h1]; exact List.mem_cons_self _ _))]
      rw [findSeqIdx_boundary pc pr xs (fun hc => h (List.mem_cons_of_mem x hc))]
      rfl

theorem trimEndCommas_not_mem (t : Token) (h : ',' ∉ t) : trimEndCommas t = t := by
  unfold trimEndCommas
  cases ht : t.reverse with
  | nil =>
    have h2 := congrArg List.reverse ht
    rw [List.reverse_reverse] at h2
    rw [h2]
    rfl
  | cons c cs =>
    have hcm : c ∈ t := by
      rw [← List.mem_reverse, ht]
      exact List.mem_cons_self _ _
    rw [List.dropWhile_cons]
    rw [if_neg (by
      intro hc
      exact h (by rw [← of_decide_eq_true hc]; exact hcm))]
    have h2 := congrArg List.reverse ht
    rw [List.reverse_reverse] at h2
    exact h2.symm

theorem digit_not_ws {c : Char} (h : isAsciiDigit c = true) : c.isWhitespace = false := by
  cases hw : c.isWhitespace
  · rfl
  · exfalso
    simp only [Char.isWhitespace, Bool.or_eq_true, decide_eq_true_eq] at hw
    rcases hw with ((hw | hw) | hw) | hw <;> (subst hw; revert h; decide)

theorem daysStartsSequence_false (t : Token) (htr : trim t = t) (hcm : ',' ∉ t)
    (hd : dayTryFrom t = none) : daysStartsSequence t = false := by
  unfold daysStartsSequence
  rw [htr, trimEndCommas_not_mem t hcm, hd]
  rfl

theorem timeRangeAccepts_false_nodash (t : Token) (htr : trim t = t)
    (hnd : '-' ∉ t) : timeRangeAccepts t = false := by
  simp only [timeRangeAccepts, timeRangeTryFromStr]
  rw [htr, splitOnce_none '-' t hnd]

theorem chronoParseYmd_prepend_nondigit (cy : Int) (hcy1 : 1 ≤ cy) (hcy2 : cy ≤ 9999)
    (x : Char) (xs : Token) (hx : isAsciiDigit x = false) :
    chronoParseYmd (renderInt cy ++ '-' :: x :: xs) = none := by
  have hri : renderInt cy = renderNat cy.toNat := by
    unfold renderInt
    rw [if_neg (by omega)]
  obtain ⟨ds, hmap, hne, hlt, hval, hlenb⟩ := renderNat_spec cy.toNat
  have hlen4 : ds.length ≤ 4 := hlenb 4 (by norm_num) (by omega)
  have hmap' : renderInt cy = ds.map (fun d => Char.ofNat (48 + d)) := by
    rw [hri, hmap]
  have htk : takeDigits 2 (x :: xs) = ([], x :: xs) := by
    unfold takeDigits
    rw [hx]
    simp
  unfold chronoParseYmd
  rw [hmap']
  rw [scanYear_digit _ (head_digit_of_map ds hne hlt _)]
  rw [takeDigits_stop 4 ds ('-' :: x :: xs) hlt hlen4 (by
    intro c hc
    rw [List.head?_cons] at hc
    injection hc with hc
    rw [← hc]
    decide)]
  rw [if_neg (by
    intro hcon
    rw [List.isEmpty_iff] at hcon
    exact hne hcon)]
  simp only [htk, List.isEmpty_nil, if_true]

theorem ccidTok_chars (k : Int) :
    ∀ c ∈ ('+' :: 'C' :: renderNat k.toNat),
      c.isWhitespace = false ∧ c ≠ ',' ∧ c ≠ '-' ∧ c ≠ '/' := by
  obtain ⟨ds, hmap, hne, hlt, hval, _⟩ := renderNat_spec k.toNat
  intro c hc
  rcases List.mem_cons.mp hc with hc | hc
  · rw [hc]
    exact ⟨rfl, by decide, by decide, by decide⟩
  · rcases List.mem_cons.mp hc with hc | hc
    · rw [hc]
      exact ⟨rfl, by decide, by decide, by decide⟩
    · rw [hmap] at hc
      obtain ⟨x, hx, hxc⟩ := List.mem_map.mp hc
      rw [← hxc]
      have hd := digitChar_isDigit (hlt x hx)
      exact ⟨digit_not_ws hd, digit_ne_char hd ',' (by decide),
        digit_ne_char hd '-' (by decide), digit_ne_char hd '/' (by decide)⟩

theorem cardColorIdAccepts_render (k : Int) :
    cardColorIdAccepts ('+' :: 'C' :: renderNat k.toNat) = true := by
  obtain ⟨ds, hmap, hne, hlt, hval, _⟩ := renderNat_spec k.toNat
  have hie : (renderNat k.toNat).isEmpty = false := by
    rw [hmap]
    cases ds
    · exact absurd rfl hne
    · rfl
  have hall : (renderNat k.toNat).all isAsciiDigit = true := by
    rw [hmap]
    exact List.all_eq_true.mpr (fun c hc => by
      obtain ⟨x, hx, hxc⟩ := List.mem_map.mp hc
      rw [← hxc]
      exact digitChar_isDigit (hlt x hx))
  unfold cardColorIdAccepts
  exact decide_eq_true ⟨ne_true_of_false hie, hall⟩

theorem parseOneArg_ccid (cy : Int) (hcy1 : 1 ≤ cy) (hcy2 : cy ≤ 9999)
    (k : Int) (h0 : 0 ≤ k) (h2 : k ≤ 2147483647) (rest : List Token) :
    parseOneArg cy ('+' :: 'C' :: renderNat k.toNat) rest =
      .ok (.cardColorId k, rest) := by
  have hch := ccidTok_chars k
  obtain ⟨hn1, hn2, hn3, hn4, hn5, hn6⟩ := plusHead_sixRejects ('C' :: renderNat k.toNat)
  have hint : intAccepts ('+' :: 'C' :: renderNat k.toNat) = false := by
    unfold intAccepts
    rw [List.all_cons]
    rw [show isAsciiDigit '+' = false from rfl]
    rfl
  have htrim : trim ('+' :: 'C' :: renderNat k.toNat) = '+' :: 'C' :: renderNat k.toNat :=
    trim_eq_self _ (fun c hc => (hch c hc).1)
  have hdays : daysStartsSequence ('+' :: 'C' :: renderNat k.toNat) = false :=
    daysStartsSequence_false _ htrim (fun hc => ((hch ',' hc).2.1) rfl)
      (dayTryFrom_none_head '+' _ ⟨by decide, by decide, by decide, by decide, by decide⟩)
  have htr : timeRangeAccepts ('+' :: 'C' :: renderNat k.toNat) = false :=
    timeRangeAccepts_false_nodash _ htrim (fun hc => ((hch '-' hc).2.2.1) rfl)
  have hdate : dateAccepts cy ('+' :: 'C' :: renderNat k.toNat) = false := by
    unfold dateAccepts
    have hdash : toDashSeparators ('+' :: 'C' :: renderNat k.toNat) =
        '+' :: 'C' :: renderNat k.toNat :=
      toDashSeparators_eq_self _ (fun c hc => (hch c hc).2.2.2)
    simp only [dateTryFromStr, hdash]
    rw [show chronoParseYmd ('+' :: 'C' :: renderNat k.toNat) = none from rfl]
    rw [show chronoParseMdy ('+' :: 'C' :: renderNat k.toNat) = none from rfl]
    rw [chronoParseYmd_prepend_nondigit cy hcy1 hcy2 '+' _ (by decide)]
  unfold parseOneArg
  rw [if_neg (ne_true_of_false hn1), if_neg (ne_true_of_false hn2),
    if_neg (ne_true_of_false hn3), if_neg (ne_true_of_false hn4),
    if_neg (ne_true_of_false hn5), if_neg (ne_true_of_false hn6),
    if_neg (ne_true_of_false hint), if_neg (ne_true_of_false hdays),
    if_neg (ne_true_of_false htr), if_neg (ne_true_of_false hdate),
    if_pos (cardColorIdAccepts_render k)]
  unfold cardColorIdNew
  rw [if_pos (cardColorIdAccepts_render k)]
  rw [show ('+' :: 'C' :: renderNat k.toNat).drop 2 = renderNat k.toNat from rfl]
  rw [parseI32_renderNat k.toNat (by omega)]
  rw [show ((k.toNat : Nat) : Int) = k from Int.toNat_of_nonneg h0]
  rfl

theorem digitChar_toNat {d : Nat} (h : d < 10) :
    (Char.ofNat (48 + d)).toNat = 48 + d := by
  interval_cases d <;> decide

theorem exists_cons3 {α : Type} (l : List α) (h : 3 ≤ l.length) :
    ∃ a b c r, l = a :: b :: c :: r := by
  cases l with
  | nil => simp at h
  | cons a l1 =>
    cases l1 with
    | nil => simp at h
    | cons b l2 =>
      cases l2 with
      | nil => simp at h
      | cons c l3 => exact ⟨a, b, c, l3, rfl⟩

theorem chronoParseTime_digits3 (d0 d1 d2 : Nat) (drest : List Nat) (suffix : Token)
    (h0 : d0 < 10) (h1 : d1 < 10) (h2 : d2 < 10) :
    chronoParseTime .hmMeridian
      ((d0 :: d1 :: d2 :: drest).map (fun d => Char.ofNat (48 + d)) ++ suffix) = none := by
  have hsplit : (d0 :: d1 :: d2 :: drest).map (fun d => Char.ofNat (48 + d)) ++ suffix =
      [d0, d1].map (fun d => Char.ofNat (48 + d)) ++
        (Char.ofNat (48 + d2) :: (drest.map (fun d => Char.ofNat (48 + d)) ++ suffix)) := rfl
  have htk : takeDigits 2
      ((d0 :: d1 :: d2 :: drest).map (fun d => Char.ofNat (48 + d)) ++ suffix) =
      ([d0, d1], Char.ofNat (48 + d2) ::
        (drest.map (fun d => Char.ofNat (48 + d)) ++ suffix)) := by
    rw [hsplit]
    rw [show (2 : Nat) = ([d0, d1] : List Nat).length from rfl]
    exact takeDigits_exact [d0, d1] _ (by
      intro x hx
      rcases List.mem_cons.mp hx with hx | hx
      · omega
      · rcases List.mem_cons.mp hx with hx | hx
        · omega
        · cases hx)
  simp only [chronoParseTime, htk]
  rw [if_neg (by simp)]
  by_cases hb : 1 ≤ digitsVal [d0, d1] ∧ digitsVal [d0, d1] ≤ 12
  · rw [if_pos hb]
    split
    · rename_i t' heq
      injection heq with hh _
      have hn := congrArg Char.toNat hh
      rw [digitChar_toNat h2] at hn
      rw [show (':').toNat = 58 from rfl] at hn
      omega
    · rfl
  · rw [if_neg hb]

theorem buildTimeParseSpec_digits (ds : List Nat) (hlt : ∀ d ∈ ds, d < 10)
    (hne : ds ≠ []) (fmt : TimeFormat) (b : Bool) :
    buildTimeParseSpec fmt (ds.map (fun d => Char.ofNat (48 + d))) b =
      (ds.map (fun d => Char.ofNat (48 + d)) ++
        ':' :: '0' :: '0' :: (if b then ['A', 'M'] else ['P', 'M']),
       match fmt with | .hm => .hm | _ => .hmMeridian) := by
  have hA : 'A' ∉ ds.map (fun d => Char.ofNat (48 + d)) := by
    intro hc
    obtain ⟨x, hx, hxc⟩ := List.mem_map.mp hc
    have := digitChar_isDigit (hlt x hx)
    rw [hxc] at this
    exact absurd this (by decide)
  have hP : 'P' ∉ ds.map (fun d => Char.ofNat (48 + d)) := by
    intro hc
    obtain ⟨x, hx, hxc⟩ := List.mem_map.mp hc
    have := digitChar_isDigit (hlt x hx)
    rw [hxc] at this
    exact absurd this (by decide)
  have hcolon : ∀ (M : Token), M = ['A', 'M'] ∨ M = ['P', 'M'] →
      (ds.map (fun d => Char.ofNat (48 + d)) ++ M).contains ':' = false := by
    intro M hM
    apply contains_false_of_not_mem
    intro hc
    rcases List.mem_append.mp hc with hc | hc
    · obtain ⟨x, hx, hxc⟩ := List.mem_map.mp hc
      have := digitChar_isDigit (hlt x hx)
      rw [hxc] at this
      exact absurd this (by decide)
    · rcases hM with hM | hM <;> (rw [hM] at hc; revert hc; decide)
  have htrim : trim (ds.map (fun d => Char.ofNat (48 + d))) =
      ds.map (fun d => Char.ofNat (48 + d)) :=
    trim_eq_self _ (fun c hc => by
      obtain ⟨x, hx, hxc⟩ := List.mem_map.mp hc
      rw [← hxc]
      exact digit_not_ws (digitChar_isDigit (hlt x hx)))
  have hup : (ds.map (fun d => Char.ofNat (48 + d))).map asciiUpper =
      ds.map (fun d => Char.ofNat (48 + d)) := by
    rw [List.map_map]
    exact List.map_congr_left (fun x hx => (digitChar_class (hlt x hx)).2.2.2.1)
  have hmer : tokenHasMeridian (ds.map (fun d => Char.ofNat (48 + d))) = false := by
    unfold tokenHasMeridian
    rw [show ("AM".data : Token) = 'A' :: ['M'] from rfl,
      show ("PM".data : Token) = 'P' :: ['M'] from rfl]
    rw [containsSeq_false 'A' ['M'] _ hA, containsSeq_false 'P' ['M'] _ hP]
    rfl
  have hlen : ∀ (M : Token), (ds.map (fun d => Char.ofNat (48 + d))).length = ds.length := by
    intro _
    exact List.length_map _ _
  simp only [buildTimeParseSpec]
  rw [htrim, hup, if_neg (ne_true_of_false hmer)]
  simp only [ensureMinutes]
  cases b with
  | true =>
    rw [show (if (true : Bool) then ("AM".data : Token) else "PM".data) = 'A' :: ['M']
      from rfl]
    rw [if_neg (ne_true_of_false (hcolon ('A' :: ['M']) (Or.inl rfl)))]
    have hfind : findSeqIdx "AM".data
        (ds.map (fun d => Char.ofNat (48 + d)) ++ 'A' :: ['M']) =
        some (ds.map (fun d => Char.ofNat (48 + d))).length := by
      rw [show ("AM".data : Token) = 'A' :: ['M'] from rfl]
      exact findSeqIdx_boundary 'A' ['M'] _ hA
    simp only [hfind]
    unfold insertSeqAt
    rw [List.take_left, List.drop_left, List.append_assoc]
    cases fmt <;> rfl
  | false =>
    rw [show (if (false : Bool) then ("AM".data : Token) else "PM".data) = 'P' :: ['M']
      from rfl]
    rw [if_neg (ne_true_of_false (hcolon ('P' :: ['M']) (Or.inr rfl)))]
    have hfA : findSeqIdx "AM".data
        (ds.map (fun d => Char.ofNat (48 + d)) ++ 'P' :: ['M']) = none := by
      rw [show ("AM".data : Token) = 'A' :: ['M'] from rfl]
      exact findSeqIdx_none 'A' ['M'] _ (by
        intro hc
        rcases List.mem_append.mp hc with hc | hc
        · exact hA hc
        · revert hc
          decide)
    have hfP : findSeqIdx "PM".data
        (ds.map (fun d => Char.ofNat (48 + d)) ++ 'P' :: ['M']) =
        some (ds.map (fun d => Char.ofNat (48 + d))).length := by
      rw [show ("PM".data : Token) = 'P' :: ['M'] from rfl]
      exact findSeqIdx_boundary 'P' ['M'] _ hP
    simp only [hfA, hfP]
    unfold insertSeqAt
    rw [List.take_left, List.drop_left, List.append_assoc]
    cases fmt <;> rfl

theorem parseTokenAsTime_digits (ds : List Nat) (h3 : 3 ≤ ds.length)
    (hlt : ∀ d ∈ ds, d < 10) (b : Bool) :
    ∃ e, parseTokenAsTime (ds.map (fun d => Char.ofNat (48 + d))) b = .error e := by
  have hne : ds ≠ [] := by
    intro hc
    rw [hc] at h3
    simp at h3
  obtain ⟨d0, d1, d2, drest, hds⟩ := exists_cons3 ds h3
  have h0 : d0 < 10 := hlt d0 (by rw [hds]; exact List.mem_cons_self _ _)
  have h1 : d1 < 10 := hlt d1 (by
    rw [hds]
    exact List.mem_cons_of_mem _ (List.mem_cons_self _ _))
  have h2 : d2 < 10 := hlt d2 (by
    rw [hds]
    exact List.mem_cons_of_mem _ (List.mem_cons_of_mem _ (List.mem_cons_self _ _)))
  have hb1 := buildTimeParseSpec_digits ds hlt hne .hmMeridian b
  have hb2 := buildTimeParseSpec_digits ds hlt hne .hMeridian b
  have hb3 := buildTimeParseSpec_digits ds hlt hne .hm b
  have hb4 := buildTimeParseSpec_digits ds hlt hne .h b
  have hct : chronoParseTime .hmMeridian (ds.map (fun d => Char.ofNat (48 + d)) ++
      ':' :: '0' :: '0' :: (if b then ['A', 'M'] else ['P', 'M'])) = none := by
    rw [hds]
    exact chronoParseTime_digits3 d0 d1 d2 drest _ h0 h1 h2
  have hhm : chronoParseTime .hm (ds.map (fun d => Char.ofNat (48 + d)) ++
      ':' :: '0' :: '0' :: (if b then ['A', 'M'] else ['P', 'M'])) = none := rfl
  simp only [parseTokenAsTime, hb1, hb2, hb3, hb4, hct, hhm]
  exact ⟨_, rfl⟩

theorem renderDate_class (d : Date) (h : DateWF d) :
    ∀ c ∈ renderDate d, isAsciiDigit c = true ∨ c = '-' := by
  obtain ⟨hy1, hy2, hm1, hm2, hd1, hd2⟩ := h
  have hday99 : d.day ≤ 99 :=
    le_trans hd2 (le_trans (daysInMonth_le_31 _ _) (by norm_num))
  obtain ⟨ys, hysmap, hyslen, hyslt, hysval⟩ := pad4n_spec d.year.toNat (by omega)
  obtain ⟨ms, hmsmap, hmslen, hmslt, hmsval⟩ := pad2_spec d.month (by omega)
  obtain ⟨dds, hddmap, hddlen, hddlt, hddval⟩ := pad2_spec d.day hday99
  intro c hc
  unfold renderDate at hc
  rw [renderYear_in_range d.year hy1 hy2, hysmap, hmsmap, hddmap] at hc
  simp only [List.cons_append, List.append_assoc] at hc
  rcases List.mem_append.mp hc with hc | hc
  · obtain ⟨x, hx, hxc⟩ := List.mem_map.mp hc
    rw [← hxc]
    exact Or.inl (digitChar_isDigit (hyslt x hx))
  · rcases List.mem_cons.mp hc with hc | hc
    · exact Or.inr hc
    · rcases List.mem_append.mp hc with hc | hc
      · obtain ⟨x, hx, hxc⟩ := List.mem_map.mp hc
        rw [← hxc]
        exact Or.inl (digitChar_isDigit (hmslt x hx))
      · rcases List.mem_cons.mp hc with hc | hc
        · exact Or.inr hc
        · obtain ⟨x, hx, hxc⟩ := List.mem_map.mp hc
          rw [← hxc]
          exact Or.inl (digitChar_isDigit (hddlt x hx))

theorem timeRangeAccepts_false_date (d : Date) (h : DateWF d) :
    timeRangeAccepts (renderDate d) = false := by
  have hcls := renderDate_class d h
  obtain ⟨hy1, hy2, hm1, hm2, hd1, hd2⟩ := h
  have hday99 : d.day ≤ 99 :=
    le_trans hd2 (le_trans (daysInMonth_le_31 _ _) (by norm_num))
  obtain ⟨ys, hysmap, hyslen, hyslt, hysval⟩ := pad4n_spec d.year.toNat (by omega)
  obtain ⟨ms, hmsmap, hmslen, hmslt, hmsval⟩ := pad2_spec d.month (by omega)
  obtain ⟨dds, hddmap, hddlen, hddlt, hddval⟩ := pad2_spec d.day hday99
  have hrd : renderDate d = ys.map (fun x => Char.ofNat (48 + x)) ++
      '-' :: (ms.map (fun x => Char.ofNat (48 + x)) ++
        '-' :: dds.map (fun x => Char.ofNat (48 + x))) := by
    unfold renderDate
    rw [renderYear_in_range d.year hy1 hy2, hysmap, hmsmap, hddmap]
    simp only [List.cons_append, List.append_assoc]
  have hws : ∀ c ∈ renderDate d, c.isWhitespace = false := by
    intro c hc
    rcases hcls c hc with hcc | hcc
    · exact digit_not_ws hcc
    · rw [hcc]
      rfl
  have hnd : ('-' : Char) ∉ ys.map (fun x => Char.ofNat (48 + x)) := by
    intro hc
    obtain ⟨x, hx, hxc⟩ := List.mem_map.mp hc
    exact digit_ne_char (digitChar_isDigit (hyslt x hx)) '-' (by decide) hxc
  have htrim2 : trim (ys.map (fun x => Char.ofNat (48 + x))) =
      ys.map (fun x => Char.ofNat (48 + x)) :=
    trim_eq_self _ (fun c hc => by
      obtain ⟨x, hx, hxc⟩ := List.mem_map.mp hc
      rw [← hxc]
      exact digit_not_ws (digitChar_isDigit (hyslt x hx)))
  obtain ⟨e, he⟩ := parseTokenAsTime_digits ys (by omega) hyslt true
  simp only [timeRangeAccepts, timeRangeTryFromStr]
  rw [trim_eq_self _ hws, hrd]
  rw [splitOnce_before _ _ hnd]
  simp only [htrim2, he]

theorem parseOneArg_date (cy : Int) (d : Date) (h : DateWF d) (rest : List Token) :
    parseOneArg cy (renderDate d) rest = .ok (.date d, rest) := by
  have hcls := renderDate_class d h
  have htrf := dateTryFromStr_render cy d h
  have htra := timeRangeAccepts_false_date d h
  obtain ⟨hy1, hy2, hm1, hm2, hd1, hd2⟩ := h
  have hday99 : d.day ≤ 99 :=
    le_trans hd2 (le_trans (daysInMonth_le_31 _ _) (by norm_num))
  obtain ⟨ys, hysmap, hyslen, hyslt, hysval⟩ := pad4n_spec d.year.toNat (by omega)
  obtain ⟨ms, hmsmap, hmslen, hmslt, hmsval⟩ := pad2_spec d.month (by omega)
  obtain ⟨dds, hddmap, hddlen, hddlt, hddval⟩ := pad2_spec d.day hday99
  have hrd : renderDate d = ys.map (fun x => Char.ofNat (48 + x)) ++
      '-' :: (ms.map (fun x => Char.ofNat (48 + x)) ++
        '-' :: dds.map (fun x => Char.ofNat (48 + x))) := by
    unfold renderDate
    rw [renderYear_in_range d.year hy1 hy2, hysmap, hmsmap, hddmap]
    simp only [List.cons_append, List.append_assoc]
  obtain ⟨y0, ytail, hystruct⟩ : ∃ y0 yt, ys = y0 :: yt := by
    cases ys with
    | nil => simp at hyslen
    | cons a t => exact ⟨a, t, rfl⟩
  have hy0 : y0 < 10 := hyslt y0 (by rw [hystruct]; exact List.mem_cons_self _ _)
  have hhead : renderDate d = Char.ofNat (48 + y0) ::
      (ytail.map (fun x => Char.ofNat (48 + x)) ++
        '-' :: (ms.map (fun x => Char.ofNat (48 + x)) ++
          '-' :: dds.map (fun x => Char.ofNat (48 + x)))) := by
    rw [hrd, hystruct]
    rfl
  have hdig : isAsciiDigit (Char.ofNat (48 + y0)) = true := digitChar_isDigit hy0
  obtain ⟨hn1, hn2, hn3, hn4, hn5, hn6⟩ := digitHead_sixRejects (Char.ofNat (48 + y0))
    (ytail.map (fun x => Char.ofNat (48 + x)) ++
      '-' :: (ms.map (fun x => Char.ofNat (48 + x)) ++
        '-' :: dds.map (fun x => Char.ofNat (48 + x)))) hdig
  have hdashmem : ('-' : Char) ∈ renderDate d := by
    rw [hrd]
    exact List.mem_append_right _ (List.mem_cons_self _ _)
  have hint : intAccepts (renderDate d) = false := by
    unfold intAccepts
    exact all_isDigit_false_of_mem _ '-' hdashmem (by decide)
  have htrimd : trim (renderDate d) = renderDate d :=
    trim_eq_self _ (fun c hc => by
      rcases hcls c hc with hcc | hcc
      · exact digit_not_ws hcc
      · rw [hcc]; rfl)
  have hdays : daysStartsSequence (renderDate d) = false := by
    apply daysStartsSequence_false _ htrimd
    · intro hc
      rcases hcls ',' hc with hcc | hcc
      · exact absurd hcc (by decide)
      · exact absurd hcc (by decide)
    · rw [hhead]
      exact dayTryFrom_none_head _ _
        ⟨digit_lower_ne hdig 'm' (by decide), digit_lower_ne hdig 't' (by decide),
         digit_lower_ne hdig 'w' (by decide), digit_lower_ne hdig 'f' (by decide),
         digit_lower_ne hdig 's' (by decide)⟩
  have hda : dateAccepts cy (renderDate d) = true := by
    unfold dateAccepts
    rw [htrf]
  rw [← hhead] at hn1 hn2 hn3 hn4 hn5 hn6
  unfold parseOneArg
  rw [if_neg (ne_true_of_false hn1), if_neg (ne_true_of_false hn2),
    if_neg (ne_true_of_false hn3), if_neg (ne_true_of_false hn4),
    if_neg (ne_true_of_false hn5), if_neg (ne_true_of_false hn6),
    if_neg (ne_true_of_false hint), if_neg (ne_true_of_false hdays),
    if_neg (ne_true_of_false htra), if_pos hda]
  unfold dateNew
  rw [htrf]
  rfl

theorem renderTime_class (sec : Int) (h : TimeWF sec) :
    ∀ c ∈ renderTime sec,
      isAsciiDigit c = true ∨ c = ':' ∨ c = 'A' ∨ c = 'P' ∨ c = 'M' := by
  obtain ⟨hs, msd, pm, hmap, hlt_h, hlt_m, _, _, _, _, _, _, _⟩ := renderTime_shape sec h
  intro c hc
  rw [hmap] at hc
  rcases List.mem_append.mp hc with hc | hc
  · obtain ⟨x, hx, hxc⟩ := List.mem_map.mp hc
    rw [← hxc]
    exact Or.inl (digitChar_isDigit (hlt_h x hx))
  · rcases List.mem_cons.mp hc with hc | hc
    · exact Or.inr (Or.inl hc)
    · rcases List.mem_append.mp hc with hc | hc
      · obtain ⟨x, hx, hxc⟩ := List.mem_map.mp hc
        rw [← hxc]
        exact Or.inl (digitChar_isDigit (hlt_m x hx))
      · cases pm
        · rcases List.mem_cons.mp hc with hc | hc
          · exact Or.inr (Or.inr (Or.inl hc))
          · rcases List.mem_cons.mp hc with hc | hc
            · exact Or.inr (Or.inr (Or.inr (Or.inr hc)))
            · cases hc
        · rcases List.mem_cons.mp hc with hc | hc
          · exact Or.inr (Or.inr (Or.inr (Or.inl hc)))
          · rcases List.mem_cons.mp hc with hc | hc
            · exact Or.inr (Or.inr (Or.inr (Or.inr hc)))
            · cases hc

theorem parseOneArg_timeRange (cy : Int) (tr : TimeRange) (h1 : TimeWF tr.start)
    (h2 : TimeWF tr.endTime) (hlt : tr.start < tr.endTime) (rest : List Token) :
    parseOneArg cy (renderTimeRange tr) rest = .ok (.timeRange tr, rest) := by
  have hch1 := renderTime_chars tr.start h1
  have hch2 := renderTime_chars tr.endTime h2
  have hcl1 := renderTime_class tr.start h1
  have hcl2 := renderTime_class tr.endTime h2
  have hrr : renderTimeRange tr =
      renderTime tr.start ++ '-' :: renderTime tr.endTime := rfl
  obtain ⟨hs, msd, pm, hmap, hlt_h, _, hne, _, _, _, _, _, _⟩ :=
    renderTime_shape tr.start h1
  obtain ⟨h0, htail, hhs⟩ : ∃ a t, hs = a :: t := by
    cases hs with
    | nil => exact absurd rfl hne
    | cons a t => exact ⟨a, t, rfl⟩
  have hh0 : h0 < 10 := hlt_h h0 (by rw [hhs]; exact List.mem_cons_self _ _)
  obtain ⟨r, hcr⟩ : ∃ r, renderTimeRange tr = Char.ofNat (48 + h0) :: r :=
    ⟨(htail.map (fun d => Char.ofNat (48 + d)) ++
        ':' :: (msd.map (fun d => Char.ofNat (48 + d)) ++
          (if pm then ['P', 'M'] else ['A', 'M']))) ++ '-' :: renderTime tr.endTime,
      by rw [hrr, hmap, hhs]; simp only [List.map_cons, List.cons_append]⟩
  have hdig : isAsciiDigit (Char.ofNat (48 + h0)) = true := digitChar_isDigit hh0
  obtain ⟨hn1, hn2, hn3, hn4, hn5, hn6⟩ :=
    digitHead_sixRejects (Char.ofNat (48 + h0)) r hdig
  rw [← hcr] at hn1 hn2 hn3 hn4 hn5 hn6
  have hint : intAccepts (renderTimeRange tr) = false := by
    unfold intAccepts
    refine all_isDigit_false_of_mem _ ':' ?_ (by decide)
    rw [hrr, hmap]
    exact List.mem_append_left _ (List.mem_append_right _ (List.mem_cons_self _ _))
  have hws : ∀ c ∈ renderTimeRange tr, c.isWhitespace = false := by
    intro c hc
    rw [hrr] at hc
    rcases List.mem_append.mp hc with hc | hc
    · exact (hch1 c hc).1
    · rcases List.mem_cons.mp hc with hc | hc
      · rw [hc]; rfl
      · exact (hch2 c hc).1
  have htrim : trim (renderTimeRange tr) = renderTimeRange tr := trim_eq_self _ hws
  have hnc : (',' : Char) ∉ renderTimeRange tr := by
    intro hc
    rw [hrr] at hc
    rcases List.mem_append.mp hc with hc | hc
    · rcases hcl1 ',' hc with hcc | hcc | hcc | hcc | hcc <;> revert hcc <;> decide
    · rcases List.mem_cons.mp hc with hc | hc
      · exact absurd hc (by decide)
      · rcases hcl2 ',' hc with hcc | hcc | hcc | hcc | hcc <;> revert hcc <;> decide
  have hdays : daysStartsSequence (renderTimeRange tr) = false := by
    apply daysStartsSequence_false _ htrim hnc
    rw [hcr]
    exact dayTryFrom_none_head _ _
      ⟨digit_lower_ne hdig 'm' (by decide), digit_lower_ne hdig 't' (by decide),
       digit_lower_ne hdig 'w' (by decide), digit_lower_ne hdig 'f' (by decide),
       digit_lower_ne hdig 's' (by decide)⟩
  have hta : timeRangeAccepts (renderTimeRange tr) = true := by
    unfold timeRangeAccepts
    rw [timeRangeTryFromStr_render tr h1 h2 hlt]
  unfold parseOneArg
  rw [if_neg (ne_true_of_false hn1), if_neg (ne_true_of_false hn2),
    if_neg (ne_true_of_false hn3), if_neg (ne_true_of_false hn4),
    if_neg (ne_true_of_false hn5), if_neg (ne_true_of_false hn6),
    if_neg (ne_true_of_false hint), if_neg (ne_true_of_false hdays),
    if_pos hta]
  unfold timeRangeNew
  rw [timeRangeTryFromStr_render tr h1 h2 hlt]
  rfl

theorem splitChar_ne_nil (sep : Char) : ∀ t, splitChar sep t ≠ []
  | [] => by simp [splitChar]
  | c :: cs => by
    unfold splitChar
    split
    · simp
    · cases h : splitChar sep cs <;> simp

theorem splitChar_no_sep (sep : Char) : ∀ t, sep ∉ t → splitChar sep t = [t]
  | [], _ => rfl
  | c :: cs, h => by
    have hc : ¬ c = sep := fun hc => h (by rw [← hc]; exact List.mem_cons_self _ _)
    have ih := splitChar_no_sep sep cs (fun hm => h (List.mem_cons_of_mem _ hm))
    unfold splitChar
    rw [if_neg hc]
    simp only [ih]

theorem splitChar_before (sep : Char) : ∀ (x y : Token), sep ∉ x →
    splitChar sep (x ++ sep :: y) = x :: splitChar sep y
  | [], y, _ => by
    show splitChar sep (sep :: y) = [] :: splitChar sep y
    simp only [splitChar]
    rw [if_pos trivial]
  | c :: xs, y, h => by
    have hc : ¬ c = sep := fun hc => h (by rw [← hc]; exact List.mem_cons_self _ _)
    have ih := splitChar_before sep xs y (fun hm => h (List.mem_cons_of_mem _ hm))
    show splitChar sep (c :: (xs ++ sep :: y)) = (c :: xs) :: splitChar sep y
    simp only [splitChar]
    rw [if_neg hc, ih]

theorem splitChar_append_sep (sep : Char) :
    ∀ (x : Token), splitChar sep (x ++ [sep]) = splitChar sep x ++ [[]]
  | [] => by
    show splitChar sep [sep] = [[]] ++ [[]]
    simp only [splitChar]
    rw [if_pos trivial]
    rfl
  | c :: xs => by
    by_cases hc : c = sep
    · subst hc
      show splitChar c (c :: (xs ++ [c])) = splitChar c (c :: xs) ++ [[]]
      simp only [splitChar]
      rw [if_pos trivial, if_pos trivial, splitChar_append_sep c xs]
      rfl
    · obtain ⟨s, ss, hss⟩ : ∃ s ss, splitChar sep xs = s :: ss := by
        cases hX : splitChar sep xs with
        | nil => exact absurd hX (splitChar_ne_nil sep xs)
        | cons a t => exact ⟨a, t, rfl⟩
      have ih := splitChar_append_sep sep xs
      show splitChar sep (c :: (xs ++ [sep])) = splitChar sep (c :: xs) ++ [[]]
      simp only [splitChar]
      rw [if_neg hc, if_neg hc, ih, hss]
      rfl

theorem splitWsGo_append : ∀ (w : Token), (∀ c ∈ w, c.isWhitespace = false) →
    ∀ (cur y : Token), splitWsGo cur (w ++ y) = splitWsGo (w.reverse ++ cur) y
  | [], _, cur, y => rfl
  | c :: w', hw, cur, y => by
    have hc : c.isWhitespace = false := hw c (List.mem_cons_self _ _)
    have ih := splitWsGo_append w' (fun x hx => hw x (List.mem_cons_of_mem _ hx)) (c :: cur) y
    show splitWsGo cur (c :: (w' ++ y)) = _
    simp only [splitWsGo]
    rw [if_neg (ne_true_of_false hc), ih]
    have hrv : w'.reverse ++ (c :: cur) = (c :: w').reverse ++ cur := by simp
    rw [hrv]

theorem splitWs_single (w : Token) (hw : ∀ c ∈ w, c.isWhitespace = false)
    (hne : w ≠ []) : splitWs w = [w] := by
  have h := splitWsGo_append w hw [] []
  simp only [List.append_nil] at h
  unfold splitWs
  rw [h]
  have hemp : (w.reverse).isEmpty = false := by
    cases hX : w.reverse with
    | nil => exact absurd (List.reverse_eq_nil_iff.mp hX) hne
    | cons a t => rfl
  show (if (w.reverse).isEmpty then [] else [w.reverse.reverse]) = [w]
  rw [if_neg (ne_true_of_false hemp), List.reverse_reverse]

theorem splitWs_word (w : Token) (hw : ∀ c ∈ w, c.isWhitespace = false)
    (hne : w ≠ []) (y : Token) : splitWs (w ++ ' ' :: y) = w :: splitWs y := by
  unfold splitWs
  rw [splitWsGo_append w hw [] (' ' :: y), List.append_nil]
  have hemp : (w.reverse).isEmpty = false := by
    cases hX : w.reverse with
    | nil => exact absurd (List.reverse_eq_nil_iff.mp hX) hne
    | cons a t => rfl
  show splitWsGo w.reverse (' ' :: y) = _
  simp only [splitWsGo]
  rw [if_pos (show (' ').isWhitespace = true from rfl),
    if_neg (ne_true_of_false hemp), List.reverse_reverse]
  rfl

theorem renderDaysSeq_append : ∀ (xs ys : List DayOfWeek), xs ≠ [] → ys ≠ [] →
    renderDaysSeq (xs ++ ys) = renderDaysSeq xs ++ ',' :: ' ' :: renderDaysSeq ys
  | [], _, h, _ => absurd rfl h
  | [_], [], _, h => absurd rfl h
  | [x], y :: ys', _, _ => rfl
  | x :: x2 :: xs', ys, _, hys => by
    have ih := renderDaysSeq_append (x2 :: xs') ys (by simp) hys
    show dayStr x ++ ',' :: ' ' :: renderDaysSeq ((x2 :: xs') ++ ys) = _
    rw [ih]
    show _ = (dayStr x ++ ',' :: ' ' :: renderDaysSeq (x2 :: xs')) ++
      ',' :: ' ' :: renderDaysSeq ys
    simp [List.append_assoc]

theorem daysSegsAux : ∀ (ds : List DayOfWeek), ds ≠ [] →
    ∀ (pre : Token), pre = [] ∨ pre = [' '] →
    (splitChar ',' (pre ++ renderDaysSeq ds)).mapM
        (fun seg => dayTryFrom (trim seg)) = some ds ∧
    ∀ seg ∈ splitChar ',' (pre ++ renderDaysSeq ds),
      (trim seg).isEmpty = false ∧ (dayTryFrom (trim seg)).isSome = true
  | [], h, _, _ => absurd rfl h
  | [d], _, pre, hpre => by
    rcases hpre with h | h <;> subst h <;> cases d <;> exact ⟨rfl, by decide⟩
  | d :: d2 :: rest, _, pre, hpre => by
    have hcomma : ',' ∉ pre ++ dayStr d := by
      rcases hpre with h | h <;> subst h <;> cases d <;> decide
    have hshape : pre ++ renderDaysSeq (d :: d2 :: rest) =
        (pre ++ dayStr d) ++ ',' :: (' ' :: renderDaysSeq (d2 :: rest)) := by
      show pre ++ (dayStr d ++ ',' :: ' ' :: renderDaysSeq (d2 :: rest)) = _
      rw [← List.append_assoc]
    have hd1 : dayTryFrom (trim (pre ++ dayStr d)) = some d := by
      rcases hpre with h | h <;> subst h <;> cases d <;> rfl
    have hd2 : (trim (pre ++ dayStr d)).isEmpty = false := by
      rcases hpre with h | h <;> subst h <;> cases d <;> rfl
    obtain ⟨ih1, ih2⟩ := daysSegsAux (d2 :: rest) (by simp) [' '] (Or.inr rfl)
    simp only [List.singleton_append] at ih1 ih2
    rw [hshape, splitChar_before ',' (pre ++ dayStr d) (' ' :: renderDaysSeq (d2 :: rest))
      hcomma]
    constructor
    · rw [List.mapM_cons, hd1, ih1]
      rfl
    · intro seg hseg
      rcases List.mem_cons.mp hseg with h | h
      · subst h
        exact ⟨hd2, by rw [hd1]; rfl⟩
      · exact ih2 seg h

theorem daysAccepts_render (ds : List DayOfWeek) (hne : ds ≠ []) :
    daysAccepts (renderDaysSeq ds) = true := by
  obtain ⟨h1, h2⟩ := daysSegsAux ds hne [] (Or.inl rfl)
  simp only [List.nil_append] at h1 h2
  simp only [daysAccepts, decide_eq_true_eq]
  refine ⟨?_, ?_⟩
  · cases hX : splitChar ',' (renderDaysSeq ds) with
    | nil => exact absurd hX (splitChar_ne_nil ',' _)
    | cons a t => simp
  · refine List.all_eq_true.mpr fun seg hseg => ?_
    rw [decide_eq_true_eq]
    obtain ⟨ha, hb⟩ := h2 seg hseg
    exact ⟨by rw [ha]; decide, hb⟩

theorem daysNew_render (ds : List DayOfWeek) (hne : ds ≠ []) :
    daysNew (renderDaysSeq ds) = .ok (.daysOfWeek ds) := by
  obtain ⟨h1, _⟩ := daysSegsAux ds hne [] (Or.inl rfl)
  simp only [List.nil_append] at h1
  unfold daysNew
  rw [if_pos (daysAccepts_render ds hne)]
  simp only [h1]

theorem daysAccepts_trailing_comma (x : Token) : daysAccepts (x ++ [',']) = false := by
  have hsegs := splitChar_append_sep ',' x
  simp only [daysAccepts, hsegs]
  rw [decide_eq_false]
  rintro ⟨-, hall⟩
  have h := List.all_eq_true.mp hall [] (List.mem_append_right _ (List.mem_cons_self _ _))
  revert h
  decide

theorem multiTokenParse_step (accepts : Token → Bool) (mk : Token → Except Error Arg)
    (joined t : Token) (ts : List Token) (h : accepts joined = false) :
    multiTokenParse accepts mk joined (t :: ts) =
      multiTokenParse accepts mk (joined ++ ' ' :: t) ts := by
  simp only [multiTokenParse]
  rw [if_neg (ne_true_of_false h)]

theorem multiTokenParse_days : ∀ (rest done : List DayOfWeek) (more : List Token),
    done ≠ [] → rest ≠ [] →
    multiTokenParse daysAccepts daysNew (renderDaysSeq done ++ [','])
      (splitWs (renderDaysSeq rest) ++ more) = .ok (.daysOfWeek (done ++ rest), more)
  | [], _, _, _, h => absurd rfl h
  | [d], done, more, hdone, _ => by
    have hsw : splitWs (renderDaysSeq [d]) = [dayStr d] := by cases d <;> rfl
    rw [hsw, List.singleton_append,
      multiTokenParse_step _ _ _ _ _ (daysAccepts_trailing_comma _)]
    have hjoin : (renderDaysSeq done ++ [',']) ++ ' ' :: dayStr d =
        renderDaysSeq (done ++ [d]) := by
      rw [renderDaysSeq_append done [d] hdone (by simp), List.append_assoc]
      rfl
    rw [hjoin]
    have hne2 : done ++ [d] ≠ [] := by simp
    cases more with
    | nil =>
      show (daysNew (renderDaysSeq (done ++ [d]))).map (fun a => (a, [])) = _
      rw [daysNew_render _ hne2]
      rfl
    | cons m ms =>
      rw [multiTokenParse_accepts _ _ _ _ (daysAccepts_render _ hne2),
        daysNew_render _ hne2]
      rfl
  | d :: d2 :: rest', done, more, hdone, _ => by
    have hsw : splitWs (renderDaysSeq (d :: d2 :: rest')) =
        (dayStr d ++ [',']) :: splitWs (renderDaysSeq (d2 :: rest')) := by
      have hr : renderDaysSeq (d :: d2 :: rest') =
          (dayStr d ++ [',']) ++ ' ' :: renderDaysSeq (d2 :: rest') := by
        show dayStr d ++ ',' :: ' ' :: renderDaysSeq (d2 :: rest') = _
        rw [List.append_assoc]
        rfl
      rw [hr]
      exact splitWs_word _ (by cases d <;> decide) (by cases d <;> simp) _
    rw [hsw, List.cons_append,
      multiTokenParse_step _ _ _ _ _ (daysAccepts_trailing_comma _)]
    have hjoin : (renderDaysSeq done ++ [',']) ++ ' ' :: (dayStr d ++ [',']) =
        renderDaysSeq (done ++ [d]) ++ [','] := by
      rw [renderDaysSeq_append done [d] hdone (by simp), List.append_assoc,
        List.append_assoc]
      rfl
    rw [hjoin,
      multiTokenParse_days (d2 :: rest') (done ++ [d]) more (by simp) (by simp),
      List.append_assoc]
    rfl

theorem toTokens_days_single (d : DayOfWeek) :
    Arg.toTokens (.daysOfWeek [d]) = [dayStr d] := by
  cases d <;> rfl

theorem toTokens_days_multi (d : DayOfWeek) (rest : List DayOfWeek) (hne : rest ≠ []) :
    Arg.toTokens (.daysOfWeek (d :: rest)) =
      (dayStr d ++ [',']) :: splitWs (renderDaysSeq rest) := by
  obtain ⟨r1, rrest, hr⟩ : ∃ r1 rrest, rest = r1 :: rrest := by
    cases rest with
    | nil => exact absurd rfl hne
    | cons a t => exact ⟨a, t, rfl⟩
  subst hr
  have hrend : renderDaysSeq (d :: r1 :: rrest) =
      (dayStr d ++ [',']) ++ ' ' :: renderDaysSeq (r1 :: rrest) := by
    show dayStr d ++ ',' :: ' ' :: renderDaysSeq (r1 :: rrest) = _
    rw [List.append_assoc]
    rfl
  have hany : (renderDaysSeq (d :: r1 :: rrest)).any Char.isWhitespace = true := by
    refine List.any_eq_true.mpr ⟨' ', ?_, rfl⟩
    rw [hrend]
    exact List.mem_append_right _ (List.mem_cons_self _ _)
  obtain ⟨c0, rtl, hcr, hc5⟩ : ∃ c0 rtl, renderDaysSeq (d :: r1 :: rrest) = c0 :: rtl ∧
      (c0 = 'M' ∨ c0 = 'T' ∨ c0 = 'W' ∨ c0 = 'F' ∨ c0 = 'S') := by
    cases d <;> exact ⟨_, _, rfl, by decide⟩
  have hq1 : (renderDaysSeq (d :: r1 :: rrest)).head? ≠ some '"' := by
    rw [hcr]
    intro hcon
    rcases hc5 with h | h | h | h | h <;> subst h <;> simp at hcon
  have hq2 : (renderDaysSeq (d :: r1 :: rrest)).head? ≠ some '\'' := by
    rw [hcr]
    intro hcon
    rcases hc5 with h | h | h | h | h <;> subst h <;> simp at hcon
  simp only [Arg.toTokens, renderArg]
  rw [if_pos ⟨hany, hq1, hq2⟩, hrend]
  exact splitWs_word _ (by cases d <;> decide) (by cases d <;> simp) _

theorem parseOneArg_days_single (cy : Int) (d : DayOfWeek) (more : List Token) :
    parseOneArg cy (dayStr d) more = .ok (.daysOfWeek [d], more) := by
  cases d <;> cases more <;> rfl

theorem parseOneArg_days_multi (cy : Int) (d : DayOfWeek) (rest : List DayOfWeek)
    (hne : rest ≠ []) (more : List Token) :
    parseOneArg cy (dayStr d ++ [',']) (splitWs (renderDaysSeq rest) ++ more) =
      .ok (.daysOfWeek (d :: rest), more) := by
  have hstep : ∀ s, parseOneArg cy (dayStr d ++ [',']) s =
      multiTokenParse daysAccepts daysNew (dayStr d ++ [',']) s := by
    intro s
    cases d <;> rfl
  rw [hstep, show dayStr d ++ [','] = renderDaysSeq [d] ++ [','] from rfl,
    multiTokenParse_days rest [d] more (by simp) hne]
  rfl

theorem parseOneArg_daysArg (cy : Int) (ds : List DayOfWeek) (hne : ds ≠ [])
    (more : List Token) :
    ∃ t0 ts, Arg.toTokens (.daysOfWeek ds) = t0 :: ts ∧
      parseOneArg cy t0 (ts ++ more) = .ok (.daysOfWeek ds, more) := by
  cases ds with
  | nil => exact absurd rfl hne
  | cons d rest =>
    cases rest with
    | nil =>
      refine ⟨dayStr d, [], toTokens_days_single d, ?_⟩
      rw [List.nil_append]
      exact parseOneArg_days_single cy d more
    | cons r1 rrest =>
      exact ⟨dayStr d ++ [','], splitWs (renderDaysSeq (r1 :: rrest)),
        toTokens_days_multi d (r1 :: rrest) (by simp),
        parseOneArg_days_multi cy d (r1 :: rrest) (by simp) more⟩

theorem argParserGo_emitted (cy : Int) : ∀ (args : List Arg) (fuel : Nat),
    (∀ a ∈ args, ∀ more : List Token, ∃ t0 ts, Arg.toTokens a = t0 :: ts ∧
      parseOneArg cy t0 (ts ++ more) = .ok (a, more)) →
    (argsToTokens args).length ≤ fuel →
    argParserGo cy fuel (argsToTokens args) = .ok args
  | [], fuel, _, _ => by
    show argParserGo cy fuel [] = .ok []
    cases fuel <;> rfl
  | a :: rest, fuel, h, hlen => by
    obtain ⟨t0, ts, htok, hparse⟩ := h a (List.mem_cons_self _ _) (argsToTokens rest)
    have hflat : argsToTokens (a :: rest) = t0 :: (ts ++ argsToTokens rest) := by
      show Arg.toTokens a ++ argsToTokens rest = _
      rw [htok, List.cons_append]
    have hlen2 : (argsToTokens (a :: rest)).length =
        ts.length + (argsToTokens rest).length + 1 := by
      rw [hflat]
      simp [List.length_cons, List.length_append]
    obtain ⟨f, hf⟩ : ∃ f, fuel = f + 1 := by
      cases fuel with
      | zero =>
        exfalso
        rw [hlen2] at hlen
        omega
      | succ f => exact ⟨f, rfl⟩
    subst hf
    have hih := argParserGo_emitted cy rest f
      (fun x hx => h x (List.mem_cons_of_mem _ hx))
      (by rw [hlen2] at hlen; omega)
    rw [hflat]
    simp only [argParserGo, hparse, hih]

theorem argParserParse_emitted (cy : Int) (args : List Arg)
    (h : ∀ a ∈ args, ∀ more : List Token, ∃ t0 ts, Arg.toTokens a = t0 :: ts ∧
      parseOneArg cy t0 (ts ++ more) = .ok (a, more)) :
    argParserParse cy (argsToTokens args) = .ok args :=
  argParserGo_emitted cy args _ h le_rfl

theorem parseStep_name (cy : Int) (n : String) (hn : n.data ≠ []) (more : List Token) :
    ∃ t0 ts, Arg.toTokens (.name n) = t0 :: ts ∧
      parseOneArg cy t0 (ts ++ more) = .ok (.name n, more) :=
  ⟨'"' :: (n.data ++ ['"']), [], toTokens_name n, parseOneArg_name cy n hn more⟩

theorem parseStep_at (cy : Int) (more : List Token) :
    ∃ t0 ts, Arg.toTokens .atSymbol = t0 :: ts ∧
      parseOneArg cy t0 (ts ++ more) = .ok (.atSymbol, more) :=
  ⟨"@".data, [], rfl, parseOneArg_at cy more⟩

theorem parseStep_bool (cy : Int) (b : Bool) (more : List Token) :
    ∃ t0 ts, Arg.toTokens (.bool b) = t0 :: ts ∧
      parseOneArg cy t0 (ts ++ more) = .ok (.bool b, more) :=
  ⟨renderArg (.bool b), [], by cases b <;> rfl, parseOneArg_bool cy b more⟩

theorem parseStep_color (cy : Int) (col : CardColor) (more : List Token) :
    ∃ t0 ts, Arg.toTokens (.cardColor col) = t0 :: ts ∧
      parseOneArg cy t0 (ts ++ more) = .ok (.cardColor col, more) :=
  ⟨colorStr col, [], by cases col <;> rfl, parseOneArg_color cy col more⟩

theorem parseStep_int (cy : Int) (k : Int) (h0 : 0 ≤ k) (h2 : k ≤ 2147483647)
    (more : List Token) :
    ∃ t0 ts, Arg.toTokens (.int k) = t0 :: ts ∧
      parseOneArg cy t0 (ts ++ more) = .ok (.int k, more) := by
  have hri : renderInt k = renderNat k.toNat := by
    unfold renderInt
    rw [if_neg (by omega)]
  obtain ⟨ds, hmap, hne, hlt, _, _⟩ := renderNat_spec k.toNat
  have hany : (renderArg (.int k)).any Char.isWhitespace = false := by
    rw [List.any_eq_false]
    intro c hc
    rw [show renderArg (.int k) = renderInt k from rfl, hri, hmap] at hc
    obtain ⟨x, hx, hxc⟩ := List.mem_map.mp hc
    rw [← hxc]
    rw [digit_not_ws (digitChar_isDigit (hlt x hx))]
    exact Bool.false_ne_true
  exact ⟨renderInt k, [], toTokens_single _ hany, parseOneArg_renderInt cy k h0 h2 more⟩

theorem parseStep_ccid (cy : Int) (hcy1 : 1 ≤ cy) (hcy2 : cy ≤ 9999)
    (k : Int) (h0 : 0 ≤ k) (h2 : k ≤ 2147483647) (more : List Token) :
    ∃ t0 ts, Arg.toTokens (.cardColorId k) = t0 :: ts ∧
      parseOneArg cy t0 (ts ++ more) = .ok (.cardColorId k, more) := by
  have hri : renderInt k = renderNat k.toNat := by
    unfold renderInt
    rw [if_neg (by omega)]
  have hr : renderArg (.cardColorId k) = '+' :: 'C' :: renderNat k.toNat := by
    show "+C".data ++ renderInt k = _
    rw [hri]
    rfl
  have hany : (renderArg (.cardColorId k)).any Char.isWhitespace = false := by
    rw [List.any_eq_false]
    intro c hc
    rw [hr] at hc
    rw [(ccidTok_chars k c hc).1]
    exact Bool.false_ne_true
  refine ⟨'+' :: 'C' :: renderNat k.toNat, [], ?_, parseOneArg_ccid cy hcy1 hcy2 k h0 h2 more⟩
  rw [toTokens_single _ hany, hr]

theorem parseStep_date (cy : Int) (d : Date) (h : DateWF d) (more : List Token) :
    ∃ t0 ts, Arg.toTokens (.date d) = t0 :: ts ∧
      parseOneArg cy t0 (ts ++ more) = .ok (.date d, more) := by
  have hany : (renderArg (.date d)).any Char.isWhitespace = false := by
    rw [List.any_eq_false]
    intro c hc
    rw [show renderArg (.date d) = renderDate d from rfl] at hc
    rcases renderDate_class d h c hc with hcc | hcc
    · rw [digit_not_ws hcc]
      exact Bool.false_ne_true
    · rw [hcc]
      exact Bool.false_ne_true
  exact ⟨renderDate d, [], toTokens_single _ hany, parseOneArg_date cy d h more⟩

theorem parseStep_timeRange (cy : Int) (tr : TimeRange) (h1 : TimeWF tr.start)
    (h2 : TimeWF tr.endTime) (hlt : tr.start < tr.endTime) (more : List Token) :
    ∃ t0 ts, Arg.toTokens (.timeRange tr) = t0 :: ts ∧
      parseOneArg cy t0 (ts ++ more) = .ok (.timeRange tr, more) := by
  have hany : (renderArg (.timeRange tr)).any Char.isWhitespace = false := by
    rw [List.any_eq_false]
    intro c hc
    rw [show renderArg (.timeRange tr) = renderTimeRange tr from rfl,
      show renderTimeRange tr = renderTime tr.start ++ '-' :: renderTime tr.endTime
        from rfl] at hc
    have hw : c.isWhitespace = false := by
      rcases List.mem_append.mp hc with hc | hc
      · exact (renderTime_chars tr.start h1 c hc).1
      · rcases List.mem_cons.mp hc with hc | hc
        · rw [hc]; rfl
        · exact (renderTime_chars tr.endTime h2 c hc).1
    rw [hw]
    exact Bool.false_ne_true
  exact ⟨renderTimeRange tr, [], toTokens_single _ hany,
    parseOneArg_timeRange cy tr h1 h2 hlt more⟩

theorem strData_ne_nil {s : String} (h : s ≠ "") : s.data ≠ [] := by
  intro hd
  apply h
  cases s with
  | mk d =>
    simp only [String.data] at hd
    rw [hd]

theorem i32SatOfRat_int (q : ℚ) (hden : q.den = 1) (h1 : 1 ≤ q) (h2 : q ≤ 2147483647) :
    i32SatOfRat q = q.num ∧ 1 ≤ q.num ∧ q.num ≤ 2147483647 := by
  have hq : (q.num : ℚ) = q := by
    have hdd := Rat.num_div_den q
    rw [hden] at hdd
    simpa using hdd
  have h1' : 1 ≤ q.num := by
    have hc : (1 : ℚ) ≤ (q.num : ℚ) := by rw [hq]; exact h1
    exact_mod_cast hc
  have h2' : q.num ≤ 2147483647 := by
    have hc : (q.num : ℚ) ≤ 2147483647 := by rw [hq]; exact h2
    exact_mod_cast hc
  have hrr : ratRound q = q.num := by
    conv_lhs => rw [← hq]
    exact ratRound_intCast q.num
  refine ⟨?_, h1', h2'⟩
  unfold i32SatOfRat
  rw [hrr, min_eq_right h2', max_eq_right (by omega)]

theorem mem_enumFrom_bounds {α : Type} : ∀ (l : List α) (n : Nat) (p : Nat × α),
    p ∈ List.enumFrom n l → n ≤ p.1 ∧ p.1 < n + l.length
  | [], _, _, h => absurd h (List.not_mem_nil _)
  | a :: l, n, p, h => by
    rcases List.mem_cons.mp h with h | h
    · subst h
      simp
    · have hb := mem_enumFrom_bounds l (n + 1) p h
      simp only [List.length_cons]
      omega

theorem mapGet_mem {α : Type} (l : List (Int × α)) (k : Int) (v : α)
    (h : mapGet l k = some v) : (k, v) ∈ l := by
  unfold mapGet at h
  cases hf : l.find? (fun p => p.1 = k) with
  | none =>
    rw [hf] at h
    exact Option.noConfusion h
  | some p =>
    rw [hf] at h
    have hpv : p.2 = v := Option.some.inj h
    have hpk : p.1 = k := by
      have hfs := List.find?_some hf
      simpa using hfs
    have hmem := List.mem_of_find?_eq_some hf
    rw [← hpv, ← hpk]
    exact hmem

theorem lookup_val_bounds (cards : List Card) (hlen : cards.length ≤ 2147483646)
    (cid m : Int) (hm : mapGet (serializeCardsForSave cards).2 cid = some m) :
    1 ≤ m ∧ m ≤ 2147483647 := by
  have hmem := mapGet_mem _ _ _ hm
  rw [show (serializeCardsForSave cards).2 =
      cards.enum.map (fun p => (p.2.id, (p.1 : Int) + 1)) from rfl] at hmem
  obtain ⟨p, hp, hpe⟩ := List.mem_map.mp hmem
  obtain ⟨h1, h2⟩ := mem_enumFrom_bounds cards 0 p hp
  have hm2 : ((p.1 : Int) + 1) = m := congrArg Prod.snd hpe
  omega

theorem cardRow_parse (cy : Int) (c : Card) (h : CardSaveWF c) :
    argParserParse cy (argsToTokens (cardEmitArgs c)) = .ok (cardEmitArgs c) := by
  apply argParserParse_emitted
  intro a ha more
  rcases List.mem_cons.mp ha with rfl | ha
  · exact parseStep_name cy c.name (strData_ne_nil h) more
  rcases List.mem_cons.mp ha with rfl | ha
  · exact parseStep_color cy c.color more
  exact absurd ha (List.not_mem_nil a)

theorem taskRow_parse (cy : Int) (hcy1 : 1 ≤ cy) (hcy2 : cy ≤ 9999)
    (cards : List (Int × Card)) (cfg : Config) (t : Task)
    (h : TaskSaveWF cards cfg t) (lookup : List (Int × Int))
    (hlk : ∀ cid m, mapGet lookup cid = some m → 1 ≤ m ∧ m ≤ 2147483647)
    (args : List Arg) (hargs : taskEmitArgs lookup t = .ok args) :
    argParserParse cy (argsToTokens args) = .ok args := by
  obtain ⟨hname, hden, hh1, hh2, hdate, -, -⟩ := h
  obtain ⟨hsat, hsat1, hsat2⟩ := i32SatOfRat_int t.hours hden hh1 hh2
  unfold taskEmitArgs at hargs
  apply argParserParse_emitted
  intro a ha more
  split at hargs
  · rename_i cid heq
    split at hargs
    · rename_i m hmg
      injection hargs with hargs
      subst hargs
      obtain ⟨hm1, hm2⟩ := hlk cid m hmg
      rcases List.mem_cons.mp ha with rfl | ha
      · exact parseStep_name cy t.name (strData_ne_nil hname) more
      rcases List.mem_cons.mp ha with rfl | ha
      · exact parseStep_int cy _ (by omega) (by omega) more
      rcases List.mem_cons.mp ha with rfl | ha
      · exact parseStep_ccid cy hcy1 hcy2 m (by omega) hm2 more
      rcases List.mem_cons.mp ha with rfl | ha
      · exact parseStep_at cy more
      rcases List.mem_cons.mp ha with rfl | ha
      · exact parseStep_date cy t.date hdate more
      exact absurd ha (List.not_mem_nil a)
    · exact Except.noConfusion hargs
  · rename_i heq
    injection hargs with hargs
    subst hargs
    rcases List.mem_cons.mp ha with rfl | ha
    · exact parseStep_name cy t.name (strData_ne_nil hname) more
    rcases List.mem_cons.mp ha with rfl | ha
    · exact parseStep_int cy _ (by omega) (by omega) more
    rcases List.mem_cons.mp ha with rfl | ha
    · exact parseStep_at cy more
    rcases List.mem_cons.mp ha with rfl | ha
    · exact parseStep_date cy t.date hdate more
    exact absurd ha (List.not_mem_nil a)

theorem eventRow_parse (cy : Int) (hcy1 : 1 ≤ cy) (hcy2 : cy ≤ 9999)
    (cards : List (Int × Card)) (cfg : Config) (e : Event)
    (h : EventSaveWF cards cfg e) (lookup : List (Int × Int))
    (hlk : ∀ cid m, mapGet lookup cid = some m → 1 ≤ m ∧ m ≤ 2147483647)
    (args : List Arg) (hargs : eventEmitArgs lookup e = .ok args) :
    argParserParse cy (argsToTokens args) = .ok args := by
  obtain ⟨hname, hdays, -, hts, hte, htlt, -, -, -⟩ := h
  have hde : e.days.isEmpty = false := by
    cases hd : e.days with
    | nil => exact absurd hd hdays
    | cons a t => rfl
  have htail : (if e.days.isEmpty then ([] : List Arg) else [Arg.daysOfWeek e.days]) =
      [Arg.daysOfWeek e.days] := by
    rw [hde]
    rfl
  simp only [eventEmitArgs] at hargs
  rw [htail] at hargs
  apply argParserParse_emitted
  intro a ha more
  split at hargs
  · rename_i cid heq
    split at hargs
    · rename_i m hmg
      injection hargs with hargs
      subst hargs
      obtain ⟨hm1, hm2⟩ := hlk cid m hmg
      simp only [List.cons_append, List.nil_append, List.singleton_append] at ha
      rcases List.mem_cons.mp ha with rfl | ha
      · exact parseStep_bool cy e.recurring more
      rcases List.mem_cons.mp ha with rfl | ha
      · exact parseStep_name cy e.name (strData_ne_nil hname) more
      rcases List.mem_cons.mp ha with rfl | ha
      · exact parseStep_ccid cy hcy1 hcy2 m (by omega) hm2 more
      rcases List.mem_cons.mp ha with rfl | ha
      · exact parseStep_at cy more
      rcases List.mem_cons.mp ha with rfl | ha
      · exact parseOneArg_daysArg cy e.days hdays more
      rcases List.mem_cons.mp ha with rfl | ha
      · exact parseStep_timeRange cy e.time_range hts hte htlt more
      exact absurd ha (List.not_mem_nil a)
    · exact Except.noConfusion hargs
  · rename_i heq
    injection hargs with hargs
    subst hargs
    simp only [List.cons_append, List.nil_append, List.singleton_append] at ha
    rcases List.mem_cons.mp ha with rfl | ha
    · exact parseStep_bool cy e.recurring more
    rcases List.mem_cons.mp ha with rfl | ha
    · exact parseStep_name cy e.name (strData_ne_nil hname) more
    rcases List.mem_cons.mp ha with rfl | ha
    · exact parseStep_at cy more
    rcases List.mem_cons.mp ha with rfl | ha
    · exact parseOneArg_daysArg cy e.days hdays more
    rcases List.mem_cons.mp ha with rfl | ha
    · exact parseStep_timeRange cy e.time_range hts hte htlt more
    exact absurd ha (List.not_mem_nil a)

theorem cardSpecCreate_row (st : AppState) (n : String) (col : CardColor) :
    cardSpecCreate st [.name n, .cardColor col] = .ok (Card.new n col) := rfl

theorem taskSpecCreate_row_cid (st : AppState) (n : String) (h m : Int) (d : Date)
    (hh : 0 < h) (hex : st.cards.existsIncludingStaged m = true)
    (hsd : ∀ start, st.config.schedule_start_date = some start → ¬ dateLt d start) :
    taskSpecCreate st [.name n, .int h, .cardColorId m, .atSymbol, .date d] =
      .ok (Task.new n (h : ℚ) (some m) d) := by
  have hv2 : hoursValidator (.int h) st = none := by
    simp only [hoursValidator]
    rw [if_pos hh]
  have hv3 : cardIdValidator (.cardColorId m) st = none := by
    simp only [cardIdValidator]
    rw [if_pos hex]
  have hv5 : taskStartDateValidator (.date d) st = none := by
    simp only [taskStartDateValidator]
    split
    · rename_i start hc
      rw [if_neg (hsd start hc)]
    · rfl
  have hms : matchSlots st "" taskBaseUsage taskPatternBase
      [.name n, .int h, .cardColorId m, .atSymbol, .date d] 0 0 = .ok ([], 4) := by
    simp only [taskPatternBase, matchSlots, ArgSlot.classify, plainSlot, hoursSlot,
      nameMatcher, intMatcher, cardColorIdMatcher, atMatcher, dateMatcher,
      hv2, hv3, hv5]
  unfold taskSpecCreate assertMatchesPattern
  simp only [taskAddChoices, assertGo, matchPattern, hms]
  rfl

theorem taskSpecCreate_row_noCid (st : AppState) (n : String) (h : Int) (d : Date)
    (hh : 0 < h)
    (hsd : ∀ start, st.config.schedule_start_date = some start → ¬ dateLt d start) :
    taskSpecCreate st [.name n, .int h, .atSymbol, .date d] =
      .ok (Task.new n (h : ℚ) none d) := by
  have hv2 : hoursValidator (.int h) st = none := by
    simp only [hoursValidator]
    rw [if_pos hh]
  have hv5 : taskStartDateValidator (.date d) st = none := by
    simp only [taskStartDateValidator]
    split
    · rename_i start hc
      rw [if_neg (hsd start hc)]
    · rfl
  have hms : matchSlots st "" taskBaseUsage taskPatternBase
      [.name n, .int h, .atSymbol, .date d] 0 0 = .ok ([], 4) := by
    simp only [taskPatternBase, matchSlots, ArgSlot.classify, plainSlot, hoursSlot,
      nameMatcher, intMatcher, cardColorIdMatcher, atMatcher, dateMatcher,
      hv2, hv5]
    rw [if_pos trivial]
  unfold taskSpecCreate assertMatchesPattern
  simp only [taskAddChoices, assertGo, matchPattern, hms]
  rfl

theorem eventSpecCreate_row_cid (wd : DayOfWeek) (st : AppState) (b : Bool)
    (n : String) (m : Int) (ds : List DayOfWeek) (tr : TimeRange)
    (hex : st.cards.existsIncludingStaged m = true)
    (hr1 : st.config.range.start ≤ tr.start)
    (hr2 : tr.endTime ≤ st.config.range.endTime)
    (hrec : b = true ∨ ds.length = 1) :
    eventSpecCreate wd st [.bool b, .name n, .cardColorId m, .atSymbol,
      .daysOfWeek ds, .timeRange tr] = .ok (Event.new b n (some m) ds tr) := by
  have hv3 : cardIdValidator (.cardColorId m) st = none := by
    simp only [cardIdValidator]
    rw [if_pos hex]
  have hv6 : dailyHourRangeValidator (.timeRange tr) st = none := by
    simp only [dailyHourRangeValidator]
    rw [if_neg (by
      rintro (hc | hc)
      · exact absurd hc (not_lt.mpr hr1)
      · exact absurd hc (not_lt.mpr hr2))]
  have hms : matchSlots st "" eventBaseUsage eventPatternBase
      [.bool b, .name n, .cardColorId m, .atSymbol, .daysOfWeek ds, .timeRange tr]
      0 0 = .ok ([], 5) := by
    simp only [eventPatternBase, matchSlots, ArgSlot.classify, plainSlot,
      boolMatcher, nameMatcher, cardColorIdMatcher, atMatcher, daysMatcher,
      timeRangeMatcher, hv3, hv6]
  have hvr : validateEventRecurringDaysBase
      [.bool b, .name n, .cardColorId m, .atSymbol, .daysOfWeek ds, .timeRange tr] =
      .ok () := rfl
  unfold eventSpecCreate assertMatchesPattern
  simp only [eventAddChoices, assertGo, matchPattern, hms, hvr]
  rfl

theorem eventSpecCreate_row_noCid (wd : DayOfWeek) (st : AppState) (b : Bool)
    (n : String) (ds : List DayOfWeek) (tr : TimeRange)
    (hr1 : st.config.range.start ≤ tr.start)
    (hr2 : tr.endTime ≤ st.config.range.endTime)
    (hrec : b = true ∨ ds.length = 1) :
    eventSpecCreate wd st [.bool b, .name n, .atSymbol,
      .daysOfWeek ds, .timeRange tr] = .ok (Event.new b n none ds tr) := by
  have hv6 : dailyHourRangeValidator (.timeRange tr) st = none := by
    simp only [dailyHourRangeValidator]
    rw [if_neg (by
      rintro (hc | hc)
      · exact absurd hc (not_lt.mpr hr1)
      · exact absurd hc (not_lt.mpr hr2))]
  have hms : matchSlots st "" eventBaseUsage eventPatternBase
      [.bool b, .name n, .atSymbol, .daysOfWeek ds, .timeRange tr] 0 0 =
      .ok ([], 5) := by
    simp only [eventPatternBase, matchSlots, ArgSlot.classify, plainSlot,
      boolMatcher, nameMatcher, cardColorIdMatcher, atMatcher, daysMatcher,
      timeRangeMatcher, hv6]
    rw [if_pos trivial]
  have hvr : validateEventRecurringDaysBase
      [.bool b, .name n, .atSymbol, .daysOfWeek ds, .timeRange tr] = .ok () := by
    show (if ¬ b ∧ ds.length ≠ 1 then
        Except.error (Error.parse "Non-recurring events must have exactly one day.")
      else Except.ok ()) = Except.ok ()
    rw [if_neg (by
      rintro ⟨hb, hl⟩
      rcases hrec with hc | hc
      · rw [hc] at hb
        exact hb rfl
      · exact hl hc)]
  unfold eventSpecCreate assertMatchesPattern
  simp only [eventAddChoices, assertGo, matchPattern, hms, hvr]
  rfl

theorem taskEmitArgs_eq (lookup : List (Int × Int)) (t : Task)
    (hcid : ∀ cid, t.card_id = some cid → (mapGet lookup cid).isSome = true) :
    taskEmitArgs lookup t = .ok (taskRowArgs lookup t) := by
  unfold taskEmitArgs taskRowArgs
  cases hc : t.card_id with
  | none => rfl
  | some cid =>
    cases hm : mapGet lookup cid with
    | none =>
      have hs := hcid cid hc
      rw [hm] at hs
      exact absurd hs (by simp)
    | some m =>
      simp only [hm]
      rfl

theorem eventEmitArgs_eq (lookup : List (Int × Int)) (e : Event)
    (hcid : ∀ cid, e.card_id = some cid → (mapGet lookup cid).isSome = true) :
    eventEmitArgs lookup e = .ok (eventRowArgs lookup e) := by
  unfold eventEmitArgs eventRowArgs
  cases hc : e.card_id with
  | none => rfl
  | some cid =>
    cases hm : mapGet lookup cid with
    | none =>
      have hs := hcid cid hc
      rw [hm] at hs
      exact absurd hs (by simp)
    | some m =>
      simp only [hm]
      rfl

theorem execEntity_card_row (wd : DayOfWeek) (ctx : AppState) (c : Card) :
    execEntityCommand .add .card (cardEmitArgs c) wd ctx =
      ({ ctx with cards := (ctx.cards.insert (Card.new c.name c.color)).1 }, .ok ()) :=
  rfl

theorem execQueue_cardsPhase (wd : DayOfWeek) : ∀ (cs : List Card)
    (rest : List (EntityType × List Arg)) (ctx : AppState)
    (it : List (Int × Card)) (nid : Int) (p : List Card) (s : Int) (cl : Bool),
    ctx.cards = ⟨it, nid, some ⟨p, s, cl⟩⟩ →
    execQueueOps ((cs.map fun c => (EntityType.card, cardEmitArgs c)) ++ rest) wd ctx =
      execQueueOps rest wd { ctx with cards :=
        ⟨it, nid + cs.length, some ⟨p ++ stagedCardsFrom nid cs, s, cl⟩⟩ }
  | [], rest, ctx, it, nid, p, s, cl, hcards => by
    simp only [List.map_nil, List.nil_append]
    refine congrArg (execQueueOps rest wd) ?_
    rw [show stagedCardsFrom nid ([] : List Card) = [] from rfl, List.append_nil,
      show (nid + ((List.length ([] : List Card) : Nat) : Int)) = nid from by simp,
      ← hcards]
  | c :: cs, rest, ctx, it, nid, p, s, cl, hcards => by
    have hstep := execEntity_card_row wd ctx c
    have hins : (ctx.cards.insert (Card.new c.name c.color)).1 =
        ⟨it, nid + 1, some ⟨p ++ [{ id := nid, name := c.name, color := c.color }], s, cl⟩⟩ := by
      rw [hcards]
      rfl
    simp only [List.map_cons, List.cons_append]
    simp only [execQueueOps, hstep, hins]
    rw [execQueue_cardsPhase wd cs rest _ it (nid + 1)
      (p ++ [{ id := nid, name := c.name, color := c.color }]) s cl rfl]
    refine congrArg (execQueueOps rest wd) ?_
    rw [show stagedCardsFrom nid (c :: cs) =
        { id := nid, name := c.name, color := c.color } :: stagedCardsFrom (nid + 1) cs
      from rfl]
    rw [List.append_assoc]
    rw [show nid + 1 + ((cs.length : Nat) : Int) = nid + (((c :: cs).length : Nat) : Int)
      from by simp; omega]
    rfl

theorem execEntity_event_row (wd : DayOfWeek) (ctx : AppState)
    (lookup : List (Int × Int)) (e : Event)
    (hdays : e.days ≠ [])
    (hrec : e.recurring = true ∨ e.days.length = 1)
    (hr1 : ctx.config.range.start ≤ e.time_range.start)
    (hr2 : e.time_range.endTime ≤ ctx.config.range.endTime)
    (hcid : ∀ cid, e.card_id = some cid → ∃ m, mapGet lookup cid = some m ∧
      ctx.cards.existsIncludingStaged m = true) :
    execEntityCommand .add .event (eventRowArgs lookup e) wd ctx =
      ({ ctx with events := (ctx.events.insert
          (Event.new e.recurring e.name (e.card_id.bind (fun cid => mapGet lookup cid))
            e.days e.time_range)).1 }, .ok ()) := by
  have hde : e.days.isEmpty = false := by
    cases hd : e.days with
    | nil => exact absurd hd hdays
    | cons a t => rfl
  cases hc : e.card_id with
  | none =>
    have hrow : eventRowArgs lookup e = [.bool e.recurring, .name e.name, .atSymbol,
        .daysOfWeek e.days, .timeRange e.time_range] := by
      simp [eventRowArgs, hc, hde]
    rw [hrow]
    show (match eventSpecCreate wd ctx [.bool e.recurring, .name e.name, .atSymbol,
        .daysOfWeek e.days, .timeRange e.time_range] with
      | Except.error err => (ctx, Except.error err)
      | Except.ok ev =>
        ({ ctx with events := (ctx.events.insert ev).1 }, Except.ok ())) = _
    simp only [eventSpecCreate_row_noCid wd ctx e.recurring e.name e.days
      e.time_range hr1 hr2 hrec]
    simp [hc]
  | some cid =>
    obtain ⟨m, hm, hex⟩ := hcid cid hc
    have hrow : eventRowArgs lookup e = [.bool e.recurring, .name e.name,
        .cardColorId m, .atSymbol, .daysOfWeek e.days, .timeRange e.time_range] := by
      simp [eventRowArgs, hc, hm, hde]
    rw [hrow]
    show (match eventSpecCreate wd ctx [.bool e.recurring, .name e.name,
        .cardColorId m, .atSymbol, .daysOfWeek e.days, .timeRange e.time_range] with
      | Except.error err => (ctx, Except.error err)
      | Except.ok ev =>
        ({ ctx with events := (ctx.events.insert ev).1 }, Except.ok ())) = _
    simp only [eventSpecCreate_row_cid wd ctx e.recurring e.name m e.days
      e.time_range hex hr1 hr2 hrec]
    simp [hm]

theorem execEntity_task_row (wd : DayOfWeek) (ctx : AppState)
    (lookup : List (Int × Int)) (t : Task)
    (hh : 0 < i32SatOfRat t.hours)
    (hsd : ∀ start, ctx.config.schedule_start_date = some start → ¬ dateLt t.date start)
    (hcid : ∀ cid, t.card_id = some cid → ∃ m, mapGet lookup cid = some m ∧
      ctx.cards.existsIncludingStaged m = true) :
    execEntityCommand .add .task (taskRowArgs lookup t) wd ctx =
      ({ ctx with tasks := (ctx.tasks.insert
          (Task.new t.name ((i32SatOfRat t.hours : Int) : ℚ)
            (t.card_id.bind (fun cid => mapGet lookup cid)) t.date)).1 }, .ok ()) := by
  cases hc : t.card_id with
  | none =>
    have hrow : taskRowArgs lookup t = [.name t.name, .int (i32SatOfRat t.hours),
        .atSymbol, .date t.date] := by
      simp [taskRowArgs, hc]
    rw [hrow]
    show (match taskSpecCreate ctx [.name t.name, .int (i32SatOfRat t.hours),
        .atSymbol, .date t.date] with
      | Except.error err => (ctx, Except.error err)
      | Except.ok tk =>
        ({ ctx with tasks := (ctx.tasks.insert tk).1 }, Except.ok ())) = _
    simp only [taskSpecCreate_row_noCid ctx t.name (i32SatOfRat t.hours) t.date hh hsd]
    simp [hc]
  | some cid =>
    obtain ⟨m, hm, hex⟩ := hcid cid hc
    have hrow : taskRowArgs lookup t = [.name t.name, .int (i32SatOfRat t.hours),
        .cardColorId m, .atSymbol, .date t.date] := by
      simp [taskRowArgs, hc, hm]
    rw [hrow]
    show (match taskSpecCreate ctx [.name t.name, .int (i32SatOfRat t.hours),
        .cardColorId m, .atSymbol, .date t.date] with
      | Except.error err => (ctx, Except.error err)
      | Except.ok tk =>
        ({ ctx with tasks := (ctx.tasks.insert tk).1 }, Except.ok ())) = _
    simp only [taskSpecCreate_row_cid ctx t.name (i32SatOfRat t.hours) m t.date hh hex hsd]
    simp [hm]

theorem execQueue_eventsPhase (wd : DayOfWeek) (lookup : List (Int × Int)) :
    ∀ (es : List Event) (rest : List (EntityType × List Arg)) (ctx : AppState)
      (it : List (Int × Event)) (nid : Int) (p : List Event) (s : Int) (cl : Bool),
    ctx.events = ⟨it, nid, some ⟨p, s, cl⟩⟩ →
    (∀ e ∈ es, e.days ≠ [] ∧ (e.recurring = true ∨ e.days.length = 1) ∧
      ctx.config.range.start ≤ e.time_range.start ∧
      e.time_range.endTime ≤ ctx.config.range.endTime ∧
      (∀ cid, e.card_id = some cid → ∃ m, mapGet lookup cid = some m ∧
        ctx.cards.existsIncludingStaged m = true)) →
    execQueueOps ((es.map fun e => (EntityType.event, eventRowArgs lookup e)) ++ rest)
        wd ctx =
      execQueueOps rest wd { ctx with events :=
        ⟨it, nid + es.length, some ⟨p ++ stagedEventsFrom lookup nid es, s, cl⟩⟩ }
  | [], rest, ctx, it, nid, p, s, cl, hevents, _ => by
    simp only [List.map_nil, List.nil_append]
    refine congrArg (execQueueOps rest wd) ?_
    rw [show stagedEventsFrom lookup nid ([] : List Event) = [] from rfl, List.append_nil,
      show (nid + ((List.length ([] : List Event) : Nat) : Int)) = nid from by simp,
      ← hevents]
  | e :: es, rest, ctx, it, nid, p, s, cl, hevents, h => by
    obtain ⟨hd1, hd2, hd3, hd4, hd5⟩ := h e (List.mem_cons_self _ _)
    have hstep := execEntity_event_row wd ctx lookup e hd1 hd2 hd3 hd4 hd5
    have hins : (ctx.events.insert (Event.new e.recurring e.name
        (e.card_id.bind (fun cid => mapGet lookup cid)) e.days e.time_range)).1 =
        ⟨it, nid + 1, some ⟨p ++ [⟨nid, e.name, e.days, e.time_range, e.recurring,
          e.card_id.bind (fun cid => mapGet lookup cid)⟩], s, cl⟩⟩ := by
      rw [hevents]
      rfl
    simp only [List.map_cons, List.cons_append]
    simp only [execQueueOps, hstep, hins]
    rw [execQueue_eventsPhase wd lookup es rest _ it (nid + 1)
      (p ++ [⟨nid, e.name, e.days, e.time_range, e.recurring,
        e.card_id.bind (fun cid => mapGet lookup cid)⟩]) s cl rfl
      (by exact fun x hx => h x (List.mem_cons_of_mem _ hx))]
    refine congrArg (execQueueOps rest wd) ?_
    rw [show stagedEventsFrom lookup nid (e :: es) =
        ⟨nid, e.name, e.days, e.time_range, e.recurring,
          e.card_id.bind (fun cid => mapGet lookup cid)⟩ ::
          stagedEventsFrom lookup (nid + 1) es from rfl]
    rw [List.append_assoc]
    rw [show nid + 1 + ((es.length : Nat) : Int) = nid + (((e :: es).length : Nat) : Int)
      from by simp; omega]
    rfl

theorem execQueue_tasksPhase (wd : DayOfWeek) (lookup : List (Int × Int)) :
    ∀ (ts : List Task) (rest : List (EntityType × List Arg)) (ctx : AppState)
      (it : List (Int × Task)) (nid : Int) (p : List Task) (s : Int) (cl : Bool),
    ctx.tasks = ⟨it, nid, some ⟨p, s, cl⟩⟩ →
    (∀ t ∈ ts, 0 < i32SatOfRat t.hours ∧
      (∀ start, ctx.config.schedule_start_date = some start → ¬ dateLt t.date start) ∧
      (∀ cid, t.card_id = some cid → ∃ m, mapGet lookup cid = some m ∧
        ctx.cards.existsIncludingStaged m = true)) →
    execQueueOps ((ts.map fun t => (EntityType.task, taskRowArgs lookup t)) ++ rest)
        wd ctx =
      execQueueOps rest wd { ctx with tasks :=
        ⟨it, nid + ts.length, some ⟨p ++ stagedTasksFrom lookup nid ts, s, cl⟩⟩ }
  | [], rest, ctx, it, nid, p, s, cl, htasks, _ => by
    simp only [List.map_nil, List.nil_append]
    refine congrArg (execQueueOps rest wd) ?_
    rw [show stagedTasksFrom lookup nid ([] : List Task) = [] from rfl, List.append_nil,
      show (nid + ((List.length ([] : List Task) : Nat) : Int)) = nid from by simp,
      ← htasks]
  | t :: ts, rest, ctx, it, nid, p, s, cl, htasks, h => by
    obtain ⟨hd1, hd2, hd3⟩ := h t (List.mem_cons_self _ _)
    have hstep := execEntity_task_row wd ctx lookup t hd1 hd2 hd3
    have hins : (ctx.tasks.insert (Task.new t.name ((i32SatOfRat t.hours : Int) : ℚ)
        (t.card_id.bind (fun cid => mapGet lookup cid)) t.date)).1 =
        ⟨it, nid + 1, some ⟨p ++ [{ Task.new t.name ((i32SatOfRat t.hours : Int) : ℚ)
          (t.card_id.bind (fun cid => mapGet lookup cid)) t.date with id := nid }],
          s, cl⟩⟩ := by
      rw [htasks]
      rfl
    simp only [List.map_cons, List.cons_append]
    simp only [execQueueOps, hstep, hins]
    rw [execQueue_tasksPhase wd lookup ts rest _ it (nid + 1)
      (p ++ [{ Task.new t.name ((i32SatOfRat t.hours : Int) : ℚ)
        (t.card_id.bind (fun cid => mapGet lookup cid)) t.date with id := nid }]) s cl rfl
      (by exact fun x hx => h x (List.mem_cons_of_mem _ hx))]
    refine congrArg (execQueueOps rest wd) ?_
    rw [show stagedTasksFrom lookup nid (t :: ts) =
        { Task.new t.name ((i32SatOfRat t.hours : Int) : ℚ)
          (t.card_id.bind (fun cid => mapGet lookup cid)) t.date with id := nid } ::
          stagedTasksFrom lookup (nid + 1) ts from rfl]
    rw [List.append_assoc]
    rw [show nid + 1 + ((ts.length : Nat) : Int) = nid + (((t :: ts).length : Nat) : Int)
      from by simp; omega]
    rfl

theorem insertLe_perm {α : Type} (le : α → α → Bool) (x : α) :
    ∀ l : List α, (insertLe le x l).Perm (x :: l)
  | [] => List.Perm.refl _
  | y :: ys => by
    unfold insertLe
    split
    · exact List.Perm.refl _
    · exact ((insertLe_perm le x ys).cons y).trans (List.Perm.swap x y ys)

theorem stableSortBy_perm {α : Type} (le : α → α → Bool) :
    ∀ l : List α, (stableSortBy le l).Perm l
  | [] => List.Perm.refl _
  | x :: xs =>
    (insertLe_perm le x (stableSortBy le xs)).trans
      ((stableSortBy_perm le xs).cons x)

theorem valuesIdAsc_perm {α : Type} [BaseEntity α] (r : Repository α) :
    (r.valuesIdAsc).Perm r.valuesUnordered :=
  stableSortBy_perm _ _

theorem checkRefs_ok : ∀ (pool refs : List Int),
    (∀ r ∈ refs, pool.contains r = true) → checkRefs pool refs = .ok ()
  | _, [], _ => rfl
  | pool, r :: rest, h => by
    unfold checkRefs
    rw [if_pos (h r (List.mem_cons_self _ _))]
    exact checkRefs_ok pool rest (fun x hx => h x (List.mem_cons_of_mem _ hx))

theorem enumFrom_sub_get? {α : Type} : ∀ (l : List α) (n : Nat) (p : Nat × α),
    p ∈ List.enumFrom n l → l.get? (p.1 - n) = some p.2
  | [], _, _, h => absurd h (List.not_mem_nil _)
  | a :: l, n, p, h => by
    rcases List.mem_cons.mp h with h | h
    · subst h
      simp
    · have hb := mem_enumFrom_bounds l (n + 1) p h
      have hr := enumFrom_sub_get? l (n + 1) p h
      have hsub : p.1 - n = (p.1 - (n + 1)) + 1 := by omega
      rw [hsub]
      simpa using hr

theorem get?_mem_enumFrom {α : Type} : ∀ (l : List α) (n i : Nat) (c : α),
    l.get? i = some c → (n + i, c) ∈ List.enumFrom n l
  | [], _, i, _, h => by
    rw [show ([] : List α).get? i = none from by cases i <;> rfl] at h
    exact Option.noConfusion h
  | a :: l, n, 0, c, h => by
    have hc : a = c := Option.some.inj h
    subst hc
    exact List.mem_cons_self _ _
  | a :: l, n, i + 1, c, h => by
    have hr := get?_mem_enumFrom l (n + 1) i c h
    have harith : n + (i + 1) = (n + 1) + i := by omega
    rw [harith]
    exact List.mem_cons_of_mem _ hr

theorem enumFrom_map_snd {α β : Type} (g : α → β) : ∀ (l : List α) (n : Nat),
    (List.enumFrom n l).map (fun p => g p.2) = l.map g
  | [], _ => rfl
  | a :: l, n => by
    simp only [List.enumFrom, List.map_cons]
    rw [enumFrom_map_snd g l (n + 1)]

theorem mapGet_of_mem_nodup {α : Type} : ∀ (l : List (Int × α)),
    (l.map Prod.fst).Nodup → ∀ (k : Int) (v : α), (k, v) ∈ l → mapGet l k = some v
  | [], _, _, _, h => absurd h (List.not_mem_nil _)
  | (k', v') :: l, hnd, k, v, h => by
    rcases List.mem_cons.mp h with he | hm
    · injection he with h1 h2
      subst h1
      subst h2
      unfold mapGet
      rw [List.find?_cons_of_pos _ (by simp)]
      rfl
    · have hknot : k' ≠ k := by
        intro he2
        have hmem : k' ∈ l.map Prod.fst :=
          List.mem_map.mpr ⟨(k, v), hm, by simp [he2]⟩
        exact (List.nodup_cons.mp hnd).1 (by simpa using hmem)
      have ht := mapGet_of_mem_nodup l (List.nodup_cons.mp hnd).2 k v hm
      unfold mapGet at ht ⊢
      rw [List.find?_cons_of_neg _ (by simp [hknot])]
      exact ht

theorem stagedCardsFrom_bounds : ∀ (cs : List Card) (nid : Int) (e : Card),
    e ∈ stagedCardsFrom nid cs → nid ≤ e.id ∧ e.id < nid + cs.length
  | [], _, _, h => absurd h (List.not_mem_nil _)
  | c :: cs, nid, e, h => by
    rcases List.mem_cons.mp h with h | h
    · subst h
      simp
    · have hb := stagedCardsFrom_bounds cs (nid + 1) e h
      simp only [List.length_cons]
      constructor <;> [omega; (push_cast; push_cast at hb; omega)]

theorem stagedEventsFrom_bounds : ∀ (es : List Event) (lookup : List (Int × Int))
    (nid : Int) (e : Event),
    e ∈ stagedEventsFrom lookup nid es → nid ≤ e.id ∧ e.id < nid + es.length
  | [], _, _, _, h => absurd h (List.not_mem_nil _)
  | x :: es, lookup, nid, e, h => by
    rcases List.mem_cons.mp h with h | h
    · subst h
      simp
    · have hb := stagedEventsFrom_bounds es lookup (nid + 1) e h
      simp only [List.length_cons]
      constructor <;> [omega; (push_cast; push_cast at hb; omega)]

theorem stagedTasksFrom_bounds : ∀ (ts : List Task) (lookup : List (Int × Int))
    (nid : Int) (e : Task),
    e ∈ stagedTasksFrom lookup nid ts → nid ≤ e.id ∧ e.id < nid + ts.length
  | [], _, _, _, h => absurd h (List.not_mem_nil _)
  | x :: ts, lookup, nid, e, h => by
    rcases List.mem_cons.mp h with h | h
    · subst h
      simp [Task.new]
    · have hb := stagedTasksFrom_bounds ts lookup (nid + 1) e h
      simp only [List.length_cons]
      constructor <;> [omega; (push_cast; push_cast at hb; omega)]

theorem stagedCardsFrom_ids_nodup : ∀ (cs : List Card) (nid : Int),
    ((stagedCardsFrom nid cs).map (fun e => BaseEntity.eid e)).Nodup
  | [], _ => List.nodup_nil
  | c :: cs, nid => by
    simp only [stagedCardsFrom, List.map_cons]
    refine List.nodup_cons.mpr ⟨?_, stagedCardsFrom_ids_nodup cs (nid + 1)⟩
    intro hmem
    obtain ⟨e, he, hee⟩ := List.mem_map.mp hmem
    have hb := stagedCardsFrom_bounds cs (nid + 1) e he
    have hEq : e.id = nid := hee
    omega

theorem stagedEventsFrom_ids_nodup : ∀ (es : List Event) (lookup : List (Int × Int))
    (nid : Int),
    ((stagedEventsFrom lookup nid es).map (fun e => BaseEntity.eid e)).Nodup
  | [], _, _ => List.nodup_nil
  | x :: es, lookup, nid => by
    simp only [stagedEventsFrom, List.map_cons]
    refine List.nodup_cons.mpr ⟨?_, stagedEventsFrom_ids_nodup es lookup (nid + 1)⟩
    intro hmem
    obtain ⟨e, he, hee⟩ := List.mem_map.mp hmem
    have hb := stagedEventsFrom_bounds es lookup (nid + 1) e he
    have hEq : e.id = nid := hee
    omega

theorem stagedTasksFrom_ids_nodup : ∀ (ts : List Task) (lookup : List (Int × Int))
    (nid : Int),
    ((stagedTasksFrom lookup nid ts).map (fun e => BaseEntity.eid e)).Nodup
  | [], _, _ => List.nodup_nil
  | x :: ts, lookup, nid => by
    simp only [stagedTasksFrom, List.map_cons]
    refine List.nodup_cons.mpr ⟨?_, stagedTasksFrom_ids_nodup ts lookup (nid + 1)⟩
    intro hmem
    obtain ⟨e, he, hee⟩ := List.mem_map.mp hmem
    have hb := stagedTasksFrom_bounds ts lookup (nid + 1) e he
    have hEq : e.id = nid := hee
    omega

theorem stagedCardsFrom_mem_ids : ∀ (cs : List Card) (nid m : Int),
    nid ≤ m → m < nid + cs.length →
    ∃ e ∈ stagedCardsFrom nid cs, e.id = m
  | [], nid, m, h1, h2 => by
    exfalso
    simp at h2
    omega
  | c :: cs, nid, m, h1, h2 => by
    by_cases he : m = nid
    · exact ⟨{ id := nid, name := c.name, color := c.color },
        List.mem_cons_self _ _, he.symm⟩
    · obtain ⟨e, hmem, hid⟩ := stagedCardsFrom_mem_ids cs (nid + 1) m (by omega)
        (by simp only [List.length_cons] at h2; push_cast at h2 ⊢; omega)
      exact ⟨e, List.mem_cons_of_mem _ hmem, hid⟩

theorem mem_stagedEventsFrom : ∀ (es : List Event) (lookup : List (Int × Int))
    (nid : Int) (ev : Event), ev ∈ stagedEventsFrom lookup nid es →
    ∃ e ∈ es, ev.card_id = e.card_id.bind (fun cid => mapGet lookup cid)
  | [], _, _, _, h => absurd h (List.not_mem_nil _)
  | x :: es, lookup, nid, ev, h => by
    rcases List.mem_cons.mp h with h | h
    · subst h
      exact ⟨x, List.mem_cons_self _ _, rfl⟩
    · obtain ⟨e, hmem, hcd⟩ := mem_stagedEventsFrom es lookup (nid + 1) ev h
      exact ⟨e, List.mem_cons_of_mem _ hmem, hcd⟩

theorem mem_stagedTasksFrom : ∀ (ts : List Task) (lookup : List (Int × Int))
    (nid : Int) (tv : Task), tv ∈ stagedTasksFrom lookup nid ts →
    ∃ t ∈ ts, tv.card_id = t.card_id.bind (fun cid => mapGet lookup cid)
  | [], _, _, _, h => absurd h (List.not_mem_nil _)
  | x :: ts, lookup, nid, tv, h => by
    rcases List.mem_cons.mp h with h | h
    · subst h
      exact ⟨x, List.mem_cons_self _ _, rfl⟩
    · obtain ⟨t, hmem, hcd⟩ := mem_stagedTasksFrom ts lookup (nid + 1) tv h
      exact ⟨t, List.mem_cons_of_mem _ hmem, hcd⟩

theorem stagedCardsFrom_get? : ∀ (cs : List Card) (nid : Int) (i : Nat) (c : Card),
    cs.get? i = some c →
    (stagedCardsFrom nid cs).get? i =
      some { id := nid + i, name := c.name, color := c.color }
  | [], _, i, _, h => by
    rw [show ([] : List Card).get? i = none from by cases i <;> rfl] at h
    exact Option.noConfusion h
  | a :: cs, nid, 0, c, h => by
    have hc : a = c := Option.some.inj h
    subst hc
    simp [stagedCardsFrom]
  | a :: cs, nid, i + 1, c, h => by
    have hr := stagedCardsFrom_get? cs (nid + 1) i c h
    show (stagedCardsFrom (nid + 1) cs).get? i = _
    rw [hr]
    have : nid + 1 + (i : Int) = nid + ((i : Int) + 1) := by omega
    simp [this]

theorem mapInsert_fresh {α : Type} (items : List (Int × α)) (id : Int) (e : α)
    (h : items.any (fun p => p.1 = id) = false) :
    mapInsert items id e = items ++ [(id, e)] := by
  unfold mapInsert
  rw [if_neg (ne_true_of_false h)]

theorem prepareInsert_fresh {α : Type} [BaseEntity α] :
    ∀ (pend : List α) (items : List (Int × α)),
    (∀ e ∈ pend, items.any (fun p => p.1 = BaseEntity.eid e) = false) →
    ((pend.map (fun e => BaseEntity.eid e)).Nodup) →
    prepareInsert items pend = .ok (items ++ pend.map (fun e => (BaseEntity.eid e, e)))
  | [], items, _, _ => by
    simp [prepareInsert]
  | e :: pend, items, hfresh, hnd => by
    have hcol := hfresh e (List.mem_cons_self _ _)
    simp only [prepareInsert]
    rw [if_neg (ne_true_of_false hcol), mapInsert_fresh items _ e hcol]
    rw [prepareInsert_fresh pend (items ++ [(BaseEntity.eid e, e)])
      (fun x hx => by
        rw [List.any_append]
        rw [hfresh x (List.mem_cons_of_mem _ hx)]
        have hne : ¬ (BaseEntity.eid e = BaseEntity.eid x) := by
          intro hcon
          exact (List.nodup_cons.mp hnd).1 (List.mem_map.mpr ⟨x, hx, hcon.symm⟩)
        simp [hne])
      (List.nodup_cons.mp hnd).2]
    rw [List.append_assoc]
    rfl

theorem mapM_ok_map {α β γ : Type} (parse : β → Except Error γ) (f : α → β)
    (g : α → γ) : ∀ (l : List α), (∀ x ∈ l, parse (f x) = .ok (g x)) →
    (l.map f).mapM parse = .ok (l.map g)
  | [], _ => rfl
  | x :: l, h => by
    have hh := h x (List.mem_cons_self _ _)
    have ht := mapM_ok_map parse f g l (fun y hy => h y (List.mem_cons_of_mem _ hy))
    simp only [List.map_cons, List.mapM_cons, hh, ht]
    rfl

theorem cards_resolution (st : AppState)
    (hkeys : ∀ p ∈ st.cards.items, p.2.id = p.1)
    (hnd : (st.cards.items.map Prod.fst).Nodup) :
    (∀ cid c, mapGet st.cards.items cid = some c →
        ∃ m, mapGet (serializeCardsForSave st.cards.valuesIdAsc).2 cid = some m) ∧
    (∀ cid m, mapGet (serializeCardsForSave st.cards.valuesIdAsc).2 cid = some m →
      1 ≤ m ∧ m ≤ (st.cards.valuesIdAsc.length : Int) ∧
      ∃ c c', mapGet st.cards.items cid = some c ∧
        mapGet ((stagedCardsFrom 1 st.cards.valuesIdAsc).map
          (fun e => (BaseEntity.eid e, e))) m = some c' ∧
        c'.name = c.name ∧ c'.color = c.color) := by
  have hperm : (st.cards.valuesIdAsc).Perm st.cards.valuesUnordered :=
    valuesIdAsc_perm _
  have hvals_ids : st.cards.valuesUnordered.map Card.id =
      st.cards.items.map Prod.fst := by
    unfold Repository.valuesUnordered
    rw [List.map_map]
    exact List.map_congr_left (fun p hp => hkeys p hp)
  have hcs_ids_nodup : ((st.cards.valuesIdAsc).map Card.id).Nodup :=
    ((hperm.map Card.id).nodup_iff).mpr (hvals_ids ▸ hnd)
  have hlookup_keys : ((serializeCardsForSave st.cards.valuesIdAsc).2).map Prod.fst =
      (st.cards.valuesIdAsc).map Card.id := by
    show ((st.cards.valuesIdAsc).enum.map
      (fun p => (p.2.id, (p.1 : Int) + 1))).map Prod.fst = _
    rw [List.map_map]
    exact enumFrom_map_snd Card.id st.cards.valuesIdAsc 0
  have hloaded_nodup : (((stagedCardsFrom 1 st.cards.valuesIdAsc).map
      (fun e => (BaseEntity.eid e, e))).map Prod.fst).Nodup := by
    rw [List.map_map]
    exact stagedCardsFrom_ids_nodup st.cards.valuesIdAsc 1
  constructor
  · intro cid c hget
    have hmem := mapGet_mem _ _ _ hget
    have hc_id : c.id = cid := hkeys (cid, c) hmem
    have hcv : c ∈ st.cards.valuesUnordered := List.mem_map.mpr ⟨(cid, c), hmem, rfl⟩
    have hccs : c ∈ st.cards.valuesIdAsc := (hperm.mem_iff).mpr hcv
    obtain ⟨i, hi⟩ := List.mem_iff_get.mp hccs
    have hget2 : (st.cards.valuesIdAsc).get? i.1 = some c := by
      rw [List.get?_eq_get i.2, hi]
    have henum := get?_mem_enumFrom st.cards.valuesIdAsc 0 i.1 c hget2
    have hlk_mem : (cid, ((0 + i.1 : Nat) : Int) + 1) ∈
        (serializeCardsForSave st.cards.valuesIdAsc).2 :=
      List.mem_map.mpr ⟨(0 + i.1, c), henum, by simp [hc_id]⟩
    exact ⟨_, mapGet_of_mem_nodup _ (by rw [hlookup_keys]; exact hcs_ids_nodup)
      _ _ hlk_mem⟩
  · intro cid m hm
    have hmem := mapGet_mem _ _ _ hm
    obtain ⟨p, hp, hpe⟩ := List.mem_map.mp hmem
    obtain ⟨hb1, hb2⟩ := mem_enumFrom_bounds st.cards.valuesIdAsc 0 p hp
    have hpid : p.2.id = cid := congrArg Prod.fst hpe
    have hpm : ((p.1 : Int) + 1) = m := congrArg Prod.snd hpe
    refine ⟨by omega, by omega, ?_⟩
    have hget2 : (st.cards.valuesIdAsc).get? p.1 = some p.2 := by
      simpa using enumFrom_sub_get? st.cards.valuesIdAsc 0 p hp
    have hpcs : p.2 ∈ st.cards.valuesIdAsc := List.get?_mem hget2
    have hcv : p.2 ∈ st.cards.valuesUnordered := (hperm.mem_iff).mp hpcs
    obtain ⟨q, hq, hq2⟩ := List.mem_map.mp hcv
    have hq1 : q.1 = cid := by rw [← hkeys q hq, hq2, hpid]
    have hgetc : mapGet st.cards.items cid = some p.2 := by
      have hg := mapGet_of_mem_nodup st.cards.items hnd q.1 q.2 (by exact hq)
      rw [hq1, hq2] at hg
      exact hg
    obtain ⟨entry, hget3, hname, hcolor, hid⟩ : ∃ entry,
        (stagedCardsFrom 1 st.cards.valuesIdAsc).get? p.1 = some entry ∧
        entry.name = p.2.name ∧ entry.color = p.2.color ∧
        BaseEntity.eid entry = (1 : Int) + p.1 :=
      ⟨_, stagedCardsFrom_get? st.cards.valuesIdAsc 1 p.1 p.2 hget2, rfl, rfl, rfl⟩
    have hentry_mem := List.get?_mem hget3
    have hldm : (BaseEntity.eid entry, entry) ∈
        (stagedCardsFrom 1 st.cards.valuesIdAsc).map
          (fun e => (BaseEntity.eid e, e)) :=
      List.mem_map.mpr ⟨entry, hentry_mem, rfl⟩
    have hldget := mapGet_of_mem_nodup _ hloaded_nodup _ _ hldm
    have hm2 : BaseEntity.eid entry = m := by rw [hid]; omega
    rw [hm2] at hldget
    exact ⟨p.2, entry, hgetc, hldget, hname, hcolor⟩

theorem beginStage_clear {α : Type} (r : Repository α) (h : r.staged = none) :
    r.beginStage true =
      .ok { items := r.items, next_id := 1, staged := some ⟨[], 1, true⟩ } := by
  unfold Repository.beginStage
  rw [h]
  rfl

theorem stagedEffectiveIds_cleared {α : Type} [BaseEntity α] (r : Repository α)
    (pend : List α) (s : Int) (h : r.staged = some ⟨pend, s, true⟩) :
    r.stagedEffectiveIds = .ok (pend.map (fun e => BaseEntity.eid e)) := by
  simp only [Repository.stagedEffectiveIds, h]
  rfl

theorem prepareCommit_cleared {α : Type} [BaseEntity α] (r : Repository α)
    (pend : List α) (s : Int) (h : r.staged = some ⟨pend, s, true⟩)
    (hnd : (pend.map (fun e => BaseEntity.eid e)).Nodup) :
    ∃ prep, r.prepareCommit = .ok prep ∧
      prep.items = pend.map (fun e => (BaseEntity.eid e, e)) := by
  have hpi := prepareInsert_fresh pend [] (fun e _ => rfl) hnd
  simp only [Repository.prepareCommit, h]
  rw [if_pos trivial]
  simp only [hpi]
  exact ⟨_, rfl, rfl⟩

theorem pendingRefs_staged {α : Type} (r : Repository α) (ext : α → Option Int)
    (pend : List α) (s : Int) (cl : Bool) (h : r.staged = some ⟨pend, s, cl⟩) :
    pendingRefs r ext = pend.filterMap ext := by
  unfold pendingRefs Repository.stagedPending
  rw [h]
  rfl

theorem mapM_ok_of_forall {α γ : Type} (f : α → Except Error γ) (g : α → γ) :
    ∀ (l : List α), (∀ x ∈ l, f x = .ok (g x)) → l.mapM f = .ok (l.map g)
  | [], _ => rfl
  | x :: l, h => by
    have hh := h x (List.mem_cons_self _ _)
    have ht := mapM_ok_of_forall f g l (fun y hy => h y (List.mem_cons_of_mem _ hy))
    simp only [List.mapM_cons, hh, ht, List.map_cons]
    rfl

theorem stateWF_sorted (cfg : Config) (st : AppState) (hwf : StateSaveWF cfg st) :
    (∀ c ∈ st.cards.valuesIdAsc, CardSaveWF c) ∧
    (∀ t ∈ st.tasks.valuesIdAsc, TaskSaveWF st.cards.items cfg t) ∧
    (∀ e ∈ st.events.valuesIdAsc, EventSaveWF st.cards.items cfg e) := by
  obtain ⟨hc, ht, he, -, -, -⟩ := hwf
  refine ⟨?_, ?_, ?_⟩ <;> intro x hx
  · obtain ⟨p, hp, hp2⟩ := List.mem_map.mp ((valuesIdAsc_perm _).mem_iff.mp hx)
    rw [← hp2]
    exact hc p hp
  · obtain ⟨p, hp, hp2⟩ := List.mem_map.mp ((valuesIdAsc_perm _).mem_iff.mp hx)
    rw [← hp2]
    exact ht p hp
  · obtain ⟨p, hp, hp2⟩ := List.mem_map.mp ((valuesIdAsc_perm _).mem_iff.mp hx)
    rw [← hp2]
    exact he p hp

theorem existsStaged_of_pending {α : Type} [BaseEntity α] (r : Repository α)
    (pend : List α) (s : Int) (h : r.staged = some ⟨pend, s, true⟩) (m : Int)
    (hm : ∃ e ∈ pend, BaseEntity.eid e = m) :
    r.existsIncludingStaged m = true := by
  simp only [Repository.existsIncludingStaged, h]
  rw [if_pos trivial]
  obtain ⟨e, he, hid⟩ := hm
  exact List.any_eq_true.mpr ⟨e, he, by simp [hid]⟩

theorem buildSaveFile_ok (st : AppState)
    (hes : ∀ e ∈ st.events.valuesIdAsc, ∀ cid, e.card_id = some cid →
      (mapGet (serializeCardsForSave st.cards.valuesIdAsc).2 cid).isSome = true)
    (hts : ∀ t ∈ st.tasks.valuesIdAsc, ∀ cid, t.card_id = some cid →
      (mapGet (serializeCardsForSave st.cards.valuesIdAsc).2 cid).isSome = true) :
    buildSaveFile st = .ok
      ⟨st.cards.valuesIdAsc.map (fun c => argsToTokens (cardEmitArgs c)),
       st.events.valuesIdAsc.map (fun e =>
         argsToTokens (eventRowArgs (serializeCardsForSave st.cards.valuesIdAsc).2 e)),
       st.tasks.valuesIdAsc.map (fun t =>
         argsToTokens (taskRowArgs (serializeCardsForSave st.cards.valuesIdAsc).2 t))⟩ := by
  have hev := mapM_ok_of_forall
    (fun e => (eventEmitArgs (serializeCardsForSave st.cards.valuesIdAsc).2 e).map
      argsToTokens)
    (fun e => argsToTokens (eventRowArgs (serializeCardsForSave st.cards.valuesIdAsc).2 e))
    st.events.valuesIdAsc
    (fun e he => by
      show (eventEmitArgs (serializeCardsForSave st.cards.valuesIdAsc).2 e).map
          argsToTokens = Except.ok
          (argsToTokens (eventRowArgs (serializeCardsForSave st.cards.valuesIdAsc).2 e))
      rw [eventEmitArgs_eq _ _ (hes e he)]
      rfl)
  have htk := mapM_ok_of_forall
    (fun t => (taskEmitArgs (serializeCardsForSave st.cards.valuesIdAsc).2 t).map
      argsToTokens)
    (fun t => argsToTokens (taskRowArgs (serializeCardsForSave st.cards.valuesIdAsc).2 t))
    st.tasks.valuesIdAsc
    (fun t ht => by
      show (taskEmitArgs (serializeCardsForSave st.cards.valuesIdAsc).2 t).map
          argsToTokens = Except.ok
          (argsToTokens (taskRowArgs (serializeCardsForSave st.cards.valuesIdAsc).2 t))
      rw [taskEmitArgs_eq _ _ (hts t ht)]
      rfl)
  simp only [buildSaveFile]
  rw [show serializeCardsForSave st.cards.valuesIdAsc =
    ((serializeCardsForSave st.cards.valuesIdAsc).1,
     (serializeCardsForSave st.cards.valuesIdAsc).2) from rfl]
  simp only [hev, htk]
  rfl

theorem transaction_run_ok (ctx : AppState)
    (f : AppState → AppState × Except Error Unit)
    (hc : ctx.cards.staged = none) (he : ctx.events.staged = none)
    (ht : ctx.tasks.staged = none)
    (ctx3 : AppState) (pc : List Card) (pe : List Event) (pt : List Task)
    (hf : f { ctx with
        cards := ⟨ctx.cards.items, 1, some ⟨[], 1, true⟩⟩,
        events := ⟨ctx.events.items, 1, some ⟨[], 1, true⟩⟩,
        tasks := ⟨ctx.tasks.items, 1, some ⟨[], 1, true⟩⟩ } = (ctx3, .ok ()))
    (h3c : ctx3.cards.staged = some ⟨pc, 1, true⟩)
    (h3e : ctx3.events.staged = some ⟨pe, 1, true⟩)
    (h3t : ctx3.tasks.staged = some ⟨pt, 1, true⟩)
    (hndc : (pc.map (fun e => BaseEntity.eid e)).Nodup)
    (hnde : (pe.map (fun e => BaseEntity.eid e)).Nodup)
    (hndt : (pt.map (fun e => BaseEntity.eid e)).Nodup)
    (hrefsE : ∀ m ∈ pe.filterMap (fun e => e.card_id),
      (pc.map (fun e => BaseEntity.eid e)).contains m = true)
    (hrefsT : ∀ m ∈ pt.filterMap (fun t => t.card_id),
      (pc.map (fun e => BaseEntity.eid e)).contains m = true) :
    ∃ final, Transaction.run ctx true f = (final, .ok ()) ∧
      final.cards.items = pc.map (fun e => (BaseEntity.eid e, e)) ∧
      final.events.items = pe.map (fun e => (BaseEntity.eid e, e)) ∧
      final.tasks.items = pt.map (fun e => (BaseEntity.eid e, e)) := by
  have hsei := stagedEffectiveIds_cleared ctx3.cards pc 1 h3c
  have hpre := pendingRefs_staged ctx3.events (fun e => e.card_id) pe 1 true h3e
  have hprt := pendingRefs_staged ctx3.tasks (fun t => t.card_id) pt 1 true h3t
  have hcrE := checkRefs_ok _ _ hrefsE
  have hcrT := checkRefs_ok _ _ hrefsT
  have hva : validateAssociations ctx3 = .ok () := by
    simp only [validateAssociations, hsei, hpre, hprt, hcrE, hcrT]
  obtain ⟨prepC, hpC, hiC⟩ := prepareCommit_cleared ctx3.cards pc 1 h3c hndc
  obtain ⟨prepE, hpE, hiE⟩ := prepareCommit_cleared ctx3.events pe 1 h3e hnde
  obtain ⟨prepT, hpT, hiT⟩ := prepareCommit_cleared ctx3.tasks pt 1 h3t hndt
  refine ⟨({ ctx3 with cards := ctx3.cards.applyPrepared prepC, events := ctx3.events.applyPrepared prepE, tasks := ctx3.tasks.applyPrepared prepT } : AppState), ?_, ?_, ?_, ?_⟩
  · simp only [Transaction.run, beginStage_clear ctx.cards hc,
      beginStage_clear ctx.events he, beginStage_clear ctx.tasks ht, hf, hva,
      hpC, hpE, hpT]
  · simp only [Repository.applyPrepared]
    exact hiC
  · simp only [Repository.applyPrepared]
    exact hiE
  · simp only [Repository.applyPrepared]
    exact hiT

theorem loadState_roundtrip (fresh st : AppState) (cy : Int) (wd : DayOfWeek)
    (hwf : StateSaveWF fresh.config st) (hfr : FreshOK fresh)
    (hcy1 : 1 ≤ cy) (hcy2 : cy ≤ 9999) :
    ∃ sf, buildSaveFile st = .ok sf ∧
      (loadState fresh sf cy wd).2 = .ok () ∧
      (loadState fresh sf cy wd).1.cards.items =
        (stagedCardsFrom 1 st.cards.valuesIdAsc).map (fun e => (BaseEntity.eid e, e)) ∧
      (loadState fresh sf cy wd).1.events.items =
        (stagedEventsFrom (serializeCardsForSave st.cards.valuesIdAsc).2 1
          st.events.valuesIdAsc).map (fun e => (BaseEntity.eid e, e)) ∧
      (loadState fresh sf cy wd).1.tasks.items =
        (stagedTasksFrom (serializeCardsForSave st.cards.valuesIdAsc).2 1
          st.tasks.valuesIdAsc).map (fun e => (BaseEntity.eid e, e)) := by
  obtain ⟨hsc, hst, hse⟩ := stateWF_sorted fresh.config st hwf
  obtain ⟨hcWF, htWF, heWF, hkeys, hnd, hlen⟩ := hwf
  obtain ⟨hres1, hres2⟩ := cards_resolution st hkeys hnd
  have hlencs : st.cards.valuesIdAsc.length = st.cards.items.length := by
    rw [(valuesIdAsc_perm st.cards).length_eq]
    unfold Repository.valuesUnordered
    rw [List.length_map]
  have hmbound : ∀ cid m,
      mapGet (serializeCardsForSave st.cards.valuesIdAsc).2 cid = some m →
      1 ≤ m ∧ m ≤ 2147483647 := by
    intro cid m hm
    obtain ⟨h1, h2, -⟩ := hres2 cid m hm
    rw [hlencs] at h2
    refine ⟨h1, ?_⟩
    have hx : (st.cards.items.length : Int) ≤ 2147483646 := by exact_mod_cast hlen
    omega
  have hts_some : ∀ t ∈ st.tasks.valuesIdAsc, ∀ cid, t.card_id = some cid →
      (mapGet (serializeCardsForSave st.cards.valuesIdAsc).2 cid).isSome = true := by
    intro t ht cid hcid
    obtain ⟨-, -, -, -, -, hc, -⟩ := hst t ht
    have hsome := hc cid hcid
    cases hg : mapGet st.cards.items cid with
    | none =>
      rw [hg] at hsome
      exact absurd hsome (by simp)
    | some c =>
      obtain ⟨m, hm⟩ := hres1 cid c hg
      rw [hm]
      rfl
  have hes_some : ∀ e ∈ st.events.valuesIdAsc, ∀ cid, e.card_id = some cid →
      (mapGet (serializeCardsForSave st.cards.valuesIdAsc).2 cid).isSome = true := by
    intro e he cid hcid
    obtain ⟨-, -, -, -, -, -, -, -, hc⟩ := hse e he
    have hsome := hc cid hcid
    cases hg : mapGet st.cards.items cid with
    | none =>
      rw [hg] at hsome
      exact absurd hsome (by simp)
    | some c =>
      obtain ⟨m, hm⟩ := hres1 cid c hg
      rw [hm]
      rfl
  have hsf := buildSaveFile_ok st hes_some hts_some
  have hpc : (st.cards.valuesIdAsc.map (fun c => argsToTokens (cardEmitArgs c))).mapM
      (argParserParse cy) = .ok (st.cards.valuesIdAsc.map cardEmitArgs) :=
    mapM_ok_map (argParserParse cy) (fun c => argsToTokens (cardEmitArgs c))
      cardEmitArgs st.cards.valuesIdAsc
      (fun c hc => cardRow_parse cy c (hsc c hc))
  have hpe2 : (st.events.valuesIdAsc.map (fun e => argsToTokens
      (eventRowArgs (serializeCardsForSave st.cards.valuesIdAsc).2 e))).mapM
      (argParserParse cy) = .ok (st.events.valuesIdAsc.map
        (eventRowArgs (serializeCardsForSave st.cards.valuesIdAsc).2)) :=
    mapM_ok_map (argParserParse cy)
      (fun e => argsToTokens (eventRowArgs (serializeCardsForSave st.cards.valuesIdAsc).2 e))
      (eventRowArgs (serializeCardsForSave st.cards.valuesIdAsc).2)
      st.events.valuesIdAsc
      (fun e he => eventRow_parse cy hcy1 hcy2 st.cards.items fresh.config e
        (hse e he) (serializeCardsForSave st.cards.valuesIdAsc).2 hmbound _
        (eventEmitArgs_eq (serializeCardsForSave st.cards.valuesIdAsc).2 e
          (hes_some e he)))
  have hpt2 : (st.tasks.valuesIdAsc.map (fun t => argsToTokens
      (taskRowArgs (serializeCardsForSave st.cards.valuesIdAsc).2 t))).mapM
      (argParserParse cy) = .ok (st.tasks.valuesIdAsc.map
        (taskRowArgs (serializeCardsForSave st.cards.valuesIdAsc).2)) :=
    mapM_ok_map (argParserParse cy)
      (fun t => argsToTokens (taskRowArgs (serializeCardsForSave st.cards.valuesIdAsc).2 t))
      (taskRowArgs (serializeCardsForSave st.cards.valuesIdAsc).2)
      st.tasks.valuesIdAsc
      (fun t ht => taskRow_parse cy hcy1 hcy2 st.cards.items fresh.config t
        (hst t ht) (serializeCardsForSave st.cards.valuesIdAsc).2 hmbound _
        (taskEmitArgs_eq (serializeCardsForSave st.cards.valuesIdAsc).2 t
          (hts_some t ht)))
  have hf : ∃ ctx3, execQueueOps
      (st.cards.valuesIdAsc.map (fun c => (EntityType.card, cardEmitArgs c)) ++
        (st.events.valuesIdAsc.map (fun e => (EntityType.event,
          eventRowArgs (serializeCardsForSave st.cards.valuesIdAsc).2 e)) ++
         st.tasks.valuesIdAsc.map (fun t => (EntityType.task,
          taskRowArgs (serializeCardsForSave st.cards.valuesIdAsc).2 t)))) wd
      { fresh with cards := ⟨fresh.cards.items, 1, some ⟨[], 1, true⟩⟩, events := ⟨fresh.events.items, 1, some ⟨[], 1, true⟩⟩, tasks := ⟨fresh.tasks.items, 1, some ⟨[], 1, true⟩⟩ } = (ctx3, .ok ()) ∧
      ctx3.cards.staged =
        some ⟨stagedCardsFrom 1 st.cards.valuesIdAsc, 1, true⟩ ∧
      ctx3.events.staged =
        some ⟨stagedEventsFrom (serializeCardsForSave st.cards.valuesIdAsc).2 1
          st.events.valuesIdAsc, 1, true⟩ ∧
      ctx3.tasks.staged =
        some ⟨stagedTasksFrom (serializeCardsForSave st.cards.valuesIdAsc).2 1
          st.tasks.valuesIdAsc, 1, true⟩ := by
    rw [execQueue_cardsPhase wd st.cards.valuesIdAsc _ _ _ 1 [] 1 true rfl]
    rw [execQueue_eventsPhase wd (serializeCardsForSave st.cards.valuesIdAsc).2
      st.events.valuesIdAsc _ _ _ 1 [] 1 true rfl
      (by
        intro e he
        obtain ⟨-, hd2, hd3, -, -, -, hb1, hb2, -⟩ := hse e he
        refine ⟨hd2, ?_, hb1, hb2, ?_⟩
        · cases hbr : e.recurring
          · exact Or.inr (hd3 hbr)
          · exact Or.inl rfl
        · intro cid hcid
          have hsome := hes_some e he cid hcid
          cases hg : mapGet (serializeCardsForSave st.cards.valuesIdAsc).2 cid with
          | none =>
            rw [hg] at hsome
            exact absurd hsome (by simp)
          | some m =>
            obtain ⟨hm1, hm2, -⟩ := hres2 cid m hg
            refine ⟨m, rfl, ?_⟩
            refine existsStaged_of_pending _ _ 1 rfl m ?_
            obtain ⟨en, hen, hid⟩ := stagedCardsFrom_mem_ids
              st.cards.valuesIdAsc 1 m hm1 (by omega)
            exact ⟨en, List.mem_append_right _ hen, hid⟩)]
    rw [show (st.tasks.valuesIdAsc.map (fun t => (EntityType.task,
        taskRowArgs (serializeCardsForSave st.cards.valuesIdAsc).2 t))) =
      (st.tasks.valuesIdAsc.map (fun t => (EntityType.task,
        taskRowArgs (serializeCardsForSave st.cards.valuesIdAsc).2 t))) ++ [] from
      (List.append_nil _).symm]
    rw [execQueue_tasksPhase wd (serializeCardsForSave st.cards.valuesIdAsc).2
      st.tasks.valuesIdAsc [] _ _ 1 [] 1 true (by exact rfl)
      (by
        intro t ht
        obtain ⟨-, hden, hh1, hh2, -, -, hstart⟩ := hst t ht
        obtain ⟨hsat, hs1, -⟩ := i32SatOfRat_int t.hours hden hh1 hh2
        refine ⟨by rw [hsat]; omega, hstart, ?_⟩
        intro cid hcid
        have hsome := hts_some t ht cid hcid
        cases hg : mapGet (serializeCardsForSave st.cards.valuesIdAsc).2 cid with
        | none =>
          rw [hg] at hsome
          exact absurd hsome (by simp)
        | some m =>
          obtain ⟨hm1, hm2, -⟩ := hres2 cid m hg
          refine ⟨m, rfl, ?_⟩
          refine existsStaged_of_pending _ _ 1 rfl m ?_
          obtain ⟨en, hen, hid⟩ := stagedCardsFrom_mem_ids
            st.cards.valuesIdAsc 1 m hm1 (by omega)
          exact ⟨en, List.mem_append_right _ hen, hid⟩)]
    exact ⟨_, rfl, rfl, rfl, rfl⟩
  obtain ⟨ctx3, hfeq, h3c, h3e, h3t⟩ := hf
  obtain ⟨final, hrun, hfc, hfe, hft⟩ := transaction_run_ok fresh
    (execQueueOps
      (st.cards.valuesIdAsc.map (fun c => (EntityType.card, cardEmitArgs c)) ++
        (st.events.valuesIdAsc.map (fun e => (EntityType.event,
          eventRowArgs (serializeCardsForSave st.cards.valuesIdAsc).2 e)) ++
         st.tasks.valuesIdAsc.map (fun t => (EntityType.task,
          taskRowArgs (serializeCardsForSave st.cards.valuesIdAsc).2 t)))) wd)
    hfr.1 hfr.2.1 hfr.2.2 ctx3
    (stagedCardsFrom 1 st.cards.valuesIdAsc)
    (stagedEventsFrom (serializeCardsForSave st.cards.valuesIdAsc).2 1
      st.events.valuesIdAsc)
    (stagedTasksFrom (serializeCardsForSave st.cards.valuesIdAsc).2 1
      st.tasks.valuesIdAsc)
    hfeq h3c h3e h3t
    (stagedCardsFrom_ids_nodup _ _)
    (stagedEventsFrom_ids_nodup _ _ _)
    (stagedTasksFrom_ids_nodup _ _ _)
    (by
      intro m hmem
      obtain ⟨ev, hev, hcd⟩ := List.mem_filterMap.mp hmem
      obtain ⟨e0, he0, heq⟩ := mem_stagedEventsFrom _ _ 1 ev hev
      rw [heq] at hcd
      cases hc0 : e0.card_id with
      | none =>
        rw [hc0] at hcd
        exact Option.noConfusion hcd
      | some cid =>
        rw [hc0] at hcd
        have hg : mapGet (serializeCardsForSave st.cards.valuesIdAsc).2 cid = some m :=
          hcd
        obtain ⟨hm1, hm2, -⟩ := hres2 cid m hg
        obtain ⟨en, hen, hid⟩ := stagedCardsFrom_mem_ids
          st.cards.valuesIdAsc 1 m hm1 (by omega)
        exact List.elem_iff.mpr (List.mem_map.mpr ⟨en, hen, hid⟩))
    (by
      intro m hmem
      obtain ⟨tv, htv, hcd⟩ := List.mem_filterMap.mp hmem
      obtain ⟨t0, ht0, heq⟩ := mem_stagedTasksFrom _ _ 1 tv htv
      rw [heq] at hcd
      cases hc0 : t0.card_id with
      | none =>
        rw [hc0] at hcd
        exact Option.noConfusion hcd
      | some cid =>
        rw [hc0] at hcd
        have hg : mapGet (serializeCardsForSave st.cards.valuesIdAsc).2 cid = some m :=
          hcd
        obtain ⟨hm1, hm2, -⟩ := hres2 cid m hg
        obtain ⟨en, hen, hid⟩ := stagedCardsFrom_mem_ids
          st.cards.valuesIdAsc 1 m hm1 (by omega)
        exact List.elem_iff.mpr (List.mem_map.mpr ⟨en, hen, hid⟩))
  have hload : loadState fresh
      ⟨st.cards.valuesIdAsc.map (fun c => argsToTokens (cardEmitArgs c)),
       st.events.valuesIdAsc.map (fun e => argsToTokens
         (eventRowArgs (serializeCardsForSave st.cards.valuesIdAsc).2 e)),
       st.tasks.valuesIdAsc.map (fun t => argsToTokens
         (taskRowArgs (serializeCardsForSave st.cards.valuesIdAsc).2 t))⟩ cy wd
      = (final, .ok ()) := by
    simp only [loadState, hpc, hpe2, hpt2]
    rw [show (st.cards.valuesIdAsc.map cardEmitArgs).map
        (fun a => (EntityType.card, a)) =
      st.cards.valuesIdAsc.map (fun c => (EntityType.card, cardEmitArgs c)) from by
        rw [List.map_map]
        rfl]
    rw [show (st.events.valuesIdAsc.map
        (eventRowArgs (serializeCardsForSave st.cards.valuesIdAsc).2)).map
        (fun a => (EntityType.event, a)) =
      st.events.valuesIdAsc.map (fun e => (EntityType.event,
        eventRowArgs (serializeCardsForSave st.cards.valuesIdAsc).2 e)) from by
        rw [List.map_map]
        rfl]
    rw [show (st.tasks.valuesIdAsc.map
        (taskRowArgs (serializeCardsForSave st.cards.valuesIdAsc).2)).map
        (fun a => (EntityType.task, a)) =
      st.tasks.valuesIdAsc.map (fun t => (EntityType.task,
        taskRowArgs (serializeCardsForSave st.cards.valuesIdAsc).2 t)) from by
        rw [List.map_map]
        rfl]
    rw [List.append_assoc]
    exact hrun
  refine ⟨_, hsf, ?_, ?_, ?_, ?_⟩
  · rw [hload]
  · rw [hload]
    exact hfc
  · rw [hload]
    exact hfe
  · rw [hload]
    exact hft

/-! ### C6: the amended round-trip claim -/

theorem stagedCardsFrom_length : ∀ (cs : List Card) (nid : Int),
    (stagedCardsFrom nid cs).length = cs.length
  | [], _ => rfl
  | c :: cs, nid => by
    simp only [stagedCardsFrom, List.length_cons]
    rw [stagedCardsFrom_length cs (nid + 1)]

theorem stagedEventsFrom_length (lookup : List (Int × Int)) :
    ∀ (es : List Event) (nid : Int),
    (stagedEventsFrom lookup nid es).length = es.length
  | [], _ => rfl
  | e :: es, nid => by
    simp only [stagedEventsFrom, List.length_cons]
    rw [stagedEventsFrom_length lookup es (nid + 1)]

theorem stagedTasksFrom_length (lookup : List (Int × Int)) :
    ∀ (ts : List Task) (nid : Int),
    (stagedTasksFrom lookup nid ts).length = ts.length
  | [], _ => rfl
  | t :: ts, nid => by
    simp only [stagedTasksFrom, List.length_cons]
    rw [stagedTasksFrom_length lookup ts (nid + 1)]

theorem forall2_stagedEvents (lookup : List (Int × Int))
    (R : (Int × Event) → Event → Prop) :
    ∀ (es : List Event) (nid : Int),
    (∀ e ∈ es, ∀ k : Int,
      R (k, { id := k, name := e.name, days := e.days, time_range := e.time_range,
              recurring := e.recurring,
              card_id := e.card_id.bind (fun cid => mapGet lookup cid) }) e) →
    List.Forall₂ R ((stagedEventsFrom lookup nid es).map
      (fun e => (BaseEntity.eid e, e))) es
  | [], _, _ => List.Forall₂.nil
  | e :: es, nid, h => by
    simp only [stagedEventsFrom, List.map_cons]
    exact List.Forall₂.cons (h e (List.mem_cons_self _ _) nid)
      (forall2_stagedEvents lookup R es (nid + 1)
        (fun x hx k => h x (List.mem_cons_of_mem _ hx) k))

theorem forall2_stagedTasks (lookup : List (Int × Int))
    (R : (Int × Task) → Task → Prop) :
    ∀ (ts : List Task) (nid : Int),
    (∀ t ∈ ts, ∀ k : Int,
      R (k, { Task.new t.name ((i32SatOfRat t.hours : Int) : ℚ)
                (t.card_id.bind (fun cid => mapGet lookup cid)) t.date with
              id := k }) t) →
    List.Forall₂ R ((stagedTasksFrom lookup nid ts).map
      (fun e => (BaseEntity.eid e, e))) ts
  | [], _, _ => List.Forall₂.nil
  | t :: ts, nid, h => by
    simp only [stagedTasksFrom, List.map_cons]
    exact List.Forall₂.cons (h t (List.mem_cons_self _ _) nid)
      (forall2_stagedTasks lookup R ts (nid + 1)
        (fun x hx k => h x (List.mem_cons_of_mem _ hx) k))

/-- C6: `save` followed by `load` round-trips, amended: the saved entities
must be valid with respect to the LOADING context's configuration (the
daily-hours window must contain every event's time range, and the schedule
start date, if set, must not be after any task's due date), because
`load_state` replays add commands whose validators consult the loading
context, not the saved one.  Under that validity (plus distinct card ids,
card count within `i32`, a loading context with no transaction in progress
and a current year in 1..9999), `build_save_file` succeeds, `load_state`
succeeds, the card/event/task counts are preserved, each loaded event keeps
its name, days, time range and recurring flag, each loaded task keeps its
name and date, and every `card_id` reference is remapped so that it
resolves to a loaded card with the same name and color as the card it
referenced in the original state. -/
theorem save_load_round_trip (fresh st : AppState) (cy : Int) (wd : DayOfWeek)
    (hwf : StateSaveWF fresh.config st) (hfr : FreshOK fresh)
    (hcy1 : 1 ≤ cy) (hcy2 : cy ≤ 9999) :
    ∃ sf, buildSaveFile st = .ok sf ∧
      (loadState fresh sf cy wd).2 = .ok () ∧
      (loadState fresh sf cy wd).1.cards.len = st.cards.len ∧
      (loadState fresh sf cy wd).1.events.len = st.events.len ∧
      (loadState fresh sf cy wd).1.tasks.len = st.tasks.len ∧
      List.Forall₂ (fun (p : Int × Event) (e : Event) =>
          p.2.name = e.name ∧ p.2.days = e.days ∧ p.2.time_range = e.time_range ∧
          p.2.recurring = e.recurring ∧
          (e.card_id = none → p.2.card_id = none) ∧
          (∀ cid, e.card_id = some cid → ∃ m c c', p.2.card_id = some m ∧
            mapGet st.cards.items cid = some c ∧
            mapGet (loadState fresh sf cy wd).1.cards.items m = some c' ∧
            c'.name = c.name ∧ c'.color = c.color))
        (loadState fresh sf cy wd).1.events.items st.events.valuesIdAsc ∧
      List.Forall₂ (fun (p : Int × Task) (t : Task) =>
          p.2.name = t.name ∧ p.2.date = t.date ∧
          (t.card_id = none → p.2.card_id = none) ∧
          (∀ cid, t.card_id = some cid → ∃ m c c', p.2.card_id = some m ∧
            mapGet st.cards.items cid = some c ∧
            mapGet (loadState fresh sf cy wd).1.cards.items m = some c' ∧
            c'.name = c.name ∧ c'.color = c.color))
        (loadState fresh sf cy wd).1.tasks.items st.tasks.valuesIdAsc := by
  obtain ⟨sf, hsf, hok, hcitems, heitems, htitems⟩ :=
    loadState_roundtrip fresh st cy wd hwf hfr hcy1 hcy2
  obtain ⟨-, hstasks, hsevents⟩ := stateWF_sorted fresh.config st hwf
  obtain ⟨-, -, -, hkeys, hnd, -⟩ := hwf
  obtain ⟨hres1, hres2⟩ := cards_resolution st hkeys hnd
  have hlenc : st.cards.valuesIdAsc.length = st.cards.items.length := by
    rw [(valuesIdAsc_perm st.cards).length_eq]
    unfold Repository.valuesUnordered
    rw [List.length_map]
  have hlene : st.events.valuesIdAsc.length = st.events.items.length := by
    rw [(valuesIdAsc_perm st.events).length_eq]
    unfold Repository.valuesUnordered
    rw [List.length_map]
  have hlent : st.tasks.valuesIdAsc.length = st.tasks.items.length := by
    rw [(valuesIdAsc_perm st.tasks).length_eq]
    unfold Repository.valuesUnordered
    rw [List.length_map]
  refine ⟨sf, hsf, hok, ?_, ?_, ?_, ?_, ?_⟩
  · show (loadState fresh sf cy wd).1.cards.items.length = st.cards.items.length
    rw [hcitems, List.length_map, stagedCardsFrom_length]
    exact hlenc
  · show (loadState fresh sf cy wd).1.events.items.length = st.events.items.length
    rw [heitems, List.length_map, stagedEventsFrom_length]
    exact hlene
  · show (loadState fresh sf cy wd).1.tasks.items.length = st.tasks.items.length
    rw [htitems, List.length_map, stagedTasksFrom_length]
    exact hlent
  · rw [heitems]
    refine forall2_stagedEvents _ _ st.events.valuesIdAsc 1 ?_
    intro e he k
    obtain ⟨-, -, -, -, -, -, -, -, hcfact⟩ := hsevents e he
    refine ⟨rfl, rfl, rfl, rfl, ?_, ?_⟩
    · intro hn
      show e.card_id.bind
        (fun cid => mapGet (serializeCardsForSave st.cards.valuesIdAsc).2 cid) = none
      rw [hn]
      rfl
    · intro cid hcid
      have hsome := hcfact cid hcid
      cases hg : mapGet st.cards.items cid with
      | none =>
        rw [hg] at hsome
        exact absurd hsome (by simp)
      | some c =>
        obtain ⟨m, hm⟩ := hres1 cid c hg
        obtain ⟨-, -, c0, c', hc0, hc', hname, hcol⟩ := hres2 cid m hm
        have hcc : c0 = c := Option.some.inj (hc0.symm.trans hg)
        refine ⟨m, c, c', ?_, rfl, ?_, ?_, ?_⟩
        · show e.card_id.bind
            (fun cid =>
              mapGet (serializeCardsForSave st.cards.valuesIdAsc).2 cid) = some m
          rw [hcid]
          exact hm
        · rw [hcitems]
          exact hc'
        · rw [← hcc]
          exact hname
        · rw [← hcc]
          exact hcol
  · rw [htitems]
    refine forall2_stagedTasks _ _ st.tasks.valuesIdAsc 1 ?_
    intro t ht k
    obtain ⟨-, -, -, -, -, hcfact, -⟩ := hstasks t ht
    refine ⟨rfl, rfl, ?_, ?_⟩
    · intro hn
      show t.card_id.bind
        (fun cid => mapGet (serializeCardsForSave st.cards.valuesIdAsc).2 cid) = none
      rw [hn]
      rfl
    · intro cid hcid
      have hsome := hcfact cid hcid
      cases hg : mapGet st.cards.items cid with
      | none =>
        rw [hg] at hsome
        exact absurd hsome (by simp)
      | some c =>
        obtain ⟨m, hm⟩ := hres1 cid c hg
        obtain ⟨-, -, c0, c', hc0, hc', hname, hcol⟩ := hres2 cid m hm
        have hcc : c0 = c := Option.some.inj (hc0.symm.trans hg)
        refine ⟨m, c, c', ?_, rfl, ?_, ?_, ?_⟩
        · show t.card_id.bind
            (fun cid =>
              mapGet (serializeCardsForSave st.cards.valuesIdAsc).2 cid) = some m
          rw [hcid]
          exact hm
        · rw [hcitems]
          exact hc'
        · rw [← hcc]
          exact hname
        · rw [← hcc]
          exact hcol

/-- The amended round-trip theorem holds at the concrete C6 scenario when
the loading context keeps the configuration the event was created under:
the save of `c6OrigState` loads back into `c6BaseState` successfully,
preserving the event count. -/
theorem save_load_round_trip_witness :
    StateSaveWF c6BaseState.config c6OrigState ∧ FreshOK c6BaseState ∧
    (1 : Int) ≤ 2026 ∧ (2026 : Int) ≤ 9999 ∧
    ∃ sf, buildSaveFile c6OrigState = .ok sf ∧
      (loadState c6BaseState sf 2026 DayOfWeek.mon).2 = .ok () ∧
      (loadState c6BaseState sf 2026 DayOfWeek.mon).1.events.len =
        c6OrigState.events.len := by
  have hwf : StateSaveWF c6BaseState.config c6OrigState := by
    have hcards : c6OrigState.cards.items = ([] : List (Int × Card)) := rfl
    have htasks : c6OrigState.tasks.items = ([] : List (Int × Task)) := rfl
    have hevents : c6OrigState.events.items =
        [(1, ⟨1, "E", [DayOfWeek.mon], ⟨72000, 75600⟩, true, none⟩)] := rfl
    refine ⟨?_, ?_, ?_, ?_, ?_, ?_⟩
    · intro p hp
      rw [hcards] at hp
      exact absurd hp (List.not_mem_nil p)
    · intro p hp
      rw [htasks] at hp
      exact absurd hp (List.not_mem_nil p)
    · intro p hp
      rw [hevents] at hp
      rcases List.mem_cons.mp hp with h | h
      · subst h
        exact ⟨by decide, by decide, by decide, ⟨by decide, by decide, by decide⟩,
          ⟨by decide, by decide, by decide⟩, by decide,
          by decide, by decide, fun cid hc => Option.noConfusion hc⟩
      · exact absurd h (List.not_mem_nil p)
    · intro p hp
      rw [hcards] at hp
      exact absurd hp (List.not_mem_nil p)
    · rw [hcards]
      exact List.nodup_nil
    · rw [hcards]
      exact Nat.zero_le _
  have hfr : FreshOK c6BaseState := ⟨rfl, rfl, rfl⟩
  obtain ⟨sf, h1, h2, -, h4, -, -, -⟩ :=
    save_load_round_trip c6BaseState c6OrigState 2026 DayOfWeek.mon hwf hfr
      (by decide) (by decide)
  exact ⟨hwf, hfr, by decide, by decide, sf, h1, h2, h4⟩

unseal Rat.add Rat.sub Rat.mul Rat.inv in
/-- C7: the claimed float tolerance fails under the source's `f32`
arithmetic.  On `c7FloatState` the `schedule` command completes with
`Ok(())` and `remaining_hours` stays within `[0, hours]`, but each
planning day's `remaining_hours -= apply` rounds at an ulp of
`2 ^ (-10)` near magnitude 10000, and after the seven planning days the
hours ledger is off by about `3.19e-3`, so the invariant
`|hours - (sum of subtask hours + remaining_hours)| < 1e-4` is violated
in the state the command leaves behind. -/
theorem task_ledger_exceeds_float_tolerance :
    (computeScheduleF32 c7FloatState ⟨2099, 1, 1⟩).2 = .ok () ∧
    mapGet (computeScheduleF32 c7FloatState ⟨2099, 1, 1⟩).1.tasks.items 1 =
      some c7FloatFinalTask ∧
    0 ≤ c7FloatFinalTask.remaining_hours ∧
    c7FloatFinalTask.remaining_hours ≤ c7FloatFinalTask.hours ∧
    ¬ |c7FloatFinalTask.hours - (subtasksHoursF32 c7FloatFinalTask.subtasks +
        c7FloatFinalTask.remaining_hours)| < 1 / 10000 := by
  refine ⟨rfl, by decide, by decide, by decide, by decide⟩

end Planit
